import Mathlib

/-!
# RoundSync (ChronoSync with rounds): State, DataContent and RecoData

A shallow embedding of `src/state.cpp`, `src/data-content.cpp`, `src/reco-data.cpp`
and `src/tlv.hpp`, with the properties of the specification that concern them.

Modelling conventions

* Octets, sequence numbers and round numbers are natural numbers (`uint64_t` values are
  only compared and copied here, never incremented).
* `shared_ptr<T>` that may be `NULL` is `Option T`.
* A C++ method that mutates `*this` takes the object and returns the new object; a method
  that can throw returns the object as it is left behind together with the thrown error.
-/

namespace chronosync

/-! ## Names, leaves and the leaf container -/

/-- Octet string (`ndn::Buffer`). -/
abbrev Buffer := List Nat

/-- One name component: its value octets. -/
abbrev Component := List Nat

/-- Hierarchical name (`ndn::Name`): the list of its components.  `Name("")` is `[]`.
The canonical order of names is the order `≤` of this type. -/
abbrev Name := List Component

abbrev SeqNo := Nat

abbrev RoundNo := Nat

/-- Modelled from the spec: the `Leaf` class (leaf.hpp is not among the sources), a
session name with its latest sequence number. -/
structure Leaf where
  sessionName : Name
  seq : SeqNo
deriving DecidableEq

/-- Parameters standing for code outside `src/`: `ndn::util::Sha256` over an octet
string, and `Leaf::getDigest` (leaf.cpp is not among the sources).  By the specification
a leaf's digest is consistent with its current fields whenever it is observed, so it is a
function of the (session name, sequence number) pair. -/
structure Digests where
  sha256 : Buffer → Buffer
  leafDigest : Name → SeqNo → Buffer

/-! Modelled from the spec: the leaf container (leaf-container.hpp is not among the
sources), "set of Leaves keyed by `session_name` (unique), iterable in a canonical order
(ascending by session-name)".  The list is the container in the iteration order of its
default index; nothing proved below depends on that order, nor on more of the name order
than that it is a linear order. -/

namespace LeafContainer

/-- Modelled from the spec: lookup `m_leaves.find(info)` by session name. -/
def find (leaves : List Leaf) (info : Name) : Option Leaf :=
  leaves.find? (fun l => decide (l.sessionName = info))

/-- Modelled from the spec: insertion `m_leaves.insert(leaf)`; names are unique, so a
second leaf of a name is refused. -/
def insert (leaves : List Leaf) (leaf : Leaf) : List Leaf :=
  match find leaves leaf.sessionName with
  | none => leaves ++ [leaf]
  | some _ => leaves

/-- Modelled from the spec: modification `m_leaves.modify(it, setSeq(seq))` at the
iterator that `find(info)` returned. -/
def modify : List Leaf → Name → SeqNo → List Leaf
  | [], _, _ => []
  | l :: rest, info, seq =>
    if l.sessionName = info then { l with seq := seq } :: rest
    else l :: modify rest info seq

/-- Modelled from the spec: view `m_leaves.get<ordered>()`, the leaves in ascending order
of session name. -/
def ordered (leaves : List Leaf) : List Leaf :=
  leaves.insertionSort (fun a b => a.sessionName ≤ b.sessionName)

end LeafContainer

/-! ## State (state.cpp) -/

/-- The sync tree `State`: its leaf container `m_leaves`, in the iteration order of the
default index.  (The cached `m_wire` is only read by the argument-free
`State::wireEncode()`, which the other sources never call, and is left out.) -/
structure State where
  leaves : List Leaf
deriving DecidableEq

namespace State

/-- Default-constructed State. -/
def empty : State := { leaves := [] }

/-- The session-to-sequence mapping held by a State. -/
def lookup (s : State) (info : Name) : Option SeqNo :=
  (LeafContainer.find s.leaves info).map Leaf.seq

/-- Names are unique in the container (guaranteed by its unique index). -/
def WF (s : State) : Prop := (s.leaves.map Leaf.sessionName).Nodup

instance (s : State) : Decidable s.WF := by unfold WF; infer_instance

/-- Method `State::getSeqNo`. -/
def getSeqNo (s : State) (info : Name) : SeqNo :=
  match LeafContainer.find s.leaves info with
  | none => 0
  | some leaf => leaf.seq

/-- Method `State::update`: the new State and the tuple (isInserted, isUpdated, oldSeqNo). -/
def update (s : State) (info : Name) (seq : SeqNo) : State × (Bool × Bool × SeqNo) :=
  match LeafContainer.find s.leaves info with
  | none => ({ leaves := LeafContainer.insert s.leaves { sessionName := info, seq := seq } },
             (true, false, 0))
  | some leaf =>
    if leaf.seq = seq ∨ seq < leaf.seq then (s, (false, false, 0))
    else ({ leaves := LeafContainer.modify s.leaves info seq }, (false, true, leaf.seq))

/-- Method `State::getDigest`: SHA-256 over the leaf digests, fed in ascending name order. -/
def getDigest (H : Digests) (s : State) : Buffer :=
  H.sha256 ((LeafContainer.ordered s.leaves).foldl
    (fun fed leaf => fed ++ H.leafDigest leaf.sessionName leaf.seq) [])

/-- Method `State::reset`. -/
def reset (_s : State) : State := { leaves := [] }

/-- Operator `State::operator+=`: `update` with every leaf of `other`. -/
def merge (s other : State) : State :=
  other.leaves.foldl (fun acc leaf => (acc.update leaf.sessionName leaf.seq).1) s

end State

/-- One of the mutating operations of a State. -/
inductive StateOp where
  | update (info : Name) (seq : SeqNo)
  | merge (other : State)
  | reset
deriving DecidableEq

namespace StateOp

def isReset : StateOp → Bool
  | reset => true
  | _ => false

def apply (s : State) : StateOp → State
  | update info seq => (s.update info seq).1
  | merge other => s.merge other
  | reset => s.reset

/-- An execution: the operations applied one after the other. -/
def run (s : State) (ops : List StateOp) : State := ops.foldl apply s

end StateOp

/-! ## TLV blocks (the framing primitives of ndn-cxx, outside `src/`)

The specification fixes which elements appear, in which order and under which type
number; the octet-level framing belongs to the transport library.  A `Block` is
therefore an element tree: a type number together with a value that is a sequence of
sub-elements, a non-negative integer, or opaque octets. -/

namespace tlv

def DataOnly : Nat := 128

def CumulativeOnly : Nat := 129

def DataAndCumulative : Nat := 130

def StateLeaf : Nat := 131

def SeqNo : Nat := 132

def RoundNo : Nat := 133

def State : Nat := 134

def CumulativeInfo : Nat := 135

def RecoveryData : Nat := 136

end tlv

namespace ndn

/-- Type number `ndn::tlv::Name`. -/
def tlv.Name : Nat := 7

/-- Type number `ndn::tlv::NameComponent`. -/
def tlv.NameComponent : Nat := 8

/-- Element tree of `ndn::Block`.  `empty` is the default-constructed block, which has
no wire. -/
inductive Block where
  | empty : Block
  | elems (type : Nat) (elements : List Block) : Block
  | num (type : Nat) (value : Nat) : Block
  | raw (type : Nat) (value : Buffer) : Block

namespace Block

def hasWire : Block → Bool
  | empty => false
  | _ => true

/-- Type number of a block; a block without wire reports the largest `uint32_t`. -/
def type : Block → Nat
  | empty => 4294967295
  | elems t _ => t
  | num t _ => t
  | raw t _ => t

/-- Call `parse()` followed by a walk over `elements_begin() .. elements_end()`:
the sub-elements, or `none` when the value is not a sequence of elements
(`parse` throws). -/
def parse : Block → Option (List Block)
  | elems _ es => some es
  | _ => none

end Block

/-- Function `readNonNegativeInteger`: `none` when it throws. -/
def readNonNegativeInteger : Block → Option Nat
  | Block.num _ v => some v
  | _ => none

/-- Buffer being filled by prepending (`ndn::EncodingImpl`): the elements written so
far, the most recently prepended one first.  A length returned by an encoder counts the
elements it has put at the front of the buffer. -/
abbrev EncodingBuffer := List Block

/-- Function `prependNonNegativeIntegerBlock(block, type, value)`; the length it returns is 1. -/
def prependNonNegativeIntegerBlock (block : EncodingBuffer) (type value : Nat) :
    EncodingBuffer :=
  Block.num type value :: block

/-- The pair `block.prependVarNumber(length); block.prependVarNumber(type)`: the
`length` foremost elements become the value of one new element of type `type`. -/
def prependTypeLength (block : EncodingBuffer) (type length : Nat) : EncodingBuffer :=
  Block.elems type (block.take length) :: block.drop length

/-- Call `buffer.block()`: the block that was encoded into the buffer. -/
def bufferBlock (buffer : EncodingBuffer) : Block :=
  match buffer with
  | b :: _ => b
  | [] => Block.empty

/-- Encoding `ndn::name::Component(buffer).wireEncode(block)`; the length it returns is 1. -/
def componentWireEncode (value : Buffer) (block : EncodingBuffer) : EncodingBuffer :=
  Block.raw tlv.NameComponent value :: block

/-- Constructor `name::Component(const Block&)`: `none` when it throws. -/
def componentFromBlock : Block → Option Component
  | Block.raw t v => if t = tlv.NameComponent then some v else none
  | _ => none

/-- Encoding `Name::wireEncode(block)`; the length it returns is 1. -/
def nameWireEncode (name : Name) (block : EncodingBuffer) : EncodingBuffer :=
  Block.elems tlv.Name (name.map (Block.raw tlv.NameComponent)) :: block

/-- Decoding `Name::wireDecode` / `Name(const Block&)`: `none` when it throws. -/
def nameWireDecode : Block → Option Name
  | Block.elems t es => if t = tlv.Name then es.mapM componentFromBlock else none
  | _ => none

end ndn

open ndn (Block EncodingBuffer)

/-- What a decoder throws.  `tlvError` stands for an exception raised inside ndn-cxx
(`parse`, `readNonNegativeInteger`, name decoding); `pastTheEnd` marks the dereference
of `elements_end()`, which the C++ code does not guard. -/
inductive Error where
  | noWire
  | unexpectedType
  | noSeqNo
  | tlvError
  | pastTheEnd
deriving DecidableEq

/-! ## State on the wire (state.cpp) -/

namespace State

/-- Template `State::wireEncode(EncodingImpl&)`: every leaf, from the last of the ordered
view to the first, is prepended as `StateLeaf { name, SeqNo }`.  Returns the buffer and
`totalLength`. -/
def wireEncode (s : State) (block : EncodingBuffer) : EncodingBuffer × Nat :=
  (LeafContainer.ordered s.leaves).reverse.foldl
    (fun (acc : EncodingBuffer × Nat) leaf =>
      let b1 := ndn.prependNonNegativeIntegerBlock acc.1 tlv.SeqNo leaf.seq
      let b2 := ndn.nameWireEncode leaf.sessionName b1
      let entryLength := 2
      let b3 := ndn.prependTypeLength b2 tlv.StateLeaf entryLength
      (b3, acc.2 + 1))
    (block, 0)

/-- The loop of `State::wireDecode` over the elements of the State block. -/
def decodeLeaves : State → List Block → State × Option Error
  | s, [] => (s, none)
  | s, it :: rest =>
    if it.type = tlv.StateLeaf then
      match it.parse with
      | none => (s, some Error.tlvError)
      | some [] => (s, some Error.pastTheEnd)
      | some (val :: more) =>
        match ndn.nameWireDecode val with
        | none => (s, some Error.tlvError)
        | some info =>
          match more with
          | [] => (s, some Error.noSeqNo)
          | val2 :: _ =>
            match ndn.readNonNegativeInteger val2 with
            | none => (s, some Error.tlvError)
            | some seq => decodeLeaves (s.update info seq).1 rest
    else decodeLeaves s rest

/-- Method `State::wireDecode`: the State as it is left, and the error thrown if any. -/
def wireDecode (s : State) (wire : Block) : State × Option Error :=
  if !wire.hasWire then (s, some Error.noWire)
  else if wire.type ≠ tlv.State then (s, some Error.unexpectedType)
  else
    match wire.parse with
    | none => (s, some Error.tlvError)
    | some elements => decodeLeaves s elements

end State

/-! ## DiffState (diff-state.hpp) -/

/-- Cumulative information `std::pair<RoundNo, ConstBufferPtr>`. -/
abbrev CumulativeInfo := RoundNo × Option Buffer

/-- A round's diff: a State with the digests and the round it belongs to.  (`m_next` links
log entries and is used by `diff()` only; it is not part of this model.  `m_round` is
not initialised by the constructor; the model starts it at 0.) -/
structure DiffState extends State where
  rootDigest : Option Buffer := none
  cumulativeDigest : Option Buffer := none
  roundDigest : Option Buffer := none
  round : RoundNo := 0
  excludeFilter : List Component := []
  cumulativeInfo : Option CumulativeInfo := none
  reexpressingSyncInterestId : Option Nat := none

namespace DiffState

/-- Result of `make_shared<DiffState>()`. -/
def fresh : DiffState := { leaves := [] }

/-- Inherited `State::wireDecode`. -/
def wireDecode (d : DiffState) (wire : Block) : DiffState × Option Error :=
  let r := d.toState.wireDecode wire
  ({ d with toState := r.1 }, r.2)

end DiffState

/-! ## DataContent (data-content.cpp) -/

/-- Payload of a Data packet.  `dataType` is `m_dataType`, which no constructor
initialises: whoever builds a value supplies what the member happens to hold. -/
structure DataContent where
  wire : Block
  userPrefix : Name
  roundNo : RoundNo
  cumulativeDigest : Option Buffer
  statePtr : Option DiffState
  dataType : Nat

namespace DataContent

/-- Constructor `DataContent(userPrefix, roundNo, cumulativeDigest, statePtr)`, whose
defaults are `Name("")`, `0`, `NULL`, `NULL`. -/
def new (userPrefix : Name) (roundNo : RoundNo) (cumulativeDigest : Option Buffer)
    (statePtr : Option DiffState) (indeterminate : Nat) : DataContent :=
  { wire := Block.empty, userPrefix := userPrefix, roundNo := roundNo,
    cumulativeDigest := cumulativeDigest, statePtr := statePtr, dataType := indeterminate }

/-- Default construction `DataContent dataContent;`. -/
def default (indeterminate : Nat) : DataContent := new [] 0 none none indeterminate

/-- The type number that `wireEncode` puts in front. -/
def kind (x : DataContent) : Nat :=
  if !(x.statePtr.isSome && x.cumulativeDigest.isSome) then
    if x.statePtr.isSome then tlv.DataOnly
    else if x.cumulativeDigest.isSome then tlv.CumulativeOnly
    else tlv.DataAndCumulative
  else tlv.DataAndCumulative

/-- Template `DataContent::wireEncode(EncodingImpl&)`: the buffer and `totalLength`. -/
def wireEncodeTo (x : DataContent) (block : EncodingBuffer) : EncodingBuffer × Nat :=
  let afterState : EncodingBuffer × Nat :=
    match x.statePtr with
    | some st =>
      let r := st.toState.wireEncode block
      (ndn.prependTypeLength r.1 tlv.State (0 + r.2), 1)
    | none => (block, 0)
  let afterCumulative : EncodingBuffer × Nat :=
    match x.cumulativeDigest with
    | some cd =>
      let b1 := ndn.componentWireEncode cd afterState.1
      let b2 := ndn.prependNonNegativeIntegerBlock b1 tlv.RoundNo x.roundNo
      let b3 := ndn.nameWireEncode x.userPrefix b2
      let length := 3
      (ndn.prependTypeLength b3 tlv.CumulativeInfo length, afterState.2 + 1)
    | none => afterState
  (ndn.prependTypeLength afterCumulative.1 x.kind afterCumulative.2, 1)

/-- Method `DataContent::wireEncode()`: the cached wire if there is one, else the
encoding; the object with its cache filled, and the block returned. -/
def wireEncode (x : DataContent) : DataContent × Block :=
  if x.wire.hasWire then (x, x.wire)
  else
    let w := ndn.bufferBlock (x.wireEncodeTo []).1
    ({ x with wire := w }, w)

/-- The part of `wireDecode` that reads one CumulativeInfo element. -/
def decodeCumulativeInfo (x : DataContent) (it : Block) : DataContent × Option Error :=
  match it.parse with
  | none => (x, some Error.tlvError)
  | some [] => (x, some Error.pastTheEnd)
  | some (e1 :: r1) =>
    match ndn.nameWireDecode e1 with
    | none => (x, some Error.tlvError)
    | some userPrefix =>
      let x1 := { x with userPrefix := userPrefix }
      match r1 with
      | [] => (x1, some Error.pastTheEnd)
      | e2 :: r2 =>
        match ndn.readNonNegativeInteger e2 with
        | none => (x1, some Error.tlvError)
        | some roundNo =>
          let x2 := { x1 with roundNo := roundNo }
          match r2 with
          | [] => (x2, some Error.pastTheEnd)
          | e3 :: _ =>
            match ndn.componentFromBlock e3 with
            | none => (x2, some Error.tlvError)
            | some cd => ({ x2 with cumulativeDigest := some cd }, none)

/-- The part of `wireDecode` that reads the State element at the iterator, if it is one. -/
def decodeState (x : DataContent) (its : List Block) : DataContent × Option Error :=
  match its with
  | it :: _ =>
    if it.type = tlv.State then
      let r := DiffState.fresh.wireDecode it
      ({ x with statePtr := some r.1 }, r.2)
    else (x, none)
  | [] => (x, none)

/-- Method `DataContent::wireDecode`: the object as it is left, and the error thrown if any. -/
def wireDecode (x : DataContent) (wire : Block) : DataContent × Option Error :=
  if !wire.hasWire then (x, some Error.noWire)
  else
    let x0 := { x with dataType := wire.type }
    if x0.dataType ≠ tlv.DataAndCumulative ∧ x0.dataType ≠ tlv.DataOnly ∧
        x0.dataType ≠ tlv.CumulativeOnly then
      (x0, some Error.unexpectedType)
    else
      let x1 := { x0 with wire := wire }
      match wire.parse with
      | none => (x1, some Error.tlvError)
      | some elements =>
        match elements with
        | it :: rest =>
          if it.type = tlv.CumulativeInfo then
            match decodeCumulativeInfo x1 it with
            | (x2, some e) => (x2, some e)
            | (x2, none) => decodeState x2 rest
          else decodeState x1 elements
        | [] => decodeState x1 elements

/-- Method `DataContent::wellFormed`. -/
def wellFormed (x : DataContent) : Bool :=
  (x.userPrefix != [] && x.cumulativeDigest.isSome) ||
  (x.roundNo == 0 && x.cumulativeDigest.isNone && x.statePtr.isSome)

end DataContent

/-! ## RecoData (reco-data.cpp) -/

/-- Payload of a recovery reply.  `RecoData()` initialises neither `m_roundNo` nor
`m_dataType`. -/
structure RecoData where
  wire : Block
  roundNo : RoundNo
  statePtr : Option DiffState
  dataType : Nat

namespace RecoData

/-- Constructor `RecoData(roundNo, statePtr)`. -/
def new (roundNo : RoundNo) (statePtr : Option DiffState) (indeterminate : Nat) : RecoData :=
  { wire := Block.empty, roundNo := roundNo, statePtr := statePtr, dataType := indeterminate }

/-- Constructor `RecoData()`. -/
def default (indeterminateRound indeterminateType : Nat) : RecoData :=
  { wire := Block.empty, roundNo := indeterminateRound, statePtr := none,
    dataType := indeterminateType }

/-- Template `RecoData::wireEncode(EncodingImpl&)`: the buffer and `totalLength`. -/
def wireEncodeTo (x : RecoData) (block : EncodingBuffer) : EncodingBuffer × Nat :=
  let afterState : EncodingBuffer × Nat :=
    match x.statePtr with
    | some st =>
      let r := st.toState.wireEncode block
      (ndn.prependTypeLength r.1 tlv.State (0 + r.2), 1)
    | none => (block, 0)
  let b1 := ndn.prependNonNegativeIntegerBlock afterState.1 tlv.RoundNo x.roundNo
  let totalLength := afterState.2 + 1
  (ndn.prependTypeLength b1 tlv.RecoveryData totalLength, 1)

/-- Method `RecoData::wireEncode()`. -/
def wireEncode (x : RecoData) : RecoData × Block :=
  if x.wire.hasWire then (x, x.wire)
  else
    let w := ndn.bufferBlock (x.wireEncodeTo []).1
    ({ x with wire := w }, w)

/-- Method `RecoData::wireDecode`: the object as it is left, and the error thrown if any. -/
def wireDecode (x : RecoData) (wire : Block) : RecoData × Option Error :=
  if !wire.hasWire then (x, some Error.noWire)
  else
    let x0 := { x with dataType := wire.type }
    if x0.dataType ≠ tlv.RecoveryData then (x0, some Error.unexpectedType)
    else
      let x1 := { x0 with wire := wire }
      match wire.parse with
      | none => (x1, some Error.tlvError)
      | some [] => (x1, some Error.pastTheEnd)
      | some (it :: rest) =>
        match ndn.readNonNegativeInteger it with
        | none => (x1, some Error.tlvError)
        | some roundNo =>
          let x2 := { x1 with roundNo := roundNo }
          match rest with
          | [] => ({ x2 with statePtr := some DiffState.fresh }, some Error.pastTheEnd)
          | it2 :: _ =>
            let r := DiffState.fresh.wireDecode it2
            ({ x2 with statePtr := some r.1 }, r.2)

end RecoData

/-! ## The wire layout in the words of the specification (§4.D) -/

namespace Layout

/-- A name on the wire: its components in order. -/
def name (n : Name) : Block :=
  Block.elems ndn.tlv.Name (n.map (Block.raw ndn.tlv.NameComponent))

/-- Layout `TL(StateLeaf=131){ name, TL(SeqNo=132){varint} }`. -/
def stateLeaf (l : Leaf) : Block :=
  Block.elems tlv.StateLeaf [name l.sessionName, Block.num tlv.SeqNo l.seq]

/-- Layout `State-sub := TL(State=134) { repeated StateLeaf }`, leaves in canonical order. -/
def stateSub (s : State) : Block :=
  Block.elems tlv.State ((LeafContainer.ordered s.leaves).map stateLeaf)

/-- Layout `CumulativeInfo-sub := TL(CumulativeInfo=135) { user_prefix,
TL(RoundNo=133){varint}, name_component(cumulative_digest) }`. -/
def cumulativeInfoSub (userPrefix : Name) (roundNo : RoundNo) (cd : Buffer) : Block :=
  Block.elems tlv.CumulativeInfo
    [name userPrefix, Block.num tlv.RoundNo roundNo, Block.raw ndn.tlv.NameComponent cd]

end Layout

/-- The session-to-sequence mappings of two optional states agree: both absent, or both
present with the same sequence number (or none) for every name. -/
def sameMapping (a b : Option DiffState) : Prop :=
  match a, b with
  | none, none => True
  | some x, some y => ∀ n, x.toState.lookup n = y.toState.lookup n
  | _, _ => False

/-- Encode a DataContent and decode the block into a default-constructed DataContent. -/
def DataContent.decodeEncoded (x : DataContent) (indeterminate : Nat) :
    DataContent × Option Error :=
  (DataContent.default indeterminate).wireDecode x.wireEncode.2

/-- Encode a RecoData and decode the block into a default-constructed RecoData. -/
def RecoData.decodeEncoded (x : RecoData) (indeterminateRound indeterminateType : Nat) :
    RecoData × Option Error :=
  (RecoData.default indeterminateRound indeterminateType).wireDecode x.wireEncode.2

/-- A DiffState holding the leaves (/2, 7) and (/1, 3). -/
def exampleDiff : DiffState := { leaves := [{ sessionName := [[2]], seq := 7 },
  { sessionName := [[1]], seq := 3 }] }

/-- The merged mapping in the words of the specification: a name present in either
State gets the larger of the two sequence numbers, a name in neither stays absent. -/
def State.mergedSeqNo (s t : State) (n : Name) : Option SeqNo :=
  if (s.lookup n).isSome || (t.lookup n).isSome then some (max (s.getSeqNo n) (t.getSeqNo n))
  else none

/-! ## Concrete values for the examples -/

/-- A State holding the single leaf (/1, 5). -/
def exampleState : State := { leaves := [{ sessionName := [[1]], seq := 5 }] }

/-- A State holding the leaves (/2, 7) and (/1, 3), in this container order. -/
def exampleOther : State :=
  { leaves := [{ sessionName := [[2]], seq := 7 }, { sessionName := [[1]], seq := 3 }] }

/-- The merge of `exampleOther` into `exampleState`, written down leaf by leaf in
ascending order. -/
def exampleMerged : State :=
  { leaves := [{ sessionName := [[1]], seq := 5 }, { sessionName := [[2]], seq := 7 }] }

/-- A hash pair for evaluating digests on examples: the "hash" keeps its input, the leaf
digest is the pair laid out as octets. -/
def exampleDigests : Digests :=
  { sha256 := fun b => b, leafDigest := fun n q => n.flatten ++ [q] }

/-! ## Machine integers and name components (ndn-cxx, outside `src/`) -/

/-- Number of values of a `uint64_t` (`RoundNo`, `SeqNo`). -/
def uint64Size : Nat := 18446744073709551616

/-- Addition of `uint64_t` values. -/
def add64 (a b : Nat) : Nat := (a + b) % uint64Size

/-- Subtraction of `uint64_t` values. -/
def sub64 (a b : Nat) : Nat := (a % uint64Size + uint64Size - b % uint64Size) % uint64Size

namespace ndn

/-- Function `name::Component::fromNumber`: the shortest of the 1, 2, 4 and 8 octet
big-endian forms of a non-negative integer. -/
def componentFromNumber (n : Nat) : Component :=
  if n < 256 then [n]
  else if n < 65536 then [n / 256, n % 256]
  else if n < 4294967296 then [n / 16777216 % 256, n / 65536 % 256, n / 256 % 256, n % 256]
  else [n / 72057594037927936 % 256, n / 281474976710656 % 256, n / 1099511627776 % 256,
        n / 4294967296 % 256, n / 16777216 % 256, n / 65536 % 256, n / 256 % 256, n % 256]

/-- Method `name::Component::toNumber`: the big-endian value of 1, 2, 4 or 8 octets;
`none` when it throws. -/
def componentToNumber (c : Component) : Option Nat :=
  if c.length = 1 ∨ c.length = 2 ∨ c.length = 4 ∨ c.length = 8 then
    some (c.foldl (fun acc b => acc * 256 + b) 0 % uint64Size)
  else none

/-- Method `Name::get(-k)` for `k ≥ 1`: the `k`-th component from the end; `none` when
the name is shorter (the C++ access is then out of range). -/
def nameGetFromEnd (name : Name) (k : Nat) : Option Component :=
  if 1 ≤ k ∧ k ≤ name.length then name.get? (name.length - k) else none

/-- Method `Name::getPrefix(-k)`: the name without its last `k` components; the whole
name when it has fewer than `k` (the unsigned component count wraps and is clipped). -/
def nameGetPrefixDropping (name : Name) (k : Nat) : Name :=
  if k ≤ name.length then name.take (name.length - k) else name

end ndn

/-! ## DiffState and its container (diff-state.hpp, diff-state.cpp, diff-state-container.hpp) -/

namespace DiffState

/-- Inherited `State::update` on a DiffState. -/
def update (d : DiffState) (info : Name) (seq : SeqNo) : DiffState :=
  { d with toState := (d.toState.update info seq).1 }

/-- Method `DiffState::getState`: a new State to which the leaves of this diff are added. -/
def getState (d : DiffState) : State := State.empty.merge d.toState

/-- Method `DiffState::updateRoundDigest`. -/
def updateRoundDigest (H : Digests) (d : DiffState) : DiffState :=
  { d with roundDigest := some (d.toState.getDigest H) }

/-- Method `DiffState::appendExclude`. -/
def appendExclude (d : DiffState) (exclude : Component) : DiffState :=
  { d with excludeFilter := d.excludeFilter ++ [exclude] }

/-- Method `DiffState::getStateFrom(prefix, cumulativeOnly)`: the returned pointer, and
the value left in the reference parameter `cumulativeOnly`. -/
def getStateFrom (d : DiffState) (namePrefix : Name) (cumulativeOnly : Bool) :
    Option DiffState × Bool :=
  match LeafContainer.find d.leaves namePrefix with
  | some leaf =>
    let result := DiffState.fresh.update namePrefix leaf.seq
    let r : DiffState × Bool :=
      if leaf.seq = 0 then ({ result with cumulativeInfo := d.cumulativeInfo }, true)
      else (result, false)
    (some { r.1 with round := d.round, cumulativeDigest := d.cumulativeDigest }, r.2)
  | none => (none, cumulativeOnly)

end DiffState

namespace DiffStateContainer

/-- Lookup `m_log.find(round)` in the index ordered by round. -/
def find (log : List DiffState) (round : RoundNo) : Option DiffState :=
  log.find? (fun d => decide (d.round = round))

/-- Insertion `m_log.insert(commit)`: kept in ascending round order; the unique index
refuses a second entry of a round. -/
def insert : List DiffState → DiffState → List DiffState
  | [], c => [c]
  | d :: rest, c =>
    if c.round < d.round then c :: d :: rest
    else if c.round = d.round then d :: rest
    else d :: insert rest c

/-- The container after a change made through a `DiffStatePtr` that is stored in it
under `round`: that entry shows the changed DiffState. -/
def replaceAt (log : List DiffState) (round : RoundNo) (c : DiffState) : List DiffState :=
  log.map (fun d => if d.round = round then c else d)

/-- The same for a change that leaves the round of the DiffState as it is. -/
def replace (log : List DiffState) (c : DiffState) : List DiffState :=
  replaceAt log c.round c

end DiffStateContainer

/-- A `DiffStatePtr` held by a handler: the DiffState it points to, and whether this very
object is the one stored in `m_log` (under its round), so that changes made through the
pointer show in the log. -/
structure Commit where
  value : DiffState
  inLog : Bool

/-! ## Logic (logic.hpp, logic.cpp): collaborators -/

/-- Entry of the vector handed to the update callback. -/
structure MissingDataInfo where
  session : Name
  low : SeqNo
  high : SeqNo
deriving DecidableEq

/-- Delay of a scheduled event.  The two random draws of the source stay symbolic. -/
inductive Delay where
  | ms (milliseconds : Nat)
  | cumulativeOnlyRandom
  | dataInterestLifetimePlusJitter
deriving DecidableEq

/-- What a scheduled event calls when it fires. -/
inductive Callback where
  | sendDataInterest (roundNo : RoundNo) (retries : Nat)
  | sendSyncInterest (roundNo : RoundNo)
  | setStableState
  | produceCumulativeOnly (roundNo : RoundNo) (cumulativeDigest : Option Buffer)
  | checkRecovery (userPrefix : Name) (roundNo : RoundNo) (cumulativeDigest : Option Buffer)
  | sendRecoInterest (userPrefix : Name)
  | startPartition
  | stopPartition
deriving DecidableEq

/-- One call of `m_scheduler.scheduleEvent`: the event id it returned, the delay and the
callback. -/
structure ScheduledEvent where
  id : Nat
  delay : Delay
  callback : Callback
deriving DecidableEq

/-- Which reply and timeout callbacks an expressed interest carries. -/
inductive InterestKind where
  | data (retries : Nat)
  | sync
  | reco
deriving DecidableEq

/-- What the node does to the face and to the application. -/
inductive Action where
  | setInterestFilter (namePrefix : Name)
  | expressInterest (pendingId : Nat) (name : Name) (exclude : List Component)
      (kind : InterestKind)
  | put (name : Name) (content : Block)
  | removePendingInterest (pendingId : Nat)
  | onUpdate (v : List MissingDataInfo)

/-- Why a handler did not run to its end. -/
inductive Thrown where
  | logicError
  | decodeError (e : Error)
  | libraryError
  | undefinedBehaviour
deriving DecidableEq

/-- Parameters standing for code outside `src/`: the hash functions, and the last
component of `Data::getFullName()` (the implicit digest of the signed packet) as a
function of the data name and content. -/
structure Env where
  digests : Digests
  implicitDigest : Name → Block → Component

/-! ## Logic: the state of one node -/

/-- The members of `Logic` that the handlers read or write, the two globals of logic.cpp
(`partitioned`, `syncTimeouts`), and the record of what the node has asked of its
scheduler (`scheduled`, `cancelled`, `fired`) and done to the face and the application
(`actions`).  A null `EventId` is `none`; a null `PendingInterestId` is 0.  The member
`m_reexpressingSyncInterestId` is never used by the source and is left out. -/
structure Logic where
  syncPrefix : Name
  defaultUserPrefix : Name
  hasValidator : Bool
  sessionName : Name
  seqNo : SeqNo
  recoPrefix : Name
  state : State
  oldState : State
  log : List DiffState
  outstandingDataInterestName : Name
  outstandingDataInterestId : Nat
  pendingDataInterest : Option Name
  currentRound : RoundNo
  stabilizingRound : RoundNo
  stableRound : RoundNo
  lastRecoveryRound : RoundNo
  recoveryDesired : Bool
  cumulativeDigestToEventId : List (Buffer × Nat)
  reexpressingDataInterestId : Option Nat
  stabilizingCumulativeDigest : Option Nat
  numberDataInterestTimeouts : Nat
  numberRecoInterestTimeouts : Nat
  pendingRecoveryPrefixes : List Name
  partitioned : Bool
  syncTimeouts : Int
  scheduled : List ScheduledEvent
  cancelled : List Nat
  fired : List Nat
  actions : List Action

/-- How a handler ends: the node as it is left, and what was thrown if it did not return. -/
structure Result where
  logic : Logic
  thrown : Option Thrown

namespace Logic

def DATA_INTEREST_COMPONENT : Component := [68, 65, 84, 65]

def SYNC_INTEREST_COMPONENT : Component := [83, 89, 78, 67]

def RECO_INTEREST_COMPONENT : Component := [82, 69, 67, 79]

def EMPTY_DIGEST : Buffer :=
  [0xe3, 0xb0, 0xc4, 0x42, 0x98, 0xfc, 0x1c, 0x14, 0x9a, 0xfb, 0xf4, 0xc8, 0x99, 0x6f, 0xb9, 0x24,
   0x27, 0xae, 0x41, 0xe4, 0x64, 0x9b, 0x93, 0x4c, 0xa4, 0x95, 0x99, 0x1b, 0x78, 0x52, 0xb8, 0x55]

def DEFAULT_ROUND_DIGEST_DELAY : Delay := Delay.ms 1000

def DEFAULT_STABILIZE_CUMULATIVE_DIGEST_DELAY : Delay := Delay.ms (5 * 1000)

def MAX_ROUNDS_WITHOUT_RECOVERY : Nat := 10

def BACK_UNSTABLE_ROUNDS : Nat := 5

def DEFAULT_RETRY_CHECK_RECOVERY_DELAY : Delay := Delay.ms 2000

def CUMULATIVE_ONLY_DATA : SeqNo := 0

def MAX_DATA_INTEREST_TO_CUMULATIVE_ONLY : Nat := 5

def MAX_DATA_INTEREST_TIMEOUTS : Nat := 5

def MAX_RECO_INTEREST_TIMEOUTS : Nat := 5

/-- Normal return of a handler. -/
def done (L : Logic) : Result := { logic := L, thrown := none }

/-- A handler left by an exception (or by undefined behaviour). -/
def throwing (L : Logic) (t : Thrown) : Result := { logic := L, thrown := some t }

/-- Call `m_scheduler.scheduleEvent(delay, callback)`: the node and the new event id. -/
def scheduleEvent (L : Logic) (delay : Delay) (callback : Callback) : Logic × Nat :=
  let id := L.scheduled.length + 1
  ({ L with scheduled := L.scheduled ++ [{ id := id, delay := delay, callback := callback }] },
   id)

/-- Call `m_scheduler.cancelEvent(eventId)`; a null id cancels nothing. -/
def cancelEvent (L : Logic) (eventId : Option Nat) : Logic :=
  match eventId with
  | none => L
  | some id => { L with cancelled := L.cancelled ++ [id] }

/-- Call `m_face.expressInterest(...)`: the node and the pending interest id. -/
def expressInterest (L : Logic) (name : Name) (exclude : List Component)
    (kind : InterestKind) : Logic × Nat :=
  let pid := L.actions.length + 1
  ({ L with actions := L.actions ++ [Action.expressInterest pid name exclude kind] }, pid)

/-- One more action of the node on the face or the application. -/
def act (L : Logic) (a : Action) : Logic := { L with actions := L.actions ++ [a] }

/-- A change made through a `DiffStatePtr` shows in `m_log` when the pointer is stored
there. -/
def sync (L : Logic) (c : Commit) : Logic :=
  if c.inLog then { L with log := DiffStateContainer.replace L.log c.value } else L

/-- The round named by the last component of the pending data interest, as read by
`m_pendingDataInterest->getName().get(-1).toNumber()`. -/
def roundOfName (name : Name) : Option RoundNo :=
  (ndn.nameGetFromEnd name 1).bind ndn.componentToNumber

/-- Constructor `Logic::Logic`; `timestamp` is the Unix time appended to the session name. -/
def new (syncPrefix defaultUserPrefix : Name) (hasValidator : Bool) (timestamp : Nat) : Logic :=
  let L0 : Logic :=
    { syncPrefix := syncPrefix, defaultUserPrefix := defaultUserPrefix,
      hasValidator := hasValidator,
      sessionName := defaultUserPrefix ++ [ndn.componentFromNumber timestamp],
      seqNo := 0,
      recoPrefix := defaultUserPrefix ++ [RECO_INTEREST_COMPONENT],
      state := State.empty.reset, oldState := State.empty.reset, log := [],
      outstandingDataInterestName := [], outstandingDataInterestId := 0,
      pendingDataInterest := none,
      currentRound := 1, stabilizingRound := 1, stableRound := 0, lastRecoveryRound := 0,
      recoveryDesired := false, cumulativeDigestToEventId := [],
      reexpressingDataInterestId := none, stabilizingCumulativeDigest := none,
      numberDataInterestTimeouts := 0, numberRecoInterestTimeouts := 0,
      pendingRecoveryPrefixes := [], partitioned := false, syncTimeouts := 0,
      scheduled := [], cancelled := [], fired := [],
      actions := [Action.setInterestFilter syncPrefix,
                  Action.setInterestFilter (defaultUserPrefix ++ [RECO_INTEREST_COMPONENT])] }
  let s1 := L0.scheduleEvent (Delay.ms 0) (Callback.sendDataInterest L0.currentRound 1)
  let L1 := { s1.1 with reexpressingDataInterestId := some s1.2 }
  let s2 := L1.scheduleEvent DEFAULT_STABILIZE_CUMULATIVE_DIGEST_DELAY Callback.setStableState
  let L2 := { s2.1 with stabilizingCumulativeDigest := some s2.2 }
  if defaultUserPrefix = [[110, 100, 110], [101, 100, 117], [99], [99]] ∨
      defaultUserPrefix = [[110, 100, 110], [101, 100, 117], [101], [101]] then
    let s3 := L2.scheduleEvent (Delay.ms 15000) Callback.startPartition
    (s3.1.scheduleEvent (Delay.ms 40000) Callback.stopPartition).1
  else L2

/-- Method `Logic::moveToNewCurrentRound`. -/
def moveToNewCurrentRound (L : Logic) (newCurrentRound : RoundNo) : Logic :=
  let L1 : Logic :=
    if sub64 newCurrentRound L.currentRound ≤ MAX_ROUNDS_WITHOUT_RECOVERY then
      (List.range' L.currentRound (newCurrentRound - L.currentRound)).foldl
        (fun acc i => (acc.scheduleEvent (Delay.ms 0) (Callback.sendDataInterest i 1)).1) L
    else { L with recoveryDesired := true }
  let L2 := { L1 with currentRound := newCurrentRound, numberDataInterestTimeouts := 0 }
  let L3 := L2.cancelEvent L2.reexpressingDataInterestId
  let s := L3.scheduleEvent (Delay.ms 0) (Callback.sendDataInterest L3.currentRound 1)
  { s.1 with reexpressingDataInterestId := some s.2 }

/-- Method `Logic::moveToNewCurrentRoundAfterRecovery`. -/
def moveToNewCurrentRoundAfterRecovery (L : Logic) (newCurrentRound : RoundNo) : Logic :=
  let L2 := { L with currentRound := newCurrentRound }
  let L3 := L2.cancelEvent L2.reexpressingDataInterestId
  let s := L3.scheduleEvent (Delay.ms 0) (Callback.sendDataInterest L3.currentRound 1)
  { s.1 with reexpressingDataInterestId := some s.2 }

/-- What `Logic::updateDiffLog` does to `m_log` and to the pointer `commit`: round and
round digest of the commit are set, and the commit is inserted if the log has no entry
of the round. -/
def updateDiffLogOn (H : Digests) (log : List DiffState) (commit : Commit) (round : RoundNo) :
    List DiffState × Commit :=
  let c1 : Commit :=
    { commit with value := ({ commit.value with round := round }).updateRoundDigest H }
  let log1 : List DiffState :=
    if commit.inLog then DiffStateContainer.replaceAt log commit.value.round c1.value else log
  match DiffStateContainer.find log1 round with
  | none => (DiffStateContainer.insert log1 c1.value, { c1 with inLog := true })
  | some _ => (log1, c1)

/-- Method `Logic::updateDiffLog`: the node and the pointer `commit` as they are left. -/
def updateDiffLog (E : Env) (L : Logic) (commit : Commit) (round : RoundNo) : Logic × Commit :=
  let u := updateDiffLogOn E.digests L.log commit round
  ({ L with log := u.1 }, u.2)

/-- The check at the end of `sendData` and `sendCumulativeOnly`: whether the node's own
interest got satisfied. -/
def removeOutstanding (L : Logic) (name : Name) : Logic :=
  if L.outstandingDataInterestName = name then
    if L.outstandingDataInterestId ≠ 0 then
      { (L.act (Action.removePendingInterest L.outstandingDataInterestId)) with
        outstandingDataInterestId := 0 }
    else L
  else L

/-- Method `Logic::sendData`: the result and the pointer `diffState` as it is left. -/
def sendData (E : Env) (L : Logic) (name : Name) (diffState : Commit) : Result × Commit :=
  let cd : Option Buffer :=
    match diffState.value.cumulativeInfo with
    | some info => info.2
    | none => none
  let roundNo : RoundNo :=
    match diffState.value.cumulativeInfo with
    | some info => info.1
    | none => 0
  let dataContent := DataContent.new L.sessionName roundNo cd (some diffState.value) 0
  if !dataContent.wellFormed then (L.throwing Thrown.logicError, diffState)
  else
    let content := dataContent.wireEncode.2
    let d1 : Commit :=
      { diffState with value := diffState.value.appendExclude (E.implicitDigest name content) }
    let L1 := L.sync d1
    let L2 := L1.act (Action.put name content)
    ((L2.removeOutstanding name).done, d1)

/-- Method `Logic::sendCumulativeOnly`. -/
def sendCumulativeOnly (E : Env) (L : Logic) (name : Name) (roundNo : RoundNo)
    (cumulativeDigest : Option Buffer) : Result :=
  let dataContent := DataContent.new L.sessionName roundNo cumulativeDigest none 0
  if !dataContent.wellFormed then L.throwing Thrown.logicError
  else
    let content := dataContent.wireEncode.2
    let L1 : Logic :=
      match DiffStateContainer.find L.log roundNo with
      | some d =>
        let d1 := d.appendExclude (E.implicitDigest name content)
        { L with log := DiffStateContainer.replace L.log d1 }
      | none => L
    let L2 := L1.act (Action.put name content)
    (L2.removeOutstanding name).done

/-- Method `Logic::sendRecoData`. -/
def sendRecoData (L : Logic) (name : Name) : Logic :=
  let state : DiffState := { DiffState.fresh with toState := DiffState.fresh.toState.merge L.state }
  let sr := RecoData.new (sub64 L.currentRound 1) (some state) 0
  L.act (Action.put name sr.wireEncode.2)

/-- Method `Logic::sendRecoInterest`. -/
def sendRecoInterest (L : Logic) (userPrefix : Name) : Logic :=
  if L.partitioned then L
  else (L.expressInterest (userPrefix ++ [RECO_INTEREST_COMPONENT]) [] InterestKind.reco).1

/-- Method `Logic::sendDataInterest`. -/
def sendDataInterest (L : Logic) (roundNo : RoundNo) (retries : Nat) : Logic :=
  if L.partitioned then L
  else
    let interestName := L.syncPrefix ++ [DATA_INTEREST_COMPONENT] ++
      [ndn.componentFromNumber roundNo]
    let exclude : List Component :=
      match DiffStateContainer.find L.log roundNo with
      | some d => d.excludeFilter
      | none => []
    let e := L.expressInterest interestName exclude (InterestKind.data retries)
    let L1 : Logic :=
      if roundNo = e.1.currentRound then
        { e.1 with outstandingDataInterestName := interestName,
                   outstandingDataInterestId := e.2 }
      else e.1
    if roundNo = L1.currentRound then
      let s := L1.scheduleEvent Delay.dataInterestLifetimePlusJitter
        (Callback.sendDataInterest roundNo 1)
      let L2 := s.1.cancelEvent s.1.reexpressingDataInterestId
      { L2 with reexpressingDataInterestId := some s.2 }
    else L1

/-- Method `Logic::sendSyncInterest`. -/
def sendSyncInterest (L : Logic) (roundNo : RoundNo) : Result :=
  if L.partitioned then L.done
  else
    let base := L.syncPrefix ++ [SYNC_INTEREST_COMPONENT] ++ [ndn.componentFromNumber roundNo]
    match DiffStateContainer.find L.log roundNo with
    | some d =>
      match d.roundDigest with
      | some rd => (L.expressInterest (base ++ [rd]) [] InterestKind.sync).1.done
      | none => L.throwing Thrown.undefinedBehaviour
    | none => (L.expressInterest (base ++ [EMPTY_DIGEST]) [] InterestKind.sync).1.done

/-- Method `Logic::checkRoundDigests`: the result and the value returned. -/
def checkRoundDigests (L : Logic) (roundNo : RoundNo) (roundDigest : Buffer) : Result × Bool :=
  match DiffStateContainer.find L.log roundNo with
  | some d =>
    match d.roundDigest with
    | none => (L.throwing Thrown.undefinedBehaviour, false)
    | some rd =>
      if roundDigest ≠ rd then
        let s1 := L.scheduleEvent (Delay.ms 0) (Callback.sendDataInterest roundNo 1)
        let s2 := s1.1.scheduleEvent DEFAULT_ROUND_DIGEST_DELAY (Callback.sendSyncInterest roundNo)
        let L3 := s2.1.cancelEvent d.reexpressingSyncInterestId
        let d1 : DiffState := { d with reexpressingSyncInterestId := some s2.2 }
        ({ L3 with log := DiffStateContainer.replace L3.log d1 }.done, false)
      else (L.done, true)
  | none =>
    ((L.scheduleEvent (Delay.ms 0) (Callback.sendDataInterest roundNo 1)).1.done, false)

end Logic

namespace Logic

/-- Insertion into the `std::map` `m_cumulativeDigestToEventId`: an existing key keeps
its event id. -/
def mapInsert (m : List (Buffer × Nat)) (key : Buffer) (eventId : Nat) : List (Buffer × Nat) :=
  match m.lookup key with
  | some _ => m
  | none => m ++ [(key, eventId)]

/-- Method `Logic::checkRecovery`. -/
def checkRecovery (L : Logic) (userPrefix : Name) (roundNoOfCumulativeDigest : RoundNo)
    (cumulativeDigest : Option Buffer) : Result :=
  match cumulativeDigest with
  | none => L.throwing Thrown.undefinedBehaviour
  | some cd =>
    match L.cumulativeDigestToEventId.lookup cd with
    | some eventId =>
      let L1 := L.cancelEvent (some eventId)
      let erased := L1.cumulativeDigestToEventId.filter (fun p => decide (p.1 ≠ cd))
      { L1 with cumulativeDigestToEventId := erased }.done
    | none =>
      let compared : Result × Option Buffer × Bool :=
        if roundNoOfCumulativeDigest < L.lastRecoveryRound ∨ L.stableRound = 0 then
          (L.done, none, false)
        else if roundNoOfCumulativeDigest ≤ L.stableRound then
          match DiffStateContainer.find L.log roundNoOfCumulativeDigest with
          | some d =>
            match d.cumulativeDigest with
            | none => (L.throwing Thrown.undefinedBehaviour, none, true)
            | some mine => if cd = mine then (L.done, some mine, false) else (L.done, some mine, true)
          | none => (L.done, none, true)
        else if !L.recoveryDesired then
          ((L.scheduleEvent DEFAULT_RETRY_CHECK_RECOVERY_DELAY
              (Callback.checkRecovery userPrefix roundNoOfCumulativeDigest cumulativeDigest)).1.done,
           none, false)
        else (L.done, none, true)
      match compared with
      | (r, myCumulativeDigest, doRecovery) =>
        match r.thrown with
        | some _ => r
        | none =>
          if doRecovery then
            let p := ndn.nameGetPrefixDropping userPrefix 1
            let L1 : Logic :=
              if p ∈ r.logic.pendingRecoveryPrefixes then r.logic
              else
                let s := r.logic.scheduleEvent (Delay.ms 0) (Callback.sendRecoInterest p)
                { s.1 with pendingRecoveryPrefixes := s.1.pendingRecoveryPrefixes ++ [p] }
            let L2 := { L1 with recoveryDesired := false }
            match myCumulativeDigest with
            | some mine =>
              let s := L2.scheduleEvent Delay.cumulativeOnlyRandom
                (Callback.produceCumulativeOnly roundNoOfCumulativeDigest (some mine))
              let m := mapInsert s.1.cumulativeDigestToEventId mine s.2
              { s.1 with cumulativeDigestToEventId := m }.done
            | none => L2.done
          else r

/-- The first statement of `produceCumulativeOnly`: a pending data interest of the
current round is answered with the CumulativeOnly. -/
def answerWithCumulativeOnly (E : Env) (L : Logic) (roundNo : RoundNo)
    (cumulativeDigest : Option Buffer) : Result :=
  match L.pendingDataInterest with
  | some name =>
    match roundOfName name with
    | none => L.throwing Thrown.libraryError
    | some r =>
      if r = L.currentRound then
        let sent := sendCumulativeOnly E L name roundNo cumulativeDigest
        match sent.thrown with
        | some _ => sent
        | none => { sent.logic with pendingDataInterest := none }.done
      else L.done
  | none => L.done

/-- Method `Logic::produceCumulativeOnly`. -/
def produceCumulativeOnly (E : Env) (L : Logic) (roundNo : RoundNo)
    (cumulativeDigest : Option Buffer) : Result :=
  let answered := answerWithCumulativeOnly E L roundNo cumulativeDigest
  match answered.thrown with
  | some _ => answered
  | none =>
    let L1 := answered.logic
    let c0 : DiffState := DiffState.fresh.update L1.sessionName CUMULATIVE_ONLY_DATA
    let c1 : DiffState := { c0 with cumulativeInfo := some (roundNo, cumulativeDigest) }
    let u := updateDiffLog E L1 { value := c1, inLog := false } L1.currentRound
    (u.1.moveToNewCurrentRound (add64 u.1.currentRound 1)).done

/-- First loop of `calculateStableStateAndCumulativeDigests`: advance `r` while the log
has no entry for it and it is below `endRound`; `fuel` bounds the number of steps. -/
def skipMissingRounds (log : List DiffState) (endRound : RoundNo) : Nat → RoundNo → RoundNo
  | 0, r => r
  | fuel + 1, r =>
    if (DiffStateContainer.find log r).isNone ∧ r < endRound then
      skipMissingRounds log endRound fuel (add64 r 1)
    else r

/-- Second loop of `calculateStableStateAndCumulativeDigests`, from the iterator on: the
entries in container order up to the first whose round is not below `endRound`; each is
added to `m_oldState` and gets the digest of `m_oldState` as cumulative digest. -/
def stabilizeEntries (H : Digests) (endRound : RoundNo) :
    List DiffState → State → List DiffState × State
  | [], old => ([], old)
  | d :: rest, old =>
    if d.round < endRound then
      let old1 := old.merge d.getState
      let d1 : DiffState := { d with cumulativeDigest := some (old1.getDigest H) }
      let r := stabilizeEntries H endRound rest old1
      (d1 :: r.1, r.2)
    else (d :: rest, old)

/-- The two loops of `calculateStableStateAndCumulativeDigests` on `m_log` and
`m_oldState`: from the first round at or after `initRound` that has an entry, every entry
below `endRound` is added to the old state and gets its digest. -/
def walkStable (H : Digests) (log : List DiffState) (oldState : State)
    (initRound endRound : RoundNo) : List DiffState × State :=
  let r := skipMissingRounds log endRound (endRound - initRound) initRound
  match DiffStateContainer.find log r with
  | none => (log, oldState)
  | some _ =>
    let before := log.takeWhile (fun d => decide (d.round ≠ r))
    let from_ := log.dropWhile (fun d => decide (d.round ≠ r))
    let s := stabilizeEntries H endRound from_ oldState
    (before ++ s.1, s.2)

/-- What `Logic::calculateStableStateAndCumulativeDigests` does to `m_log` and
`m_oldState`, the only members it touches. -/
def calculateOn (H : Digests) (log : List DiffState) (oldState : State)
    (initRound endRound : RoundNo) : List DiffState × State :=
  let walked := walkStable H log oldState initRound endRound
  match DiffStateContainer.find walked.1 endRound with
  | none =>
    let u := updateDiffLogOn H walked.1 { value := DiffState.fresh, inLog := false } endRound
    let digest := walked.2.getDigest H
    let v : DiffState := { u.2.value with cumulativeDigest := some digest }
    (if u.2.inLog then DiffStateContainer.replace u.1 v else u.1, walked.2)
  | some commit =>
    let old := walked.2.merge commit.getState
    let c : DiffState := { commit with cumulativeDigest := some (old.getDigest H) }
    (DiffStateContainer.replace walked.1 c, old)

/-- Method `Logic::calculateStableStateAndCumulativeDigests`. -/
def calculateStableStateAndCumulativeDigests (E : Env) (L : Logic) (initRound endRound : RoundNo) :
    Logic :=
  let r := calculateOn E.digests L.log L.oldState initRound endRound
  { L with log := r.1, oldState := r.2 }

/-- Method `Logic::setStableState`. -/
def setStableState (E : Env) (L : Logic) : Result :=
  let initRound : Option RoundNo :=
    if L.stableRound = 0 ∧ L.lastRecoveryRound = 0 then some 1
    else if L.stabilizingRound = L.lastRecoveryRound then some L.stabilizingRound
    else if L.stableRound ≠ 0 then some (add64 L.stableRound 1)
    else none
  match initRound with
  | none => L.throwing Thrown.logicError
  | some init =>
    let L1 := calculateStableStateAndCumulativeDigests E L init L.stabilizingRound
    let L2 := { L1 with stableRound := L1.stabilizingRound }
    let next := add64 L2.stableRound (sub64 L2.currentRound L2.stableRound / 2)
    let L3 := { L2 with stabilizingRound := next }
    let s := L3.scheduleEvent DEFAULT_STABILIZE_CUMULATIVE_DIGEST_DELAY Callback.setStableState
    { s.1 with stabilizingCumulativeDigest := some s.2 }.done

/-- The statement of `updateSeqNo` that answers a pending data interest of the current
round with the commit. -/
def answerWithData (E : Env) (L : Logic) (commit : Commit) : Result :=
  match L.pendingDataInterest with
  | some name =>
    match roundOfName name with
    | none => L.throwing Thrown.libraryError
    | some r =>
      if r = L.currentRound then
        let sent := sendData E L name commit
        match sent.1.thrown with
        | some _ => sent.1
        | none => { sent.1.logic with pendingDataInterest := none }.done
      else L.done
  | none => L.done

/-- The commit that `updateSeqNo` builds: the leaf of the node, with the cumulative digest
of the stable round attached if there is one. -/
def ownCommit (L : Logic) : DiffState :=
  let c0 : DiffState := DiffState.fresh.update L.sessionName L.seqNo
  if L.stableRound ≠ 0 then
    match DiffStateContainer.find L.log L.stableRound with
    | some d => { c0 with cumulativeInfo := some (L.stableRound, d.cumulativeDigest) }
    | none => c0
  else c0

/-- Method `Logic::updateSeqNo`. -/
def updateSeqNo (E : Env) (L : Logic) (seqNo : SeqNo) : Result :=
  if seqNo < L.seqNo ∨ seqNo = 0 then L.done
  else
    let L1 := { L with seqNo := seqNo }
    let u := L1.state.update L1.sessionName L1.seqNo
    let L2 := { L1 with state := u.1 }
    if u.2.1 || u.2.2.1 then
      let logged := updateDiffLog E L2 { value := L2.ownCommit, inLog := false } L2.currentRound
      let answered := answerWithData E logged.1 logged.2
      match answered.thrown with
      | some _ => answered
      | none =>
        let s := answered.logic.scheduleEvent (Delay.ms 0)
          (Callback.sendSyncInterest answered.logic.currentRound)
        let L5 := s.1.moveToNewCurrentRound (add64 s.1.currentRound 1)
        { L5 with syncTimeouts := 0 }.done
    else L2.done

end Logic

namespace DataContent

/-- Whether a failed decode into a default-constructed object was thrown by
`State::wireDecode` as a `State::Error` (the only exception class that `processData`
catches): the State element had been reached, and the error is one of the three that
state.cpp throws itself. -/
def thrownByState (r : DataContent × Option Error) : Bool :=
  r.1.statePtr.isSome &&
    (decide (r.2 = some Error.noWire) || decide (r.2 = some Error.unexpectedType) ||
     decide (r.2 = some Error.noSeqNo))

end DataContent

namespace RecoData

/-- Whether a failed decode into a default-constructed object was thrown by
`State::wireDecode` as a `State::Error` (the only exception class that `processRecoData`
catches). -/
def thrownByState (r : RecoData × Option Error) : Bool :=
  r.1.statePtr.isSome &&
    (decide (r.2 = some Error.noWire) || decide (r.2 = some Error.unexpectedType) ||
     decide (r.2 = some Error.noSeqNo))

end RecoData

namespace Logic

/-- An exception of a decoder that the handler does not catch. -/
def uncaught (e : Error) : Thrown :=
  match e with
  | Error.tlvError => Thrown.libraryError
  | Error.pastTheEnd => Thrown.undefinedBehaviour
  | other => Thrown.decodeError other

/-- Method `Logic::processDataInterest`. -/
def processDataInterest (E : Env) (L : Logic) (name : Name) : Result :=
  match roundOfName name with
  | none => L.throwing Thrown.libraryError
  | some roundNo =>
    let L1 : Logic :=
      if roundNo ≥ L.currentRound then { L with pendingDataInterest := some name } else L
    if roundNo > L1.currentRound then (L1.moveToNewCurrentRound roundNo).done
    else if roundNo < L1.currentRound then
      match DiffStateContainer.find L1.log roundNo with
      | some entry =>
        match entry.getStateFrom L1.sessionName false with
        | (some diffState, isCumulativeOnly) =>
          if isCumulativeOnly then
            match diffState.cumulativeInfo with
            | some info => sendCumulativeOnly E L1 name info.1 info.2
            | none => L1.throwing Thrown.logicError
          else (sendData E L1 name { value := diffState, inLog := false }).1
        | (none, _) => L1.done
      | none => L1.done
    else L1.done

/-- Method `Logic::processSyncInterest`. -/
def processSyncInterest (L : Logic) (name : Name) : Result :=
  match (ndn.nameGetFromEnd name 2).bind ndn.componentToNumber, ndn.nameGetFromEnd name 1 with
  | some roundNo, some roundDigest =>
    if roundNo ≥ L.currentRound then (L.moveToNewCurrentRound (add64 roundNo 1)).done
    else if roundNo ≤ L.lastRecoveryRound then L.done
    else (L.checkRoundDigests roundNo roundDigest).1
  | _, _ => L.throwing Thrown.libraryError

/-- Method `Logic::processRecoInterest`. -/
def processRecoInterest (L : Logic) (name : Name) : Result := (L.sendRecoData name).done

/-- The loop of `processData` over the leaves of the received State, in canonical order:
the node, the commit and the vector `v` as they are left. -/
def applyReceivedLeaves (roundNo : RoundNo) :
    List Leaf → Logic → Commit → List MissingDataInfo → Logic × Commit × List MissingDataInfo
  | [], L, commit, v => (L, commit, v)
  | leaf :: rest, L, commit, v =>
    let L1 : Logic :=
      if roundNo ≤ L.lastRecoveryRound ∧ L.stableRound = 0 then
        { L with oldState := (L.oldState.update leaf.sessionName leaf.seq).1 }
      else L
    let u := L1.state.update leaf.sessionName leaf.seq
    let L2 := { L1 with state := u.1 }
    let v1 : List MissingDataInfo :=
      if u.2.1 || u.2.2.1 then
        v ++ [{ session := leaf.sessionName, low := add64 u.2.2.2 1, high := leaf.seq }]
      else v
    let c1 : Commit := { commit with value := commit.value.update leaf.sessionName leaf.seq }
    applyReceivedLeaves roundNo rest (L2.sync c1) c1 v1

/-- The statements of `processData` that follow the handling of the payload. -/
def finishProcessData (E : Env) (L : Logic) (commit : Commit) (roundNo : RoundNo) : Result :=
  let L1 : Logic :=
    if roundNo = L.currentRound then L.moveToNewCurrentRound (add64 L.currentRound 1) else L
  let u := updateDiffLog E L1 commit roundNo
  let L2 : Logic :=
    if roundNo ≤ u.1.stabilizingRound then
      let L3 := u.1.cancelEvent u.1.stabilizingCumulativeDigest
      let s := L3.scheduleEvent DEFAULT_STABILIZE_CUMULATIVE_DIGEST_DELAY Callback.setStableState
      { s.1 with stabilizingCumulativeDigest := some s.2 }
    else u.1
  let s := L2.scheduleEvent DEFAULT_ROUND_DIGEST_DELAY (Callback.sendSyncInterest roundNo)
  let L4 := s.1.cancelEvent u.2.value.reexpressingSyncInterestId
  let v : DiffState := { u.2.value with reexpressingSyncInterestId := some s.2 }
  (L4.sync { u.2 with value := v }).done

/-- Start of `processData` after the check of the round: the commit is the log entry of
the round if there is one, else a new DiffState; the last component of the response name
is appended to its exclude filter. -/
def openCommit (L : Logic) (roundNo : RoundNo) (suffix : Component) : Logic × Commit :=
  let commit0 : Commit :=
    match DiffStateContainer.find L.log roundNo with
    | some d => { value := d, inLog := true }
    | none => { value := DiffState.fresh, inLog := false }
  let commit1 : Commit := { commit0 with value := commit0.value.appendExclude suffix }
  (L.sync commit1, commit1)

/-- The `try` block of `processData` from the decoded `dataContent` on. -/
def applyDataContent (E : Env) (L1 : Logic) (commit1 : Commit) (roundNo : RoundNo)
    (dataContent : DataContent) : Result :=
  let dataType := dataContent.dataType
  let commit2 : Commit :=
    if dataType = tlv.CumulativeOnly then
      { commit1 with
        value := commit1.value.update dataContent.userPrefix CUMULATIVE_ONLY_DATA }
    else commit1
  let L2 := L1.sync commit2
  let checked : Result :=
    if dataType = tlv.CumulativeOnly ∨ dataType = tlv.DataAndCumulative then
      L2.checkRecovery dataContent.userPrefix dataContent.roundNo
        dataContent.cumulativeDigest
    else L2.done
  match checked.thrown with
  | some _ => checked
  | none =>
    if dataType = tlv.DataOnly ∨ dataType = tlv.DataAndCumulative then
      match dataContent.statePtr with
      | none => checked.logic.throwing Thrown.undefinedBehaviour
      | some reply =>
        let a := applyReceivedLeaves roundNo (LeafContainer.ordered reply.leaves)
          checked.logic commit2 []
        let L3 : Logic :=
          if a.2.2 ≠ [] then a.1.act (Action.onUpdate a.2.2) else a.1
        finishProcessData E L3 a.2.1 roundNo
    else finishProcessData E checked.logic commit2 roundNo

/-- Method `Logic::processData`. -/
def processData (E : Env) (L : Logic) (fullName : Name) (dataContentBlock : Block) : Result :=
  match (ndn.nameGetFromEnd fullName 2).bind ndn.componentToNumber, ndn.nameGetFromEnd fullName 1 with
  | some roundNo, some suffix =>
    let L0 : Logic := if roundNo = L.currentRound then { L with syncTimeouts := 0 } else L
    if roundNo ≤ L0.stableRound then L0.done
    else
      let opened := L0.openCommit roundNo suffix
      let decoded := (DataContent.default 0).wireDecode dataContentBlock
      match decoded.2 with
      | some e =>
        if DataContent.thrownByState decoded then opened.1.done
        else opened.1.throwing (uncaught e)
      | none => applyDataContent E opened.1 opened.2 roundNo decoded.1
  | _, _ => L.throwing Thrown.libraryError

/-- The loop of `processRecoData` over the leaves of the received State. -/
def applyRecoveredLeaves : List Leaf → Logic → List MissingDataInfo → Logic × List MissingDataInfo
  | [], L, v => (L, v)
  | leaf :: rest, L, v =>
    let u := L.state.update leaf.sessionName leaf.seq
    let v1 : List MissingDataInfo :=
      if u.2.1 || u.2.2.1 then
        v ++ [{ session := leaf.sessionName, low := add64 u.2.2.2 1, high := leaf.seq }]
      else v
    applyRecoveredLeaves rest { L with state := u.1 } v1

/-- Method `Logic::processRecoData`. -/
def processRecoData (L : Logic) (fullName : Name) (recoBlock : Block) : Result :=
  let erased := L.pendingRecoveryPrefixes.filter
    (fun p => decide (p ≠ ndn.nameGetPrefixDropping fullName 2))
  let L0 := { L with pendingRecoveryPrefixes := erased }
  let decoded := (RecoData.default 0 0).wireDecode recoBlock
  match decoded.2 with
  | some e => if RecoData.thrownByState decoded then L0.done else L0.throwing (uncaught e)
  | none =>
    let recoData := decoded.1
    if recoData.dataType ≠ tlv.RecoveryData then L0.throwing Thrown.logicError
    else
      match recoData.statePtr with
      | none => L0.throwing Thrown.undefinedBehaviour
      | some receivedState =>
        let roundNoOfState := recoData.roundNo
        let a := applyRecoveredLeaves (LeafContainer.ordered receivedState.leaves) L0 []
        let L1 : Logic := if a.2 ≠ [] then a.1.act (Action.onUpdate a.2) else a.1
        let L2 : Logic :=
          if roundNoOfState ≥ L1.currentRound then
            ({ L1 with lastRecoveryRound := roundNoOfState }).moveToNewCurrentRoundAfterRecovery
              (add64 roundNoOfState 1)
          else { L1 with lastRecoveryRound := sub64 L1.currentRound 1 }
        let initRound : RoundNo :=
          if L2.currentRound ≤ BACK_UNSTABLE_ROUNDS then 1
          else sub64 L2.currentRound BACK_UNSTABLE_ROUNDS
        let L3 : Logic :=
          (List.range' initRound (L2.currentRound - initRound)).foldl
            (fun acc i => (acc.scheduleEvent (Delay.ms 0) (Callback.sendDataInterest i 1)).1) L2
        let L4 := { L3 with stabilizingRound := L3.lastRecoveryRound, stableRound := 0,
                            oldState := L3.oldState.reset.merge L3.state }
        let L5 := L4.cancelEvent L4.stabilizingCumulativeDigest
        let s := L5.scheduleEvent DEFAULT_STABILIZE_CUMULATIVE_DIGEST_DELAY Callback.setStableState
        { s.1 with stabilizingCumulativeDigest := some s.2 }.done

/-- Method `Logic::onDataInterestTimeout`. -/
def onDataInterestTimeout (E : Env) (L : Logic) (name : Name) (retries : Nat) : Result :=
  match roundOfName name with
  | none => L.throwing Thrown.libraryError
  | some roundNo =>
    let L0 : Logic :=
      if roundNo = L.currentRound then
        let t1 : Int := if L.syncTimeouts ≥ 0 then L.syncTimeouts + 1 else L.syncTimeouts
        { L with syncTimeouts := if t1 > 20 then -1 else t1 }
      else L
    let L1 := { L0 with numberDataInterestTimeouts :=
                  (L0.numberDataInterestTimeouts + 1) % 4294967296 }
    let L2 : Logic :=
      if L1.numberDataInterestTimeouts ≥ MAX_DATA_INTEREST_TO_CUMULATIVE_ONLY ∧
          L1.stableRound = sub64 L1.currentRound 1 then
        let L3 := { L1 with numberDataInterestTimeouts := 0 }
        let myCumulativeDigest := L3.state.getDigest E.digests
        let s := L3.scheduleEvent Delay.cumulativeOnlyRandom
          (Callback.produceCumulativeOnly L3.stableRound (some myCumulativeDigest))
        let m := mapInsert s.1.cumulativeDigestToEventId myCumulativeDigest s.2
        { s.1 with cumulativeDigestToEventId := m }
      else L1
    if roundNo < L2.currentRound ∧ (DiffStateContainer.find L2.log roundNo).isNone ∧
        retries < MAX_DATA_INTEREST_TIMEOUTS then
      (L2.scheduleEvent (Delay.ms 0)
        (Callback.sendDataInterest roundNo ((retries + 1) % 4294967296))).1.done
    else L2.done

/-- Method `Logic::onRecoInterestTimeout`. -/
def onRecoInterestTimeout (L : Logic) (name : Name) : Logic :=
  let nodePrefix := ndn.nameGetPrefixDropping name 1
  let L1 := { L with numberRecoInterestTimeouts := (L.numberRecoInterestTimeouts + 1) % 4294967296 }
  if L1.numberRecoInterestTimeouts ≥ MAX_RECO_INTEREST_TIMEOUTS then
    { L1 with numberRecoInterestTimeouts := 0,
              pendingRecoveryPrefixes :=
                L1.pendingRecoveryPrefixes.filter (fun p => decide (p ≠ nodePrefix)) }
  else (L1.scheduleEvent (Delay.ms 0) (Callback.sendRecoInterest nodePrefix)).1

/-- Method `Logic::onDataAndSyncInterest`. -/
def onDataAndSyncInterest (E : Env) (L : Logic) (name : Name) : Result :=
  if L.partitioned then L.done
  else
    match ndn.nameGetFromEnd name 2 with
    | none => L.throwing Thrown.undefinedBehaviour
    | some c2 =>
      if DATA_INTEREST_COMPONENT = c2 then processDataInterest E L name
      else
        match ndn.nameGetFromEnd name 3 with
        | none => L.throwing Thrown.undefinedBehaviour
        | some c3 =>
          if SYNC_INTEREST_COMPONENT = c3 then processSyncInterest L name else L.done

/-- Method `Logic::onRecoInterest`. -/
def onRecoInterest (L : Logic) (name : Name) : Result :=
  if L.partitioned then L.done
  else
    match ndn.nameGetFromEnd name 1 with
    | none => L.throwing Thrown.undefinedBehaviour
    | some c1 => if RECO_INTEREST_COMPONENT = c1 then processRecoInterest L name else L.done

/-- Methods `Logic::onData` and `onDataValidated`; `valid` is the verdict of the
validator, if the node has one. -/
def onData (E : Env) (L : Logic) (fullName : Name) (content : Block) (valid : Bool) : Result :=
  if L.partitioned then L.done
  else if L.hasValidator && !valid then L.done
  else
    match ndn.nameGetFromEnd fullName 3 with
    | none => L.throwing Thrown.undefinedBehaviour
    | some c3 =>
      if DATA_INTEREST_COMPONENT = c3 then processData E L fullName content else L.done

/-- Methods `Logic::onRecoData` and `onRecoDataValidated`. -/
def onRecoData (L : Logic) (fullName : Name) (content : Block) (valid : Bool) : Result :=
  if L.partitioned then L.done
  else if L.hasValidator && !valid then L.done
  else
    match ndn.nameGetFromEnd fullName 2 with
    | none => L.throwing Thrown.undefinedBehaviour
    | some c2 =>
      if RECO_INTEREST_COMPONENT = c2 then processRecoData L fullName content else L.done

/-- What a scheduled event does when it fires. -/
def runCallback (E : Env) (L : Logic) : Callback → Result
  | Callback.sendDataInterest roundNo retries => (L.sendDataInterest roundNo retries).done
  | Callback.sendSyncInterest roundNo => L.sendSyncInterest roundNo
  | Callback.setStableState => setStableState E L
  | Callback.produceCumulativeOnly roundNo cd => produceCumulativeOnly E L roundNo cd
  | Callback.checkRecovery userPrefix roundNo cd => L.checkRecovery userPrefix roundNo cd
  | Callback.sendRecoInterest userPrefix => (L.sendRecoInterest userPrefix).done
  | Callback.startPartition => { L with partitioned := true }.done
  | Callback.stopPartition => { L with partitioned := false }.done

/-- The scheduled event with this id, if it is still pending. -/
def pendingEvent (L : Logic) (id : Nat) : Option ScheduledEvent :=
  if id ∈ L.cancelled ∨ id ∈ L.fired then none
  else L.scheduled.find? (fun ev => decide (ev.id = id))

end Logic

/-- What can happen to a node: a call of the application, a packet or a timeout
delivered by the face, or a scheduled event that fires. -/
inductive Event where
  | updateSeqNo (seqNo : SeqNo)
  | interest (name : Name)
  | recoInterest (name : Name)
  | data (fullName : Name) (content : Block) (valid : Bool)
  | recoData (fullName : Name) (content : Block) (valid : Bool)
  | dataInterestTimeout (name : Name) (retries : Nat)
  | recoInterestTimeout (name : Name)
  | syncInterestTimeout
  | timer (id : Nat)

namespace Logic

/-- One handler run to its end. -/
def step (E : Env) (L : Logic) : Event → Result
  | Event.updateSeqNo seqNo => updateSeqNo E L seqNo
  | Event.interest name => onDataAndSyncInterest E L name
  | Event.recoInterest name => L.onRecoInterest name
  | Event.data fullName content valid => onData E L fullName content valid
  | Event.recoData fullName content valid => L.onRecoData fullName content valid
  | Event.dataInterestTimeout name retries => onDataInterestTimeout E L name retries
  | Event.recoInterestTimeout name => (L.onRecoInterestTimeout name).done
  | Event.syncInterestTimeout => L.done
  | Event.timer id =>
    match L.pendingEvent id with
    | none => L.done
    | some ev => runCallback E { L with fired := L.fired ++ [id] } ev.callback

/-- The handlers run one after the other; a handler that throws ends the run. -/
def run (E : Env) (L : Logic) : List Event → Result
  | [] => L.done
  | ev :: rest =>
    match (step E L ev).thrown with
    | some t => (step E L ev).logic.throwing t
    | none => run E (step E L ev).logic rest

/-- The states a node can be in: the state the constructor leaves, and every state in
which a handler returns when it was started in such a state. -/
inductive Reachable (E : Env) : Logic → Prop where
  | init (syncPrefix defaultUserPrefix : Name) (hasValidator : Bool) (timestamp : Nat) :
      Reachable E (Logic.new syncPrefix defaultUserPrefix hasValidator timestamp)
  | step (L : Logic) (ev : Event) :
      Reachable E L → (step E L ev).thrown = none → Reachable E (step E L ev).logic

end Logic

/-! ## Views of a node used to state its properties -/

/-- The DiffState after `setRound(R)` and `updateRoundDigest()`, as `updateDiffLog` leaves
a commit. -/
def DiffState.stamped (H : Digests) (d : DiffState) (R : RoundNo) : DiffState :=
  ({ d with round := R }).updateRoundDigest H

namespace Logic

/-- Delay and callback of every `scheduleEvent` call made so far, in order. -/
def scheduledCalls (L : Logic) : List (Delay × Callback) :=
  L.scheduled.map (fun ev => (ev.delay, ev.callback))

/-- The events that the backfill loop adds when `n` events were scheduled before. -/
def backfillEvents : Nat → List RoundNo → List ScheduledEvent
  | _, [] => []
  | n, i :: rest =>
    { id := n + 1, delay := Delay.ms 0, callback := Callback.sendDataInterest i 1 } ::
      backfillEvents (n + 1) rest

/-- The vectors with which the update callback has been invoked, in order. -/
def updates (L : Logic) : List (List MissingDataInfo) :=
  L.actions.filterMap (fun a =>
    match a with
    | Action.onUpdate v => some v
    | _ => none)

/-- The commit pointer and the log agree about round `R`: a pointer stored in the log is
the entry of `R`, and while the pointer is not stored the log has no entry of `R`. -/
def Holds (L : Logic) (c : Commit) (R : RoundNo) : Prop :=
  if c.inLog then DiffStateContainer.find L.log R = some c.value
  else DiffStateContainer.find L.log R = none

end Logic

/-- The vector that the specification asks the update callback to get: one entry
(session, old_seq + 1, new_seq) for every carried leaf, in canonical order, that is new
(old_seq = 0) or has a higher sequence number than `m_state` holds. -/
def missingDataInfos (s reply : State) : List MissingDataInfo :=
  (LeafContainer.ordered reply.leaves).filterMap (fun leaf =>
    match s.lookup leaf.sessionName with
    | none => some { session := leaf.sessionName, low := 1, high := leaf.seq }
    | some old =>
      if old < leaf.seq then some { session := leaf.sessionName, low := old + 1, high := leaf.seq }
      else none)

/-- A fresh node with sync prefix /1, user prefix /2, no validator, started at time 7. -/
def exampleNode : Logic := Logic.new [[1]] [[2]] false 7

/-- Hash and digest functions for evaluating the handlers on examples. -/
def exampleEnv : Env := { digests := exampleDigests, implicitDigest := fun n _ => n.flatten }

/-! ## Concrete values for the scenarios of the node -/

/-- A SyncInterest name of the sync prefix /1 for round 20. -/
def exampleSyncName : Name := [[1], Logic.SYNC_INTEREST_COMPONENT, [20], [9, 9]]

/-- The example node after its first stabilisation timer has fired (stable round 1) and
it has then heard the SyncInterest for round 20. -/
def exampleJumped : Logic :=
  (Logic.run exampleEnv exampleNode [Event.timer 2, Event.interest exampleSyncName]).logic

/-- The example node that has heard the SyncInterest for round 20 before any
stabilisation (stable round 0). -/
def exampleJumpedEarly : Logic :=
  (Logic.run exampleEnv exampleNode [Event.interest exampleSyncName]).logic

/-- The response name of the sync prefix /1 for a DataInterest of round 5. -/
def exampleDataName : Name := [[1], Logic.DATA_INTEREST_COMPONENT, [5], [0]]

/-- A CumulativeOnly payload of the peer session /3/9 for cumulative round 5. -/
def exampleCumulativeOnly : Block :=
  (DataContent.new [[3], [9]] 5 (some [4, 4]) none 0).wireEncode.2

/-- A DataOnly payload whose State holds a leaf without sequence number, so that
`State::wireDecode` throws. -/
def exampleBadState : Block :=
  Block.elems tlv.DataOnly
    [Block.elems tlv.State [Block.elems tlv.StateLeaf [Layout.name [[7]]]]]

/-- The example node after it has received the CumulativeOnly payload for round 5: its
log has an entry for round 5. -/
def exampleHeard : Logic :=
  (Logic.run exampleEnv exampleNode [Event.data exampleDataName exampleCumulativeOnly true]).logic

/-- The example node after it has heard a SyncInterest for round 19: it is at round 20. -/
def exampleAtTwenty : Logic :=
  (Logic.run exampleEnv exampleNode
    [Event.interest [[1], Logic.SYNC_INTEREST_COMPONENT, [19], [9, 9]]]).logic

/-- A recovery reply of the peer /3: the state {/2 ↦ 7, /1 ↦ 3} as of round 19. -/
def exampleRecoData : Block := (RecoData.new 19 (some exampleDiff) 0).wireEncode.2

/-- The full name of that reply: the peer prefix, RECO and the implicit digest. -/
def exampleRecoName : Name := [[3], Logic.RECO_INTEREST_COMPONENT, [0]]

/-- The name of the data interest of round 1 under the sync prefix /1. -/
def exampleInterestName : Name := [[1], Logic.DATA_INTEREST_COMPONENT, [1]]

/-- A run of the example node in which its own data interest of round 1 times out five
times, so that a cumulative-only emission is scheduled (event 4); then the stabilisation
timer fires (event 2), and then the emission. -/
def exampleIdleRun : List Event :=
  [Event.timer 1, Event.dataInterestTimeout exampleInterestName 1,
   Event.dataInterestTimeout exampleInterestName 1,
   Event.dataInterestTimeout exampleInterestName 1,
   Event.dataInterestTimeout exampleInterestName 1,
   Event.dataInterestTimeout exampleInterestName 1, Event.timer 2, Event.timer 4]

/-- The response name of the sync prefix /1 for a DataInterest of round 1. -/
def exampleDataName1 : Name := [[1], Logic.DATA_INTEREST_COMPONENT, [1], [0]]

/-- The response name of the sync prefix /1 for a DataInterest of round 2. -/
def exampleDataName2 : Name := [[1], Logic.DATA_INTEREST_COMPONENT, [2], [0]]

/-- A DataOnly payload that carries the leaf (/5, 0). -/
def exampleZeroLeaf : Block :=
  (DataContent.new [[3], [9]] 0 none (some (DiffState.fresh.update [[5]] 0)) 0).wireEncode.2

/-- A DataOnly payload that carries the leaves (/5, 4) and (/2/7, 3). -/
def exampleTwoLeaves : Block :=
  (DataContent.new [[3], [9]] 0 none
    (some ((DiffState.fresh.update [[5]] 4).update [[2], [7]] 3)) 0).wireEncode.2

/-! ## Invariants of a node -/

/-- The invariant of the ordered unique index of `m_log`: the rounds of the entries are
strictly ascending in iteration order, so no two entries have the same round. -/
def DiffStateContainer.Ordered (log : List DiffState) : Prop :=
  (log.map DiffState.round).Sorted (fun a b => a < b)

namespace Logic

/-- A step that leaves the identity of the node, its sequence number, `m_state` and the
rounds of `m_log` as they are. -/
def Same (L M : Logic) : Prop :=
  M.sessionName = L.sessionName ∧ M.seqNo = L.seqNo ∧ M.state = L.state ∧
  M.log.map DiffState.round = L.log.map DiffState.round

/-- A step that leaves the identity of the node and its sequence number as they are,
only raises sequence numbers in `m_state`, and keeps `m_log` ordered. -/
def Keeps (L M : Logic) : Prop :=
  M.sessionName = L.sessionName ∧ M.seqNo = L.seqNo ∧
  (∀ n c, L.state.lookup n = some c → ∃ c2, M.state.lookup n = some c2 ∧ c ≤ c2) ∧
  (DiffStateContainer.Ordered L.log → DiffStateContainer.Ordered M.log)

/-- The local sequence number is covered by `m_state`: once the node has produced, its
own session has a leaf with at least that sequence number. -/
def SeqCovered (L : Logic) : Prop :=
  L.seqNo = 0 ∨ ∃ c, L.state.lookup L.sessionName = some c ∧ L.seqNo ≤ c

end Logic

/-! ## Further views and example values -/

namespace Logic

/-- The names of the Data packets the node has put on the face, in order. -/
def putNames (L : Logic) : List Name :=
  L.actions.filterMap (fun a =>
    match a with
    | Action.put n _ => some n
    | _ => none)

/-- Round and retry count of every `sendDataInterest` scheduled so far, in order. -/
def dataInterestCalls (L : Logic) : List (RoundNo × Nat) :=
  L.scheduled.filterMap (fun ev =>
    match ev.callback with
    | Callback.sendDataInterest r k => some (r, k)
    | _ => none)

/-- Round and digest of every `produceCumulativeOnly` scheduled so far, in order. -/
def emissionCalls (L : Logic) : List (RoundNo × Option Buffer) :=
  L.scheduled.filterMap (fun ev =>
    match ev.callback with
    | Callback.produceCumulativeOnly r cd => some (r, cd)
    | _ => none)

end Logic

/-- A SyncInterest name of the sync prefix /1 for round 2^64 - 1. -/
def exampleMaxSyncName : Name :=
  [[1], Logic.SYNC_INTEREST_COMPONENT, ndn.componentFromNumber 18446744073709551615, [9, 9]]

/-- The name of the data interest of round 2 under the sync prefix /1. -/
def exampleInterestName2 : Name := [[1], Logic.DATA_INTEREST_COMPONENT, [2]]

/-- The name of the data interest of round 5 under the sync prefix /1. -/
def exampleInterestName5 : Name := [[1], Logic.DATA_INTEREST_COMPONENT, [5]]

/-- A run of the example node in which its own data interest of round 1 times out five
times, so that a cumulative-only emission is scheduled (event 4), and the emission fires
before any stabilisation: the sentinel leaf is stored under round 1. -/
def exampleEmissionRun : List Event :=
  [Event.timer 1, Event.dataInterestTimeout exampleInterestName 1,
   Event.dataInterestTimeout exampleInterestName 1,
   Event.dataInterestTimeout exampleInterestName 1,
   Event.dataInterestTimeout exampleInterestName 1,
   Event.dataInterestTimeout exampleInterestName 1, Event.timer 4]

/-- A CumulativeOnly payload whose user prefix is the session name /2/7 of the example
node itself. -/
def exampleOwnCumulativeOnly : Block :=
  (DataContent.new [[2], [7]] 5 (some [4, 4]) none 0).wireEncode.2

/-- A run of the example node: it asks for round 1, gets the CumulativeOnly payload of the
peer /3/9 as the data of round 1 (and moves to round 2), asks for round 2, stabilises
round 1 (event 6), and then its data interest of round 2 times out five times. -/
def exampleSentinelRun : List Event :=
  [Event.timer 1, Event.data exampleDataName1 exampleCumulativeOnly true,
   Event.timer 5, Event.timer 6,
   Event.dataInterestTimeout exampleInterestName2 1,
   Event.dataInterestTimeout exampleInterestName2 1,
   Event.dataInterestTimeout exampleInterestName2 1,
   Event.dataInterestTimeout exampleInterestName2 1,
   Event.dataInterestTimeout exampleInterestName2 1]
/-! ## Runs without overflow of a round number -/

namespace Logic

/-- A step that leaves the identity of the node and the three round markers of
stabilisation (`m_stableRound`, `m_stabilizingRound`, `m_lastRecoveryRound`) as they
are. -/
def Steady (L M : Logic) : Prop :=
  M.sessionName = L.sessionName ∧ M.stableRound = L.stableRound ∧
  M.stabilizingRound = L.stabilizingRound ∧ M.lastRecoveryRound = L.lastRecoveryRound

/-- A step in which no round number overflows 64 bits: the current round does not go
down, and the current round and the round of the last recovery are `uint64_t` values. -/
def NoWrap (L M : Logic) : Prop :=
  L.currentRound ≤ M.currentRound ∧ M.currentRound < uint64Size ∧
  M.lastRecoveryRound < uint64Size

/-- The states a node can be in when no round number has overflowed: the state the
constructor leaves, and every state in which a handler returns when it was started in
such a state and its step is one without overflow. -/
inductive ReachableNoWrap (E : Env) : Logic → Prop where
  | init (syncPrefix defaultUserPrefix : Name) (hasValidator : Bool) (timestamp : Nat) :
      ReachableNoWrap E (Logic.new syncPrefix defaultUserPrefix hasValidator timestamp)
  | step (L : Logic) (ev : Event) :
      ReachableNoWrap E L → (step E L ev).thrown = none → NoWrap L (step E L ev).logic →
      ReachableNoWrap E (step E L ev).logic

/-- The ordering of the round markers, and what is known of the round of the last
recovery while no round is stable. -/
def RoundsOrdered (L : Logic) : Prop :=
  1 ≤ L.currentRound ∧ L.currentRound < uint64Size ∧
  L.stableRound ≤ L.stabilizingRound ∧ L.stabilizingRound ≤ L.currentRound ∧
  (L.stableRound = 0 → L.lastRecoveryRound = 0 ∨ L.stabilizingRound = L.lastRecoveryRound)

end Logic

/-- A CumulativeOnly payload of the peer session /3/9 for cumulative round 1, with a
digest that is not the one of the example node. -/
def exampleCumulativeOnly1 : Block :=
  (DataContent.new [[3], [9]] 1 (some [4, 4]) none 0).wireEncode.2

/-- A recovery reply of the peer /3 that names round 2^64 - 1. -/
def exampleMaxRecoData : Block :=
  (RecoData.new 18446744073709551615 (some exampleDiff) 0).wireEncode.2

/-- A run of the example node: it asks for round 1, stabilises round 1 (event 2), gets a
CumulativeOnly of round 2 whose digest for round 1 is not its own and asks the peer /3
for recovery (event 5); the reply names round 2^64 - 1, so the current round wraps to 0;
the node publishes, and its stabilisation timer fires twice (events 9 and 13). -/
def exampleWrapRun : List Event :=
  [Event.timer 1, Event.timer 2, Event.data exampleDataName2 exampleCumulativeOnly1 true,
   Event.timer 5, Event.recoData exampleRecoName exampleMaxRecoData true,
   Event.updateSeqNo 1, Event.timer 9, Event.timer 13]
/-! ## What keeps the payloads of the node well-formed -/

/-- The cumulative info of a DiffState, if it has one, carries a digest. -/
def DiffState.InfoOk (d : DiffState) : Prop :=
  ∀ info : CumulativeInfo, d.cumulativeInfo = some info → info.2 ≠ none

/-- A scheduled event that is a CumulativeOnly emission carries a digest. -/
def ScheduledEvent.EmitsOk (ev : ScheduledEvent) : Prop :=
  ∀ R cd, ev.callback = Callback.produceCumulativeOnly R cd → cd ≠ none

/-- The entries of the rounds up to `s` are still in the second log, with their leaves and
their cumulative digests. -/
def DiffStateContainer.Frozen (s : RoundNo) (log log2 : List DiffState) : Prop :=
  ∀ r, r ≤ s → ∀ d, DiffStateContainer.find log r = some d →
    ∃ d2, DiffStateContainer.find log2 r = some d2 ∧ d2.leaves = d.leaves ∧
      d2.cumulativeDigest = d.cumulativeDigest

namespace Logic

/-- Every entry of `m_log` that has a cumulative info has a digest in it. -/
def InfoOk (L : Logic) : Prop := ∀ d, d ∈ L.log → d.InfoOk

/-- Every CumulativeOnly emission scheduled so far carries a digest. -/
def SchedOk (L : Logic) : Prop := ∀ ev, ev ∈ L.scheduled → ev.EmitsOk

/-- If a round is stable, the log has its entry, and the entry has a cumulative digest. -/
def StableOk (L : Logic) : Prop :=
  L.stableRound ≠ 0 →
    ∃ d, DiffStateContainer.find L.log L.stableRound = some d ∧ d.cumulativeDigest ≠ none

/-- A step that leaves the stable round as it is, keeps the entries of the rounds up to it,
and ends with cumulative infos that carry a digest. -/
def Tame (L M : Logic) : Prop :=
  M.stableRound = L.stableRound ∧
  DiffStateContainer.Frozen L.stableRound L.log M.log ∧ M.InfoOk

/-- What makes every payload that the node builds well-formed: the session name is not
empty, cumulative infos and scheduled emissions carry a digest, and the entry of the
stable round has its cumulative digest. -/
def Sendable (L : Logic) : Prop :=
  L.sessionName ≠ [] ∧ L.InfoOk ∧ L.StableOk ∧ L.SchedOk

end Logic
/-! ## The cumulative chain -/

/-- The rounds up to `s` that have no entry in the first log have none in the second. -/
def DiffStateContainer.NoNew (s : RoundNo) (log log2 : List DiffState) : Prop :=
  ∀ q, q ≤ s → DiffStateContainer.find log q = none → DiffStateContainer.find log2 q = none

/-- The diff that a log holds for round `q`: what `getState()` of the entry returns, and
an empty State if the log has no entry of the round. -/
def diffAt (log : List DiffState) (q : RoundNo) : State :=
  match DiffStateContainer.find log q with
  | some d => d.getState
  | none => State.empty

/-- Spec: the cumulative state of round `r` is what an empty State becomes when the diffs
of the rounds 1, ..., `r` are merged into it in this order; the cumulative digest of
round `r` is its digest. -/
def cumulativeChain (log : List DiffState) : Nat → State
  | 0 => State.empty.reset
  | r + 1 => (cumulativeChain log r).merge (diffAt log (r + 1))

namespace Logic

/-- A step that leaves `m_oldState` as it is and gives no entry to a round up to the
stable round that had none. -/
def Calm (L M : Logic) : Prop :=
  M.stableRound = L.stableRound ∧ M.oldState = L.oldState ∧
  DiffStateContainer.NoNew L.stableRound L.log M.log

/-- The old state is the cumulative state of the stable round, and every entry of a
round from 1 to the stable round has the digest of the cumulative state of its round. -/
def Chained (H : Digests) (L : Logic) : Prop :=
  L.oldState = cumulativeChain L.log L.stableRound ∧
  ∀ r d, 1 ≤ r → r ≤ L.stableRound → DiffStateContainer.find L.log r = some d →
    d.cumulativeDigest = some ((cumulativeChain L.log r).getDigest H)

end Logic
/-! ## Round digests and the diffs they stand for -/

namespace Logic

end Logic

/-- The response name of the sync prefix /1 for a DataInterest of round 3. -/
def exampleDataName3 : Name := [[1], Logic.DATA_INTEREST_COMPONENT, [3], [0]]

/-- The response name of the sync prefix /1 for a DataInterest of round `R`. -/
def exampleDataNameOf (R : RoundNo) : Name :=
  [[1], Logic.DATA_INTEREST_COMPONENT, ndn.componentFromNumber R, [0]]

/-- A payload of type CumulativeOnly (129) that carries neither a CumulativeInfo nor a
State. -/
def exampleBareCumulativeOnly : Block := Block.elems tlv.CumulativeOnly []

/-- A DataOnly payload whose State holds a leaf whose SeqNo element is three octets of
raw value, which `readNonNegativeInteger` refuses with a `tlv::Error`. -/
def exampleBadSeqNo : Block :=
  Block.elems tlv.DataOnly
    [Block.elems tlv.State
      [Block.elems tlv.StateLeaf [Layout.name [[7]], Block.raw tlv.SeqNo [1, 2, 3]]]]

/-- A CumulativeOnly payload of the session /6/1: the cumulative digest [2, 7, 1] for
round 2. -/
def exampleLateCumulativeOnly : Block :=
  (DataContent.new [[6], [1]] 2 (some [2, 7, 1]) none 0).wireEncode.2

namespace Logic

/-- Round and digest of every `produceCumulativeOnly` that is scheduled and has neither
fired nor been cancelled. -/
def pendingEmissions (L : Logic) : List (RoundNo × Option Buffer) :=
  L.scheduled.filterMap (fun ev =>
    if ev.id ∈ L.cancelled ∨ ev.id ∈ L.fired then none
    else
      match ev.callback with
      | Callback.produceCumulativeOnly r cd => some (r, cd)
      | _ => none)

/-- The pending ids that the node has removed from the face. -/
def removedInterests (L : Logic) : List Nat :=
  L.actions.filterMap (fun a =>
    match a with
    | Action.removePendingInterest pid => some pid
    | _ => none)

/-- Pending id and name of every DataInterest that the node has expressed and not
removed from the face. -/
def expressedDataInterests (L : Logic) : List (Nat × Name) :=
  L.actions.filterMap (fun a =>
    match a with
    | Action.expressInterest pid n _ (InterestKind.data _) =>
      if pid ∈ L.removedInterests then none else some (pid, n)
    | _ => none)

end Logic

/-- The name of the DataInterest whose timeout the event delivers, if it delivers one. -/
def Event.timedOutName : Event → Option Name
  | Event.dataInterestTimeout n _ => some n
  | _ => none

/-- A run of the example node, constructed with a DataInterest lifetime of 60 s, that
leaves a fired emission in the registry of scheduled emissions.  At 0 s the node expresses its
DataInterest of round 1 (event 1).  At 0.1 s and 0.2 s it publishes; each time the events
of delay 0 fire at once (SyncInterest of the round, DataInterests of the round left and of
the new round), and the two SyncInterests time out a second later.  At 5 s and 10 s the
stabilisation timer fires (events 2 and 12): the rounds 1 and 2 are stable.  At 10.5 s it
receives, as Data of its pending DataInterest of round 3, the CumulativeOnly of the peer
/3/9 with the digest [4, 4] for round 1, which is not its own: it starts a recovery with
/3 and schedules the emission of its own digest [2, 7, 1] of round 1 (event 15,
registered under the digest), and moves to round 4; the events of delay 0 fire.  At
10.6 s the emission fires and moves the node to round 5; the events of delay 0 fire, so
the DataInterest of round 5 is pending. -/
def exampleStaleRun : List Event :=
  [Event.timer 1, Event.updateSeqNo 1, Event.timer 4, Event.timer 5, Event.timer 6,
   Event.updateSeqNo 2, Event.timer 8, Event.timer 9, Event.timer 10,
   Event.syncInterestTimeout, Event.syncInterestTimeout, Event.timer 2, Event.timer 12,
   Event.data exampleDataName3 exampleCumulativeOnly1 true,
   Event.timer 14, Event.timer 16, Event.timer 17, Event.timer 15,
   Event.timer 20, Event.timer 21]

/-- A run of the example node, constructed with the default lifetimes of 1 s, with two
timeouts of a past round and four of the current round.  At 0 s the node expresses its
DataInterest of round 1 (event 1).  At 0.5 s it publishes and moves to round 2; the events
of delay 0 fire at once: the SyncInterest of round 1 (event 4), the DataInterest of round
1 once more (event 5) and the DataInterest of round 2 (event 6).  At 1 s the first
DataInterest of round 1 times out, at 1.5 s the SyncInterest, the second DataInterest of
round 1 and the DataInterest of round 2.  The DataInterest of round 2 is expressed again
a lifetime and a jitter of 0.1 s to 0.5 s after each expression (events 7, 8 and 9) and
times out a lifetime later, near 2.7 s, 3.9 s and, after the stabilisation timer has
fired at 5 s (event 2), 5.1 s. -/
def exampleMixedTimeoutRun : List Event :=
  [Event.timer 1, Event.updateSeqNo 1, Event.timer 4, Event.timer 5, Event.timer 6,
   Event.dataInterestTimeout exampleInterestName 1, Event.syncInterestTimeout,
   Event.dataInterestTimeout exampleInterestName 1,
   Event.dataInterestTimeout exampleInterestName2 1, Event.timer 7,
   Event.dataInterestTimeout exampleInterestName2 1, Event.timer 8,
   Event.dataInterestTimeout exampleInterestName2 1, Event.timer 9,
   Event.timer 2,
   Event.dataInterestTimeout exampleInterestName2 1]
/-! ## Properties of the leaf container and of State -/

namespace LeafContainer

theorem find_nil (m : Name) : find [] m = none := rfl

theorem find_cons (l : Leaf) (ls : List Leaf) (m : Name) :
    find (l :: ls) m = if l.sessionName = m then some l else find ls m := by
  unfold find
  by_cases h : l.sessionName = m <;> simp [List.find?_cons, h]

theorem find_some_name {ls : List Leaf} {m : Name} {l : Leaf} (h : find ls m = some l) :
    l.sessionName = m := by
  unfold find at h
  have := List.find?_some h
  simpa using this

theorem find_some_mem {ls : List Leaf} {m : Name} {l : Leaf} (h : find ls m = some l) :
    l ∈ ls := by
  unfold find at h
  exact List.mem_of_find?_eq_some h

theorem find_eq_none_iff {ls : List Leaf} {m : Name} :
    find ls m = none ↔ m ∉ ls.map Leaf.sessionName := by
  induction ls with
  | nil => simp [find_nil]
  | cons l ls ih =>
    rw [find_cons]
    by_cases h : l.sessionName = m
    · simp [h]
    · simp only [h, if_false, ih, List.map_cons, List.mem_cons, not_or]
      constructor
      · intro h2; exact ⟨fun e => h e.symm, h2⟩
      · intro h2; exact h2.2

theorem find_append_singleton (ls : List Leaf) (l : Leaf) (m : Name) :
    find (ls ++ [l]) m =
      match find ls m with
      | some x => some x
      | none => if l.sessionName = m then some l else none := by
  induction ls with
  | nil => simp [find_nil, find_cons]
  | cons a ls ih =>
    simp only [List.cons_append, find_cons]
    by_cases h : a.sessionName = m
    · simp [h]
    · simp [h, ih]

theorem find_modify (ls : List Leaf) (n m : Name) (q : SeqNo) :
    find (modify ls n q) m =
      if m = n then (find ls n).map (fun l => { l with seq := q }) else find ls m := by
  induction ls with
  | nil => simp [modify, find_nil]
  | cons a ls ih =>
    simp only [modify]
    by_cases h : a.sessionName = n
    · subst h
      simp only [if_true, find_cons]
      by_cases hm : m = a.sessionName
      · simp [hm]
      · have : ¬ a.sessionName = m := fun e => hm e.symm
        simp [hm, this]
    · simp only [h, if_false, find_cons, ih]
      by_cases hm : m = n
      · subst hm; simp [h]
      · simp [hm]

theorem map_name_modify (ls : List Leaf) (n : Name) (q : SeqNo) :
    (modify ls n q).map Leaf.sessionName = ls.map Leaf.sessionName := by
  induction ls with
  | nil => rfl
  | cons a ls ih =>
    simp only [modify]
    by_cases h : a.sessionName = n
    · simp [h]
    · simp [h, ih]

end LeafContainer

namespace State

theorem getSeqNo_eq (s : State) (m : Name) : s.getSeqNo m = (s.lookup m).getD 0 := by
  unfold getSeqNo lookup
  cases LeafContainer.find s.leaves m <;> rfl

/-- The mapping after `update`: only `n` changes, to the larger of old and new. -/
theorem lookup_update (s : State) (n : Name) (q : SeqNo) (m : Name) :
    (s.update n q).1.lookup m =
      if m = n then
        some (match s.lookup n with
              | none => q
              | some c => max c q)
      else s.lookup m := by
  unfold update lookup
  cases hf : LeafContainer.find s.leaves n with
  | none =>
    have hins : LeafContainer.insert s.leaves { sessionName := n, seq := q } =
        s.leaves ++ [{ sessionName := n, seq := q }] := by
      simp [LeafContainer.insert, hf]
    simp only [hins, LeafContainer.find_append_singleton, Option.map]
    by_cases hm : m = n
    · subst hm; simp [hf]
    · have : ¬ n = m := fun e => hm e.symm
      simp only [hm, if_false, this]
      cases LeafContainer.find s.leaves m <;> rfl
  | some leaf =>
    simp only [Option.map]
    by_cases hc : leaf.seq = q ∨ q < leaf.seq
    · simp only [hc, if_true]
      by_cases hm : m = n
      · subst hm
        have : max leaf.seq q = leaf.seq := by
          rcases hc with h | h
          · simp [h]
          · exact max_eq_left (Nat.le_of_lt h)
        simp [hf, this]
      · simp [hm]
    · simp only [hc, if_false, LeafContainer.find_modify]
      by_cases hm : m = n
      · subst hm
        have : max leaf.seq q = q := by
          apply max_eq_right
          by_contra h
          exact hc (Or.inr (Nat.lt_of_not_le h))
        simp [hf, this]
      · simp [hm]

theorem update_WF (s : State) (n : Name) (q : SeqNo) (h : s.WF) : (s.update n q).1.WF := by
  unfold update
  cases hf : LeafContainer.find s.leaves n with
  | none =>
    have hnot := LeafContainer.find_eq_none_iff.mp hf
    simp only [LeafContainer.insert, hf, WF, List.map_append, List.map_cons, List.map_nil]
    exact List.Nodup.append h (List.nodup_singleton _) (by
      simpa [List.disjoint_singleton] using hnot)
  | some leaf =>
    by_cases hc : leaf.seq = q ∨ q < leaf.seq
    · simpa [hc] using h
    · simp only [hc, if_false, WF, LeafContainer.map_name_modify]
      exact h

theorem getSeqNo_update_le (s : State) (n : Name) (q : SeqNo) (m : Name) :
    s.getSeqNo m ≤ (s.update n q).1.getSeqNo m := by
  rw [getSeqNo_eq, getSeqNo_eq, lookup_update]
  by_cases hm : m = n
  · subst hm
    cases s.lookup m <;> simp
  · simp [hm]

theorem merge_nil (s : State) : s.merge { leaves := [] } = s := rfl

theorem merge_cons (s : State) (l : Leaf) (ls : List Leaf) :
    s.merge { leaves := l :: ls } = ((s.update l.sessionName l.seq).1).merge { leaves := ls } := rfl

theorem merge_WF (s t : State) (h : s.WF) : (s.merge t).WF := by
  obtain ⟨ls⟩ := t
  induction ls generalizing s with
  | nil => exact h
  | cons l ls ih => rw [merge_cons]; exact ih _ (update_WF s _ _ h)

theorem getSeqNo_merge_le (s t : State) (m : Name) : s.getSeqNo m ≤ (s.merge t).getSeqNo m := by
  obtain ⟨ls⟩ := t
  induction ls generalizing s with
  | nil => exact le_refl _
  | cons l ls ih =>
    rw [merge_cons]
    exact le_trans (getSeqNo_update_le s _ _ m) (ih _)

end State

namespace LeafContainer

theorem find_of_mem {ls : List Leaf} (hnd : (ls.map Leaf.sessionName).Nodup) {l : Leaf}
    (hl : l ∈ ls) : find ls l.sessionName = some l := by
  induction ls with
  | nil => cases hl
  | cons a ls ih =>
    rw [List.map_cons, List.nodup_cons] at hnd
    rw [find_cons]
    by_cases h : a.sessionName = l.sessionName
    · rcases List.mem_cons.mp hl with e | hmem
      · simp [e]
      · exact absurd (h ▸ List.mem_map_of_mem Leaf.sessionName hmem) hnd.1
    · rcases List.mem_cons.mp hl with e | hmem
      · exact absurd (e ▸ rfl) h
      · simp only [h, if_false]; exact ih hnd.2 hmem

theorem ordered_perm (ls : List Leaf) : (ordered ls).Perm ls :=
  List.perm_insertionSort _ ls

theorem ordered_sorted_le (ls : List Leaf) :
    (ordered ls).Sorted (fun a b => a.sessionName ≤ b.sessionName) := by
  haveI : IsTotal Leaf (fun a b => a.sessionName ≤ b.sessionName) :=
    ⟨fun a b => le_total a.sessionName b.sessionName⟩
  haveI : IsTrans Leaf (fun a b => a.sessionName ≤ b.sessionName) :=
    ⟨fun _ _ _ h1 h2 => le_trans h1 h2⟩
  exact List.sorted_insertionSort _ ls

/-- With unique names the ordered view is strictly ascending. -/
theorem ordered_sorted_lt {ls : List Leaf} (hnd : (ls.map Leaf.sessionName).Nodup) :
    (ordered ls).Sorted (fun a b => a.sessionName < b.sessionName) := by
  have hnd2 : ((ordered ls).map Leaf.sessionName).Nodup :=
    ((ordered_perm ls).map Leaf.sessionName).nodup_iff.mpr hnd
  have hne : (ordered ls).Pairwise (fun a b => a.sessionName ≠ b.sessionName) :=
    (List.pairwise_map).mp hnd2
  have hle := ordered_sorted_le ls
  exact (List.Pairwise.and hle hne).imp (fun h => lt_of_le_of_ne h.1 h.2)

/-- Two containers with unique names and equal mappings have equal ordered views. -/
theorem ordered_eq_of_find_eq {l₁ l₂ : List Leaf}
    (h₁ : (l₁.map Leaf.sessionName).Nodup) (h₂ : (l₂.map Leaf.sessionName).Nodup)
    (h : ∀ n, find l₁ n = find l₂ n) : ordered l₁ = ordered l₂ := by
  have hmem : ∀ a, a ∈ l₁ ↔ a ∈ l₂ := by
    intro a
    constructor
    · intro ha
      have := find_of_mem h₁ ha
      rw [h] at this
      exact find_some_mem this
    · intro ha
      have := find_of_mem h₂ ha
      rw [← h] at this
      exact find_some_mem this
  have hperm : l₁.Perm l₂ :=
    (List.perm_ext_iff_of_nodup (List.Nodup.of_map _ h₁) (List.Nodup.of_map _ h₂)).mpr hmem
  have hp : (ordered l₁).Perm (ordered l₂) :=
    ((ordered_perm l₁).trans hperm).trans (ordered_perm l₂).symm
  haveI : IsAntisymm Leaf (fun a b => a.sessionName < b.sessionName) :=
    ⟨fun _ _ h1 h2 => absurd h2 (lt_asymm h1)⟩
  exact List.eq_of_perm_of_sorted hp (ordered_sorted_lt h₁) (ordered_sorted_lt h₂)

end LeafContainer

namespace State

theorem lookup_cons (l : Leaf) (ls : List Leaf) (m : Name) :
    lookup { leaves := l :: ls } m =
      if l.sessionName = m then some l.seq else lookup { leaves := ls } m := by
  unfold lookup
  rw [LeafContainer.find_cons]
  by_cases h : l.sessionName = m <;> simp [h]

theorem lookup_eq_none_of_not_mem {ls : List Leaf} {m : Name}
    (h : m ∉ ls.map Leaf.sessionName) : lookup { leaves := ls } m = none := by
  unfold lookup
  rw [LeafContainer.find_eq_none_iff.mpr h]; rfl

theorem lookup_merge (s t : State) (ht : t.WF) (n : Name) :
    (s.merge t).lookup n = mergedSeqNo s t n := by
  obtain ⟨ls⟩ := t
  induction ls generalizing s with
  | nil =>
    simp only [merge_nil, mergedSeqNo, getSeqNo_eq]
    have : lookup { leaves := [] } n = none := rfl
    rw [this]
    cases s.lookup n <;> simp
  | cons l ls ih =>
    have hnd : l.sessionName ∉ ls.map Leaf.sessionName ∧ (ls.map Leaf.sessionName).Nodup := by
      simpa [WF] using ht
    rw [merge_cons, ih _ hnd.2]
    simp only [mergedSeqNo, getSeqNo_eq, lookup_update, lookup_cons]
    by_cases hn : n = l.sessionName
    · subst hn
      rw [lookup_eq_none_of_not_mem hnd.1]
      cases s.lookup l.sessionName <;> simp
    · have hn2 : ¬ l.sessionName = n := fun e => hn e.symm
      simp only [hn, hn2, if_false]

theorem lookup_merge_ge (s t : State) (n : Name) (c : SeqNo) (h : s.lookup n = some c) :
    ∃ c2, (s.merge t).lookup n = some c2 ∧ c ≤ c2 := by
  obtain ⟨ls⟩ := t
  induction ls generalizing s c with
  | nil => exact ⟨c, h, le_refl _⟩
  | cons l ls ih =>
    rw [merge_cons]
    have hu := lookup_update s l.sessionName l.seq n
    by_cases hn : n = l.sessionName
    · subst hn
      rw [h] at hu
      simp only [if_true] at hu
      obtain ⟨c2, h2, hle⟩ := ih _ _ hu
      exact ⟨c2, h2, le_trans (le_max_left _ _) hle⟩
    · simp only [hn, if_false] at hu
      rw [h] at hu
      exact ih _ _ hu

theorem lookup_merge_covers (s t : State) (l : Leaf) (hl : l ∈ t.leaves) :
    ∃ c, (s.merge t).lookup l.sessionName = some c ∧ l.seq ≤ c := by
  obtain ⟨ls⟩ := t
  induction ls generalizing s with
  | nil => cases hl
  | cons a ls ih =>
    rw [merge_cons]
    rcases List.mem_cons.mp hl with e | hmem
    · subst e
      have hu := lookup_update s l.sessionName l.seq l.sessionName
      simp only [if_true] at hu
      obtain ⟨c2, h2, hle⟩ := lookup_merge_ge _ { leaves := ls } _ _ hu
      refine ⟨c2, h2, le_trans ?_ hle⟩
      cases s.lookup l.sessionName <;> simp
    · exact ih _ hmem

theorem update_eq_self_of_le (s : State) (n : Name) (q c : SeqNo) (h : s.lookup n = some c)
    (hle : q ≤ c) : (s.update n q).1 = s := by
  unfold lookup at h
  unfold update
  cases hf : LeafContainer.find s.leaves n with
  | none => simp [hf] at h
  | some leaf =>
    have hc : leaf.seq = c := by simpa [hf] using h
    have : leaf.seq = q ∨ q < leaf.seq := by
      rw [hc]
      rcases Nat.eq_or_lt_of_le hle with e | e
      · exact Or.inl e.symm
      · exact Or.inr e
    simp [this]

theorem merge_eq_self_of_covers (s : State) (ls : List Leaf)
    (h : ∀ l ∈ ls, ∃ c, s.lookup l.sessionName = some c ∧ l.seq ≤ c) :
    s.merge { leaves := ls } = s := by
  induction ls with
  | nil => rfl
  | cons a ls ih =>
    rw [merge_cons]
    obtain ⟨c, hc, hle⟩ := h a (List.mem_cons_self _ _)
    rw [update_eq_self_of_le s _ _ c hc hle]
    exact ih (fun l hl => h l (List.mem_cons_of_mem _ hl))

theorem find_eq_of_lookup_eq (s t : State) (h : ∀ n, s.lookup n = t.lookup n) (n : Name) :
    LeafContainer.find s.leaves n = LeafContainer.find t.leaves n := by
  have h1 := h n
  unfold lookup at h1
  cases h2 : LeafContainer.find s.leaves n with
  | none =>
    cases h3 : LeafContainer.find t.leaves n with
    | none => rfl
    | some b => simp [h2, h3] at h1
  | some a =>
    cases h3 : LeafContainer.find t.leaves n with
    | none => simp [h2, h3] at h1
    | some b =>
      have hseq : a.seq = b.seq := by simpa [h2, h3] using h1
      have ha := LeafContainer.find_some_name h2
      have hb := LeafContainer.find_some_name h3
      cases a; cases b
      simp only [Leaf.mk.injEq, Option.some.injEq] at *
      exact ⟨ha.trans hb.symm, hseq⟩

theorem ordered_eq_of_lookup_eq (s t : State) (hs : s.WF) (ht : t.WF)
    (h : ∀ n, s.lookup n = t.lookup n) :
    LeafContainer.ordered s.leaves = LeafContainer.ordered t.leaves :=
  LeafContainer.ordered_eq_of_find_eq hs ht (find_eq_of_lookup_eq s t h)

theorem getDigest_eq_of_lookup_eq (H : Digests) (s t : State) (hs : s.WF) (ht : t.WF)
    (h : ∀ n, s.lookup n = t.lookup n) : s.getDigest H = t.getDigest H := by
  unfold getDigest
  rw [ordered_eq_of_lookup_eq s t hs ht h]

end State

/-! ## Encoders produce the specified layout -/

namespace ndn

theorem mapM_componentFromBlock (n : Name) :
    (n.map (Block.raw tlv.NameComponent)).mapM componentFromBlock = some n := by
  induction n with
  | nil => rfl
  | cons c n ih =>
    simp only [List.map_cons, List.mapM_cons, componentFromBlock, if_true, ih]
    rfl

theorem nameWireDecode_name (n : Name) : nameWireDecode (Layout.name n) = some n := by
  simp only [Layout.name, nameWireDecode, if_true]
  exact mapM_componentFromBlock n

theorem prependTypeLength_append (front rest : List Block) (t : Nat) :
    prependTypeLength (front ++ rest) t front.length = Block.elems t front :: rest := by
  simp [prependTypeLength]

end ndn

namespace State

theorem wireEncode_loop (ls : List Leaf) (block : EncodingBuffer) :
    ls.reverse.foldl
      (fun (acc : EncodingBuffer × Nat) leaf =>
        let b1 := ndn.prependNonNegativeIntegerBlock acc.1 tlv.SeqNo leaf.seq
        let b2 := ndn.nameWireEncode leaf.sessionName b1
        let entryLength := 2
        let b3 := ndn.prependTypeLength b2 tlv.StateLeaf entryLength
        (b3, acc.2 + 1))
      (block, 0) = (ls.map Layout.stateLeaf ++ block, ls.length) := by
  induction ls with
  | nil => rfl
  | cons a ls ih =>
    rw [List.reverse_cons, List.foldl_append, ih]
    simp [ndn.prependNonNegativeIntegerBlock, ndn.nameWireEncode, ndn.prependTypeLength,
      Layout.stateLeaf, Layout.name]

theorem wireEncode_eq (s : State) (block : EncodingBuffer) :
    s.wireEncode block =
      ((LeafContainer.ordered s.leaves).map Layout.stateLeaf ++ block,
        (LeafContainer.ordered s.leaves).length) :=
  wireEncode_loop _ block

/-- The State element that the encoders of DataContent and RecoData prepend. -/
theorem prepend_state (s : State) (block : EncodingBuffer) :
    ndn.prependTypeLength (s.wireEncode block).1 tlv.State (0 + (s.wireEncode block).2) =
      Layout.stateSub s :: block := by
  rw [wireEncode_eq]
  simp only [Nat.zero_add]
  have := ndn.prependTypeLength_append ((LeafContainer.ordered s.leaves).map Layout.stateLeaf)
    block tlv.State
  rw [List.length_map] at this
  exact this

theorem take_wireEncode (s : State) :
    List.take (s.wireEncode []).2 (s.wireEncode []).1 =
      (LeafContainer.ordered s.leaves).map Layout.stateLeaf := by
  rw [wireEncode_eq]
  simp

end State

namespace DataContent

/-- Refinement: the block written by `wireEncode` for a freshly constructed value is
`TL(kind) { CumulativeInfo-sub?  State-sub? }`. -/
theorem wireEncode_layout (p : Name) (r : RoundNo) (cd : Option Buffer) (st : Option DiffState)
    (j : Nat) :
    (new p r cd st j).wireEncode.2 =
      Block.elems (new p r cd st j).kind
        ((match cd with
          | some d => [Layout.cumulativeInfoSub p r d]
          | none => []) ++
         (match st with
          | some d => [Layout.stateSub d.toState]
          | none => [])) := by
  cases cd <;> cases st <;>
    simp [wireEncode, new, Block.hasWire, wireEncodeTo, ndn.bufferBlock, State.take_wireEncode,
      Layout.stateSub,
      ndn.prependTypeLength, ndn.componentWireEncode, ndn.prependNonNegativeIntegerBlock,
      ndn.nameWireEncode, Layout.cumulativeInfoSub, Layout.name, kind]

end DataContent

namespace RecoData

/-- Refinement: the block written by `wireEncode` for a freshly constructed value is
`TL(RecoveryData) { TL(RoundNo){varint}, State-sub? }`. -/
theorem wireEncode_recoLayout (r : RoundNo) (st : Option DiffState) (j : Nat) :
    (new r st j).wireEncode.2 =
      Block.elems tlv.RecoveryData
        (Block.num tlv.RoundNo r ::
         (match st with
          | some d => [Layout.stateSub d.toState]
          | none => [])) := by
  cases st <;>
    simp [wireEncode, new, Block.hasWire, wireEncodeTo, ndn.bufferBlock, State.take_wireEncode,
      Layout.stateSub,
      ndn.prependTypeLength, ndn.prependNonNegativeIntegerBlock]

end RecoData

/-! ## Decoding what the encoders wrote -/

namespace LeafContainer

theorem find_ordered {ls : List Leaf} (hnd : (ls.map Leaf.sessionName).Nodup) (n : Name) :
    find (ordered ls) n = find ls n := by
  have hnd2 : ((ordered ls).map Leaf.sessionName).Nodup :=
    ((ordered_perm ls).map Leaf.sessionName).nodup_iff.mpr hnd
  cases h : find ls n with
  | none =>
    rw [find_eq_none_iff] at h ⊢
    intro hmem
    exact h (((ordered_perm ls).map Leaf.sessionName).mem_iff.mp hmem)
  | some l =>
    have hn := find_some_name h
    have hmem : l ∈ ordered ls := (ordered_perm ls).mem_iff.mpr (find_some_mem h)
    have := find_of_mem hnd2 hmem
    rw [hn] at this
    exact this

end LeafContainer

namespace State

theorem decodeLeaves_layout (s : State) (ls : List Leaf) :
    decodeLeaves s (ls.map Layout.stateLeaf) = (s.merge { leaves := ls }, none) := by
  induction ls generalizing s with
  | nil => rfl
  | cons a ls ih =>
    rw [List.map_cons, merge_cons, ← ih]
    simp only [decodeLeaves, Layout.stateLeaf, Block.type, Block.parse, if_true,
      ndn.nameWireDecode_name, ndn.readNonNegativeInteger]

theorem wireDecode_stateSub (s0 s : State) :
    s0.wireDecode (Layout.stateSub s) =
      (s0.merge { leaves := LeafContainer.ordered s.leaves }, none) := by
  simp [wireDecode, Layout.stateSub, Block.hasWire, Block.type, Block.parse,
    decodeLeaves_layout]

theorem merge_append_of_nodup (pre ls : List Leaf)
    (hnd : ((pre ++ ls).map Leaf.sessionName).Nodup) :
    merge { leaves := pre } { leaves := ls } = { leaves := pre ++ ls } := by
  induction ls generalizing pre with
  | nil => simp [merge_nil]
  | cons a ls ih =>
    rw [merge_cons]
    have hnot : a.sessionName ∉ pre.map Leaf.sessionName := by
      intro hmem
      rw [List.map_append, List.map_cons] at hnd
      have hd := List.disjoint_of_nodup_append hnd
      exact hd hmem (List.mem_cons_self _ _)
    have hf := LeafContainer.find_eq_none_iff.mpr hnot
    have hu : (update { leaves := pre } a.sessionName a.seq).1 = { leaves := pre ++ [a] } := by
      simp [update, hf, LeafContainer.insert]
    rw [hu]
    have hnd2 : (((pre ++ [a]) ++ ls).map Leaf.sessionName).Nodup := by
      simpa using hnd
    rw [ih (pre ++ [a]) hnd2]
    simp

/-- Decoding a State element into an empty State yields the leaves in canonical order. -/
theorem wireDecode_stateSub_empty (s : State) (hs : s.WF) :
    State.empty.wireDecode (Layout.stateSub s) =
      ({ leaves := LeafContainer.ordered s.leaves }, none) := by
  rw [wireDecode_stateSub]
  have hnd : (([] ++ LeafContainer.ordered s.leaves).map Leaf.sessionName).Nodup := by
    rw [List.nil_append]
    exact ((LeafContainer.ordered_perm s.leaves).map Leaf.sessionName).nodup_iff.mpr hs
  have := merge_append_of_nodup [] (LeafContainer.ordered s.leaves) hnd
  rw [List.nil_append] at this
  unfold State.empty
  rw [this]

theorem lookup_ordered (s : State) (hs : s.WF) (n : Name) :
    lookup { leaves := LeafContainer.ordered s.leaves } n = s.lookup n := by
  unfold lookup
  rw [LeafContainer.find_ordered hs]

end State

namespace DiffState

theorem wireDecode_stateSub_fresh (s : State) (hs : s.WF) :
    DiffState.fresh.wireDecode (Layout.stateSub s) =
      ({ DiffState.fresh with leaves := LeafContainer.ordered s.leaves }, none) := by
  unfold wireDecode
  have h : DiffState.fresh.toState = State.empty := rfl
  rw [h, State.wireDecode_stateSub_empty s hs]

end DiffState

/-! ## The claims about State -/

/-- C1: `State.update(n, q)` returns (true, false, 0) when `n` is absent, (false, false, 0)
when `n` is present with sequence number `c` and `q ≤ c`, and (false, true, c) when `n` is
present with sequence number `c` and `q > c`. -/
theorem State.update_result (s : State) (n : Name) (q : SeqNo) :
    (s.lookup n = none → (s.update n q).2 = (true, false, 0)) ∧
    (∀ c, s.lookup n = some c → q ≤ c → (s.update n q).2 = (false, false, 0)) ∧
    (∀ c, s.lookup n = some c → c < q → (s.update n q).2 = (false, true, c)) := by
  unfold State.lookup State.update
  cases hf : LeafContainer.find s.leaves n with
  | none => simp
  | some leaf =>
    refine ⟨by simp, ?_, ?_⟩
    · intro c hc hle
      have hc2 : leaf.seq = c := by simpa using hc
      have : leaf.seq = q ∨ q < leaf.seq := by
        rw [hc2]
        rcases Nat.eq_or_lt_of_le hle with e | e
        · exact Or.inl e.symm
        · exact Or.inr e
      simp [this]
    · intro c hc hlt
      have hc2 : leaf.seq = c := by simpa using hc
      have : ¬ (c = q ∨ q < c) := by
        rintro (e | e)
        · exact absurd e (Nat.ne_of_lt hlt)
        · exact absurd e (Nat.lt_asymm hlt)
      simp [this, hc2]

/-- Witness of C1: the three cases on the State {/1 ↦ 5}. -/
theorem State.update_result_witness :
    (exampleState.update [[2]] 3).2 = (true, false, 0) ∧
    (exampleState.update [[1]] 4).2 = (false, false, 0) ∧
    (exampleState.update [[1]] 9).2 = (false, true, 5) :=
  ⟨(State.update_result exampleState [[2]] 3).1 (by decide),
   (State.update_result exampleState [[1]] 4).2.1 5 (by decide) (by decide),
   (State.update_result exampleState [[1]] 9).2.2 5 (by decide) (by decide)⟩

/-- C2 as stated fails: `reset` takes the sequence number of /1 from 5 back to 0. -/
theorem State.getSeqNo_not_monotone_under_reset :
    ¬ (exampleState.getSeqNo [[1]] ≤
        (StateOp.run exampleState [StateOp.reset]).getSeqNo [[1]]) := by
  decide

/-- C2, amended: over every sequence of `update` and `+=` operations `getSeqNo(n)` is
non-decreasing for every name `n`; `reset` returns it to 0. -/
theorem State.getSeqNo_monotone (s : State) (ops : List StateOp) (n : Name)
    (h : ∀ op ∈ ops, op.isReset = false) :
    s.getSeqNo n ≤ (StateOp.run s ops).getSeqNo n ∧ s.reset.getSeqNo n = 0 := by
  refine ⟨?_, rfl⟩
  induction ops generalizing s with
  | nil => exact le_refl _
  | cons op ops ih =>
    have hop := h op (List.mem_cons_self _ _)
    have hrest : ∀ o ∈ ops, o.isReset = false := fun o ho => h o (List.mem_cons_of_mem _ ho)
    have hstep : s.getSeqNo n ≤ (StateOp.apply s op).getSeqNo n := by
      cases op with
      | update info seq => exact State.getSeqNo_update_le s info seq n
      | merge other => exact State.getSeqNo_merge_le s other n
      | reset => simp [StateOp.isReset] at hop
    exact le_trans hstep (ih (StateOp.apply s op) hrest)

/-- Witness of C2 (amended): an update below, an update above and a merge. -/
theorem State.getSeqNo_monotone_witness :
    exampleState.getSeqNo [[1]] ≤
        (StateOp.run exampleState
          [StateOp.update [[1]] 2, StateOp.update [[1]] 8, StateOp.merge exampleOther]).getSeqNo
          [[1]] ∧
      exampleState.reset.getSeqNo [[1]] = 0 :=
  State.getSeqNo_monotone exampleState
    [StateOp.update [[1]] 2, StateOp.update [[1]] 8, StateOp.merge exampleOther] [[1]]
    (by decide)

/-- C3: after `s += t` every name present in either State has the larger of the two
sequence numbers, a name present in neither stays absent, and the digest equals the
digest of any State that holds this merged mapping. -/
theorem State.merge_correct (H : Digests) (s t : State) (hs : s.WF) (ht : t.WF) :
    (∀ n, (s.lookup n).isSome ∨ (t.lookup n).isSome →
      (s.merge t).lookup n = some (max (s.getSeqNo n) (t.getSeqNo n))) ∧
    (∀ n, s.lookup n = none → t.lookup n = none → (s.merge t).lookup n = none) ∧
    (∀ u : State, u.WF → (∀ n, u.lookup n = State.mergedSeqNo s t n) →
      (s.merge t).getDigest H = u.getDigest H) := by
  refine ⟨?_, ?_, ?_⟩
  · intro n hn
    rw [State.lookup_merge s t ht, State.mergedSeqNo]
    have : ((s.lookup n).isSome || (t.lookup n).isSome) = true := by
      rcases hn with h | h <;> simp [h]
    simp [this]
  · intro n h1 h2
    rw [State.lookup_merge s t ht, State.mergedSeqNo]
    simp [h1, h2]
  · intro u hu hmap
    apply State.getDigest_eq_of_lookup_eq H _ _ (State.merge_WF s t hs) hu
    intro n
    rw [State.lookup_merge s t ht, hmap]

/-- Witness of C3: {/1 ↦ 5} += {/2 ↦ 7, /1 ↦ 3}. -/
theorem State.merge_correct_witness :
    (exampleState.merge exampleOther).lookup [[1]] = some 5 ∧
    (exampleState.merge exampleOther).lookup [[2]] = some 7 ∧
    (exampleState.merge exampleOther).lookup [[3]] = none ∧
    (exampleState.merge exampleOther).getDigest exampleDigests =
      exampleMerged.getDigest exampleDigests :=
  have h := State.merge_correct exampleDigests exampleState exampleOther (by decide) (by decide)
  ⟨h.1 [[1]] (by decide), h.1 [[2]] (by decide), h.2.1 [[3]] (by decide) (by decide),
   h.2.2 exampleMerged (by decide) (by
     intro n
     unfold State.mergedSeqNo State.getSeqNo State.lookup exampleMerged exampleState exampleOther
     simp only [LeafContainer.find_cons, LeafContainer.find_nil]
     by_cases h1 : ([[1]] : Name) = n
     · subst h1; decide
     · by_cases h2 : ([[2]] : Name) = n
       · subst h2; decide
       · simp [h1, h2])⟩

/-- C4: merging `t` into `s` twice gives the same State as merging it once (the same
leaves, hence the same mapping and the same digest). -/
theorem State.merge_idempotent (H : Digests) (s t : State) :
    (s.merge t).merge t = s.merge t ∧
    (∀ n, ((s.merge t).merge t).lookup n = (s.merge t).lookup n) ∧
    ((s.merge t).merge t).getDigest H = (s.merge t).getDigest H := by
  have h : (s.merge t).merge t = s.merge t :=
    State.merge_eq_self_of_covers (s.merge t) t.leaves
      (fun l hl => State.lookup_merge_covers s t l hl)
  exact ⟨h, fun n => by rw [h], by rw [h]⟩

/-- C5: two States with unique names that hold equal mappings return the same digest,
whatever the order in which their leaves were put in; the digest is taken over the
leaves in strictly ascending order of session name. -/
theorem State.getDigest_deterministic (H : Digests) (s t : State) (hs : s.WF) (ht : t.WF)
    (h : ∀ n, s.lookup n = t.lookup n) :
    s.getDigest H = t.getDigest H ∧
    LeafContainer.ordered s.leaves = LeafContainer.ordered t.leaves ∧
    (LeafContainer.ordered s.leaves).Sorted (fun a b => a.sessionName < b.sessionName) ∧
    (LeafContainer.ordered s.leaves).Perm s.leaves := by
  exact ⟨State.getDigest_eq_of_lookup_eq H s t hs ht h,
    State.ordered_eq_of_lookup_eq s t hs ht h,
    LeafContainer.ordered_sorted_lt hs, LeafContainer.ordered_perm _⟩

/-- Witness of C5: {/1 ↦ 5, /2 ↦ 7} built leaf by leaf and built by a merge. -/
theorem State.getDigest_deterministic_witness :
    (exampleState.merge exampleOther).getDigest exampleDigests =
      ((State.empty.update [[2]] 7).1.update [[1]] 5).1.getDigest exampleDigests :=
  (State.getDigest_deterministic exampleDigests (exampleState.merge exampleOther)
    ((State.empty.update [[2]] 7).1.update [[1]] 5).1 (by decide) (by decide) (by
      intro n
      rw [State.lookup_merge exampleState exampleOther (by decide)]
      simp only [State.lookup_update]
      unfold State.mergedSeqNo State.getSeqNo State.lookup exampleState exampleOther State.empty
      simp only [LeafContainer.find_cons, LeafContainer.find_nil]
      by_cases h1 : n = [[1]]
      · subst h1; decide
      · by_cases h2 : n = [[2]]
        · subst h2; decide
        · have h3 : ¬ ([[1]] : Name) = n := fun e => h1 e.symm
          have h4 : ¬ ([[2]] : Name) = n := fun e => h2 e.symm
          simp [h1, h2, h3, h4])).1

/-! ## The claims about the codecs -/

theorem Layout.stateSub_type (s : State) : (Layout.stateSub s).type = 134 := rfl

theorem Layout.stateSub_hasWire (s : State) : (Layout.stateSub s).hasWire = true := rfl

theorem Layout.cumulativeInfoSub_type (p : Name) (r : RoundNo) (c : Buffer) :
    (Layout.cumulativeInfoSub p r c).type = 135 := rfl

theorem Layout.cumulativeInfoSub_parse (p : Name) (r : RoundNo) (c : Buffer) :
    (Layout.cumulativeInfoSub p r c).parse =
      some [Layout.name p, Block.num tlv.RoundNo r, Block.raw ndn.tlv.NameComponent c] := rfl

theorem ndn.Block.type_elems (t : Nat) (es : List Block) : (Block.elems t es).type = t := rfl

theorem ndn.Block.hasWire_elems (t : Nat) (es : List Block) :
    (Block.elems t es).hasWire = true := rfl

theorem ndn.Block.parse_elems (t : Nat) (es : List Block) :
    (Block.elems t es).parse = some es := rfl

/-- C6 as stated fails: a well-formed DataContent without cumulative digest (the DataOnly
form that `Logic::sendData` builds with the node's session name) loses its user prefix,
which is not put on the wire. -/
theorem DataContent.decode_encode_drops_userPrefix :
    (DataContent.new [[1]] 0 none (some DiffState.fresh) 0).wellFormed = true ∧
    ((DataContent.new [[1]] 0 none (some DiffState.fresh) 0).decodeEncoded 0).2 = none ∧
    ((DataContent.new [[1]] 0 none (some DiffState.fresh) 0).decodeEncoded 0).1.userPrefix ≠
      (DataContent.new [[1]] 0 none (some DiffState.fresh) 0).userPrefix := by
  decide

/-- C6, amended: for every well-formed DataContent built by the constructor, decoding
its encoding succeeds and gives back the cumulative round number, the cumulative digest
and the session-to-sequence mapping of the State; the user prefix comes back when a
cumulative digest is present, and is the empty name when none is (it is not encoded). -/
theorem DataContent.decode_encode (p : Name) (r : RoundNo) (cd : Option Buffer)
    (st : Option DiffState) (j k : Nat)
    (hwf : (DataContent.new p r cd st j).wellFormed = true)
    (hst : ∀ d, st = some d → d.toState.WF) :
    ((DataContent.new p r cd st j).decodeEncoded k).2 = none ∧
    ((DataContent.new p r cd st j).decodeEncoded k).1.roundNo = r ∧
    ((DataContent.new p r cd st j).decodeEncoded k).1.cumulativeDigest = cd ∧
    sameMapping ((DataContent.new p r cd st j).decodeEncoded k).1.statePtr st ∧
    ((DataContent.new p r cd st j).decodeEncoded k).1.userPrefix =
      (if cd.isSome then p else []) := by
  unfold DataContent.decodeEncoded
  rw [DataContent.wireEncode_layout]
  cases cd with
  | none =>
    cases st with
    | none => simp [DataContent.wellFormed, DataContent.new] at hwf
    | some d =>
      have hr : r = 0 := by simpa [DataContent.wellFormed, DataContent.new] using hwf
      have hd := hst d rfl
      subst hr
      simp [DataContent.wireDecode, DataContent.default, DataContent.new, DataContent.kind,
        ndn.Block.hasWire_elems, ndn.Block.type_elems, ndn.Block.parse_elems,
        DataContent.decodeState, Layout.stateSub_type, Layout.cumulativeInfoSub_type,
        Layout.cumulativeInfoSub_parse,
        DiffState.wireDecode_stateSub_fresh _ hd, sameMapping, State.lookup_ordered _ hd,
        tlv.DataOnly, tlv.DataAndCumulative, tlv.CumulativeOnly, tlv.CumulativeInfo, tlv.State]
  | some c =>
    cases st with
    | none =>
      simp [DataContent.wireDecode, DataContent.default, DataContent.new, DataContent.kind,
        ndn.Block.hasWire_elems, ndn.Block.type_elems, ndn.Block.parse_elems,
        DataContent.decodeState, Layout.stateSub_type, Layout.cumulativeInfoSub_type,
        Layout.cumulativeInfoSub_parse,
        DataContent.decodeCumulativeInfo, ndn.nameWireDecode_name,
        ndn.readNonNegativeInteger, ndn.componentFromBlock, sameMapping,
        tlv.DataOnly, tlv.DataAndCumulative, tlv.CumulativeOnly, tlv.CumulativeInfo, tlv.State]
    | some d =>
      have hd := hst d rfl
      simp [DataContent.wireDecode, DataContent.default, DataContent.new, DataContent.kind,
        ndn.Block.hasWire_elems, ndn.Block.type_elems, ndn.Block.parse_elems,
        DataContent.decodeState, Layout.stateSub_type, Layout.cumulativeInfoSub_type,
        Layout.cumulativeInfoSub_parse,
        DataContent.decodeCumulativeInfo, ndn.nameWireDecode_name,
        ndn.readNonNegativeInteger, ndn.componentFromBlock,
        DiffState.wireDecode_stateSub_fresh _ hd, sameMapping, State.lookup_ordered _ hd,
        tlv.DataOnly, tlv.DataAndCumulative, tlv.CumulativeOnly, tlv.CumulativeInfo, tlv.State]

/-- Witness of C6 (amended): a DataAndCumulative value with prefix /9, round 4, digest
01 02 and the leaves (/2, 7), (/1, 3). -/
theorem DataContent.decode_encode_witness :
    (DataContent.new [[9]] 4 (some [1, 2]) (some exampleDiff) 0).wellFormed = true ∧
    ((DataContent.new [[9]] 4 (some [1, 2]) (some exampleDiff) 0).decodeEncoded 0).1.roundNo = 4 ∧
    ((DataContent.new [[9]] 4 (some [1, 2]) (some exampleDiff) 0).decodeEncoded 0).1.cumulativeDigest
      = some [1, 2] :=
  have h := DataContent.decode_encode [[9]] 4 (some [1, 2]) (some exampleDiff) 0 0 (by decide)
    (fun d hd => by cases hd; decide)
  ⟨by decide, h.2.1, h.2.2.1⟩

/-- C7: for every RecoData built from a round number and a State, decoding its encoding
succeeds and yields the same round number, a State with the same session-to-sequence
mapping, and the data type RecoveryData. -/
theorem RecoData.reco_decode_encode (r : RoundNo) (d : DiffState) (j a b : Nat) (hd : d.toState.WF) :
    ((RecoData.new r (some d) j).decodeEncoded a b).2 = none ∧
    ((RecoData.new r (some d) j).decodeEncoded a b).1.roundNo = r ∧
    sameMapping ((RecoData.new r (some d) j).decodeEncoded a b).1.statePtr (some d) ∧
    ((RecoData.new r (some d) j).decodeEncoded a b).1.dataType = tlv.RecoveryData := by
  unfold RecoData.decodeEncoded
  rw [RecoData.wireEncode_recoLayout]
  simp [RecoData.wireDecode, RecoData.default, ndn.Block.hasWire_elems, ndn.Block.type_elems,
    ndn.Block.parse_elems, ndn.readNonNegativeInteger,
    DiffState.wireDecode_stateSub_fresh _ hd, sameMapping, State.lookup_ordered _ hd,
    tlv.RecoveryData]

/-- Witness of C7: round 19 with the leaves (/2, 7), (/1, 3). -/
theorem RecoData.reco_decode_encode_witness :
    ((RecoData.new 19 (some exampleDiff) 0).decodeEncoded 0 0).2 = none ∧
    ((RecoData.new 19 (some exampleDiff) 0).decodeEncoded 0 0).1.roundNo = 19 ∧
    ((RecoData.new 19 (some exampleDiff) 0).decodeEncoded 0 0).1.dataType = 136 :=
  have h := RecoData.reco_decode_encode 19 exampleDiff 0 0 0 (by decide)
  ⟨h.1, h.2.1, h.2.2.2⟩

/-- C8: `wellFormed()` is true if and only if (the user prefix is non-empty and the
cumulative digest is present) or (the round is 0, the cumulative digest is absent and the
state is present). -/
theorem DataContent.wellFormed_iff (x : DataContent) :
    x.wellFormed = true ↔
      (x.userPrefix ≠ [] ∧ x.cumulativeDigest.isSome = true) ∨
      (x.roundNo = 0 ∧ x.cumulativeDigest = none ∧ x.statePtr.isSome = true) := by
  unfold DataContent.wellFormed
  cases hcd : x.cumulativeDigest <;> simp

/-- C9 as stated fails: a block of type 200 is rejected by both decoders, but the data
type member of the object has by then been assigned from the block. -/
theorem wireDecode_unknown_type_sets_dataType :
    ((DataContent.default 0).wireDecode (Block.elems 200 [])).2 = some Error.unexpectedType ∧
    ((DataContent.default 0).wireDecode (Block.elems 200 [])).1.dataType = 200 ∧
    (DataContent.default 0).dataType = 0 ∧
    ((RecoData.default 0 0).wireDecode (Block.elems 200 [])).2 = some Error.unexpectedType ∧
    ((RecoData.default 0 0).wireDecode (Block.elems 200 [])).1.dataType = 200 ∧
    (RecoData.default 0 0).dataType = 0 := by
  decide

/-- C9, amended: `DataContent::wireDecode` fails for every block whose type is none of
DataOnly, CumulativeOnly, DataAndCumulative, and `RecoData::wireDecode` fails for every
block whose type is not RecoveryData; the object keeps its user prefix, round number,
cumulative digest, state and cached wire, and only its data type member takes the
rejected type number (when the block has a wire). -/
theorem wireDecode_rejects_unknown_type (x : DataContent) (y : RecoData) (w : Block) :
    (w.type ≠ tlv.DataOnly → w.type ≠ tlv.CumulativeOnly → w.type ≠ tlv.DataAndCumulative →
      (x.wireDecode w).2.isSome = true ∧
      (x.wireDecode w).1 = { x with dataType := if w.hasWire then w.type else x.dataType }) ∧
    (w.type ≠ tlv.RecoveryData →
      (y.wireDecode w).2.isSome = true ∧
      (y.wireDecode w).1 = { y with dataType := if w.hasWire then w.type else y.dataType }) := by
  constructor
  · intro h1 h2 h3
    unfold DataContent.wireDecode
    cases hw : w.hasWire <;> simp [h1, h2, h3]
  · intro h
    unfold RecoData.wireDecode
    cases hw : w.hasWire <;> simp [h]

/-- Witness of C9 (amended): a block of type State (134) offered to both decoders. -/
theorem wireDecode_rejects_unknown_type_witness :
    ((DataContent.default 0).wireDecode (Block.elems 134 [])).2.isSome = true ∧
    ((RecoData.default 0 0).wireDecode (Block.elems 134 [])).2.isSome = true :=
  have h := wireDecode_rejects_unknown_type (DataContent.default 0) (RecoData.default 0 0)
    (Block.elems 134 [])
  ⟨(h.1 (by decide) (by decide) (by decide)).1, (h.2 (by decide)).1⟩

/-- C10: for every well-formed DataContent the type number written by `wireEncode` is
DataOnly exactly when a State is present and no cumulative digest is, CumulativeOnly
exactly when a cumulative digest is present and no State is, DataAndCumulative exactly
when both are present; and in the DataAndCumulative body the CumulativeInfo element
comes first and the State element second. -/
theorem DataContent.wireEncode_kind (p : Name) (r : RoundNo) (cd : Option Buffer)
    (st : Option DiffState) (j : Nat)
    (hwf : (DataContent.new p r cd st j).wellFormed = true) :
    ((DataContent.new p r cd st j).wireEncode.2.type = tlv.DataOnly ↔
      st.isSome = true ∧ cd = none) ∧
    ((DataContent.new p r cd st j).wireEncode.2.type = tlv.CumulativeOnly ↔
      cd.isSome = true ∧ st = none) ∧
    ((DataContent.new p r cd st j).wireEncode.2.type = tlv.DataAndCumulative ↔
      st.isSome = true ∧ cd.isSome = true) ∧
    (∀ c d, cd = some c → st = some d →
      (DataContent.new p r cd st j).wireEncode.2.parse =
        some [Layout.cumulativeInfoSub p r c, Layout.stateSub d.toState] ∧
      (Layout.cumulativeInfoSub p r c).type = tlv.CumulativeInfo ∧
      (Layout.stateSub d.toState).type = tlv.State) := by
  rw [DataContent.wireEncode_layout]
  cases cd with
  | none =>
    cases st with
    | none => simp [DataContent.wellFormed, DataContent.new] at hwf
    | some d =>
      simp [DataContent.kind, DataContent.new, ndn.Block.type_elems, tlv.DataOnly,
        tlv.CumulativeOnly, tlv.DataAndCumulative]
  | some c =>
    cases st with
    | none =>
      simp [DataContent.kind, DataContent.new, ndn.Block.type_elems, tlv.DataOnly,
        tlv.CumulativeOnly, tlv.DataAndCumulative]
    | some d =>
      simp [DataContent.kind, DataContent.new, ndn.Block.type_elems, ndn.Block.parse_elems,
        tlv.DataOnly, tlv.CumulativeOnly, tlv.DataAndCumulative, tlv.CumulativeInfo, tlv.State,
        Layout.stateSub_type, Layout.cumulativeInfoSub_type]

/-- Witness of C10: prefix /9, round 4, digest 01 02 and the leaves (/2, 7), (/1, 3) are
written as DataAndCumulative. -/
theorem DataContent.wireEncode_kind_witness :
    (DataContent.new [[9]] 4 (some [1, 2]) (some exampleDiff) 0).wellFormed = true ∧
    (DataContent.new [[9]] 4 (some [1, 2]) (some exampleDiff) 0).wireEncode.2.type = 130 :=
  ⟨by decide,
   (DataContent.wireEncode_kind [[9]] 4 (some [1, 2]) (some exampleDiff) 0 (by decide)).2.2.1.mpr
     ⟨rfl, rfl⟩⟩

/-! ## Properties of DiffState and of the round log -/

namespace DiffState

theorem leaves_fresh_update (p : Name) (q : SeqNo) :
    (DiffState.fresh.update p q).leaves = [{ sessionName := p, seq := q }] := by
  simp [DiffState.update, DiffState.fresh, State.update, LeafContainer.find_nil,
    LeafContainer.insert]

end DiffState

/-- C11: `getStateFrom(p)` returns none exactly when `p` has no leaf in `d`; otherwise it
returns a DiffState whose only leaf is (p, seq of p in d), with the round and the
cumulative digest of `d`; the flag is true exactly when that seq is 0, and then the result
carries the cumulative info of `d`. -/
theorem DiffState.getStateFrom_correct (d : DiffState) (p : Name) (flag : Bool) :
    ((d.getStateFrom p flag).1 = none ↔ d.toState.lookup p = none) ∧
    (∀ q, d.toState.lookup p = some q →
      ∃ r, (d.getStateFrom p flag).1 = some r ∧
        r.leaves = [{ sessionName := p, seq := q }] ∧
        r.round = d.round ∧ r.cumulativeDigest = d.cumulativeDigest ∧
        ((d.getStateFrom p flag).2 = true ↔ q = 0) ∧
        (q = 0 → r.cumulativeInfo = d.cumulativeInfo)) := by
  unfold DiffState.getStateFrom State.lookup
  cases hf : LeafContainer.find d.leaves p with
  | none => simp
  | some leaf =>
    refine ⟨by simp, ?_⟩
    intro q hq
    have hq2 : leaf.seq = q := by simpa using hq
    subst hq2
    by_cases h0 : leaf.seq = 0
    · simp [h0, DiffState.leaves_fresh_update]
    · simp [h0, DiffState.leaves_fresh_update]

/-- Witness of C11: the diff {/2 ↦ 7, /1 ↦ 3} asked for /1. -/
theorem DiffState.getStateFrom_correct_witness :
    exampleDiff.toState.lookup [[1]] = some 3 ∧
    ((exampleDiff.getStateFrom [[1]] false).2 = true ↔ 3 = 0) :=
  ⟨by decide,
   match (DiffState.getStateFrom_correct exampleDiff [[1]] false).2 3 (by decide) with
   | ⟨_, h⟩ => h.2.2.2.2.1⟩

theorem sub64_eq_sub (a b : Nat) (ha : a < uint64Size) (hb : b ≤ a) : sub64 a b = a - b := by
  unfold sub64
  have hb2 : b < uint64Size := lt_of_le_of_lt hb ha
  rw [Nat.mod_eq_of_lt ha, Nat.mod_eq_of_lt hb2, Nat.sub_add_comm hb, Nat.add_mod_right]
  exact Nat.mod_eq_of_lt (lt_of_le_of_lt (Nat.sub_le _ _) ha)

theorem add64_eq_add (a b : Nat) (h : a + b < uint64Size) : add64 a b = a + b :=
  Nat.mod_eq_of_lt h

namespace DiffStateContainer

theorem find_cons_round (d : DiffState) (log : List DiffState) (r : RoundNo) :
    find (d :: log) r = if d.round = r then some d else find log r := by
  unfold find
  by_cases h : d.round = r <;> simp [List.find?_cons, h]

theorem find_some_round {log : List DiffState} {r : RoundNo} {d : DiffState}
    (h : find log r = some d) : d.round = r := by
  unfold find at h
  simpa using List.find?_some h

/-- After a change through the stored pointer that keeps the round, `find` shows the
changed entry. -/
theorem find_replace_same {log : List DiffState} {r : RoundNo} {d c : DiffState}
    (h : find log r = some d) (hc : c.round = r) : find (replace log c) r = some c := by
  induction log with
  | nil => simp [find] at h
  | cons a log ih =>
    rw [find_cons_round] at h
    simp only [replace, replaceAt, List.map_cons]
    by_cases ha : a.round = r
    · simp [ha, hc, find_cons_round]
    · simp only [ha, if_false] at h
      have hne : ¬ a.round = c.round := by rw [hc]; exact ha
      simp only [hne, if_false, find_cons_round, ha]
      exact ih h

end DiffStateContainer

namespace Logic

theorem backfillEvents_calls (n : Nat) (rounds : List RoundNo) :
    (backfillEvents n rounds).map (fun ev => (ev.delay, ev.callback)) =
      rounds.map (fun i => (Delay.ms 0, Callback.sendDataInterest i 1)) := by
  induction rounds generalizing n with
  | nil => rfl
  | cons r rounds ih => simp [backfillEvents, ih]

/-- The loop that schedules one data interest per round of a list only extends the
record of scheduled events. -/
theorem backfill_loop (rounds : List RoundNo) (L : Logic) :
    rounds.foldl
      (fun acc i => (acc.scheduleEvent (Delay.ms 0) (Callback.sendDataInterest i 1)).1) L =
      { L with scheduled := L.scheduled ++ backfillEvents L.scheduled.length rounds } := by
  induction rounds generalizing L with
  | nil => simp [backfillEvents]
  | cons r rounds ih =>
    rw [List.foldl_cons, ih]
    simp [scheduleEvent, backfillEvents]

/-- Closed form of `moveToNewCurrentRound`. -/
theorem moveToNewCurrentRound_eq (L : Logic) (n : RoundNo) :
    L.moveToNewCurrentRound n =
      let back : List ScheduledEvent :=
        if sub64 n L.currentRound ≤ MAX_ROUNDS_WITHOUT_RECOVERY then
          backfillEvents L.scheduled.length (List.range' L.currentRound (n - L.currentRound))
        else []
      { L with
        currentRound := n
        numberDataInterestTimeouts := 0
        recoveryDesired :=
          if sub64 n L.currentRound ≤ MAX_ROUNDS_WITHOUT_RECOVERY then L.recoveryDesired else true
        scheduled := L.scheduled ++ back ++
          [{ id := (L.scheduled ++ back).length + 1, delay := Delay.ms 0,
             callback := Callback.sendDataInterest n 1 }]
        cancelled := L.cancelled ++ L.reexpressingDataInterestId.toList
        reexpressingDataInterestId := some ((L.scheduled ++ back).length + 1) } := by
  unfold moveToNewCurrentRound
  rw [backfill_loop]
  by_cases h : sub64 n L.currentRound ≤ MAX_ROUNDS_WITHOUT_RECOVERY
  · cases hr : L.reexpressingDataInterestId <;>
      simp [h, hr, scheduleEvent, cancelEvent]
  · cases hr : L.reexpressingDataInterestId <;>
      simp [h, hr, scheduleEvent, cancelEvent]

end Logic

/-- C20: for `R_new > c`, `moveToNewCurrentRound(R_new)` sets the current round to `R_new`
and the data-interest-timeout counter to 0; if `R_new - c ≤ 10` it schedules, at delay 0,
a DataInterest for every round of `[c, R_new)` in ascending order (followed by the one
for `R_new` itself) and leaves `recovery_desired` as it was; otherwise it schedules none
of the backfill interests (only the one for `R_new`) and sets `recovery_desired`. -/
theorem Logic.moveToNewCurrentRound_correct (L : Logic) (newRound : RoundNo)
    (hgt : L.currentRound < newRound) (h64 : newRound < uint64Size) :
    (L.moveToNewCurrentRound newRound).currentRound = newRound ∧
    (L.moveToNewCurrentRound newRound).numberDataInterestTimeouts = 0 ∧
    (newRound - L.currentRound ≤ 10 →
      (L.moveToNewCurrentRound newRound).scheduledCalls =
        L.scheduledCalls ++
          (List.range' L.currentRound (newRound - L.currentRound)).map
            (fun i => (Delay.ms 0, Callback.sendDataInterest i 1)) ++
          [(Delay.ms 0, Callback.sendDataInterest newRound 1)] ∧
      (L.moveToNewCurrentRound newRound).recoveryDesired = L.recoveryDesired) ∧
    (10 < newRound - L.currentRound →
      (L.moveToNewCurrentRound newRound).scheduledCalls =
        L.scheduledCalls ++ [(Delay.ms 0, Callback.sendDataInterest newRound 1)] ∧
      (L.moveToNewCurrentRound newRound).recoveryDesired = true) := by
  have hsub : sub64 newRound L.currentRound = newRound - L.currentRound :=
    sub64_eq_sub _ _ h64 (Nat.le_of_lt hgt)
  rw [Logic.moveToNewCurrentRound_eq, hsub]
  refine ⟨rfl, rfl, ?_, ?_⟩
  · intro hle
    have h : newRound - L.currentRound ≤ Logic.MAX_ROUNDS_WITHOUT_RECOVERY := hle
    simp [h, Logic.scheduledCalls, Logic.backfillEvents_calls]
  · intro hlt
    have h : ¬ newRound - L.currentRound ≤ Logic.MAX_ROUNDS_WITHOUT_RECOVERY :=
      Nat.not_le_of_gt hlt
    simp [h, Logic.scheduledCalls]

/-- Witness of C20 (scenario S3): a fresh node at round 1 that moves to round 4 schedules
data interests for the rounds 1, 2, 3 and then for round 4. -/
theorem Logic.moveToNewCurrentRound_correct_witness :
    ((Logic.new [[1]] [[2]] false 7).moveToNewCurrentRound 4).currentRound = 4 ∧
    ((Logic.new [[1]] [[2]] false 7).moveToNewCurrentRound 4).scheduledCalls =
      (Logic.new [[1]] [[2]] false 7).scheduledCalls ++
        [(Delay.ms 0, Callback.sendDataInterest 1 1), (Delay.ms 0, Callback.sendDataInterest 2 1),
         (Delay.ms 0, Callback.sendDataInterest 3 1)] ++
        [(Delay.ms 0, Callback.sendDataInterest 4 1)] :=
  have h := Logic.moveToNewCurrentRound_correct (Logic.new [[1]] [[2]] false 7) 4
    (by decide) (by decide)
  ⟨h.1, (h.2.2.1 (by decide)).1⟩

/-- C19: `checkRoundDigests(R, D)` returns true exactly when `m_log[R]` exists and its
round digest equals `D`, and then it changes and schedules nothing; when `m_log[R]`
exists with another round digest it schedules one DataInterest for `R` at delay 0 and
one SyncInterest for `R` after ROUND_DIGEST_DELAY, cancels the sync timer stored in that
DiffState and stores the new one there; when `m_log[R]` is absent it schedules only the
DataInterest. -/
theorem Logic.checkRoundDigests_correct (L : Logic) (R : RoundNo) (D : Buffer) :
    ((L.checkRoundDigests R D).2 = true ↔
      ∃ d, DiffStateContainer.find L.log R = some d ∧ d.roundDigest = some D) ∧
    (∀ d, DiffStateContainer.find L.log R = some d → d.roundDigest = some D →
      (L.checkRoundDigests R D).1 = L.done) ∧
    (∀ d rd, DiffStateContainer.find L.log R = some d → d.roundDigest = some rd → rd ≠ D →
      (L.checkRoundDigests R D).1.thrown = none ∧
      (L.checkRoundDigests R D).1.logic.scheduled = L.scheduled ++
        [{ id := L.scheduled.length + 1, delay := Delay.ms 0,
           callback := Callback.sendDataInterest R 1 },
         { id := L.scheduled.length + 2, delay := Delay.ms 1000,
           callback := Callback.sendSyncInterest R }] ∧
      (L.checkRoundDigests R D).1.logic.cancelled =
        L.cancelled ++ d.reexpressingSyncInterestId.toList ∧
      DiffStateContainer.find (L.checkRoundDigests R D).1.logic.log R =
        some { d with reexpressingSyncInterestId := some (L.scheduled.length + 2) }) ∧
    (DiffStateContainer.find L.log R = none →
      (L.checkRoundDigests R D).1.thrown = none ∧
      (L.checkRoundDigests R D).1.logic.scheduled = L.scheduled ++
        [{ id := L.scheduled.length + 1, delay := Delay.ms 0,
           callback := Callback.sendDataInterest R 1 }] ∧
      (L.checkRoundDigests R D).1.logic.cancelled = L.cancelled ∧
      (L.checkRoundDigests R D).1.logic.log = L.log) := by
  cases hf : DiffStateContainer.find L.log R with
  | none =>
    have hval : L.checkRoundDigests R D =
        ((L.scheduleEvent (Delay.ms 0) (Callback.sendDataInterest R 1)).1.done, false) := by
      simp [Logic.checkRoundDigests, hf]
    rw [hval]
    simp [Logic.scheduleEvent, Logic.done]
  | some d =>
    have hround := DiffStateContainer.find_some_round hf
    cases hrd : d.roundDigest with
    | none =>
      have hval : L.checkRoundDigests R D = (L.throwing Thrown.undefinedBehaviour, false) := by
        simp [Logic.checkRoundDigests, hf, hrd]
      rw [hval]
      refine ⟨by simp [hrd], ?_, ?_, by simp⟩
      · intro d2 h2 h3
        cases h2
        rw [hrd] at h3
        cases h3
      · intro d2 rd h2 h3
        cases h2
        rw [hrd] at h3
        cases h3
    | some rd =>
      by_cases hD : D = rd
      · subst hD
        have hval : L.checkRoundDigests R D = (L.done, true) := by
          simp [Logic.checkRoundDigests, hf, hrd]
        rw [hval]
        refine ⟨by simp [hrd], fun _ _ _ => rfl, ?_, by simp⟩
        intro d2 rd h2 h3 h4
        cases h2
        rw [hrd] at h3
        cases h3
        exact absurd rfl h4
      · have hval : L.checkRoundDigests R D =
            ({ ((L.scheduleEvent (Delay.ms 0) (Callback.sendDataInterest R 1)).1.scheduleEvent
                  Logic.DEFAULT_ROUND_DIGEST_DELAY (Callback.sendSyncInterest R)).1.cancelEvent
                  d.reexpressingSyncInterestId with
                log := DiffStateContainer.replace L.log
                  { d with reexpressingSyncInterestId := some (L.scheduled.length + 2) } }.done,
             false) := by
          cases hre : d.reexpressingSyncInterestId <;>
            simp [Logic.checkRoundDigests, hf, hrd, hD, hre, Logic.scheduleEvent,
              Logic.cancelEvent]
        rw [hval]
        refine ⟨?_, ?_, ?_, by simp⟩
        · constructor
          · intro h; cases h
          · rintro ⟨d2, h2, h3⟩
            cases h2
            rw [hrd] at h3
            cases h3
            exact absurd rfl hD
        · intro d2 h2 h3
          cases h2
          rw [hrd] at h3
          cases h3
          exact absurd rfl hD
        · intro d2 rd2 h2 h3 _
          cases h2
          refine ⟨rfl, ?_, ?_, ?_⟩
          · cases hre : d.reexpressingSyncInterestId <;>
              simp [Logic.scheduleEvent, Logic.cancelEvent, Logic.done,
                Logic.DEFAULT_ROUND_DIGEST_DELAY]
          · cases hre : d.reexpressingSyncInterestId <;>
              simp [Logic.scheduleEvent, Logic.cancelEvent, Logic.done]
          · exact DiffStateContainer.find_replace_same hf hround

/-- Witness of C19: a fresh node has no log entry for round 5, so only the DataInterest
is scheduled. -/
theorem Logic.checkRoundDigests_correct_witness :
    (exampleNode.checkRoundDigests 5 []).1.thrown = none ∧
    (exampleNode.checkRoundDigests 5 []).1.logic.scheduled = exampleNode.scheduled ++
      [{ id := exampleNode.scheduled.length + 1, delay := Delay.ms 0,
         callback := Callback.sendDataInterest 5 1 }] ∧
    (exampleNode.checkRoundDigests 5 []).1.logic.cancelled = exampleNode.cancelled ∧
    (exampleNode.checkRoundDigests 5 []).1.logic.log = exampleNode.log :=
  (Logic.checkRoundDigests_correct exampleNode 5 []).2.2.2 rfl

/-- C15: Data whose name carries a round `R ≤ stable_round` is dropped by `processData`:
the handler returns without throwing, and nothing of the node changes except that the
diagnostic counter `syncTimeouts` is reset when `R` is the current round; in particular
`m_state`, `m_old_state`, `m_log`, the three rounds, the scheduler record and the actions
(update callback included) are as before. -/
theorem Logic.processData_drops_old (E : Env) (L : Logic) (fullName : Name) (block : Block)
    (R : RoundNo) (suffix : Component)
    (hR : (ndn.nameGetFromEnd fullName 2).bind ndn.componentToNumber = some R)
    (hS : ndn.nameGetFromEnd fullName 1 = some suffix)
    (hold : R ≤ L.stableRound) :
    Logic.processData E L fullName block =
      ({ L with syncTimeouts := if R = L.currentRound then 0 else L.syncTimeouts }).done ∧
    (Logic.processData E L fullName block).thrown = none ∧
    (Logic.processData E L fullName block).logic.state = L.state ∧
    (Logic.processData E L fullName block).logic.oldState = L.oldState ∧
    (Logic.processData E L fullName block).logic.log = L.log ∧
    (Logic.processData E L fullName block).logic.currentRound = L.currentRound ∧
    (Logic.processData E L fullName block).logic.stabilizingRound = L.stabilizingRound ∧
    (Logic.processData E L fullName block).logic.stableRound = L.stableRound ∧
    (Logic.processData E L fullName block).logic.scheduled = L.scheduled ∧
    (Logic.processData E L fullName block).logic.cancelled = L.cancelled ∧
    (Logic.processData E L fullName block).logic.actions = L.actions := by
  have hval : Logic.processData E L fullName block =
      ({ L with syncTimeouts := if R = L.currentRound then 0 else L.syncTimeouts }).done := by
    unfold Logic.processData
    rw [hR, hS]
    by_cases hc : R = L.currentRound
    · subst hc
      simp [hold, Logic.done]
    · simp [hc, hold, Logic.done]
  rw [hval]
  exact ⟨rfl, rfl, rfl, rfl, rfl, rfl, rfl, rfl, rfl, rfl, rfl⟩

namespace Logic

/-- What `checkRecovery` leaves alone. -/
theorem checkRecovery_frame (L : Logic) (p : Name) (r : RoundNo) (cd : Option Buffer) :
    (L.checkRecovery p r cd).logic.actions = L.actions ∧
    (L.checkRecovery p r cd).logic.state = L.state ∧
    (L.checkRecovery p r cd).logic.oldState = L.oldState ∧
    (L.checkRecovery p r cd).logic.log = L.log ∧
    (L.checkRecovery p r cd).logic.sessionName = L.sessionName ∧
    (L.checkRecovery p r cd).logic.seqNo = L.seqNo ∧
    (L.checkRecovery p r cd).logic.currentRound = L.currentRound ∧
    (L.checkRecovery p r cd).logic.stableRound = L.stableRound ∧
    (L.checkRecovery p r cd).logic.stabilizingRound = L.stabilizingRound ∧
    (L.checkRecovery p r cd).logic.lastRecoveryRound = L.lastRecoveryRound := by
  unfold checkRecovery
  repeat' split
  all_goals simp_all [scheduleEvent, cancelEvent, done, throwing]
  all_goals split <;> simp

end Logic

/-! ## Properties of the handlers of Logic -/

namespace State

/-- The tuple returned by `update`, by the mapping before the call. -/
theorem update_snd (s : State) (n : Name) (q : SeqNo) :
    (s.update n q).2 =
      match s.lookup n with
      | none => (true, false, 0)
      | some c => if q ≤ c then (false, false, 0) else (false, true, c) := by
  unfold State.lookup State.update
  cases hf : LeafContainer.find s.leaves n with
  | none => simp
  | some leaf =>
    by_cases h : q ≤ leaf.seq
    · have : leaf.seq = q ∨ q < leaf.seq := by
        rcases Nat.eq_or_lt_of_le h with e | e
        · exact Or.inl e.symm
        · exact Or.inr e
      simp [this, h]
    · have : ¬ (leaf.seq = q ∨ q < leaf.seq) := by
        rintro (e | e)
        · exact h (Nat.le_of_eq e.symm)
        · exact h (Nat.le_of_lt e)
      simp [this, h]

theorem decodeLeaves_WF (s : State) (es : List Block) (h : s.WF) : (decodeLeaves s es).1.WF := by
  induction es generalizing s with
  | nil => exact h
  | cons e es ih =>
    unfold decodeLeaves
    repeat' split
    all_goals first
      | exact h
      | exact ih _ h
      | exact ih _ (update_WF s _ _ h)

theorem wireDecode_WF (s : State) (w : Block) (h : s.WF) : (s.wireDecode w).1.WF := by
  unfold wireDecode
  repeat' split
  all_goals first
    | exact h
    | exact decodeLeaves_WF _ _ h

end State

namespace DataContent

/-- The State that `wireDecode` leaves in a default-constructed object has unique names. -/
theorem wireDecode_default_WF (j : Nat) (w : Block) (d : DiffState)
    (h : ((DataContent.default j).wireDecode w).1.statePtr = some d) : d.toState.WF := by
  have key : ∀ (x : DataContent) (its : List Block), x.statePtr = none →
      (decodeState x its).1.statePtr = some d → d.toState.WF := by
    intro x its hx hd
    unfold decodeState at hd
    split at hd
    · split at hd
      · simp only [Option.some.injEq] at hd
        rw [← hd]
        exact State.wireDecode_WF _ _ (by decide)
      · rw [hx] at hd; cases hd
    · rw [hx] at hd; cases hd
  have cum : ∀ (x : DataContent) (it : Block), x.statePtr = none →
      (decodeCumulativeInfo x it).1.statePtr = none := by
    intro x it hx
    unfold decodeCumulativeInfo
    repeat' split
    all_goals simp [hx]
  unfold wireDecode at h
  by_cases hw : (!w.hasWire) = true
  · simp [hw, DataContent.default, DataContent.new] at h
  · simp only [hw, Bool.false_eq_true, if_false] at h
    by_cases ht : w.type ≠ tlv.DataAndCumulative ∧ w.type ≠ tlv.DataOnly ∧
        w.type ≠ tlv.CumulativeOnly
    · simp [ht, DataContent.default, DataContent.new] at h
    · simp only [ht] at h
      cases hp : w.parse with
      | none => simp [hp, DataContent.default, DataContent.new] at h
      | some els =>
        cases els with
        | nil =>
          simp only [hp, if_false, ite_false] at h
          exact key _ _ rfl h
        | cons it rest =>
          simp only [hp, if_false, ite_false] at h
          by_cases hc : it.type = tlv.CumulativeInfo
          · simp only [hc, if_true] at h
            have h2 := cum { (DataContent.default j) with dataType := w.type, wire := w } it rfl
            cases hdc : decodeCumulativeInfo
                { (DataContent.default j) with dataType := w.type, wire := w } it with
            | mk x2 e =>
              rw [hdc] at h2
              have h3 : { (DataContent.default j) with dataType := w.type, wire := w } =
                  { wire := w, userPrefix := (DataContent.default j).userPrefix,
                    roundNo := (DataContent.default j).roundNo,
                    cumulativeDigest := (DataContent.default j).cumulativeDigest,
                    statePtr := (DataContent.default j).statePtr, dataType := w.type } := rfl
              rw [h3] at hdc
              rw [hdc] at h
              cases e with
              | none => exact key _ _ h2 h
              | some e =>
                simp only at h h2
                rw [h2] at h
                cases h
          · simp only [hc, if_false] at h
            exact key _ _ rfl h

end DataContent

namespace DiffStateContainer

theorem find_replaceAt_same {log : List DiffState} {r : RoundNo} {d c : DiffState}
    (h : find log r = some d) (hc : c.round = r) : find (replaceAt log r c) r = some c := by
  induction log with
  | nil => simp [find] at h
  | cons a log ih =>
    rw [find_cons_round] at h
    simp only [replaceAt, List.map_cons]
    by_cases ha : a.round = r
    · simp [ha, hc, find_cons_round]
    · simp only [ha, if_false] at h
      simp only [ha, if_false, find_cons_round]
      exact ih h

theorem find_insert_same {log : List DiffState} {c : DiffState}
    (h : find log c.round = none) : find (insert log c) c.round = some c := by
  induction log with
  | nil => simp [insert, find_cons_round]
  | cons a log ih =>
    rw [find_cons_round] at h
    by_cases ha : a.round = c.round
    · simp [ha] at h
    · simp only [ha, if_false] at h
      have ha2 : ¬ c.round = a.round := fun e => ha e.symm
      simp only [insert, ha2, if_false]
      by_cases hlt : c.round < a.round
      · simp [hlt, find_cons_round]
      · simp only [hlt, if_false, find_cons_round, ha]
        exact ih h

end DiffStateContainer

namespace Logic

theorem sync_frame (L : Logic) (c : Commit) :
    (L.sync c).actions = L.actions ∧ (L.sync c).state = L.state ∧
    (L.sync c).oldState = L.oldState ∧ (L.sync c).sessionName = L.sessionName ∧
    (L.sync c).seqNo = L.seqNo ∧ (L.sync c).currentRound = L.currentRound ∧
    (L.sync c).stableRound = L.stableRound ∧
    (L.sync c).stabilizingRound = L.stabilizingRound ∧
    (L.sync c).lastRecoveryRound = L.lastRecoveryRound ∧
    (L.sync c).scheduled = L.scheduled ∧ (L.sync c).cancelled = L.cancelled := by
  unfold sync
  split <;> simp

/-- A change through the commit pointer keeps pointer and log in agreement, as long as
the round of the DiffState stays. -/
theorem holds_sync {L : Logic} {c : Commit} {R : RoundNo} (h : L.Holds c R) (c2 : Commit)
    (hin : c2.inLog = c.inLog) (hr : c2.value.round = c.value.round) : (L.sync c2).Holds c2 R := by
  unfold Holds sync at *
  cases hc : c.inLog with
  | false =>
    simp only [hc, Bool.false_eq_true, if_false] at h
    simp [hin, hc, h]
  | true =>
    simp only [hc, if_true] at h
    have hround := DiffStateContainer.find_some_round h
    simp only [hin, hc, if_true]
    exact DiffStateContainer.find_replace_same h (by rw [hr, hround])

theorem holds_openCommit (L : Logic) (R : RoundNo) (suffix : Component) :
    (L.openCommit R suffix).1.Holds (L.openCommit R suffix).2 R := by
  unfold openCommit
  cases hf : DiffStateContainer.find L.log R with
  | none => simp [Holds, sync, hf]
  | some d =>
    have hround := DiffStateContainer.find_some_round hf
    simp only [Holds, sync, if_true]
    exact DiffStateContainer.find_replace_same hf hround

theorem openCommit_frame (L : Logic) (R : RoundNo) (suffix : Component) :
    (L.openCommit R suffix).1.actions = L.actions ∧ (L.openCommit R suffix).1.state = L.state ∧
    (L.openCommit R suffix).1.oldState = L.oldState ∧
    (L.openCommit R suffix).1.sessionName = L.sessionName ∧
    (L.openCommit R suffix).1.seqNo = L.seqNo ∧
    (L.openCommit R suffix).1.currentRound = L.currentRound ∧
    (L.openCommit R suffix).1.stableRound = L.stableRound ∧
    (L.openCommit R suffix).1.stabilizingRound = L.stabilizingRound ∧
    (L.openCommit R suffix).1.lastRecoveryRound = L.lastRecoveryRound ∧
    (L.openCommit R suffix).1.scheduled = L.scheduled ∧
    (L.openCommit R suffix).1.cancelled = L.cancelled := by
  unfold openCommit
  exact sync_frame L _

/-- The commit that `openCommit` hands on has the leaves of the log entry of the round,
or none if there was no entry. -/
theorem openCommit_leaves (L : Logic) (R : RoundNo) (suffix : Component) :
    (L.openCommit R suffix).2.value.leaves =
      match DiffStateContainer.find L.log R with
      | some d => d.leaves
      | none => [] := by
  unfold openCommit
  cases hf : DiffStateContainer.find L.log R <;> simp [DiffState.appendExclude, DiffState.fresh]

theorem moveToNewCurrentRound_frame (L : Logic) (n : RoundNo) :
    (L.moveToNewCurrentRound n).actions = L.actions ∧
    (L.moveToNewCurrentRound n).state = L.state ∧
    (L.moveToNewCurrentRound n).oldState = L.oldState ∧
    (L.moveToNewCurrentRound n).log = L.log ∧
    (L.moveToNewCurrentRound n).sessionName = L.sessionName ∧
    (L.moveToNewCurrentRound n).seqNo = L.seqNo ∧
    (L.moveToNewCurrentRound n).outstandingDataInterestId = L.outstandingDataInterestId ∧
    (L.moveToNewCurrentRound n).pendingDataInterest = L.pendingDataInterest := by
  rw [moveToNewCurrentRound_eq]
  exact ⟨rfl, rfl, rfl, rfl, rfl, rfl, rfl, rfl⟩

theorem updateDiffLog_frame (E : Env) (L : Logic) (c : Commit) (R : RoundNo) :
    (updateDiffLog E L c R).1.actions = L.actions ∧
    (updateDiffLog E L c R).1.state = L.state ∧
    (updateDiffLog E L c R).1.oldState = L.oldState ∧
    (updateDiffLog E L c R).1.sessionName = L.sessionName ∧
    (updateDiffLog E L c R).1.seqNo = L.seqNo ∧
    (updateDiffLog E L c R).1.currentRound = L.currentRound ∧
    (updateDiffLog E L c R).1.outstandingDataInterestId = L.outstandingDataInterestId ∧
    (updateDiffLog E L c R).1.outstandingDataInterestName = L.outstandingDataInterestName ∧
    (updateDiffLog E L c R).1.pendingDataInterest = L.pendingDataInterest ∧
    (updateDiffLog E L c R).1.scheduled = L.scheduled ∧
    (updateDiffLog E L c R).1.cancelled = L.cancelled ∧
    (updateDiffLog E L c R).2.value.leaves = c.value.leaves := by
  unfold updateDiffLog updateDiffLogOn
  cases hin : c.inLog <;> simp only [hin] <;> split <;>
    simp [DiffState.updateRoundDigest, DiffState.stamped]

/-- The DiffState that `updateDiffLog` makes of a commit: round and round digest set. -/
theorem updateDiffLog_value (E : Env) (L : Logic) (c : Commit) (R : RoundNo) :
    (updateDiffLog E L c R).2.value =
      c.value.stamped E.digests R := by
  unfold updateDiffLog updateDiffLogOn DiffState.stamped
  cases hin : c.inLog <;> simp only [hin] <;> split <;> rfl

theorem updateDiffLog_inserts (E : Env) (L : Logic) (c : Commit) (R : RoundNo)
    (hin : c.inLog = false) (hf : DiffStateContainer.find L.log R = none) :
    updateDiffLog E L c R =
      ({ L with log := DiffStateContainer.insert L.log (c.value.stamped E.digests R) },
       { value := c.value.stamped E.digests R, inLog := true }) := by
  simp [updateDiffLog, updateDiffLogOn, hin, hf, DiffState.stamped]

theorem updateDiffLog_keeps (E : Env) (L : Logic) (c : Commit) (R : RoundNo) (d : DiffState)
    (hin : c.inLog = false) (hf : DiffStateContainer.find L.log R = some d) :
    updateDiffLog E L c R =
      (L, { value := c.value.stamped E.digests R,
            inLog := false }) := by
  simp [updateDiffLog, updateDiffLogOn, hin, hf, DiffState.stamped]

theorem updateDiffLog_stored (E : Env) (L : Logic) (c : Commit) (R : RoundNo)
    (hin : c.inLog = true) (hf : DiffStateContainer.find L.log R = some c.value) :
    updateDiffLog E L c R =
      ({ L with log := DiffStateContainer.replaceAt L.log R (c.value.stamped E.digests R) },
       { value := c.value.stamped E.digests R, inLog := true }) := by
  have hround := DiffStateContainer.find_some_round hf
  have hf2 : DiffStateContainer.find
      (DiffStateContainer.replaceAt L.log R
        (c.value.stamped E.digests R)) R =
      some (c.value.stamped E.digests R) :=
    DiffStateContainer.find_replaceAt_same hf (by simp [DiffState.updateRoundDigest, DiffState.stamped])
  simp only [DiffState.stamped] at hf2 ⊢
  simp [updateDiffLog, updateDiffLogOn, hin, hround, hf2]

/-- After `updateDiffLog` for the round `R` on which pointer and log agree, the log entry
of `R` is the commit, and the pointer is stored in the log. -/
theorem updateDiffLog_find (E : Env) (L : Logic) (c : Commit) (R : RoundNo) (h : L.Holds c R) :
    (updateDiffLog E L c R).1.Holds (updateDiffLog E L c R).2 R ∧
    (updateDiffLog E L c R).2.inLog = true := by
  unfold Holds at h
  cases hin : c.inLog with
  | false =>
    simp only [hin, Bool.false_eq_true, if_false] at h
    rw [updateDiffLog_inserts E L c R hin h]
    refine ⟨?_, rfl⟩
    unfold Holds
    have := @DiffStateContainer.find_insert_same L.log
      (c.value.stamped E.digests R) (by
        simpa [DiffState.updateRoundDigest, DiffState.stamped] using h)
    simpa [DiffState.updateRoundDigest, DiffState.stamped] using this
  | true =>
    simp only [hin, if_true] at h
    rw [updateDiffLog_stored E L c R hin h]
    refine ⟨?_, rfl⟩
    unfold Holds
    exact DiffStateContainer.find_replaceAt_same h
      (by simp [DiffState.updateRoundDigest, DiffState.stamped])

end Logic

/-- Witness of C15 (scenario S6): a node with stable round 7 gets Data for round 5. -/
theorem Logic.processData_drops_old_witness :
    Logic.processData exampleEnv
        { exampleNode with stableRound := 7, stabilizingRound := 8, currentRound := 9 }
        [[1], Logic.DATA_INTEREST_COMPONENT, [5], [0]] (Block.elems 128 []) =
      ({ exampleNode with stableRound := 7, stabilizingRound := 8, currentRound := 9 }).done :=
  (Logic.processData_drops_old exampleEnv
    { exampleNode with stableRound := 7, stabilizingRound := 8, currentRound := 9 }
    [[1], Logic.DATA_INTEREST_COMPONENT, [5], [0]] (Block.elems 128 []) 5 [0]
    (by decide) (by decide) (by decide)).1

/-! ## Recovery -/

namespace Logic

/-- The statements of `checkRecovery` that start a recovery after a far jump: the round
of the received cumulative digest is not yet stable and `recovery_desired` is set. -/
theorem checkRecovery_recovers (L : Logic) (peer : Name) (R : RoundNo) (D : Buffer)
    (hnone : L.cumulativeDigestToEventId.lookup D = none)
    (h1 : ¬ (R < L.lastRecoveryRound ∨ L.stableRound = 0))
    (h3 : L.stableRound < R) (hrd : L.recoveryDesired = true) :
    L.checkRecovery peer R (some D) =
      ({ (if ndn.nameGetPrefixDropping peer 1 ∈ L.pendingRecoveryPrefixes then L
          else
            { (L.scheduleEvent (Delay.ms 0)
                (Callback.sendRecoInterest (ndn.nameGetPrefixDropping peer 1))).1 with
              pendingRecoveryPrefixes :=
                L.pendingRecoveryPrefixes ++ [ndn.nameGetPrefixDropping peer 1] }) with
         recoveryDesired := false }).done := by
  have h2 : ¬ R ≤ L.stableRound := Nat.not_le_of_gt h3
  unfold checkRecovery
  simp only [hnone, h1, if_false, h2, hrd, Bool.not_true, Bool.false_eq_true]
  by_cases hp : ndn.nameGetPrefixDropping peer 1 ∈ L.pendingRecoveryPrefixes
  · simp [hp, done]
  · simp [hp, done, scheduleEvent]

end Logic

/-- The decision of `checkRecovery(peer, R, D)` at a node whose registry
`cumulativeDigestToEventId` holds no entry for `D` (and whose log entry of `R`, where it
is compared, has a cumulative digest): the call returns, and it starts a recovery exactly
when none of the three conditions holds:
`R < last_recovery_round` or `stable_round = 0`; `R ≤ stable_round` and `m_log[R]` has
cumulative digest `D`; `R > stable_round` and `recovery_desired` is not set.  Starting a
recovery inserts the prefix of the peer (its name without the last component) into
`pending_recovery_prefixes` if it is absent, then also scheduling a RecoInterest to it at
delay 0, and clears `recovery_desired`; otherwise both members are as before and no
RecoInterest is scheduled. -/
theorem Logic.checkRecovery_correct (L : Logic) (peer : Name) (R : RoundNo) (D : Buffer)
    (hnone : L.cumulativeDigestToEventId.lookup D = none)
    (hdig : ¬ (R < L.lastRecoveryRound ∨ L.stableRound = 0) → R ≤ L.stableRound →
      ∀ d, DiffStateContainer.find L.log R = some d → d.cumulativeDigest ≠ none) :
    (L.checkRecovery peer R (some D)).thrown = none ∧
    (¬ ((R < L.lastRecoveryRound ∨ L.stableRound = 0) ∨
        (R ≤ L.stableRound ∧
          ∃ d, DiffStateContainer.find L.log R = some d ∧ d.cumulativeDigest = some D) ∨
        (L.stableRound < R ∧ L.recoveryDesired = false)) →
      (L.checkRecovery peer R (some D)).logic.pendingRecoveryPrefixes =
        (if ndn.nameGetPrefixDropping peer 1 ∈ L.pendingRecoveryPrefixes then
          L.pendingRecoveryPrefixes
         else L.pendingRecoveryPrefixes ++ [ndn.nameGetPrefixDropping peer 1]) ∧
      (L.checkRecovery peer R (some D)).logic.recoveryDesired = false ∧
      (ndn.nameGetPrefixDropping peer 1 ∉ L.pendingRecoveryPrefixes →
        (Delay.ms 0, Callback.sendRecoInterest (ndn.nameGetPrefixDropping peer 1)) ∈
          (L.checkRecovery peer R (some D)).logic.scheduledCalls)) ∧
    (((R < L.lastRecoveryRound ∨ L.stableRound = 0) ∨
        (R ≤ L.stableRound ∧
          ∃ d, DiffStateContainer.find L.log R = some d ∧ d.cumulativeDigest = some D) ∨
        (L.stableRound < R ∧ L.recoveryDesired = false)) →
      (L.checkRecovery peer R (some D)).logic.pendingRecoveryPrefixes =
        L.pendingRecoveryPrefixes ∧
      (L.checkRecovery peer R (some D)).logic.recoveryDesired = L.recoveryDesired ∧
      (∀ q, (Delay.ms 0, Callback.sendRecoInterest q) ∈
          (L.checkRecovery peer R (some D)).logic.scheduledCalls →
        (Delay.ms 0, Callback.sendRecoInterest q) ∈ L.scheduledCalls)) := by
  by_cases h1 : R < L.lastRecoveryRound ∨ L.stableRound = 0
  · -- no basis for comparison
    have hval : L.checkRecovery peer R (some D) = L.done := by
      unfold Logic.checkRecovery
      simp only [hnone, h1, if_true]
      rfl
    rw [hval]
    refine ⟨rfl, fun hn => absurd (Or.inl h1) hn, fun _ => ⟨rfl, rfl, fun q hq => hq⟩⟩
  · by_cases h2 : R ≤ L.stableRound
    · have h3 : ¬ L.stableRound < R := Nat.not_lt_of_le h2
      cases hf : DiffStateContainer.find L.log R with
      | none =>
        -- no entry to compare with: recover, nothing of one's own to announce
        have hval : L.checkRecovery peer R (some D) =
            ({ (if ndn.nameGetPrefixDropping peer 1 ∈ L.pendingRecoveryPrefixes then L
                else
                  { (L.scheduleEvent (Delay.ms 0)
                      (Callback.sendRecoInterest (ndn.nameGetPrefixDropping peer 1))).1 with
                    pendingRecoveryPrefixes :=
                      L.pendingRecoveryPrefixes ++ [ndn.nameGetPrefixDropping peer 1] }) with
               recoveryDesired := false }).done := by
          unfold Logic.checkRecovery
          simp only [hnone, h1, if_false, h2, if_true, hf]
          by_cases hp : ndn.nameGetPrefixDropping peer 1 ∈ L.pendingRecoveryPrefixes
          · simp [hp, Logic.done]
          · simp [hp, Logic.done, Logic.scheduleEvent]
        rw [hval]
        refine ⟨rfl, fun _ => ?_, fun hc => ?_⟩
        · by_cases hp : ndn.nameGetPrefixDropping peer 1 ∈ L.pendingRecoveryPrefixes
          · simp [hp, Logic.done]
          · simp [hp, Logic.done, Logic.scheduleEvent, Logic.scheduledCalls]
        · rcases hc with hc | hc | hc
          · exact absurd hc h1
          · obtain ⟨_, d, hd, _⟩ := hc
            simp at hd
          · exact absurd hc.1 h3
      | some d =>
        cases hcd : d.cumulativeDigest with
        | none => exact absurd hcd (hdig h1 h2 d hf)
        | some mine =>
          by_cases heq : D = mine
          · -- same cumulative digest
            subst heq
            have hval : L.checkRecovery peer R (some D) = L.done := by
              unfold Logic.checkRecovery
              simp only [hnone, h1, if_false, h2, if_true, hf, hcd]
              rfl
            rw [hval]
            refine ⟨rfl, fun hn => ?_, fun _ => ⟨rfl, rfl, fun q hq => hq⟩⟩
            exact absurd (Or.inr (Or.inl ⟨h2, d, rfl, hcd⟩)) hn
          · -- another cumulative digest: recover and announce one's own
            have hval : L.checkRecovery peer R (some D) =
                (let L2 : Logic :=
                  { (if ndn.nameGetPrefixDropping peer 1 ∈ L.pendingRecoveryPrefixes then L
                     else
                      { (L.scheduleEvent (Delay.ms 0)
                          (Callback.sendRecoInterest (ndn.nameGetPrefixDropping peer 1))).1 with
                        pendingRecoveryPrefixes :=
                          L.pendingRecoveryPrefixes ++ [ndn.nameGetPrefixDropping peer 1] }) with
                    recoveryDesired := false }
                 let s := L2.scheduleEvent Delay.cumulativeOnlyRandom
                   (Callback.produceCumulativeOnly R (some mine))
                 { s.1 with cumulativeDigestToEventId :=
                     Logic.mapInsert s.1.cumulativeDigestToEventId mine s.2 }.done) := by
              unfold Logic.checkRecovery
              simp only [hnone, h1, if_false, h2, if_true, hf, hcd, heq]
              by_cases hp : ndn.nameGetPrefixDropping peer 1 ∈ L.pendingRecoveryPrefixes
              · simp [hp, Logic.done]
              · simp [hp, Logic.done, Logic.scheduleEvent]
            rw [hval]
            refine ⟨rfl, fun _ => ?_, fun hc => ?_⟩
            · by_cases hp : ndn.nameGetPrefixDropping peer 1 ∈ L.pendingRecoveryPrefixes
              · simp [hp, Logic.done, Logic.scheduleEvent]
              · simp [hp, Logic.done, Logic.scheduleEvent, Logic.scheduledCalls]
            · rcases hc with hc | hc | hc
              · exact absurd hc h1
              · obtain ⟨_, d2, hd, hd2⟩ := hc
                have : d2 = d := by simpa using hd.symm
                subst this
                rw [hcd] at hd2
                exact absurd (Option.some.inj hd2).symm heq
              · exact absurd hc.1 h3
    · have h3 : L.stableRound < R := Nat.lt_of_not_le h2
      cases hrd : L.recoveryDesired with
      | false =>
        -- wait for the round to stabilise
        have hval : L.checkRecovery peer R (some D) =
            (L.scheduleEvent Logic.DEFAULT_RETRY_CHECK_RECOVERY_DELAY
              (Callback.checkRecovery peer R (some D))).1.done := by
          unfold Logic.checkRecovery
          simp only [hnone, h1, if_false, h2, hrd, Bool.not_false, if_true]
          rfl
        rw [hval]
        refine ⟨rfl, fun hn => absurd (Or.inr (Or.inr ⟨h3, rfl⟩)) hn, fun _ => ⟨rfl, ?_, ?_⟩⟩
        · simp [Logic.done, Logic.scheduleEvent, hrd]
        · intro q hq
          simpa [Logic.done, Logic.scheduleEvent, Logic.scheduledCalls,
            Logic.DEFAULT_RETRY_CHECK_RECOVERY_DELAY] using hq
      | true =>
        rw [Logic.checkRecovery_recovers L peer R D hnone h1 h3 hrd]
        refine ⟨rfl, fun _ => ?_, fun hc => ?_⟩
        · by_cases hp : ndn.nameGetPrefixDropping peer 1 ∈ L.pendingRecoveryPrefixes
          · simp [hp, Logic.done]
          · simp [hp, Logic.done, Logic.scheduleEvent, Logic.scheduledCalls]
        · rcases hc with hc | hc | hc
          · exact absurd hc h1
          · exact absurd hc.1 h2
          · exact absurd hc.2 (by decide)

/-- An instance of the decision: the example node with stable round 1 that has jumped to round 21
(so `recovery_desired` is set) checks the cumulative digest of round 5 sent by /3/9: it
starts a recovery for the prefix /3. -/
theorem Logic.checkRecovery_correct_witness :
    (exampleJumped.checkRecovery [[3], [9]] 5 (some [4, 4])).thrown = none ∧
    (exampleJumped.checkRecovery [[3], [9]] 5 (some [4, 4])).logic.pendingRecoveryPrefixes =
      [[[3]]] ∧
    (exampleJumped.checkRecovery [[3], [9]] 5 (some [4, 4])).logic.recoveryDesired = false :=
  have h := Logic.checkRecovery_correct exampleJumped [[3], [9]] 5 [4, 4] rfl
    (fun _ h5 => absurd h5 (by decide))
  have hn : ¬ ((5 < exampleJumped.lastRecoveryRound ∨ exampleJumped.stableRound = 0) ∨
      (5 ≤ exampleJumped.stableRound ∧
        ∃ d, DiffStateContainer.find exampleJumped.log 5 = some d ∧
          d.cumulativeDigest = some [4, 4]) ∨
      (exampleJumped.stableRound < 5 ∧ exampleJumped.recoveryDesired = false)) :=
    fun hc => hc.elim (fun a => a.elim (by decide) (by decide))
      (fun b => b.elim (fun c => absurd c.1 (by decide)) (fun c => absurd c.2 (by decide)))
  ⟨h.1, (h.2.1 hn).1, (h.2.1 hn).2.1⟩

/-! ## What the steps of the handlers change -/

/-- One round consumed: the 64-bit difference between the next round and a round is 1. -/
theorem sub64_add64_one (c : Nat) : sub64 (add64 c 1) c = 1 := by
  unfold sub64 add64 uint64Size
  omega

namespace Logic

theorem cancelEvent_eq (L : Logic) (e : Option Nat) :
    L.cancelEvent e = { L with cancelled := L.cancelled ++ e.toList } := by
  cases e <;> simp [cancelEvent]

theorem sync_eq (L : Logic) (c : Commit) :
    L.sync c =
      { L with log := if c.inLog then DiffStateContainer.replace L.log c.value else L.log } := by
  unfold sync
  split <;> simp_all

/-- What `finishProcessData` leaves alone; it always returns, and it only adds to the
scheduler record. -/
theorem finishProcessData_frame (E : Env) (L : Logic) (c : Commit) (R : RoundNo) :
    (finishProcessData E L c R).thrown = none ∧
    (finishProcessData E L c R).logic.state = L.state ∧
    (finishProcessData E L c R).logic.oldState = L.oldState ∧
    (finishProcessData E L c R).logic.actions = L.actions ∧
    (finishProcessData E L c R).logic.sessionName = L.sessionName ∧
    (finishProcessData E L c R).logic.seqNo = L.seqNo ∧
    (finishProcessData E L c R).logic.stableRound = L.stableRound ∧
    (finishProcessData E L c R).logic.stabilizingRound = L.stabilizingRound ∧
    (finishProcessData E L c R).logic.lastRecoveryRound = L.lastRecoveryRound ∧
    (finishProcessData E L c R).logic.pendingRecoveryPrefixes = L.pendingRecoveryPrefixes ∧
    (finishProcessData E L c R).logic.recoveryDesired = L.recoveryDesired ∧
    (finishProcessData E L c R).logic.cumulativeDigestToEventId = L.cumulativeDigestToEventId ∧
    (∃ sch, (finishProcessData E L c R).logic.scheduled = L.scheduled ++ sch) := by
  unfold finishProcessData
  simp only [sync_eq, cancelEvent_eq, scheduleEvent, done]
  by_cases hR : R = L.currentRound
  · simp only [hR, if_true, moveToNewCurrentRound_eq, sub64_add64_one,
      MAX_ROUNDS_WITHOUT_RECOVERY, (by decide : (1 : Nat) ≤ 10)]
    simp only [updateDiffLog]
    split <;> simp
  · simp only [hR, if_false, updateDiffLog]
    split <;> simp

/-- The node as `processData` leaves it before it looks at the payload: the diagnostic
counter is reset when the round is the current one. -/
theorem processData_start (L : Logic) (R : RoundNo) :
    (if R = L.currentRound then { L with syncTimeouts := 0 } else L) =
      { L with syncTimeouts := if R = L.currentRound then 0 else L.syncTimeouts } := by
  split <;> rfl

/-- Method `processData` on a payload that decodes, for a round above the stable one. -/
theorem processData_decoded (E : Env) (L : Logic) (fullName : Name) (block : Block)
    (R : RoundNo) (suffix : Component) (x : DataContent)
    (hR : (ndn.nameGetFromEnd fullName 2).bind ndn.componentToNumber = some R)
    (hS : ndn.nameGetFromEnd fullName 1 = some suffix)
    (hnew : L.stableRound < R)
    (hdec : (DataContent.default 0).wireDecode block = (x, none)) :
    processData E L fullName block =
      applyDataContent E
        (({ L with syncTimeouts := if R = L.currentRound then 0 else L.syncTimeouts }).openCommit
          R suffix).1
        (({ L with syncTimeouts := if R = L.currentRound then 0 else L.syncTimeouts }).openCommit
          R suffix).2 R x := by
  have hn : ¬ R ≤ L.stableRound := Nat.not_le_of_gt hnew
  unfold processData
  rw [hR, hS]
  simp only [processData_start, hn, if_false, hdec]

/-- Method `processData` on a payload whose State fails to decode, for a round above the
stable one: the handler returns after the exclude filter of the commit got the suffix. -/
theorem processData_failed (E : Env) (L : Logic) (fullName : Name) (block : Block)
    (R : RoundNo) (suffix : Component) (x : DataContent) (e : Error)
    (hR : (ndn.nameGetFromEnd fullName 2).bind ndn.componentToNumber = some R)
    (hS : ndn.nameGetFromEnd fullName 1 = some suffix)
    (hnew : L.stableRound < R)
    (hdec : (DataContent.default 0).wireDecode block = (x, some e))
    (hstate : DataContent.thrownByState (x, some e) = true) :
    processData E L fullName block =
      (({ L with syncTimeouts := if R = L.currentRound then 0 else L.syncTimeouts }).openCommit
          R suffix).1.done := by
  have hn : ¬ R ≤ L.stableRound := Nat.not_le_of_gt hnew
  unfold processData
  rw [hR, hS]
  simp only [processData_start, hn, if_false, hdec, hstate, if_true]

end Logic

/-! ## Reception of Data -/

/-- Counterexample to C30: the example node holds a log entry for round 5 with exclude
filter [/0]; Data for round 5 arrives under the suffix /1 with a State that fails to
decode.  The handler returns, but the exclude filter of the entry has got the suffix. -/
theorem Logic.processData_state_error_changes_exclude :
    exampleHeard.stableRound < 5 ∧
    ((DataContent.default 0).wireDecode exampleBadState).2 = some Error.noSeqNo ∧
    DataContent.thrownByState ((DataContent.default 0).wireDecode exampleBadState) = true ∧
    (Logic.processData exampleEnv exampleHeard
      [[1], Logic.DATA_INTEREST_COMPONENT, [5], [1]] exampleBadState).thrown = none ∧
    (DiffStateContainer.find exampleHeard.log 5).map DiffState.excludeFilter = some [[0]] ∧
    (DiffStateContainer.find (Logic.processData exampleEnv exampleHeard
      [[1], Logic.DATA_INTEREST_COMPONENT, [5], [1]] exampleBadState).logic.log 5).map
        DiffState.excludeFilter = some [[0], [1]] := by
  refine ⟨by decide, by decide, by decide, by decide, by decide, by decide⟩

/-- The errors of the loop of `State::wireDecode`. -/
theorem State.decodeLeaves_error (its : List Block) :
    ∀ (s : State) (e : Error), (State.decodeLeaves s its).2 = some e →
      e = Error.tlvError ∨ e = Error.pastTheEnd ∨ e = Error.noSeqNo := by
  induction its with
  | nil =>
    intro s e h
    simp [State.decodeLeaves] at h
  | cons it rest ih =>
    intro s e h
    unfold State.decodeLeaves at h
    split at h
    · split at h
      · simp only [Option.some.injEq] at h
        exact Or.inl h.symm
      · simp only [Option.some.injEq] at h
        exact Or.inr (Or.inl h.symm)
      · split at h
        · simp only [Option.some.injEq] at h
          exact Or.inl h.symm
        · split at h
          · simp only [Option.some.injEq] at h
            exact Or.inr (Or.inr h.symm)
          · split at h
            · simp only [Option.some.injEq] at h
              exact Or.inl h.symm
            · exact ih _ e h
    · exact ih _ e h

/-- The errors of `State::wireDecode` on an element of type State. -/
theorem State.wireDecode_error (s : State) (wire : Block) (e : Error) (ht : wire.type = tlv.State)
    (h : (s.wireDecode wire).2 = some e) :
    e = Error.tlvError ∨ e = Error.pastTheEnd ∨ e = Error.noSeqNo := by
  unfold State.wireDecode at h
  have hw : wire.hasWire = true := by
    cases wire with
    | empty => exact absurd ht (by decide)
    | elems _ _ => rfl
    | num _ _ => rfl
    | raw _ _ => rfl
  simp only [hw, Bool.not_true, Bool.false_eq_true, if_false, ht, ne_eq, not_true_eq_false] at h
  split at h
  · simp only [Option.some.injEq] at h
    exact Or.inl h.symm
  · exact State.decodeLeaves_error _ _ e h

namespace DataContent

/-- Reading the CumulativeInfo element leaves the State pointer as it is. -/
theorem decodeCumulativeInfo_statePtr (x : DataContent) (it : Block) :
    (decodeCumulativeInfo x it).1.statePtr = x.statePtr := by
  unfold decodeCumulativeInfo
  repeat' split
  all_goals rfl

/-- The errors of reading the State element of a payload. -/
theorem decodeState_error (x : DataContent) (its : List Block) (e : Error)
    (h : (decodeState x its).2 = some e) :
    e = Error.tlvError ∨ e = Error.pastTheEnd ∨ e = Error.noSeqNo := by
  unfold decodeState at h
  split at h
  · split at h
    · rename_i ht
      exact State.wireDecode_error _ _ e ht h
    · cases h
  · cases h

/-- A decoding failure that `processData` catches is the `State::Error` of a leaf
without SeqNo: the other two `State::Error`s cannot be raised, because the element
handed to `State::wireDecode` has a wire and the type State. -/
theorem thrownByState_noSeqNo (x0 x : DataContent) (block : Block) (e : Error)
    (h0 : x0.statePtr = none) (hdec : x0.wireDecode block = (x, some e))
    (hst : thrownByState (x, some e) = true) : e = Error.noSeqNo := by
  have hkey : (e = Error.noWire ∨ e = Error.unexpectedType) → x.statePtr = none := by
    intro hcase
    unfold wireDecode at hdec
    split at hdec
    · cases hdec
      exact h0
    · dsimp only at hdec
      split at hdec
      · cases hdec
        exact h0
      · split at hdec
        · cases hdec
          exact h0
        · split at hdec
          · split at hdec
            · split at hdec
              · rename_i x2 e2 hci
                cases hdec
                have := decodeCumulativeInfo_statePtr
                  { x0 with dataType := block.type, wire := block } (by assumption)
                rw [hci] at this
                exact this.trans h0
              · have he := decodeState_error _ _ e (congrArg Prod.snd hdec)
                rcases hcase with h1 | h1 <;> rcases he with h2 | h2 | h2 <;>
                  (rw [h1] at h2; cases h2)
            · have he := decodeState_error _ _ e (congrArg Prod.snd hdec)
              rcases hcase with h1 | h1 <;> rcases he with h2 | h2 | h2 <;>
                (rw [h1] at h2; cases h2)
          · have he := decodeState_error _ _ e (congrArg Prod.snd hdec)
            rcases hcase with h1 | h1 <;> rcases he with h2 | h2 | h2 <;>
              (rw [h1] at h2; cases h2)
  unfold thrownByState at hst
  simp only [Bool.and_eq_true, Bool.or_eq_true, decide_eq_true_eq, Option.some.injEq] at hst
  obtain ⟨hsome, hcases⟩ := hst
  rcases hcases with (h1 | h1) | h1
  · rw [hkey (Or.inl h1)] at hsome
    cases hsome
  · rw [hkey (Or.inr h1)] at hsome
    cases hsome
  · exact h1

/-- Reading the CumulativeInfo element raises no `State::Error`. -/
theorem decodeCumulativeInfo_error (x : DataContent) (it : Block) (e : Error)
    (h : (decodeCumulativeInfo x it).2 = some e) :
    e = Error.tlvError ∨ e = Error.pastTheEnd := by
  unfold decodeCumulativeInfo at h
  repeat' split at h
  all_goals first
    | exact Or.inl (Option.some.inj h).symm
    | exact Or.inr (Option.some.inj h).symm
    | cases h

/-- An error of the State element leaves the State pointer set. -/
theorem decodeState_statePtr (x : DataContent) (its : List Block) (e : Error)
    (h : (decodeState x its).2 = some e) :
    (decodeState x its).1.statePtr.isSome = true := by
  unfold decodeState at h ⊢
  split
  · split
    · rfl
    · rename_i hne
      simp only [hne, if_false] at h
      cases h
  · cases h

/-- A leaf without SeqNo is reported by `State::wireDecode`, after the State pointer of
the payload has been set: it is a `State::Error`. -/
theorem thrownByState_of_noSeqNo (x0 x : DataContent) (block : Block)
    (hdec : x0.wireDecode block = (x, some Error.noSeqNo)) :
    thrownByState (x, some Error.noSeqNo) = true := by
  have hfin : ∀ (y : DataContent) (its : List Block),
      decodeState y its = (x, some Error.noSeqNo) → x.statePtr.isSome = true := by
    intro y its h
    have := decodeState_statePtr y its Error.noSeqNo (congrArg Prod.snd h)
    rw [h] at this
    exact this
  have hsome : x.statePtr.isSome = true := by
    unfold wireDecode at hdec
    split at hdec
    · cases hdec
    · dsimp only at hdec
      split at hdec
      · cases hdec
      · split at hdec
        · cases hdec
        · split at hdec
          · split at hdec
            · split at hdec
              · rename_i x2 e2 hci
                have he := decodeCumulativeInfo_error _ _ e2 (congrArg Prod.snd hci)
                cases hdec
                rcases he with h2 | h2 <;> cases h2
              · exact hfin _ _ hdec
            · exact hfin _ _ hdec
          · exact hfin _ _ hdec
  unfold thrownByState
  simp [hsome]

end DataContent

namespace Logic

/-- Method `processData` on a payload that fails to decode, for a round above the stable
one: the exclude filter of the commit has got the suffix; the handler returns if the
exception is a `State::Error`, and is left by the exception otherwise. -/
theorem processData_undecoded (E : Env) (L : Logic) (fullName : Name) (block : Block)
    (R : RoundNo) (suffix : Component) (x : DataContent) (e : Error)
    (hR : (ndn.nameGetFromEnd fullName 2).bind ndn.componentToNumber = some R)
    (hS : ndn.nameGetFromEnd fullName 1 = some suffix)
    (hnew : L.stableRound < R)
    (hdec : (DataContent.default 0).wireDecode block = (x, some e)) :
    processData E L fullName block =
      if DataContent.thrownByState (x, some e) = true then
        (({ L with syncTimeouts := if R = L.currentRound then 0 else L.syncTimeouts }).openCommit
          R suffix).1.done
      else
        (({ L with syncTimeouts := if R = L.currentRound then 0 else L.syncTimeouts }).openCommit
          R suffix).1.throwing (uncaught e) := by
  have hn : ¬ R ≤ L.stableRound := Nat.not_le_of_gt hnew
  unfold processData
  rw [hR, hS]
  simp only [processData_start, hn, if_false, hdec]

end Logic

/-- C30 (amended): when the payload fails to decode, for Data of a round
`R > stable_round`, `processData` leaves `m_state`, `m_old_state`, the three rounds, the
scheduler record and the actions (update callback included) unchanged.  The log is
unchanged if it has no entry for `R`; if it has one, that entry gets the suffix of the
response name appended to its exclude filter, and nothing else of the log changes.  The
handler returns exactly when the exception is a `State::Error`, which here is the one of
a StateLeaf without SeqNo; any other failure (a `tlv::Error`, the `DataContent::Error` of
the payload itself, the dereference of an end iterator) is not caught and leaves the
handler. -/
theorem Logic.processData_state_error (E : Env) (L : Logic) (fullName : Name) (block : Block)
    (R : RoundNo) (suffix : Component) (x : DataContent) (e : Error)
    (hR : (ndn.nameGetFromEnd fullName 2).bind ndn.componentToNumber = some R)
    (hS : ndn.nameGetFromEnd fullName 1 = some suffix)
    (hnew : L.stableRound < R)
    (hdec : (DataContent.default 0).wireDecode block = (x, some e)) :
    ((Logic.processData E L fullName block).thrown = none ↔ e = Error.noSeqNo) ∧
    (e ≠ Error.noSeqNo →
      (Logic.processData E L fullName block).thrown = some (Logic.uncaught e)) ∧
    (DataContent.thrownByState (x, some e) = true ↔ e = Error.noSeqNo) ∧
    (Logic.processData E L fullName block).logic.state = L.state ∧
    (Logic.processData E L fullName block).logic.oldState = L.oldState ∧
    (Logic.processData E L fullName block).logic.currentRound = L.currentRound ∧
    (Logic.processData E L fullName block).logic.stabilizingRound = L.stabilizingRound ∧
    (Logic.processData E L fullName block).logic.stableRound = L.stableRound ∧
    (Logic.processData E L fullName block).logic.scheduled = L.scheduled ∧
    (Logic.processData E L fullName block).logic.cancelled = L.cancelled ∧
    (Logic.processData E L fullName block).logic.actions = L.actions ∧
    (DiffStateContainer.find L.log R = none →
      (Logic.processData E L fullName block).logic.log = L.log) ∧
    (∀ d, DiffStateContainer.find L.log R = some d →
      (Logic.processData E L fullName block).logic.log =
        L.log.map (fun entry => if entry.round = R then d.appendExclude suffix else entry) ∧
      (d.appendExclude suffix).leaves = d.leaves ∧
      (d.appendExclude suffix).round = d.round ∧
      (d.appendExclude suffix).roundDigest = d.roundDigest ∧
      (d.appendExclude suffix).cumulativeDigest = d.cumulativeDigest ∧
      (d.appendExclude suffix).excludeFilter = d.excludeFilter ++ [suffix]) := by
  have hiff : DataContent.thrownByState (x, some e) = true ↔ e = Error.noSeqNo :=
    ⟨fun h => DataContent.thrownByState_noSeqNo (DataContent.default 0) x block e rfl hdec h,
     fun h => by
      subst h
      exact DataContent.thrownByState_of_noSeqNo (DataContent.default 0) x block hdec⟩
  rw [Logic.processData_undecoded E L fullName block R suffix x e hR hS hnew hdec]
  cases hst : DataContent.thrownByState (x, some e) with
  | true =>
    have he : e = Error.noSeqNo := hiff.mp hst
    simp only [if_true]
    refine ⟨⟨fun _ => he, fun _ => rfl⟩, fun h => absurd he h,
      ⟨fun _ => he, fun _ => by trivial⟩,
      ?_, ?_, ?_, ?_, ?_, ?_, ?_, ?_, ?_, ?_⟩
    · simp [Logic.openCommit, Logic.sync_eq, Logic.done]
    · simp [Logic.openCommit, Logic.sync_eq, Logic.done]
    · simp [Logic.openCommit, Logic.sync_eq, Logic.done]
    · simp [Logic.openCommit, Logic.sync_eq, Logic.done]
    · simp [Logic.openCommit, Logic.sync_eq, Logic.done]
    · simp [Logic.openCommit, Logic.sync_eq, Logic.done]
    · simp [Logic.openCommit, Logic.sync_eq, Logic.done]
    · simp [Logic.openCommit, Logic.sync_eq, Logic.done]
    · intro hf
      simp [Logic.openCommit, Logic.sync_eq, Logic.done, hf]
    · intro d hf
      have hround := DiffStateContainer.find_some_round hf
      refine ⟨?_, rfl, rfl, rfl, rfl, rfl⟩
      simp [Logic.openCommit, Logic.sync_eq, Logic.done, hf, DiffStateContainer.replace,
        DiffStateContainer.replaceAt, DiffState.appendExclude, hround]
  | false =>
    have he : e ≠ Error.noSeqNo := fun h => by
      rw [hiff.mpr h] at hst
      cases hst
    simp only [Bool.false_eq_true, if_false]
    refine ⟨⟨fun h => by simp [Logic.throwing] at h, fun h => absurd h he⟩,
      fun _ => rfl, ⟨fun h => h.elim, fun h => absurd h he⟩,
      ?_, ?_, ?_, ?_, ?_, ?_, ?_, ?_, ?_, ?_⟩
    · simp [Logic.openCommit, Logic.sync_eq, Logic.throwing]
    · simp [Logic.openCommit, Logic.sync_eq, Logic.throwing]
    · simp [Logic.openCommit, Logic.sync_eq, Logic.throwing]
    · simp [Logic.openCommit, Logic.sync_eq, Logic.throwing]
    · simp [Logic.openCommit, Logic.sync_eq, Logic.throwing]
    · simp [Logic.openCommit, Logic.sync_eq, Logic.throwing]
    · simp [Logic.openCommit, Logic.sync_eq, Logic.throwing]
    · simp [Logic.openCommit, Logic.sync_eq, Logic.throwing]
    · intro hf
      simp [Logic.openCommit, Logic.sync_eq, Logic.throwing, hf]
    · intro d hf
      have hround := DiffStateContainer.find_some_round hf
      refine ⟨?_, rfl, rfl, rfl, rfl, rfl⟩
      simp [Logic.openCommit, Logic.sync_eq, Logic.throwing, hf, DiffStateContainer.replace,
        DiffStateContainer.replaceAt, DiffState.appendExclude, hround]

/-- Witness of C30 (amended): the example node, which has no log entry for round 5,
gets Data for round 5.  With a State whose leaf has no SeqNo the handler returns; with a
State whose SeqNo is not an integer the decoder throws a `tlv::Error` that leaves the
handler.  In both cases the log stays as it was. -/
theorem Logic.processData_state_error_witness :
    ((DataContent.default 0).wireDecode exampleBadState).2 = some Error.noSeqNo ∧
    (Logic.processData exampleEnv exampleNode
      [[1], Logic.DATA_INTEREST_COMPONENT, [5], [1]] exampleBadState).thrown = none ∧
    (Logic.processData exampleEnv exampleNode
      [[1], Logic.DATA_INTEREST_COMPONENT, [5], [1]] exampleBadState).logic.log =
      exampleNode.log ∧
    ((DataContent.default 0).wireDecode exampleBadSeqNo).2 = some Error.tlvError ∧
    (Logic.processData exampleEnv exampleNode
      [[1], Logic.DATA_INTEREST_COMPONENT, [5], [1]] exampleBadSeqNo).thrown =
      some Thrown.libraryError ∧
    (Logic.processData exampleEnv exampleNode
      [[1], Logic.DATA_INTEREST_COMPONENT, [5], [1]] exampleBadSeqNo).logic.log =
      exampleNode.log :=
  have h := Logic.processData_state_error exampleEnv exampleNode
    [[1], Logic.DATA_INTEREST_COMPONENT, [5], [1]] exampleBadState 5 [1]
    ((DataContent.default 0).wireDecode exampleBadState).1 Error.noSeqNo
    (by decide) (by decide) (by decide) rfl
  have k := Logic.processData_state_error exampleEnv exampleNode
    [[1], Logic.DATA_INTEREST_COMPONENT, [5], [1]] exampleBadSeqNo 5 [1]
    ((DataContent.default 0).wireDecode exampleBadSeqNo).1 Error.tlvError
    (by decide) (by decide) (by decide) rfl
  ⟨by decide, h.1.mpr rfl, h.2.2.2.2.2.2.2.2.2.2.2.1 rfl, by decide,
    k.2.1 (by decide), k.2.2.2.2.2.2.2.2.2.2.2.1 rfl⟩

namespace Logic

/-- The `try` block of `processData` for a CumulativeOnly payload: the sentinel leaf goes
into the commit, `checkRecovery` is run, and the handler finishes. -/
theorem applyDataContent_cumulativeOnly (E : Env) (L : Logic) (commit : Commit) (R : RoundNo)
    (x : DataContent) (hty : x.dataType = tlv.CumulativeOnly) :
    applyDataContent E L commit R x =
      match ((L.sync { commit with value := commit.value.update x.userPrefix 0 }).checkRecovery
          x.userPrefix x.roundNo x.cumulativeDigest).thrown with
      | some _ =>
        (L.sync { commit with value := commit.value.update x.userPrefix 0 }).checkRecovery
          x.userPrefix x.roundNo x.cumulativeDigest
      | none =>
        finishProcessData E
          ((L.sync { commit with value := commit.value.update x.userPrefix 0 }).checkRecovery
            x.userPrefix x.roundNo x.cumulativeDigest).logic
          { commit with value := commit.value.update x.userPrefix 0 } R := by
  unfold applyDataContent
  simp only [hty, true_or, if_true, CUMULATIVE_ONLY_DATA]
  generalize (L.sync { commit with value := commit.value.update x.userPrefix 0 }).checkRecovery
    x.userPrefix x.roundNo x.cumulativeDigest = chk
  cases hc : chk.thrown <;> simp [tlv.CumulativeOnly, tlv.DataOnly, tlv.DataAndCumulative]

end Logic

namespace RecoData

/-- A RecoData that decodes without error has the type RecoveryData and a State whose
names are unique. -/
theorem wireDecode_ok (a b : Nat) (w : Block) (x : RecoData)
    (h : (RecoData.default a b).wireDecode w = (x, none)) :
    x.dataType = tlv.RecoveryData ∧
    ∃ st, x.statePtr = some st ∧ st.toState.WF := by
  unfold wireDecode at h
  by_cases hw : (!w.hasWire) = true
  · simp [hw] at h
  · by_cases hty : w.type = tlv.RecoveryData
    · cases hp : w.parse with
      | none => simp [hw, hty, hp] at h
      | some es =>
        cases es with
        | nil => simp [hw, hty, hp] at h
        | cons it rest =>
          cases hn : ndn.readNonNegativeInteger it with
          | none => simp [hw, hty, hp, hn] at h
          | some r =>
            cases rest with
            | nil => simp [hw, hty, hp, hn] at h
            | cons it2 more =>
              simp only [hw, hty, hp, hn, ne_eq, not_true_eq_false, if_false,
                Bool.false_eq_true, Prod.mk.injEq] at h
              obtain ⟨hx, -⟩ := h
              subst hx
              exact ⟨rfl, _, rfl, State.wireDecode_WF _ _ (by decide)⟩
    · simp [hw, hty] at h

end RecoData

namespace Logic

/-- The loop of `processRecoData` adds the received leaves to `m_state` and touches
nothing else of the node. -/
theorem applyRecoveredLeaves_logic (ls : List Leaf) (L : Logic) (v : List MissingDataInfo) :
    (applyRecoveredLeaves ls L v).1 = { L with state := L.state.merge { leaves := ls } } := by
  induction ls generalizing L v with
  | nil => rfl
  | cons l ls ih =>
    simp only [applyRecoveredLeaves]
    rw [ih]
    rfl

/-- A conditional call of the application only adds to the actions. -/
theorem act_if (L : Logic) (c : Prop) [Decidable c] (a : Action) :
    (if c then L.act a else L) = { L with actions := L.actions ++ if c then [a] else [] } := by
  split <;> simp [act]

/-- Closed form of `processRecoData` on a payload that decodes. -/
theorem processRecoData_eq (L : Logic) (fullName : Name) (block : Block) (x : RecoData)
    (st : DiffState) (hdec : (RecoData.default 0 0).wireDecode block = (x, none))
    (hst : x.statePtr = some st) (hty : x.dataType = tlv.RecoveryData) :
    L.processRecoData fullName block =
      (let kept := L.pendingRecoveryPrefixes.filter
         (fun p => decide (p ≠ ndn.nameGetPrefixDropping fullName 2))
       let v := (applyRecoveredLeaves (LeafContainer.ordered st.leaves)
          { L with pendingRecoveryPrefixes := kept } []).2
       let cur := if L.currentRound ≤ x.roundNo then add64 x.roundNo 1 else L.currentRound
       let last := if L.currentRound ≤ x.roundNo then x.roundNo else sub64 L.currentRound 1
       let init := if cur ≤ BACK_UNSTABLE_ROUNDS then 1 else sub64 cur BACK_UNSTABLE_ROUNDS
       let moved : List ScheduledEvent :=
         if L.currentRound ≤ x.roundNo then
           [{ id := L.scheduled.length + 1, delay := Delay.ms 0,
              callback := Callback.sendDataInterest cur 1 }]
         else []
       let fished := backfillEvents (L.scheduled ++ moved).length (List.range' init (cur - init))
       let merged := L.state.merge { leaves := LeafContainer.ordered st.leaves }
       let called : List Action := if v ≠ [] then [Action.onUpdate v] else []
       let reexpress : Option Nat :=
         if L.currentRound ≤ x.roundNo then some (L.scheduled.length + 1)
         else L.reexpressingDataInterestId
       let cancelledMove : List Nat :=
         if L.currentRound ≤ x.roundNo then L.reexpressingDataInterestId.toList else []
       let timer : ScheduledEvent :=
         { id := (L.scheduled ++ moved ++ fished).length + 1,
           delay := DEFAULT_STABILIZE_CUMULATIVE_DIGEST_DELAY,
           callback := Callback.setStableState }
       { L with
         pendingRecoveryPrefixes := kept
         state := merged
         actions := L.actions ++ called
         lastRecoveryRound := last
         currentRound := cur
         reexpressingDataInterestId := reexpress
         cancelled := L.cancelled ++ cancelledMove ++ L.stabilizingCumulativeDigest.toList
         scheduled := L.scheduled ++ moved ++ fished ++ [timer]
         stabilizingRound := last
         stableRound := 0
         oldState := L.oldState.reset.merge merged
         stabilizingCumulativeDigest := some ((L.scheduled ++ moved ++ fished).length + 1) }).done := by
  unfold processRecoData
  simp only [hdec, hst, hty, ne_eq, not_true_eq_false, if_false]
  simp only [act_if, applyRecoveredLeaves_logic, cancelEvent_eq,
    moveToNewCurrentRoundAfterRecovery, backfill_loop]
  simp only [scheduleEvent]
  by_cases hge : L.currentRound ≤ x.roundNo
  · simp [hge, done]
  · simp [hge, done]

end Logic
/-- The first round refished after a recovery, as the source computes it. -/
theorem refish_start (c : Nat) (h : c < uint64Size) :
    (if c ≤ 5 then 1 else sub64 c 5) = max 1 (c - 5) := by
  by_cases h5 : c ≤ 5
  · simp only [h5, if_true]
    omega
  · simp only [h5, if_false]
    rw [sub64_eq_sub c 5 h (by omega)]
    omega

/-- The rounds refished after a recovery at round `c`. -/
theorem mem_refish (c r : Nat) :
    r ∈ List.range' (max 1 (c - 5)) (c - max 1 (c - 5)) ↔ max 1 (c - 5) ≤ r ∧ r < c := by
  rw [List.mem_range'_1]
  omega

/-- C24: when `processRecoData` leaves the node at current round `c`, the DataInterests
it schedules for refishing (at delay 0, after the one for `c` itself that the move to a
new round schedules, and before the stabilisation timer) are those of the rounds `r`
with `max(1, c - 5) ≤ r < c`, in ascending order; the start of the walk computed with
64-bit arithmetic is `max(1, c - 5)` for every `c`. -/
theorem Logic.processRecoData_refishes (L : Logic) (fullName : Name) (block : Block)
    (x : RecoData) (c : RoundNo)
    (hdec : (RecoData.default 0 0).wireDecode block = (x, none))
    (h64 : L.currentRound < uint64Size)
    (hcur : (L.processRecoData fullName block).logic.currentRound = c) :
    (L.processRecoData fullName block).logic.scheduledCalls =
      L.scheduledCalls ++
        (if L.currentRound ≤ x.roundNo then [(Delay.ms 0, Callback.sendDataInterest c 1)]
         else []) ++
        (List.range' (max 1 (c - 5)) (c - max 1 (c - 5))).map
          (fun r => (Delay.ms 0, Callback.sendDataInterest r 1)) ++
        [(Delay.ms 5000, Callback.setStableState)] ∧
    (∀ r, r ∈ List.range' (max 1 (c - 5)) (c - max 1 (c - 5)) ↔ max 1 (c - 5) ≤ r ∧ r < c) := by
  obtain ⟨hty, st, hst, -⟩ := RecoData.wireDecode_ok 0 0 block x hdec
  rw [Logic.processRecoData_eq L fullName block x st hdec hst hty] at hcur ⊢
  simp only [Logic.done] at hcur ⊢
  have hc64 : c < uint64Size := by
    rw [← hcur]
    split
    · exact Nat.mod_lt _ (by decide)
    · exact h64
  have hinit : (if c ≤ Logic.BACK_UNSTABLE_ROUNDS then 1 else sub64 c Logic.BACK_UNSTABLE_ROUNDS) =
      max 1 (c - 5) := refish_start c hc64
  refine ⟨?_, ?_⟩
  · rw [hcur, hinit]
    by_cases hge : L.currentRound ≤ x.roundNo
    · simp [hge, Logic.scheduledCalls, Logic.backfillEvents_calls,
        Logic.DEFAULT_STABILIZE_CUMULATIVE_DIGEST_DELAY]
    · simp [hge, Logic.scheduledCalls, Logic.backfillEvents_calls,
        Logic.DEFAULT_STABILIZE_CUMULATIVE_DIGEST_DELAY]
  · exact mem_refish c

/-- Witness of C24 (scenario S4): the example node at round 20 gets the recovery reply
(19, state); it stays at round 20 and refishes the rounds 15 to 19. -/
theorem Logic.processRecoData_refishes_witness :
    (exampleAtTwenty.processRecoData exampleRecoName exampleRecoData).logic.scheduledCalls =
      exampleAtTwenty.scheduledCalls ++
        [(Delay.ms 0, Callback.sendDataInterest 15 1), (Delay.ms 0, Callback.sendDataInterest 16 1),
         (Delay.ms 0, Callback.sendDataInterest 17 1), (Delay.ms 0, Callback.sendDataInterest 18 1),
         (Delay.ms 0, Callback.sendDataInterest 19 1)] ++
        [(Delay.ms 5000, Callback.setStableState)] :=
  (Logic.processRecoData_refishes exampleAtTwenty exampleRecoName exampleRecoData
    ((RecoData.default 0 0).wireDecode exampleRecoData).1 20 rfl (by decide) (by decide)).1

/-! ## Stabilisation -/

namespace Logic

/-- Closed form of `setStableState` once the first round of the walk is chosen. -/
theorem setStableState_eq (E : Env) (L : Logic) (init : RoundNo)
    (hinit : (if L.stableRound = 0 ∧ L.lastRecoveryRound = 0 then some 1
      else if L.stabilizingRound = L.lastRecoveryRound then some L.stabilizingRound
      else if L.stableRound ≠ 0 then some (add64 L.stableRound 1)
      else none) = some init) :
    setStableState E L =
      (let r := calculateOn E.digests L.log L.oldState init L.stabilizingRound
       let next := add64 L.stabilizingRound (sub64 L.currentRound L.stabilizingRound / 2)
       let timer : ScheduledEvent :=
         { id := L.scheduled.length + 1, delay := DEFAULT_STABILIZE_CUMULATIVE_DIGEST_DELAY,
           callback := Callback.setStableState }
       { L with log := r.1, oldState := r.2, stableRound := L.stabilizingRound,
                stabilizingRound := next, scheduled := L.scheduled ++ [timer],
                stabilizingCumulativeDigest := some (L.scheduled.length + 1) }).done := by
  unfold setStableState
  simp only [hinit]
  rfl

/-- Method `setStableState` throws when the node has no stable round although it has
recovered, and the stabilising round is not the round of the recovery. -/
theorem setStableState_throws (E : Env) (L : Logic)
    (h : L.stableRound = 0 ∧ L.lastRecoveryRound ≠ 0 ∧ L.stabilizingRound ≠ L.lastRecoveryRound) :
    setStableState E L = L.throwing Thrown.logicError := by
  unfold setStableState
  obtain ⟨hs, hl, ht⟩ := h
  simp [hs, hl, ht]

end Logic

/-- C25: `setStableState` returns unless `s = 0`, `l ≠ 0` and `t ≠ l` (the defensive
throw).  When it returns, the walk of `calculateStableStateAndCumulativeDigests` starts
at round 1 if `s = 0` and `l = 0`, at `t` if `t = l`, and at `s + 1` otherwise, and it
ends at `t`; afterwards `stable_round` is `t`, `stabilizing_round` is `t + (c - t) / 2`
(64-bit arithmetic, which is the plain value whenever `t ≤ c < 2^64`), and the current
round and the last recovery round are as before. -/
theorem Logic.setStableState_correct (E : Env) (L : Logic) :
    ((Logic.setStableState E L).thrown = none ↔
      ¬ (L.stableRound = 0 ∧ L.lastRecoveryRound ≠ 0 ∧
          L.stabilizingRound ≠ L.lastRecoveryRound)) ∧
    ((Logic.setStableState E L).thrown = none →
      (∃ init,
        (L.stableRound = 0 ∧ L.lastRecoveryRound = 0 → init = 1) ∧
        (¬ (L.stableRound = 0 ∧ L.lastRecoveryRound = 0) →
          L.stabilizingRound = L.lastRecoveryRound → init = L.stabilizingRound) ∧
        (¬ (L.stableRound = 0 ∧ L.lastRecoveryRound = 0) →
          L.stabilizingRound ≠ L.lastRecoveryRound →
          init = add64 L.stableRound 1 ∧ (L.stableRound + 1 < uint64Size →
            init = L.stableRound + 1)) ∧
        (Logic.setStableState E L).logic.log =
          (Logic.calculateStableStateAndCumulativeDigests E L init L.stabilizingRound).log ∧
        (Logic.setStableState E L).logic.oldState =
          (Logic.calculateStableStateAndCumulativeDigests E L init
            L.stabilizingRound).oldState) ∧
      (Logic.setStableState E L).logic.stableRound = L.stabilizingRound ∧
      (Logic.setStableState E L).logic.stabilizingRound =
        add64 L.stabilizingRound (sub64 L.currentRound L.stabilizingRound / 2) ∧
      (L.stabilizingRound ≤ L.currentRound → L.currentRound < uint64Size →
        (Logic.setStableState E L).logic.stabilizingRound =
          L.stabilizingRound + (L.currentRound - L.stabilizingRound) / 2) ∧
      (Logic.setStableState E L).logic.currentRound = L.currentRound ∧
      (Logic.setStableState E L).logic.lastRecoveryRound = L.lastRecoveryRound) := by
  by_cases hthrow : L.stableRound = 0 ∧ L.lastRecoveryRound ≠ 0 ∧
      L.stabilizingRound ≠ L.lastRecoveryRound
  · rw [Logic.setStableState_throws E L hthrow]
    simp [Logic.throwing, hthrow]
  · obtain ⟨init, hinit, h1, h2, h3⟩ : ∃ init,
        (if L.stableRound = 0 ∧ L.lastRecoveryRound = 0 then some 1
          else if L.stabilizingRound = L.lastRecoveryRound then some L.stabilizingRound
          else if L.stableRound ≠ 0 then some (add64 L.stableRound 1)
          else none) = some init ∧
        (L.stableRound = 0 ∧ L.lastRecoveryRound = 0 → init = 1) ∧
        (¬ (L.stableRound = 0 ∧ L.lastRecoveryRound = 0) →
          L.stabilizingRound = L.lastRecoveryRound → init = L.stabilizingRound) ∧
        (¬ (L.stableRound = 0 ∧ L.lastRecoveryRound = 0) →
          L.stabilizingRound ≠ L.lastRecoveryRound →
          init = add64 L.stableRound 1 ∧ (L.stableRound + 1 < uint64Size →
            init = L.stableRound + 1)) := by
      by_cases ha : L.stableRound = 0 ∧ L.lastRecoveryRound = 0
      · exact ⟨1, by simp [ha], fun _ => rfl, fun h => absurd ha h, fun h => absurd ha h⟩
      · by_cases hb : L.stabilizingRound = L.lastRecoveryRound
        · exact ⟨L.stabilizingRound, by simp [ha, hb], fun h => absurd h ha, fun _ _ => rfl,
            fun _ h => absurd hb h⟩
        · have hs : L.stableRound ≠ 0 := by
            intro hs
            apply hthrow
            refine ⟨hs, fun hl => ha ⟨hs, hl⟩, hb⟩
          exact ⟨add64 L.stableRound 1, by simp [ha, hb, hs], fun h => absurd h ha,
            fun _ h => absurd h hb, fun _ _ => ⟨rfl, fun h => add64_eq_add _ _ h⟩⟩
    rw [Logic.setStableState_eq E L init hinit]
    refine ⟨⟨fun _ => hthrow, fun _ => rfl⟩, fun _ => ⟨⟨init, h1, h2, h3, rfl, rfl⟩, rfl, rfl, ?_,
      rfl, rfl⟩⟩
    intro hle h64
    simp only [Logic.done]
    have hsub := sub64_eq_sub L.currentRound L.stabilizingRound h64 hle
    rw [hsub]
    apply add64_eq_add
    have : (L.currentRound - L.stabilizingRound) / 2 ≤ L.currentRound - L.stabilizingRound :=
      Nat.div_le_self _ _
    exact Nat.lt_of_le_of_lt
      (Nat.le_trans (Nat.add_le_add_left this _) (Nat.le_of_eq (Nat.add_sub_cancel' hle))) h64

/-! ## The round log as an ordered container -/

namespace DiffStateContainer

theorem find_eq_none_iff_round {log : List DiffState} {r : RoundNo} :
    find log r = none ↔ r ∉ log.map DiffState.round := by
  induction log with
  | nil => simp [find]
  | cons a log ih =>
    rw [find_cons_round]
    by_cases ha : a.round = r
    · simp [ha]
    · simp only [ha, if_false, ih, List.map_cons, List.mem_cons, not_or]
      exact ⟨fun h => ⟨fun e => ha e.symm, h⟩, fun h => h.2⟩

/-- A change made through a stored pointer that keeps the round keeps the rounds of the
log. -/
theorem map_round_replaceAt (log : List DiffState) (r : RoundNo) (c : DiffState)
    (hc : c.round = r) : (replaceAt log r c).map DiffState.round = log.map DiffState.round := by
  induction log with
  | nil => rfl
  | cons a log ih =>
    simp only [replaceAt, List.map_cons] at ih ⊢
    by_cases ha : a.round = r
    · simp [ha, hc, ih]
    · simp [ha, ih]

theorem map_round_replace (log : List DiffState) (c : DiffState) :
    (replace log c).map DiffState.round = log.map DiffState.round :=
  map_round_replaceAt log c.round c rfl

theorem find_replaceAt_ne (log : List DiffState) (r q : RoundNo) (c : DiffState)
    (hc : c.round = r) (hq : q ≠ r) : find (replaceAt log r c) q = find log q := by
  induction log with
  | nil => rfl
  | cons a log ih =>
    simp only [replaceAt, List.map_cons] at ih ⊢
    rw [find_cons_round, find_cons_round]
    by_cases ha : a.round = r
    · have h1 : ¬ c.round = q := by rw [hc]; exact fun e => hq e.symm
      have h2 : ¬ a.round = q := by rw [ha]; exact fun e => hq e.symm
      simp only [ha, if_true, h1, if_false, ih]
      rw [← ha]
      simp only [h2, if_false]
    · simp [ha, ih]

theorem find_replace_ne (log : List DiffState) (q : RoundNo) (c : DiffState)
    (hq : q ≠ c.round) : find (replace log c) q = find log q :=
  find_replaceAt_ne log c.round q c rfl hq

/-- The rounds of the log after an insertion: the round of the commit is put in its
place. -/
theorem map_round_insert (log : List DiffState) (c : DiffState) :
    (insert log c).map DiffState.round =
      (log.map DiffState.round).orderedInsert (fun a b => a ≤ b) c.round ∨
    (insert log c).map DiffState.round = log.map DiffState.round := by
  induction log with
  | nil => left; rfl
  | cons a log ih =>
    simp only [insert]
    by_cases hlt : c.round < a.round
    · left
      simp [hlt, List.orderedInsert, Nat.le_of_lt hlt]
    · by_cases heq : c.round = a.round
      · right
        simp [hlt, heq]
      · have hgt : ¬ c.round ≤ a.round := fun h => heq (Nat.le_antisymm h (Nat.le_of_not_lt hlt))
        simp only [hlt, heq, if_false, List.map_cons, List.orderedInsert, hgt]
        rcases ih with ih | ih
        · left; rw [ih]
        · right; rw [ih]

theorem find_insert_ne (log : List DiffState) (q : RoundNo) (c : DiffState)
    (hq : q ≠ c.round) : find (insert log c) q = find log q := by
  induction log with
  | nil =>
    simp only [insert, find_cons_round]
    have : ¬ c.round = q := fun e => hq e.symm
    simp [this]
  | cons a log ih =>
    simp only [insert]
    by_cases hlt : c.round < a.round
    · have : ¬ c.round = q := fun e => hq e.symm
      simp only [hlt, if_true]
      rw [find_cons_round]
      simp [this]
    · by_cases heq : c.round = a.round
      · simp [hlt, heq]
      · simp only [hlt, heq, if_false]
        rw [find_cons_round, find_cons_round, ih]

/-- Insertion keeps the log in strictly ascending round order. -/
theorem sorted_insert (log : List DiffState) (c : DiffState)
    (h : (log.map DiffState.round).Sorted (fun a b => a < b)) :
    ((insert log c).map DiffState.round).Sorted (fun a b => a < b) := by
  induction log with
  | nil => simp [insert]
  | cons a log ih =>
    simp only [insert]
    have hs := List.sorted_cons.mp h
    by_cases hlt : c.round < a.round
    · simp only [hlt, if_true, List.map_cons]
      refine List.sorted_cons.mpr ⟨?_, h⟩
      intro b hb
      rcases List.mem_cons.mp hb with hb | hb
      · rw [hb]; exact hlt
      · exact Nat.lt_trans hlt (hs.1 b hb)
    · by_cases heq : c.round = a.round
      · rw [if_neg hlt, if_pos heq]
        exact h
      · simp only [hlt, heq, if_false, List.map_cons]
        refine List.sorted_cons.mpr ⟨?_, ih hs.2⟩
        intro b hb
        have hmem : b = c.round ∨ b ∈ log.map DiffState.round := by
          rcases map_round_insert log c with hm | hm
          · rw [hm] at hb
            exact List.mem_cons.mp ((List.perm_orderedInsert _ _ _).mem_iff.mp hb)
          · rw [hm] at hb
            exact Or.inr hb
        rcases hmem with hb | hb
        · rw [hb]
          exact Nat.lt_of_le_of_ne (Nat.le_of_not_lt hlt) (fun e => heq e.symm)
        · exact hs.1 b hb

/-- In a log without repeated rounds the entry found for a round is the only one of
that round. -/
theorem find_of_mem_nodup {log : List DiffState} (h : (log.map DiffState.round).Nodup)
    {d : DiffState} (hd : d ∈ log) : find log d.round = some d := by
  induction log with
  | nil => cases hd
  | cons a log ih =>
    rw [find_cons_round]
    simp only [List.map_cons, List.nodup_cons] at h
    rcases List.mem_cons.mp hd with hd | hd
    · simp [hd]
    · have : a.round ≠ d.round := fun e => h.1 (e ▸ List.mem_map_of_mem _ hd)
      simp only [this, if_false]
      exact ih h.2 hd

end DiffStateContainer

namespace Logic

/-! ### Steps that keep identity, sequence number, state and the rounds of the log -/

theorem Same.same_refl (L : Logic) : Same L L := ⟨rfl, rfl, rfl, rfl⟩

theorem Same.then_same {L M N : Logic} (h1 : Same L M) (h2 : Same M N) : Same L N :=
  ⟨h2.1.trans h1.1, h2.2.1.trans h1.2.1, h2.2.2.1.trans h1.2.2.1, h2.2.2.2.trans h1.2.2.2⟩

theorem Same.keeps {L M : Logic} (h : Same L M) : Keeps L M := by
  refine ⟨h.1, h.2.1, ?_, ?_⟩
  · intro n c hc
    rw [h.2.2.1]
    exact ⟨c, hc, Nat.le_refl c⟩
  · intro ho
    unfold DiffStateContainer.Ordered at *
    rw [h.2.2.2]
    exact ho

theorem Keeps.keeps_refl (L : Logic) : Keeps L L := (Same.same_refl L).keeps

theorem Keeps.then_keeps {L M N : Logic} (h1 : Keeps L M) (h2 : Keeps M N) : Keeps L N := by
  refine ⟨h2.1.trans h1.1, h2.2.1.trans h1.2.1, ?_, fun ho => h2.2.2.2 (h1.2.2.2 ho)⟩
  intro n c hc
  obtain ⟨c2, hc2, hle⟩ := h1.2.2.1 n c hc
  obtain ⟨c3, hc3, hle3⟩ := h2.2.2.1 n c2 hc2
  exact ⟨c3, hc3, Nat.le_trans hle hle3⟩

theorem same_sync (L : Logic) (c : Commit) : Same L (L.sync c) := by
  rw [sync_eq]
  refine ⟨rfl, rfl, rfl, ?_⟩
  split <;> simp [DiffStateContainer.map_round_replace]

theorem same_removeOutstanding (L : Logic) (name : Name) : Same L (L.removeOutstanding name) := by
  unfold removeOutstanding
  repeat' split
  all_goals simp [act, Same]

theorem same_moveToNewCurrentRound (L : Logic) (n : RoundNo) :
    Same L (L.moveToNewCurrentRound n) := by
  rw [moveToNewCurrentRound_eq]
  exact ⟨rfl, rfl, rfl, rfl⟩

theorem same_sendData (E : Env) (L : Logic) (name : Name) (c : Commit) :
    Same L (sendData E L name c).1.logic := by
  unfold sendData
  try dsimp only
  repeat' split
  all_goals simp only [throwing, done, Same.same_refl]
  all_goals exact ((same_sync L _).then_same (Same.same_refl _)).then_same (same_removeOutstanding _ _)

theorem same_sendCumulativeOnly (E : Env) (L : Logic) (name : Name) (R : RoundNo)
    (D : Option Buffer) : Same L (sendCumulativeOnly E L name R D).logic := by
  unfold sendCumulativeOnly
  try dsimp only
  repeat' split
  all_goals simp only [throwing, done, Same.same_refl]
  all_goals refine Same.then_same ?_ (same_removeOutstanding _ _)
  all_goals simp [Same, act, DiffStateContainer.map_round_replace]

theorem same_sendDataInterest (L : Logic) (R : RoundNo) (n : Nat) :
    Same L (L.sendDataInterest R n) := by
  unfold sendDataInterest
  try dsimp only
  repeat' split
  all_goals simp [Same, expressInterest, scheduleEvent, cancelEvent_eq]

theorem same_sendSyncInterest (L : Logic) (R : RoundNo) :
    Same L (L.sendSyncInterest R).logic := by
  unfold sendSyncInterest
  try dsimp only
  repeat' split
  all_goals simp [Same, expressInterest, throwing, done]

theorem same_sendRecoInterest (L : Logic) (p : Name) : Same L (L.sendRecoInterest p) := by
  unfold sendRecoInterest
  try dsimp only
  repeat' split
  all_goals simp [Same, expressInterest]

theorem same_checkRoundDigests (L : Logic) (R : RoundNo) (D : Buffer) :
    Same L (L.checkRoundDigests R D).1.logic := by
  unfold checkRoundDigests
  try dsimp only
  repeat' split
  all_goals simp [Same, throwing, done, scheduleEvent, cancelEvent_eq,
    DiffStateContainer.map_round_replace]

theorem same_checkRecovery (L : Logic) (p : Name) (R : RoundNo) (D : Option Buffer) :
    Same L (L.checkRecovery p R D).logic := by
  obtain ⟨-, h2, -, h4, h5, h6, -⟩ := checkRecovery_frame L p R D
  exact ⟨h5, h6, h2, by rw [h4]⟩

theorem same_pending (L : Logic) (x : Option Name) :
    Same L { L with pendingDataInterest := x } := ⟨rfl, rfl, rfl, rfl⟩

theorem same_processDataInterest (E : Env) (L : Logic) (name : Name) :
    Same L (processDataInterest E L name).logic := by
  unfold processDataInterest
  cases hr : roundOfName name with
  | none => exact Same.same_refl L
  | some roundNo =>
    dsimp only
    have h1 : Same L (if roundNo ≥ L.currentRound then { L with pendingDataInterest := some name }
        else L) := by
      split
      · exact same_pending L _
      · exact Same.same_refl L
    generalize (if roundNo ≥ L.currentRound then { L with pendingDataInterest := some name }
        else L) = L1 at h1 ⊢
    refine Same.then_same h1 ?_
    repeat' split
    all_goals first
      | exact Same.same_refl L1
      | exact same_moveToNewCurrentRound _ _
      | exact same_sendCumulativeOnly _ _ _ _ _
      | exact same_sendData _ _ _ _

theorem same_processSyncInterest (L : Logic) (name : Name) :
    Same L (L.processSyncInterest name).logic := by
  unfold processSyncInterest
  repeat' split
  all_goals first
    | exact Same.same_refl L
    | exact same_moveToNewCurrentRound _ _
    | exact same_checkRoundDigests _ _ _

theorem same_onDataInterestTimeout (E : Env) (L : Logic) (name : Name) (n : Nat) :
    Same L (onDataInterestTimeout E L name n).logic := by
  unfold onDataInterestTimeout
  try dsimp only
  repeat' split
  all_goals simp [Same, throwing, done, scheduleEvent]

theorem same_onRecoInterestTimeout (L : Logic) (name : Name) :
    Same L (L.onRecoInterestTimeout name) := by
  unfold onRecoInterestTimeout
  try dsimp only
  repeat' split
  all_goals simp [Same, scheduleEvent]

theorem same_onRecoInterest (L : Logic) (name : Name) : Same L (L.onRecoInterest name).logic := by
  unfold onRecoInterest processRecoInterest sendRecoData
  try dsimp only
  repeat' split
  all_goals simp [Same, throwing, done, act]

end Logic

/-- A sequence number held by a State is never lowered by `update`. -/
theorem State.lookup_update_ge (s : State) (m : Name) (q : SeqNo) (n : Name) (c : SeqNo)
    (h : s.lookup n = some c) : ∃ c2, (s.update m q).1.lookup n = some c2 ∧ c ≤ c2 := by
  rw [State.lookup_update]
  by_cases hnm : n = m
  · subst hnm
    simp only [if_true, h]
    exact ⟨max c q, rfl, Nat.le_max_left c q⟩
  · simp only [hnm, if_false]
    exact ⟨c, h, Nat.le_refl c⟩

namespace Logic

/-- What `sendCumulativeOnly` leaves alone. -/
theorem sendCumulativeOnly_frame (E : Env) (L : Logic) (name : Name) (R : RoundNo)
    (D : Option Buffer) :
    (sendCumulativeOnly E L name R D).logic.state = L.state ∧
    (sendCumulativeOnly E L name R D).logic.oldState = L.oldState ∧
    (sendCumulativeOnly E L name R D).logic.sessionName = L.sessionName ∧
    (sendCumulativeOnly E L name R D).logic.seqNo = L.seqNo ∧
    (sendCumulativeOnly E L name R D).logic.currentRound = L.currentRound ∧
    (sendCumulativeOnly E L name R D).logic.stableRound = L.stableRound ∧
    (sendCumulativeOnly E L name R D).logic.stabilizingRound = L.stabilizingRound ∧
    (sendCumulativeOnly E L name R D).logic.lastRecoveryRound = L.lastRecoveryRound := by
  unfold sendCumulativeOnly removeOutstanding
  dsimp only
  repeat' split
  all_goals simp [throwing, done, act]

/-- Ordered logs stay ordered under `updateDiffLog`, as long as a commit that is stored
in the log is stored under the round it is logged for. -/
theorem ordered_updateDiffLogOn (H : Digests) (log : List DiffState) (c : Commit) (R : RoundNo)
    (ho : DiffStateContainer.Ordered log) (hc : c.inLog = true → c.value.round = R) :
    DiffStateContainer.Ordered (updateDiffLogOn H log c R).1 ∧
    (updateDiffLogOn H log c R).2.value.round = R := by
  unfold updateDiffLogOn
  dsimp only
  have hlog1 : DiffStateContainer.Ordered
      (if c.inLog = true then
        DiffStateContainer.replaceAt log c.value.round
          (({ c.value with round := R } : DiffState).updateRoundDigest H)
       else log) := by
    split
    · rename_i hin
      unfold DiffStateContainer.Ordered
      rw [DiffStateContainer.map_round_replaceAt _ _ _ (by rw [hc hin]; rfl)]
      exact ho
    · exact ho
  split
  · exact ⟨DiffStateContainer.sorted_insert _ _ hlog1, rfl⟩
  · exact ⟨hlog1, rfl⟩

theorem ordered_updateDiffLog (E : Env) (L : Logic) (c : Commit) (R : RoundNo)
    (hc : c.inLog = true → c.value.round = R) :
    Keeps L (updateDiffLog E L c R).1 ∧ (updateDiffLog E L c R).2.value.round = R :=
  ⟨⟨rfl, rfl, fun _ c h => ⟨c, h, Nat.le_refl c⟩,
    fun ho => (ordered_updateDiffLogOn E.digests L.log c R ho hc).1⟩,
   by
    unfold updateDiffLog updateDiffLogOn
    dsimp only
    split <;> rfl⟩

theorem keeps_updateDiffLog_new (E : Env) (L : Logic) (d : DiffState) (R : RoundNo) :
    Keeps L (updateDiffLog E L { value := d, inLog := false } R).1 :=
  (ordered_updateDiffLog E L { value := d, inLog := false } R (fun h => Bool.noConfusion h)).1

theorem same_answerWithCumulativeOnly (E : Env) (L : Logic) (R : RoundNo) (D : Option Buffer) :
    Same L (answerWithCumulativeOnly E L R D).logic ∧
    (answerWithCumulativeOnly E L R D).logic.currentRound = L.currentRound := by
  unfold answerWithCumulativeOnly
  dsimp only
  repeat' split
  all_goals first
    | exact ⟨Same.same_refl L, rfl⟩
    | exact ⟨same_sendCumulativeOnly _ _ _ _ _, (sendCumulativeOnly_frame _ _ _ _ _).2.2.2.2.1⟩
    | exact ⟨(same_sendCumulativeOnly _ _ _ _ _).then_same (same_pending _ _),
        (sendCumulativeOnly_frame _ _ _ _ _).2.2.2.2.1⟩

theorem keeps_produceCumulativeOnly (E : Env) (L : Logic) (R : RoundNo) (D : Option Buffer) :
    Keeps L (produceCumulativeOnly E L R D).logic := by
  unfold produceCumulativeOnly
  dsimp only
  have h1 := (same_answerWithCumulativeOnly E L R D).1
  split
  · exact h1.keeps
  · simp only [done]
    exact h1.keeps.then_keeps (Keeps.then_keeps (keeps_updateDiffLog_new E _ _ _)
      (same_moveToNewCurrentRound _ _).keeps)

/-- When the log has no entry for the current round, `produceCumulativeOnly` stores the
sentinel leaf with the cumulative info under that round, leaves `m_state` alone and moves
on by one round. -/
theorem produceCumulativeOnly_stores (E : Env) (L : Logic) (R : RoundNo) (D : Option Buffer)
    (hf : DiffStateContainer.find L.log L.currentRound = none)
    (hok : (produceCumulativeOnly E L R D).thrown = none) :
    (∃ d, DiffStateContainer.find (produceCumulativeOnly E L R D).logic.log L.currentRound =
        some d ∧
      d.leaves = [{ sessionName := L.sessionName, seq := 0 }] ∧
      d.cumulativeInfo = some (R, D)) ∧
    (produceCumulativeOnly E L R D).logic.state = L.state ∧
    (produceCumulativeOnly E L R D).logic.currentRound = add64 L.currentRound 1 := by
  obtain ⟨⟨hn, -, hst, hr⟩, hcur⟩ := same_answerWithCumulativeOnly E L R D
  have hf1 : DiffStateContainer.find (answerWithCumulativeOnly E L R D).logic.log
      (answerWithCumulativeOnly E L R D).logic.currentRound = none := by
    rw [hcur, DiffStateContainer.find_eq_none_iff_round, hr,
      ← DiffStateContainer.find_eq_none_iff_round]
    exact hf
  unfold produceCumulativeOnly at hok ⊢
  dsimp only at hok ⊢
  cases ha : (answerWithCumulativeOnly E L R D).thrown with
  | some t => simp [ha] at hok
  | none =>
    simp only [ha]
    rw [updateDiffLog_inserts E _ _ _ rfl hf1]
    simp only [done, moveToNewCurrentRound_eq, hcur, hst, hn]
    have hfind := @DiffStateContainer.find_insert_same
      (answerWithCumulativeOnly E L R D).logic.log
      (({ DiffState.fresh.update L.sessionName CUMULATIVE_ONLY_DATA with
          cumulativeInfo := some (R, D) } : DiffState).stamped E.digests L.currentRound)
      (by simpa [DiffState.stamped, DiffState.updateRoundDigest, hcur] using hf1)
    refine ⟨⟨({ DiffState.fresh.update L.sessionName CUMULATIVE_ONLY_DATA with
          cumulativeInfo := some (R, D) } : DiffState).stamped E.digests L.currentRound,
      ?_, ?_, ?_⟩, ?_, ?_⟩
    · simpa [DiffState.stamped, DiffState.updateRoundDigest] using hfind
    · simp [DiffState.stamped, DiffState.updateRoundDigest, DiffState.leaves_fresh_update,
        CUMULATIVE_ONLY_DATA]
    · simp [DiffState.stamped, DiffState.updateRoundDigest]
    · trivial
    · trivial

end Logic

namespace Logic

/-- The walk that stamps cumulative digests keeps the rounds of the entries. -/
theorem rounds_stabilizeEntries (H : Digests) (e : RoundNo) (l : List DiffState) (old : State) :
    (stabilizeEntries H e l old).1.map DiffState.round = l.map DiffState.round := by
  induction l generalizing old with
  | nil => rfl
  | cons d rest ih =>
    unfold stabilizeEntries
    split
    · simp [ih]
    · rfl

theorem ordered_walkStable (H : Digests) (log : List DiffState) (old : State)
    (i e : RoundNo) (ho : DiffStateContainer.Ordered log) :
    DiffStateContainer.Ordered (walkStable H log old i e).1 := by
  unfold walkStable
  dsimp only
  split
  · exact ho
  · unfold DiffStateContainer.Ordered
    rw [List.map_append, rounds_stabilizeEntries, ← List.map_append,
      List.takeWhile_append_dropWhile]
    exact ho

theorem ordered_calculateOn (H : Digests) (log : List DiffState) (old : State)
    (i e : RoundNo) (ho : DiffStateContainer.Ordered log) :
    DiffStateContainer.Ordered (calculateOn H log old i e).1 := by
  unfold calculateOn
  dsimp only
  have hw := ordered_walkStable H log old i e ho
  split
  · have h1 := (ordered_updateDiffLogOn H (walkStable H log old i e).1
      { value := DiffState.fresh, inLog := false } e hw (fun h => Bool.noConfusion h)).1
    split
    · unfold DiffStateContainer.Ordered
      rw [DiffStateContainer.map_round_replace]
      exact h1
    · exact h1
  · unfold DiffStateContainer.Ordered
    rw [DiffStateContainer.map_round_replace]
    exact hw

theorem keeps_setStableState (E : Env) (L : Logic) :
    Keeps L (setStableState E L).logic := by
  unfold setStableState
  dsimp only
  split
  · exact Keeps.keeps_refl L
  · refine ⟨rfl, rfl, fun n c h => ⟨c, h, Nat.le_refl c⟩, fun ho => ?_⟩
    exact ordered_calculateOn _ _ _ _ _ ho

theorem keeps_merge (L : Logic) (t : State) : Keeps L { L with state := L.state.merge t } :=
  ⟨rfl, rfl, fun n c h => State.lookup_merge_ge L.state t n c h, fun ho => ho⟩

theorem same_pendingRecovery (L : Logic) (ps : List Name) :
    Same L { L with pendingRecoveryPrefixes := ps } := ⟨rfl, rfl, rfl, rfl⟩

theorem keeps_processRecoData (L : Logic) (fullName : Name) (block : Block) :
    Keeps L (L.processRecoData fullName block).logic := by
  unfold processRecoData
  dsimp only
  split
  · split
    · exact (same_pendingRecovery L _).keeps
    · exact (same_pendingRecovery L _).keeps
  · split
    · exact (same_pendingRecovery L _).keeps
    · split
      · exact (same_pendingRecovery L _).keeps
      · simp only [act_if, applyRecoveredLeaves_logic, cancelEvent_eq,
          moveToNewCurrentRoundAfterRecovery, backfill_loop]
        simp only [scheduleEvent, done]
        split
        · exact ⟨rfl, rfl, fun n c h => State.lookup_merge_ge L.state _ n c h, fun ho => ho⟩
        · exact ⟨rfl, rfl, fun n c h => State.lookup_merge_ge L.state _ n c h, fun ho => ho⟩

/-! ### Reception of Data keeps the invariants -/

theorem same_openCommit (L : Logic) (R : RoundNo) (suffix : Component) :
    Same L (L.openCommit R suffix).1 ∧
    ((L.openCommit R suffix).2.inLog = true → (L.openCommit R suffix).2.value.round = R) := by
  unfold openCommit
  dsimp only
  refine ⟨same_sync L _, ?_⟩
  cases hf : DiffStateContainer.find L.log R with
  | none => intro h; cases h
  | some d =>
    intro _
    show d.round = R
    exact DiffStateContainer.find_some_round hf

theorem keeps_applyReceivedLeaves (R : RoundNo) (ls : List Leaf) (L : Logic) (c : Commit)
    (v : List MissingDataInfo) :
    Keeps L (applyReceivedLeaves R ls L c v).1 ∧
    (applyReceivedLeaves R ls L c v).2.1.inLog = c.inLog ∧
    (applyReceivedLeaves R ls L c v).2.1.value.round = c.value.round := by
  induction ls generalizing L c v with
  | nil => exact ⟨Keeps.keeps_refl L, rfl, rfl⟩
  | cons leaf rest ih =>
    unfold applyReceivedLeaves
    dsimp only
    have hstep : ∀ M : Logic, M.sessionName = L.sessionName → M.seqNo = L.seqNo →
        M.state = L.state → M.log = L.log →
        Keeps L (({ M with state := (M.state.update leaf.sessionName leaf.seq).1 } : Logic).sync
          { c with value := c.value.update leaf.sessionName leaf.seq }) := by
      intro M h1 h2 h3 h4
      refine Keeps.then_keeps (M := { M with state := (M.state.update leaf.sessionName leaf.seq).1 })
        ⟨h1, h2, ?_, ?_⟩ (same_sync _ _).keeps
      · intro n q hq
        rw [← h3] at hq
        exact State.lookup_update_ge M.state _ _ n q hq
      · intro ho
        show DiffStateContainer.Ordered M.log
        rw [h4]
        exact ho
    split
    · obtain ⟨k1, k2, k3⟩ := ih
        (({ ({ L with oldState := (L.oldState.update leaf.sessionName leaf.seq).1 } : Logic) with
            state := (L.state.update leaf.sessionName leaf.seq).1 } : Logic).sync
          { c with value := c.value.update leaf.sessionName leaf.seq })
        { c with value := c.value.update leaf.sessionName leaf.seq }
        (if ((L.state.update leaf.sessionName leaf.seq).2.1 ||
              (L.state.update leaf.sessionName leaf.seq).2.2.1) = true then
            v ++ [{ session := leaf.sessionName,
                    low := add64 (L.state.update leaf.sessionName leaf.seq).2.2.2 1,
                    high := leaf.seq }]
          else v)
      exact ⟨(hstep { L with oldState := (L.oldState.update leaf.sessionName leaf.seq).1 }
        rfl rfl rfl rfl).then_keeps k1, k2, k3⟩
    · obtain ⟨k1, k2, k3⟩ := ih
        (({ L with state := (L.state.update leaf.sessionName leaf.seq).1 } : Logic).sync
          { c with value := c.value.update leaf.sessionName leaf.seq })
        { c with value := c.value.update leaf.sessionName leaf.seq }
        (if ((L.state.update leaf.sessionName leaf.seq).2.1 ||
              (L.state.update leaf.sessionName leaf.seq).2.2.1) = true then
            v ++ [{ session := leaf.sessionName,
                    low := add64 (L.state.update leaf.sessionName leaf.seq).2.2.2 1,
                    high := leaf.seq }]
          else v)
      exact ⟨(hstep L rfl rfl rfl rfl).then_keeps k1, k2, k3⟩

end Logic

namespace Logic

theorem keeps_finishProcessData (E : Env) (L : Logic) (c : Commit) (R : RoundNo)
    (hc : c.inLog = true → c.value.round = R) :
    Keeps L (finishProcessData E L c R).logic := by
  unfold finishProcessData
  dsimp only
  have h1 : Same L (if R = L.currentRound then L.moveToNewCurrentRound (add64 L.currentRound 1)
      else L) := by
    split
    · exact same_moveToNewCurrentRound _ _
    · exact Same.same_refl L
  generalize (if R = L.currentRound then L.moveToNewCurrentRound (add64 L.currentRound 1)
      else L) = L1 at h1 ⊢
  refine h1.keeps.then_keeps ?_
  refine Keeps.then_keeps (ordered_updateDiffLog E _ c R hc).1 ?_
  generalize updateDiffLog E L1 c R = u
  simp only [done]
  refine Same.keeps (Same.then_same ?_ (same_sync _ _))
  simp only [cancelEvent_eq, scheduleEvent]
  refine ⟨?_, ?_, ?_, ?_⟩ <;> dsimp only <;> split <;> rfl

theorem keeps_applyDataContent (E : Env) (L : Logic) (c : Commit) (R : RoundNo)
    (x : DataContent) (hc : c.inLog = true → c.value.round = R) :
    Keeps L (applyDataContent E L c R x).logic := by
  unfold applyDataContent
  dsimp only
  have hc2 : (if x.dataType = tlv.CumulativeOnly then
        ({ c with value := c.value.update x.userPrefix CUMULATIVE_ONLY_DATA } : Commit)
      else c).inLog = true →
      (if x.dataType = tlv.CumulativeOnly then
        ({ c with value := c.value.update x.userPrefix CUMULATIVE_ONLY_DATA } : Commit)
      else c).value.round = R := by
    split
    · exact hc
    · exact hc
  generalize (if x.dataType = tlv.CumulativeOnly then
        ({ c with value := c.value.update x.userPrefix CUMULATIVE_ONLY_DATA } : Commit)
      else c) = c2 at hc2 ⊢
  have hchk : Same L (if x.dataType = tlv.CumulativeOnly ∨ x.dataType = tlv.DataAndCumulative then
        (L.sync c2).checkRecovery x.userPrefix x.roundNo x.cumulativeDigest
      else (L.sync c2).done).logic := by
    split
    · exact (same_sync L c2).then_same (same_checkRecovery _ _ _ _)
    · exact same_sync L c2
  generalize (if x.dataType = tlv.CumulativeOnly ∨ x.dataType = tlv.DataAndCumulative then
        (L.sync c2).checkRecovery x.userPrefix x.roundNo x.cumulativeDigest
      else (L.sync c2).done) = checked at hchk ⊢
  split
  · exact hchk.keeps
  · split
    · split
      · exact hchk.keeps
      · rename_i reply _
        obtain ⟨k1, k2, k3⟩ := keeps_applyReceivedLeaves R
          (LeafContainer.ordered reply.leaves) checked.logic c2 []
        refine hchk.keeps.then_keeps (k1.then_keeps ?_)
        have hact : Same (applyReceivedLeaves R (LeafContainer.ordered reply.leaves)
              checked.logic c2 []).1
            (if (applyReceivedLeaves R (LeafContainer.ordered reply.leaves)
                checked.logic c2 []).2.2 ≠ [] then
              (applyReceivedLeaves R (LeafContainer.ordered reply.leaves)
                checked.logic c2 []).1.act
                (Action.onUpdate (applyReceivedLeaves R (LeafContainer.ordered reply.leaves)
                  checked.logic c2 []).2.2)
             else (applyReceivedLeaves R (LeafContainer.ordered reply.leaves)
                checked.logic c2 []).1) := by
          split
          · exact ⟨rfl, rfl, rfl, rfl⟩
          · exact Same.same_refl _
        refine hact.keeps.then_keeps ?_
        exact keeps_finishProcessData E _ _ R (by rw [k2, k3]; exact hc2)
    · exact hchk.keeps.then_keeps (keeps_finishProcessData E _ _ R hc2)

theorem keeps_processData (E : Env) (L : Logic) (fullName : Name) (block : Block) :
    Keeps L (processData E L fullName block).logic := by
  unfold processData
  split
  · rename_i roundNo suffix _ _
    dsimp only
    have h0 : Same L (if roundNo = L.currentRound then { L with syncTimeouts := 0 } else L) := by
      split
      · exact ⟨rfl, rfl, rfl, rfl⟩
      · exact Same.same_refl L
    generalize (if roundNo = L.currentRound then { L with syncTimeouts := 0 } else L) = L0
      at h0 ⊢
    obtain ⟨ho1, ho2⟩ := same_openCommit L0 roundNo suffix
    split
    · exact h0.keeps
    · split
      · split
        · exact (h0.then_same ho1).keeps
        · exact (h0.then_same ho1).keeps
      · exact (h0.then_same ho1).keeps.then_keeps (keeps_applyDataContent E _ _ _ _ ho2)
  · exact Keeps.keeps_refl L

theorem same_answerWithData (E : Env) (L : Logic) (c : Commit) :
    Same L (answerWithData E L c).logic := by
  unfold answerWithData
  split
  · rename_i name _
    split
    · exact Same.same_refl L
    · dsimp only
      split
      · have h := same_sendData E L name c
        split
        · exact h
        · exact h.then_same (same_pending _ _)
      · exact Same.same_refl L
  · exact Same.same_refl L

theorem keeps_covered {L M : Logic} (h : Keeps L M) (hc : SeqCovered L) : SeqCovered M := by
  unfold SeqCovered at *
  rw [h.1, h.2.1]
  rcases hc with h0 | ⟨c, hl, hle⟩
  · exact Or.inl h0
  · obtain ⟨c2, hl2, hle2⟩ := h.2.2.1 _ _ hl
    exact Or.inr ⟨c2, hl2, Nat.le_trans hle hle2⟩

theorem same_seq_update (L : Logic) (q : SeqNo) :
    SeqCovered { L with seqNo := q, state := (L.state.update L.sessionName q).1 } := by
  refine Or.inr ?_
  show ∃ c, (L.state.update L.sessionName q).1.lookup L.sessionName = some c ∧ q ≤ c
  rw [State.lookup_update]
  simp only [if_true]
  cases L.state.lookup L.sessionName with
  | none => exact ⟨q, rfl, Nat.le_refl q⟩
  | some c => exact ⟨max c q, rfl, Nat.le_max_right c q⟩

theorem keeps_publish (E : Env) (L2 : Logic) (R : RoundNo) :
    Keeps L2 (answerWithData E (updateDiffLog E L2 { value := L2.ownCommit, inLog := false } R).1
      (updateDiffLog E L2 { value := L2.ownCommit, inLog := false } R).2).logic :=
  (keeps_updateDiffLog_new E L2 L2.ownCommit R).then_keeps (same_answerWithData E _ _).keeps

theorem same_advance (A : Logic) :
    Same A { ((A.scheduleEvent (Delay.ms 0)
        (Callback.sendSyncInterest A.currentRound)).1.moveToNewCurrentRound
        (add64 (A.scheduleEvent (Delay.ms 0)
          (Callback.sendSyncInterest A.currentRound)).1.currentRound 1))
        with syncTimeouts := 0 } := by
  have h1 : Same A (A.scheduleEvent (Delay.ms 0)
    (Callback.sendSyncInterest A.currentRound)).1 := ⟨rfl, rfl, rfl, rfl⟩
  refine h1.then_same ?_
  have h2 := same_moveToNewCurrentRound (A.scheduleEvent (Delay.ms 0)
    (Callback.sendSyncInterest A.currentRound)).1
    (add64 (A.scheduleEvent (Delay.ms 0)
      (Callback.sendSyncInterest A.currentRound)).1.currentRound 1)
  exact ⟨h2.1, h2.2.1, h2.2.2.1, h2.2.2.2⟩

theorem updateSeqNo_inv (E : Env) (L : Logic) (q : SeqNo)
    (ho : DiffStateContainer.Ordered L.log) (hc : SeqCovered L) :
    DiffStateContainer.Ordered (updateSeqNo E L q).logic.log ∧
    SeqCovered (updateSeqNo E L q).logic := by
  have hc2 := same_seq_update L q
  have ho2 : DiffStateContainer.Ordered
      ({ L with seqNo := q, state := (L.state.update L.sessionName q).1 } : Logic).log := ho
  have hk := keeps_publish E
    ({ L with seqNo := q, state := (L.state.update L.sessionName q).1 } : Logic) L.currentRound
  have hk3 := hk.then_keeps (same_advance _).keeps
  unfold updateSeqNo
  split
  · exact ⟨ho, hc⟩
  · dsimp only
    split
    · split
      · exact ⟨hk.2.2.2 ho2, keeps_covered hk hc2⟩
      · exact ⟨hk3.2.2.2 ho2, keeps_covered hk3 hc2⟩
    · exact ⟨ho2, hc2⟩

theorem updateSeqNo_seqNo (E : Env) (L : Logic) (q : SeqNo) :
    (updateSeqNo E L q).logic.seqNo = if q < L.seqNo ∨ q = 0 then L.seqNo else q := by
  have hk := keeps_publish E
    ({ L with seqNo := q, state := (L.state.update L.sessionName q).1 } : Logic) L.currentRound
  have hk3 := hk.then_keeps (same_advance _).keeps
  unfold updateSeqNo
  split
  · rfl
  · dsimp only
    split
    · split
      · exact hk.2.1
      · exact hk3.2.1
    · rfl

theorem updateSeqNo_covered (E : Env) (L : Logic) (q : SeqNo) (hc : SeqCovered L)
    (hq : q ≤ L.seqNo ∨ q = 0) : updateSeqNo E L q = L.done := by
  unfold updateSeqNo
  split
  · rfl
  · rename_i hng
    have hq0 : q ≠ 0 := fun h => hng (Or.inr h)
    have hqe : q = L.seqNo := by
      rcases hq with h | h
      · exact Nat.le_antisymm h (Nat.le_of_not_lt (fun h2 => hng (Or.inl h2)))
      · exact absurd h hq0
    rcases hc with h0 | ⟨c, hl, hle⟩
    · exact absurd (hqe.trans h0) hq0
    · have hle2 : q ≤ c := hqe ▸ hle
      have hst : (L.state.update L.sessionName q).1 = L.state :=
        State.update_eq_self_of_le L.state L.sessionName q c hl hle2
      have hfl : (L.state.update L.sessionName q).2 = (false, false, 0) := by
        rw [State.update_snd, hl]
        simp [hle2]
      dsimp only
      rw [hfl, hst]
      simp only [Bool.or_self, Bool.false_eq_true, if_false]
      rw [hqe]

theorem keeps_onDataAndSyncInterest (E : Env) (L : Logic) (name : Name) :
    Keeps L (onDataAndSyncInterest E L name).logic := by
  unfold onDataAndSyncInterest
  repeat' split
  all_goals first
    | exact Keeps.keeps_refl L
    | exact (same_processDataInterest E L name).keeps
    | exact (same_processSyncInterest L name).keeps

theorem keeps_onData (E : Env) (L : Logic) (fullName : Name) (content : Block) (valid : Bool) :
    Keeps L (onData E L fullName content valid).logic := by
  unfold onData
  repeat' split
  all_goals first
    | exact Keeps.keeps_refl L
    | exact keeps_processData E L fullName content

theorem keeps_onRecoData (L : Logic) (fullName : Name) (content : Block) (valid : Bool) :
    Keeps L (L.onRecoData fullName content valid).logic := by
  unfold onRecoData
  repeat' split
  all_goals first
    | exact Keeps.keeps_refl L
    | exact keeps_processRecoData L fullName content

theorem keeps_runCallback (E : Env) (L : Logic) (cb : Callback) :
    Keeps L (runCallback E L cb).logic := by
  cases cb with
  | sendDataInterest roundNo retries => exact (same_sendDataInterest L roundNo retries).keeps
  | sendSyncInterest roundNo => exact (same_sendSyncInterest L roundNo).keeps
  | setStableState => exact keeps_setStableState E L
  | produceCumulativeOnly roundNo cd => exact keeps_produceCumulativeOnly E L roundNo cd
  | checkRecovery userPrefix roundNo cd => exact (same_checkRecovery L userPrefix roundNo cd).keeps
  | sendRecoInterest userPrefix => exact (same_sendRecoInterest L userPrefix).keeps
  | startPartition => exact Same.keeps ⟨rfl, rfl, rfl, rfl⟩
  | stopPartition => exact Same.keeps ⟨rfl, rfl, rfl, rfl⟩

theorem step_inv (E : Env) (L : Logic) (ev : Event)
    (ho : DiffStateContainer.Ordered L.log) (hc : SeqCovered L) :
    DiffStateContainer.Ordered (step E L ev).logic.log ∧ SeqCovered (step E L ev).logic := by
  have key : ∀ M : Logic, Keeps L M → DiffStateContainer.Ordered M.log ∧ SeqCovered M :=
    fun M h => ⟨h.2.2.2 ho, keeps_covered h hc⟩
  cases ev with
  | updateSeqNo seqNo => exact updateSeqNo_inv E L seqNo ho hc
  | interest name => exact key _ (keeps_onDataAndSyncInterest E L name)
  | recoInterest name => exact key _ (same_onRecoInterest L name).keeps
  | data fullName content valid => exact key _ (keeps_onData E L fullName content valid)
  | recoData fullName content valid => exact key _ (keeps_onRecoData L fullName content valid)
  | dataInterestTimeout name retries =>
    exact key _ (same_onDataInterestTimeout E L name retries).keeps
  | recoInterestTimeout name => exact key _ (same_onRecoInterestTimeout L name).keeps
  | syncInterestTimeout => exact key _ (Keeps.keeps_refl L)
  | timer id =>
    have hs : step E L (Event.timer id) =
        match L.pendingEvent id with
        | none => L.done
        | some ev => runCallback E { L with fired := L.fired ++ [id] } ev.callback := rfl
    rw [hs]
    cases L.pendingEvent id with
    | none => exact ⟨ho, hc⟩
    | some ev =>
      have h1 : Same L { L with fired := L.fired ++ [id] } := ⟨rfl, rfl, rfl, rfl⟩
      exact key _ (h1.keeps.then_keeps (keeps_runCallback E _ ev.callback))

theorem reachable_inv (E : Env) (L : Logic) (h : Reachable E L) :
    DiffStateContainer.Ordered L.log ∧ SeqCovered L := by
  induction h with
  | init syncPrefix defaultUserPrefix hasValidator timestamp =>
    constructor
    · unfold Logic.new
      dsimp only
      split <;> simp [DiffStateContainer.Ordered, scheduleEvent]
    · refine Or.inl ?_
      unfold Logic.new
      dsimp only
      split <;> rfl
  | step L ev _ _ ih => exact step_inv E L ev ih.1 ih.2

end Logic

/-! ## The DiffLog over the life of a node -/

theorem DiffStateContainer.replaceAt_absent {log : List DiffState} {r : RoundNo}
    (h : DiffStateContainer.find log r = none) (c : DiffState) :
    DiffStateContainer.replaceAt log r c = log := by
  rw [DiffStateContainer.find_eq_none_iff_round] at h
  unfold DiffStateContainer.replaceAt
  conv_rhs => rw [← List.map_id log]
  refine List.map_congr_left (fun d hd => ?_)
  have : d.round ≠ r := fun e => h (e ▸ List.mem_map_of_mem DiffState.round hd)
  simp [this]

/-- C29: in every state a node reaches, `m_log` is in strictly ascending round order, so
no two entries have the same round; every entry is the one `find` returns for its round,
and what `find` returns for a round is an entry stored with that round; and
`updateDiffLog(commit, R)` leaves the rounds of the log as they are when an entry of `R`
exists, and inserts the commit (with round and round digest set) when none exists. -/
theorem Logic.diffLog_rounds_unique (E : Env) (L : Logic) (h : Logic.Reachable E L) :
    DiffStateContainer.Ordered L.log ∧
    (L.log.map DiffState.round).Nodup ∧
    (∀ d, d ∈ L.log → DiffStateContainer.find L.log d.round = some d) ∧
    (∀ R d, DiffStateContainer.find L.log R = some d → d ∈ L.log ∧ d.round = R) ∧
    (∀ (c : Commit) (R : RoundNo), (c.inLog = true → c.value.round = R) →
      (DiffStateContainer.find L.log R ≠ none →
        (Logic.updateDiffLog E L c R).1.log.map DiffState.round = L.log.map DiffState.round) ∧
      (DiffStateContainer.find L.log R = none →
        (Logic.updateDiffLog E L c R).1.log =
          DiffStateContainer.insert L.log (c.value.stamped E.digests R) ∧
        DiffStateContainer.find (Logic.updateDiffLog E L c R).1.log R =
          some (c.value.stamped E.digests R))) := by
  have ho := (Logic.reachable_inv E L h).1
  have hnd : (L.log.map DiffState.round).Nodup := by
    unfold DiffStateContainer.Ordered at ho
    exact ho.nodup
  refine ⟨ho, hnd, fun d hd => DiffStateContainer.find_of_mem_nodup hnd hd, ?_, ?_⟩
  · intro R d hf
    refine ⟨?_, DiffStateContainer.find_some_round hf⟩
    unfold DiffStateContainer.find at hf
    exact List.mem_of_find?_eq_some hf
  · intro c R hc
    have hround : (c.value.stamped E.digests R).round = R := rfl
    constructor
    · intro hf
      unfold Logic.updateDiffLog Logic.updateDiffLogOn
      dsimp only
      cases hin : c.inLog with
      | false =>
        simp only [Bool.false_eq_true, if_false]
        cases hf2 : DiffStateContainer.find L.log R with
        | none => exact absurd hf2 hf
        | some d => rfl
      | true =>
        simp only [if_true]
        have hr := hc hin
        have hmap := DiffStateContainer.map_round_replaceAt L.log c.value.round
          (c.value.stamped E.digests R) (hround.trans hr.symm)
        have hf3 : DiffStateContainer.find (DiffStateContainer.replaceAt L.log c.value.round
            (c.value.stamped E.digests R)) R ≠ none := by
          rw [Ne, DiffStateContainer.find_eq_none_iff_round, hmap,
            ← DiffStateContainer.find_eq_none_iff_round]
          exact hf
        split
        · rename_i hnone
          exact absurd hnone hf3
        · exact hmap
    · intro hf
      have hlog : (Logic.updateDiffLog E L c R).1.log =
          DiffStateContainer.insert L.log (c.value.stamped E.digests R) := by
        unfold Logic.updateDiffLog Logic.updateDiffLogOn
        dsimp only
        cases hin : c.inLog with
        | false =>
          simp only [Bool.false_eq_true, if_false, hf]
          rfl
        | true =>
          have hr := hc hin
          have hrep : DiffStateContainer.replaceAt L.log c.value.round
              (c.value.stamped E.digests R) = L.log :=
            DiffStateContainer.replaceAt_absent (hr ▸ hf) _
          simp only [if_true]
          have hrep2 : DiffStateContainer.replaceAt L.log c.value.round
              (({ c.value with round := R } : DiffState).updateRoundDigest E.digests) = L.log :=
            hrep
          rw [hrep2, hf]
          rfl
      refine ⟨hlog, ?_⟩
      rw [hlog]
      exact @DiffStateContainer.find_insert_same L.log (c.value.stamped E.digests R) hf

/-- Witness for C29: the example node after its first publication. -/
theorem Logic.diffLog_rounds_unique_witness :
    Logic.Reachable exampleEnv (Logic.step exampleEnv exampleNode (Event.updateSeqNo 1)).logic ∧
    (Logic.step exampleEnv exampleNode (Event.updateSeqNo 1)).logic.log.map DiffState.round = [1] ∧
    DiffStateContainer.Ordered (Logic.step exampleEnv exampleNode (Event.updateSeqNo 1)).logic.log :=
  ⟨Logic.Reachable.step exampleNode (Event.updateSeqNo 1) (Logic.Reachable.init [[1]] [[2]] false 7)
      (by decide),
   by decide,
   (Logic.diffLog_rounds_unique exampleEnv _
      (Logic.Reachable.step exampleNode (Event.updateSeqNo 1)
        (Logic.Reachable.init [[1]] [[2]] false 7) (by decide))).1⟩

/-! ## Publications that are ignored -/

/-- C12: in every state a node reaches, `updateSeqNo(seq)` with `seq <= m_seqNo` or
`seq == 0` returns with the node exactly as it was (sequence number, state, log, current
round, pending data interest, and nothing sent or scheduled); and no call of `updateSeqNo`
lowers `m_seqNo`. -/
theorem Logic.updateSeqNo_ignored (E : Env) (L : Logic) (h : Logic.Reachable E L) (seq : SeqNo)
    (hs : seq ≤ L.seqNo ∨ seq = 0) :
    Logic.updateSeqNo E L seq = L.done ∧
    (Logic.updateSeqNo E L seq).logic.seqNo = L.seqNo ∧
    (Logic.updateSeqNo E L seq).logic.state = L.state ∧
    (Logic.updateSeqNo E L seq).logic.log = L.log ∧
    (Logic.updateSeqNo E L seq).logic.currentRound = L.currentRound ∧
    (Logic.updateSeqNo E L seq).logic.pendingDataInterest = L.pendingDataInterest ∧
    (Logic.updateSeqNo E L seq).logic.actions = L.actions ∧
    (Logic.updateSeqNo E L seq).logic.scheduled = L.scheduled ∧
    (∀ q, L.seqNo ≤ (Logic.updateSeqNo E L q).logic.seqNo) := by
  have he := Logic.updateSeqNo_covered E L seq (Logic.reachable_inv E L h).2 hs
  refine ⟨he, ?_, ?_, ?_, ?_, ?_, ?_, ?_, ?_⟩
  any_goals (rw [he]; rfl)
  intro q
  rw [Logic.updateSeqNo_seqNo]
  split
  · exact Nat.le_refl _
  · rename_i hng
    exact Nat.le_of_not_lt (fun h2 => hng (Or.inl h2))

/-- Witness for C12: the example node has published sequence number 1 and is asked to
publish 1 again. -/
theorem Logic.updateSeqNo_ignored_witness :
    (Logic.step exampleEnv exampleNode (Event.updateSeqNo 1)).logic.seqNo = 1 ∧
    Logic.updateSeqNo exampleEnv (Logic.step exampleEnv exampleNode (Event.updateSeqNo 1)).logic 1 =
      (Logic.step exampleEnv exampleNode (Event.updateSeqNo 1)).logic.done :=
  ⟨by decide,
   (Logic.updateSeqNo_ignored exampleEnv _
      (Logic.Reachable.step exampleNode (Event.updateSeqNo 1)
        (Logic.Reachable.init [[1]] [[2]] false 7) (by decide)) 1 (Or.inl (by decide))).1⟩

/-! ## The stabilisation walk -/

namespace Logic

theorem updateDiffLogOn_fresh (H : Digests) (log : List DiffState) (t : Nat)
    (hf : DiffStateContainer.find log t = none) :
    updateDiffLogOn H log { value := DiffState.fresh, inLog := false } t =
      (DiffStateContainer.insert log (DiffState.fresh.stamped H t),
       { value := DiffState.fresh.stamped H t, inLog := true }) := by
  simp [updateDiffLogOn, hf, DiffState.stamped]

end Logic

/-! ## What a stabilisation computes -/

namespace Logic

theorem removeOutstanding_id (L : Logic) (name : Name) :
    (L.removeOutstanding name).outstandingDataInterestId =
      if L.outstandingDataInterestName = name then 0 else L.outstandingDataInterestId := by
  unfold removeOutstanding
  by_cases h1 : L.outstandingDataInterestName = name
  · by_cases h2 : L.outstandingDataInterestId = 0
    · simp [h1, h2]
    · simp [h1, h2]
  · simp [h1]

theorem sendData_outstanding (E : Env) (L : Logic) (name : Name) (c : Commit)
    (hok : (sendData E L name c).1.thrown = none) :
    (sendData E L name c).1.logic.outstandingDataInterestId =
      if L.outstandingDataInterestName = name then 0 else L.outstandingDataInterestId := by
  unfold sendData at hok ⊢
  dsimp only at hok ⊢
  split
  · rename_i hw
    simp [hw, throwing] at hok
  · simp only [done, removeOutstanding_id, act, sync_eq]

theorem answerWithData_outstanding (E : Env) (L : Logic) (c : Commit)
    (hok : (answerWithData E L c).thrown = none) :
    (answerWithData E L c).logic.outstandingDataInterestId =
      match L.pendingDataInterest with
      | some name =>
        if roundOfName name = some L.currentRound ∧ L.outstandingDataInterestName = name then 0
        else L.outstandingDataInterestId
      | none => L.outstandingDataInterestId := by
  unfold answerWithData at hok ⊢
  cases hp : L.pendingDataInterest with
  | none => rfl
  | some name =>
    simp only [hp] at hok ⊢
    cases hr : roundOfName name with
    | none => simp [hr, throwing] at hok
    | some r =>
      simp only [hr] at hok ⊢
      by_cases hrc : r = L.currentRound
      · simp only [hrc, if_true] at hok ⊢
        cases hs : (sendData E L name c).1.thrown with
        | some t => simp [hs] at hok
        | none =>
          simp only [hs, done]
          rw [sendData_outstanding E L name c hs]
          simp
      · simp [hrc, done]

theorem publish_outstanding (E : Env) (L2 : Logic) (R : RoundNo)
    (hok : (answerWithData E
        (updateDiffLog E L2 { value := L2.ownCommit, inLog := false } R).1
        (updateDiffLog E L2 { value := L2.ownCommit, inLog := false } R).2).thrown = none) :
    (answerWithData E
        (updateDiffLog E L2 { value := L2.ownCommit, inLog := false } R).1
        (updateDiffLog E L2 { value := L2.ownCommit, inLog := false } R).2
      ).logic.outstandingDataInterestId =
      match L2.pendingDataInterest with
      | some name =>
        if roundOfName name = some L2.currentRound ∧ L2.outstandingDataInterestName = name then 0
        else L2.outstandingDataInterestId
      | none => L2.outstandingDataInterestId := by
  obtain ⟨-, -, -, -, -, f6, f7, f8, f9, -, -, -⟩ := updateDiffLog_frame E L2
    { value := L2.ownCommit, inLog := false } R
  have ha := answerWithData_outstanding E _ _ hok
  rw [f6, f7, f8, f9] at ha
  exact ha

theorem removeOutstanding_log (L : Logic) (name : Name) :
    (L.removeOutstanding name).log = L.log ∧
    (L.removeOutstanding name).currentRound = L.currentRound := by
  unfold removeOutstanding
  repeat' split
  all_goals exact ⟨rfl, rfl⟩

theorem sendData_stored (E : Env) (L : Logic) (name : Name) (c : Commit)
    (hin : c.inLog = true) (hf : DiffStateContainer.find L.log c.value.round = some c.value) :
    (∃ d, DiffStateContainer.find (sendData E L name c).1.logic.log c.value.round = some d ∧
      d.leaves = c.value.leaves) ∧
    (sendData E L name c).1.logic.currentRound = L.currentRound := by
  unfold sendData
  dsimp only
  split
  · exact ⟨⟨c.value, hf, rfl⟩, rfl⟩
  · simp only [done, (removeOutstanding_log _ _).1, (removeOutstanding_log _ _).2, act,
      sync_eq, hin, if_true]
    exact ⟨⟨_, DiffStateContainer.find_replace_same hf rfl, rfl⟩, trivial⟩

theorem answerWithData_stored (E : Env) (L : Logic) (c : Commit)
    (hin : c.inLog = true) (hf : DiffStateContainer.find L.log c.value.round = some c.value) :
    (∃ d, DiffStateContainer.find (answerWithData E L c).logic.log c.value.round = some d ∧
      d.leaves = c.value.leaves) ∧
    (answerWithData E L c).logic.currentRound = L.currentRound := by
  have hs := fun name => sendData_stored E L name c hin hf
  unfold answerWithData
  split
  · rename_i name _
    split
    · exact ⟨⟨c.value, hf, rfl⟩, rfl⟩
    · dsimp only
      split
      · split
        · exact hs name
        · exact hs name
      · exact ⟨⟨c.value, hf, rfl⟩, rfl⟩
  · exact ⟨⟨c.value, hf, rfl⟩, rfl⟩

theorem ownCommit_leaves (L : Logic) :
    L.ownCommit.leaves = [{ sessionName := L.sessionName, seq := L.seqNo }] := by
  unfold ownCommit
  dsimp only
  repeat' split
  all_goals exact DiffState.leaves_fresh_update _ _

theorem updateDiffLog_new_stored (E : Env) (L : Logic) (d : DiffState) (R : RoundNo)
    (hf : DiffStateContainer.find L.log R = none) :
    (updateDiffLog E L { value := d, inLog := false } R).2.inLog = true ∧
    (updateDiffLog E L { value := d, inLog := false } R).2.value.round = R ∧
    DiffStateContainer.find (updateDiffLog E L { value := d, inLog := false } R).1.log
      (updateDiffLog E L { value := d, inLog := false } R).2.value.round =
      some (updateDiffLog E L { value := d, inLog := false } R).2.value ∧
    (updateDiffLog E L { value := d, inLog := false } R).2.value.leaves = d.leaves := by
  rw [updateDiffLog_inserts E L { value := d, inLog := false } R rfl hf]
  exact ⟨rfl, rfl, @DiffStateContainer.find_insert_same L.log (d.stamped E.digests R) hf, rfl⟩

theorem publish_stored (E : Env) (L2 : Logic)
    (hf : DiffStateContainer.find L2.log L2.currentRound = none) :
    (∃ d, DiffStateContainer.find (answerWithData E
        (updateDiffLog E L2 { value := L2.ownCommit, inLog := false } L2.currentRound).1
        (updateDiffLog E L2 { value := L2.ownCommit, inLog := false } L2.currentRound).2
      ).logic.log L2.currentRound = some d ∧
      d.leaves = [{ sessionName := L2.sessionName, seq := L2.seqNo }]) ∧
    (answerWithData E
        (updateDiffLog E L2 { value := L2.ownCommit, inLog := false } L2.currentRound).1
        (updateDiffLog E L2 { value := L2.ownCommit, inLog := false } L2.currentRound).2
      ).logic.currentRound = L2.currentRound ∧
    (answerWithData E
        (updateDiffLog E L2 { value := L2.ownCommit, inLog := false } L2.currentRound).1
        (updateDiffLog E L2 { value := L2.ownCommit, inLog := false } L2.currentRound).2
      ).logic.state = L2.state := by
  obtain ⟨u1, u2, u3, u4⟩ := updateDiffLog_new_stored E L2 L2.ownCommit L2.currentRound hf
  obtain ⟨⟨d, h1, h2⟩, h3⟩ := answerWithData_stored E _ _ u1 u3
  have hfr := updateDiffLog_frame E L2 { value := L2.ownCommit, inLog := false } L2.currentRound
  refine ⟨⟨d, ?_, ?_⟩, ?_, ?_⟩
  · rw [u2] at h1
    exact h1
  · rw [h2, u4]
    exact ownCommit_leaves L2
  · rw [h3]
    exact hfr.2.2.2.2.2.1
  · rw [(same_answerWithData E _ _).2.2.1]
    exact hfr.2.1

/-- When the log has no entry for the current round, an accepted `updateSeqNo(seq)` that
changes `m_state` does what scenario S1 expects: the sequence number and the state are
set, the leaf is stored under the current round, and the node moves on by one round. -/
theorem updateSeqNo_stores (E : Env) (L : Logic) (seq : SeqNo)
    (hacc : ¬ (seq < L.seqNo ∨ seq = 0))
    (hch : ((L.state.update L.sessionName seq).2.1 ||
      (L.state.update L.sessionName seq).2.2.1) = true)
    (hf : DiffStateContainer.find L.log L.currentRound = none)
    (hok : (updateSeqNo E L seq).thrown = none) :
    (updateSeqNo E L seq).logic.seqNo = seq ∧
    (updateSeqNo E L seq).logic.state = (L.state.update L.sessionName seq).1 ∧
    (∃ d, DiffStateContainer.find (updateSeqNo E L seq).logic.log L.currentRound = some d ∧
      d.leaves = [{ sessionName := L.sessionName, seq := seq }]) ∧
    (updateSeqNo E L seq).logic.currentRound = add64 L.currentRound 1 := by
  have hp := publish_stored E
    ({ L with seqNo := seq, state := (L.state.update L.sessionName seq).1 } : Logic) hf
  have hk := keeps_publish E
    ({ L with seqNo := seq, state := (L.state.update L.sessionName seq).1 } : Logic)
    L.currentRound
  obtain ⟨⟨d, hd1, hd2⟩, hcur, hst⟩ := hp
  unfold updateSeqNo at hok ⊢
  simp only [hacc, if_false, hch, if_true] at hok ⊢
  split
  · rename_i t hsome
    simp only [hsome] at hok
    cases hok
  · simp only [done, moveToNewCurrentRound_eq, scheduleEvent]
    exact ⟨hk.2.1, hst, ⟨d, hd1, hd2⟩, by rw [hcur]⟩

end Logic

/-- Divergence for C13: the example node's stabilisation timer fires before its first
publication, which puts an empty entry under round 1; `updateSeqNo(1)` is then accepted,
sets `m_seqNo` and `m_state` and moves to round 2, but the entry of round 1 is still the
empty one: the leaf of the publication is in no entry of the log. -/
theorem Logic.updateSeqNo_loses_commit :
    (Logic.run exampleEnv exampleNode [Event.timer 2]).thrown = none ∧
    (Logic.run exampleEnv exampleNode [Event.timer 2]).logic.currentRound = 1 ∧
    (Logic.run exampleEnv exampleNode [Event.timer 2]).logic.seqNo = 0 ∧
    (Logic.run exampleEnv exampleNode [Event.timer 2, Event.updateSeqNo 1]).thrown = none ∧
    (Logic.run exampleEnv exampleNode [Event.timer 2, Event.updateSeqNo 1]).logic.seqNo = 1 ∧
    (Logic.run exampleEnv exampleNode [Event.timer 2, Event.updateSeqNo 1]).logic.state.lookup
      exampleNode.sessionName = some 1 ∧
    (Logic.run exampleEnv exampleNode [Event.timer 2, Event.updateSeqNo 1]).logic.currentRound
      = 2 ∧
    (Logic.run exampleEnv exampleNode [Event.timer 2, Event.updateSeqNo 1]).logic.log.map
      (fun d => (d.round, d.leaves)) = [(1, [])] := by
  refine ⟨by decide, by decide, by decide, by decide, by decide, by decide, by decide, by decide⟩

/-- Counterexample for C14: the example node has expressed its data interest of round 1
(id 3) and nobody has asked it for round 1; `updateSeqNo(1)` is accepted and returns, and
the id of the outstanding interest is still 3. -/
theorem Logic.updateSeqNo_keeps_outstanding_id :
    (Logic.run exampleEnv exampleNode [Event.timer 1]).logic.seqNo = 0 ∧
    (Logic.run exampleEnv exampleNode [Event.timer 1]).logic.pendingDataInterest = none ∧
    (Logic.run exampleEnv exampleNode [Event.timer 1, Event.updateSeqNo 1]).thrown = none ∧
    (Logic.run exampleEnv exampleNode [Event.timer 1, Event.updateSeqNo 1]).logic.seqNo = 1 ∧
    (Logic.run exampleEnv exampleNode
      [Event.timer 1, Event.updateSeqNo 1]).logic.outstandingDataInterestId = 3 := by
  refine ⟨by decide, by decide, by decide, by decide, by decide⟩

/-- C14, amended: an accepted `updateSeqNo(seq)` that returns zeroes the id of the
outstanding data interest exactly when it answers a pending data interest of the current
round whose name is the name of the outstanding interest (`sendData` is where the id is
cleared); in every other case the id is left as it was. -/
theorem Logic.updateSeqNo_outstanding (E : Env) (L : Logic) (seq : SeqNo)
    (hacc : ¬ (seq < L.seqNo ∨ seq = 0))
    (hok : (Logic.updateSeqNo E L seq).thrown = none) :
    (Logic.updateSeqNo E L seq).logic.outstandingDataInterestId =
      if ((L.state.update L.sessionName seq).2.1 ||
          (L.state.update L.sessionName seq).2.2.1) = true then
        match L.pendingDataInterest with
        | some name =>
          if Logic.roundOfName name = some L.currentRound ∧
              L.outstandingDataInterestName = name then 0
          else L.outstandingDataInterestId
        | none => L.outstandingDataInterestId
      else L.outstandingDataInterestId := by
  have ha := Logic.publish_outstanding E
    ({ L with seqNo := seq, state := (L.state.update L.sessionName seq).1 } : Logic)
    L.currentRound
  unfold Logic.updateSeqNo at hok ⊢
  simp only [hacc, if_false] at hok ⊢
  by_cases hch : ((L.state.update L.sessionName seq).2.1 ||
      (L.state.update L.sessionName seq).2.2.1) = true
  · simp only [hch, if_true] at hok ⊢
    split
    · rename_i t hsome
      simp only [hsome] at hok
      cases hok
    · rename_i hnone
      simp only [Logic.done]
      rw [(Logic.moveToNewCurrentRound_frame _ _).2.2.2.2.2.2.1]
      exact ha hnone
  · simp only [hch]
    rfl

/-- Witness for C14: the example node has expressed its data interest of round 1 and has
heard the same interest from a peer; `updateSeqNo(1)` answers it and the id is zero. -/
theorem Logic.updateSeqNo_outstanding_witness :
    (Logic.run exampleEnv exampleNode
      [Event.timer 1, Event.interest exampleInterestName]).logic.outstandingDataInterestId
      = 3 ∧
    (Logic.updateSeqNo exampleEnv (Logic.run exampleEnv exampleNode
      [Event.timer 1, Event.interest exampleInterestName]).logic
        1).logic.outstandingDataInterestId = 0 :=
  ⟨by decide,
   (Logic.updateSeqNo_outstanding exampleEnv (Logic.run exampleEnv exampleNode
      [Event.timer 1, Event.interest exampleInterestName]).logic 1
      (by decide) (by decide)).trans (by decide)⟩

/-! ## The update callback -/

namespace Logic

theorem sync_state (L : Logic) (c : Commit) :
    (L.sync c).state = L.state ∧ (L.sync c).actions = L.actions ∧
    (L.sync c).lastRecoveryRound = L.lastRecoveryRound ∧
    (L.sync c).stableRound = L.stableRound := by
  rw [sync_eq]
  exact ⟨rfl, rfl, rfl, rfl⟩

theorem applyReceivedLeaves_vector (R : RoundNo) (ls : List Leaf) (L : Logic) (c : Commit)
    (v : List MissingDataInfo) (hnd : (ls.map Leaf.sessionName).Nodup)
    (hseq : ∀ leaf, leaf ∈ ls → leaf.seq < 18446744073709551616) :
    (applyReceivedLeaves R ls L c v).2.2 =
      v ++ ls.filterMap (fun leaf =>
        match L.state.lookup leaf.sessionName with
        | none => some { session := leaf.sessionName, low := 1, high := leaf.seq }
        | some old =>
          if old < leaf.seq then
            some { session := leaf.sessionName, low := old + 1, high := leaf.seq }
          else none) ∧
    (applyReceivedLeaves R ls L c v).1.actions = L.actions := by
  induction ls generalizing L c v with
  | nil => simp [applyReceivedLeaves]
  | cons leaf rest ih =>
    rw [List.map_cons, List.nodup_cons] at hnd
    unfold applyReceivedLeaves
    dsimp only
    have hstate1 : (if R ≤ L.lastRecoveryRound ∧ L.stableRound = 0 then
          { L with oldState := (L.oldState.update leaf.sessionName leaf.seq).1 }
        else L).state = L.state := by
      split <;> rfl
    have hact1 : (if R ≤ L.lastRecoveryRound ∧ L.stableRound = 0 then
          { L with oldState := (L.oldState.update leaf.sessionName leaf.seq).1 }
        else L).actions = L.actions := by
      split <;> rfl
    generalize (if R ≤ L.lastRecoveryRound ∧ L.stableRound = 0 then
          { L with oldState := (L.oldState.update leaf.sessionName leaf.seq).1 }
        else L) = L1 at hstate1 hact1
    obtain ⟨i1, i2⟩ := ih
      (({ L1 with state := (L1.state.update leaf.sessionName leaf.seq).1 } : Logic).sync
        { c with value := c.value.update leaf.sessionName leaf.seq })
      { c with value := c.value.update leaf.sessionName leaf.seq }
      (if ((L1.state.update leaf.sessionName leaf.seq).2.1 ||
            (L1.state.update leaf.sessionName leaf.seq).2.2.1) = true then
          v ++ [{ session := leaf.sessionName,
                  low := add64 (L1.state.update leaf.sessionName leaf.seq).2.2.2 1,
                  high := leaf.seq }]
        else v)
      hnd.2 (fun l hl => hseq l (List.mem_cons_of_mem _ hl))
    rw [i1, i2]
    refine ⟨?_, ?_⟩
    · rw [(sync_state _ _).1]
      -- the other leaves see the state they would have seen before this one
      have hrest : rest.filterMap (fun leaf2 =>
            match ({ L1 with state := (L1.state.update leaf.sessionName leaf.seq).1 }
                : Logic).state.lookup leaf2.sessionName with
            | none => some { session := leaf2.sessionName, low := 1, high := leaf2.seq }
            | some old =>
              if old < leaf2.seq then
                some ({ session := leaf2.sessionName, low := old + 1, high := leaf2.seq }
                  : MissingDataInfo)
              else none) =
          rest.filterMap (fun leaf2 =>
            match L.state.lookup leaf2.sessionName with
            | none => some { session := leaf2.sessionName, low := 1, high := leaf2.seq }
            | some old =>
              if old < leaf2.seq then
                some ({ session := leaf2.sessionName, low := old + 1, high := leaf2.seq }
                  : MissingDataInfo)
              else none) := by
        apply List.filterMap_congr
        intro l hl
        have hne : l.sessionName ≠ leaf.sessionName := fun h =>
          hnd.1 (h ▸ List.mem_map_of_mem Leaf.sessionName hl)
        show (match (L1.state.update leaf.sessionName leaf.seq).1.lookup l.sessionName with
          | none => _
          | some old => _) = _
        rw [State.lookup_update, if_neg hne, hstate1]
      rw [hrest, List.filterMap_cons, State.update_snd, hstate1]
      have hlt := hseq leaf (List.mem_cons_self _ _)
      cases hl : L.state.lookup leaf.sessionName with
      | none =>
        simp only [Bool.true_or, if_true, List.append_assoc, List.singleton_append]
        rfl
      | some old =>
        by_cases hle : leaf.seq ≤ old
        · have hnlt : ¬ old < leaf.seq := Nat.not_lt.mpr hle
          simp [hle, hnlt]
        · have hlt2 : old < leaf.seq := Nat.lt_of_not_le hle
          have hadd : add64 old 1 = old + 1 := by
            unfold add64 uint64Size
            apply Nat.mod_eq_of_lt
            exact Nat.lt_of_le_of_lt (Nat.succ_le_of_lt hlt2) hlt
          simp [hle, hlt2, hadd]
    · rw [(sync_state _ _).2.1]
      exact hact1

theorem updates_act (L : Logic) (v : List MissingDataInfo) :
    (L.act (Action.onUpdate v)).updates = L.updates ++ [v] := by
  simp [updates, act, List.filterMap_append]

theorem updates_of_actions {L M : Logic} (h : M.actions = L.actions) : M.updates = L.updates := by
  unfold updates
  rw [h]

theorem applyDataContent_data (E : Env) (L1 : Logic) (c1 : Commit) (R : RoundNo)
    (x : DataContent) (reply : DiffState)
    (htype : x.dataType = tlv.DataOnly ∨ x.dataType = tlv.DataAndCumulative)
    (hstate : x.statePtr = some reply)
    (hok : (applyDataContent E L1 c1 R x).thrown = none)
    (hwf : reply.toState.WF)
    (hseq : ∀ leaf, leaf ∈ reply.leaves → leaf.seq < 18446744073709551616) :
    (applyDataContent E L1 c1 R x).logic.updates =
      L1.updates ++ (if missingDataInfos L1.state reply.toState = [] then []
        else [missingDataInfos L1.state reply.toState]) := by
  have hnc : ¬ x.dataType = tlv.CumulativeOnly := by
    rcases htype with h | h <;> rw [h] <;> decide
  unfold applyDataContent at hok ⊢
  dsimp only at hok ⊢
  simp only [hnc, if_false, htype, if_true, hstate, false_or] at hok ⊢
  have hchk : (if x.dataType = tlv.DataAndCumulative then
        (L1.sync c1).checkRecovery x.userPrefix x.roundNo x.cumulativeDigest
      else (L1.sync c1).done).logic.state = L1.state ∧
      (if x.dataType = tlv.DataAndCumulative then
        (L1.sync c1).checkRecovery x.userPrefix x.roundNo x.cumulativeDigest
      else (L1.sync c1).done).logic.actions = L1.actions := by
    split
    · obtain ⟨h1, h2, -⟩ := checkRecovery_frame (L1.sync c1) x.userPrefix x.roundNo
        x.cumulativeDigest
      exact ⟨h2.trans (sync_state L1 c1).1, h1.trans (sync_state L1 c1).2.1⟩
    · exact ⟨(sync_state L1 c1).1, (sync_state L1 c1).2.1⟩
  generalize (if x.dataType = tlv.DataAndCumulative then
        (L1.sync c1).checkRecovery x.userPrefix x.roundNo x.cumulativeDigest
      else (L1.sync c1).done) = checked at hok hchk ⊢
  cases hth : checked.thrown with
  | some t =>
    simp only [hth] at hok
    cases hok
  | none =>
    dsimp only
    have hnd : ((LeafContainer.ordered reply.leaves).map Leaf.sessionName).Nodup :=
      ((LeafContainer.ordered_perm reply.leaves).map Leaf.sessionName).nodup_iff.mpr hwf
    obtain ⟨a1, a2⟩ := applyReceivedLeaves_vector R (LeafContainer.ordered reply.leaves)
      checked.logic c1 [] hnd
      (fun l hl => hseq l ((LeafContainer.ordered_perm reply.leaves).mem_iff.mp hl))
    rw [updates_of_actions (finishProcessData_frame E _ _ R).2.2.2.1]
    have hv : (applyReceivedLeaves R (LeafContainer.ordered reply.leaves) checked.logic c1
        []).2.2 = missingDataInfos L1.state reply.toState := by
      rw [a1, hchk.1]
      rfl
    rw [hv]
    by_cases hempty : missingDataInfos L1.state reply.toState = []
    · simp only [hempty, ne_eq, not_true_eq_false, if_false, if_true, List.append_nil]
      exact updates_of_actions (a2.trans hchk.2)
    · simp only [hempty, ne_eq, not_false_eq_true, if_true, if_false]
      rw [updates_act, updates_of_actions (a2.trans hchk.2)]

end Logic

/-- Counterexample for C16: the example node receives, for round 1, a DataOnly payload
that carries the leaf (/5, 0) of a session it does not know.  The handler returns and the
update callback is invoked with the entry (/5, low = 1, high = 0), whose low is above its
high. -/
theorem Logic.processData_reports_empty_range :
    ((DataContent.default 0).wireDecode exampleZeroLeaf).2 = none ∧
    ((DataContent.default 0).wireDecode exampleZeroLeaf).1.dataType = tlv.DataOnly ∧
    exampleNode.stableRound < 1 ∧
    (Logic.processData exampleEnv exampleNode exampleDataName1 exampleZeroLeaf).thrown = none ∧
    (Logic.processData exampleEnv exampleNode exampleDataName1 exampleZeroLeaf).logic.updates =
      [[{ session := [[5]], low := 1, high := 0 }]] := by
  refine ⟨by decide, by decide, by decide, by decide, by decide⟩

/-- C16, amended: `processData` on a decoded DataOnly or DataAndCumulative payload for a
round above the stable one, when it returns.  The update callback is invoked exactly when
a carried leaf is new or has a higher sequence number than `m_state` holds, once, with the
vector that has one entry (session, old + 1, new) per such leaf in canonical order
(old = 0 for a new session).  Every entry has low ≤ high, except that a new session
carried with sequence number 0 gives the entry (session, 1, 0); there is no such entry
when every carried leaf has a sequence number of at least 1. -/
theorem Logic.processData_update_callback (E : Env) (L : Logic) (fullName : Name)
    (block : Block) (R : RoundNo) (suffix : Component) (x : DataContent) (reply : DiffState)
    (hR : (ndn.nameGetFromEnd fullName 2).bind ndn.componentToNumber = some R)
    (hS : ndn.nameGetFromEnd fullName 1 = some suffix)
    (hnew : L.stableRound < R)
    (hdec : (DataContent.default 0).wireDecode block = (x, none))
    (htype : x.dataType = tlv.DataOnly ∨ x.dataType = tlv.DataAndCumulative)
    (hstate : x.statePtr = some reply)
    (hseq : ∀ leaf, leaf ∈ reply.leaves → leaf.seq < uint64Size)
    (hok : (Logic.processData E L fullName block).thrown = none) :
    (Logic.processData E L fullName block).logic.updates =
      L.updates ++ (if missingDataInfos L.state reply.toState = [] then []
        else [missingDataInfos L.state reply.toState]) ∧
    (missingDataInfos L.state reply.toState ≠ [] ↔
      ∃ leaf, leaf ∈ reply.leaves ∧
        (L.state.lookup leaf.sessionName = none ∨
          ∃ old, L.state.lookup leaf.sessionName = some old ∧ old < leaf.seq)) ∧
    (∀ e, e ∈ missingDataInfos L.state reply.toState →
      e.low ≤ e.high ∨ (L.state.lookup e.session = none ∧ e.low = 1 ∧ e.high = 0)) ∧
    ((∀ leaf, leaf ∈ reply.leaves → 1 ≤ leaf.seq) →
      ∀ e, e ∈ missingDataInfos L.state reply.toState → e.low ≤ e.high) := by
  have hwf : reply.toState.WF := by
    apply DataContent.wireDecode_default_WF 0 block reply
    rw [hdec]
    exact hstate
  have hmem : ∀ e, e ∈ missingDataInfos L.state reply.toState →
      ∃ leaf, leaf ∈ reply.leaves ∧
        ((L.state.lookup leaf.sessionName = none ∧
            e = { session := leaf.sessionName, low := 1, high := leaf.seq }) ∨
          ∃ old, L.state.lookup leaf.sessionName = some old ∧ old < leaf.seq ∧
            e = { session := leaf.sessionName, low := old + 1, high := leaf.seq }) := by
    intro e he
    unfold missingDataInfos at he
    obtain ⟨leaf, hl, hf⟩ := List.mem_filterMap.mp he
    refine ⟨leaf, (LeafContainer.ordered_perm reply.leaves).mem_iff.mp hl, ?_⟩
    cases hlk : L.state.lookup leaf.sessionName with
    | none =>
      simp only [hlk] at hf
      exact Or.inl ⟨rfl, (Option.some.inj hf).symm⟩
    | some old =>
      simp only [hlk] at hf
      by_cases hlt : old < leaf.seq
      · simp only [hlt, if_true] at hf
        exact Or.inr ⟨old, rfl, hlt, (Option.some.inj hf).symm⟩
      · simp [hlt] at hf
  refine ⟨?_, ?_, ?_, ?_⟩
  · rw [Logic.processData_decoded E L fullName block R suffix x hR hS hnew hdec] at hok ⊢
    have h := Logic.applyDataContent_data E _ _ R x reply htype hstate hok hwf hseq
    rw [h, Logic.updates_of_actions (Logic.openCommit_frame _ R suffix).1,
      (Logic.openCommit_frame _ R suffix).2.1]
    rfl
  · constructor
    · intro hne
      obtain ⟨e, he⟩ := List.exists_mem_of_ne_nil _ hne
      obtain ⟨leaf, hl, hcase⟩ := hmem e he
      refine ⟨leaf, hl, ?_⟩
      rcases hcase with ⟨h1, -⟩ | ⟨old, h1, h2, -⟩
      · exact Or.inl h1
      · exact Or.inr ⟨old, h1, h2⟩
    · rintro ⟨leaf, hl, hcase⟩
      have hl2 : leaf ∈ LeafContainer.ordered reply.leaves :=
        (LeafContainer.ordered_perm reply.leaves).mem_iff.mpr hl
      intro hnil
      unfold missingDataInfos at hnil
      rw [List.filterMap_eq_nil_iff] at hnil
      have := hnil leaf hl2
      rcases hcase with h1 | ⟨old, h1, h2⟩
      · simp [h1] at this
      · simp [h1, h2] at this
  · intro e he
    obtain ⟨leaf, -, hcase⟩ := hmem e he
    rcases hcase with ⟨h1, h2⟩ | ⟨old, -, h2, h3⟩
    · rw [h2]
      by_cases h0 : leaf.seq = 0
      · exact Or.inr ⟨h1, rfl, h0⟩
      · exact Or.inl (Nat.one_le_iff_ne_zero.mpr h0)
    · rw [h3]
      exact Or.inl (Nat.succ_le_of_lt h2)
  · intro hpos e he
    obtain ⟨leaf, hl, hcase⟩ := hmem e he
    rcases hcase with ⟨-, h2⟩ | ⟨old, -, h2, h3⟩
    · rw [h2]
      exact hpos leaf hl
    · rw [h3]
      exact Nat.succ_le_of_lt h2

/-- Witness for C16: the example node, which has published sequence number 5, receives for
round 2 the leaves (/5, 4) and (/2/7, 3): the callback gets the one entry (/5, 1, 4). -/
theorem Logic.processData_update_callback_witness :
    (Logic.processData exampleEnv (Logic.run exampleEnv exampleNode [Event.updateSeqNo 5]).logic
      exampleDataName2 exampleTwoLeaves).thrown = none ∧
    (Logic.processData exampleEnv (Logic.run exampleEnv exampleNode [Event.updateSeqNo 5]).logic
      exampleDataName2 exampleTwoLeaves).logic.updates =
      [[{ session := [[5]], low := 1, high := 4 }]] :=
  ⟨by decide,
   (Logic.processData_update_callback exampleEnv
      (Logic.run exampleEnv exampleNode [Event.updateSeqNo 5]).logic
      exampleDataName2 exampleTwoLeaves 2 [0]
      ((DataContent.default 0).wireDecode exampleTwoLeaves).1
      ((DiffState.fresh.update [[2], [7]] 3).update [[5]] 4)
      (by decide) (by decide) (by decide) (Prod.ext rfl (by decide)) (Or.inl (by decide))
      rfl (by decide) (by decide)).1.trans (by decide)⟩

/-! ## Cumulative-only payloads -/

namespace Logic

theorem holds_of_log {L M : Logic} {c : Commit} {R : RoundNo} (h : L.Holds c R)
    (hlog : M.log = L.log) : M.Holds c R := by
  unfold Holds at *
  rw [hlog]
  exact h

/-- After `finishProcessData` the log entry of the round is the commit. -/
theorem finishProcessData_stores (E : Env) (L : Logic) (c : Commit) (R : RoundNo)
    (h : L.Holds c R) :
    ∃ d, DiffStateContainer.find (finishProcessData E L c R).logic.log R = some d ∧
      d.leaves = c.value.leaves := by
  unfold finishProcessData
  dsimp only
  have h1 : (if R = L.currentRound then L.moveToNewCurrentRound (add64 L.currentRound 1)
      else L).Holds c R := by
    split
    · exact holds_of_log h (moveToNewCurrentRound_frame _ _).2.2.2.1
    · exact h
  generalize (if R = L.currentRound then L.moveToNewCurrentRound (add64 L.currentRound 1)
      else L) = L1 at h1 ⊢
  obtain ⟨hu, hin⟩ := updateDiffLog_find E L1 c R h1
  have hleaves := (updateDiffLog_frame E L1 c R).2.2.2.2.2.2.2.2.2.2.2
  generalize updateDiffLog E L1 c R = u at hu hin hleaves ⊢
  unfold Holds at hu
  simp only [hin, if_true] at hu
  simp only [done, sync_eq, hin, if_true, cancelEvent_eq, scheduleEvent]
  have hr : u.2.value.round = R := DiffStateContainer.find_some_round hu
  refine ⟨_, @DiffStateContainer.find_replace_same _ R u.2.value _ ?_ hr, hleaves⟩
  dsimp only
  convert hu using 2
  split <;> rfl

theorem update_sentinel (s : State) (n : Name) :
    (s.update n 0).1.leaves =
      match s.lookup n with
      | none => s.leaves ++ [{ sessionName := n, seq := 0 }]
      | some _ => s.leaves := by
  unfold State.update State.lookup
  cases hf : LeafContainer.find s.leaves n with
  | none => simp [LeafContainer.insert, hf]
  | some leaf =>
    have : leaf.seq = 0 ∨ 0 < leaf.seq := Nat.eq_zero_or_pos leaf.seq
    simp [this]

theorem applyDataContent_sentinel (E : Env) (L1 : Logic) (c1 : Commit) (R : RoundNo)
    (x : DataContent) (hty : x.dataType = tlv.CumulativeOnly) (h : L1.Holds c1 R) :
    (applyDataContent E L1 c1 R x).logic.updates = L1.updates ∧
    (applyDataContent E L1 c1 R x).logic.state = L1.state ∧
    ((applyDataContent E L1 c1 R x).thrown = none →
      ∃ d, DiffStateContainer.find (applyDataContent E L1 c1 R x).logic.log R = some d ∧
        d.leaves = (c1.value.toState.update x.userPrefix 0).1.leaves) := by
  rw [applyDataContent_cumulativeOnly E L1 c1 R x hty]
  have h2 : (L1.sync { c1 with value := c1.value.update x.userPrefix 0 }).Holds
      { c1 with value := c1.value.update x.userPrefix 0 } R :=
    holds_sync h _ rfl rfl
  obtain ⟨s1, s2, -⟩ := sync_frame L1 { c1 with value := c1.value.update x.userPrefix 0 }
  generalize L1.sync { c1 with value := c1.value.update x.userPrefix 0 } = L2 at h2 s1 s2 ⊢
  obtain ⟨k1, k2, -, k4, -⟩ := checkRecovery_frame L2 x.userPrefix x.roundNo x.cumulativeDigest
  have h3 := holds_of_log h2 k4
  generalize L2.checkRecovery x.userPrefix x.roundNo x.cumulativeDigest = chk
    at k1 k2 k4 h3 ⊢
  cases hth : chk.thrown with
  | some t =>
    dsimp only
    refine ⟨updates_of_actions (k1.trans s1), k2.trans s2, fun hc => ?_⟩
    rw [hth] at hc
    cases hc
  | none =>
    dsimp only
    obtain ⟨f1, f2, f3, f4, -⟩ := finishProcessData_frame E chk.logic
      { c1 with value := c1.value.update x.userPrefix 0 } R
    refine ⟨updates_of_actions (f4.trans (k1.trans s1)), f2.trans (k2.trans s2), fun _ => ?_⟩
    exact finishProcessData_stores E chk.logic _ R h3

end Logic

/-- What `processData` does with a decoded CumulativeOnly payload for a round above the
stable one: it does not invoke the update callback and leaves `m_state` as it was; when it
returns (it need not, see `checkRecovery`),
the log entry of the round holds what the entry held before (nothing, if there was none)
and in addition the sentinel leaf (user prefix, 0), unless the entry already had a leaf
for the user prefix, in which case its leaves are unchanged. -/
theorem Logic.processData_cumulativeOnly (E : Env) (L : Logic) (fullName : Name)
    (block : Block) (R : RoundNo) (suffix : Component) (x : DataContent)
    (hR : (ndn.nameGetFromEnd fullName 2).bind ndn.componentToNumber = some R)
    (hS : ndn.nameGetFromEnd fullName 1 = some suffix)
    (hnew : L.stableRound < R)
    (hdec : (DataContent.default 0).wireDecode block = (x, none))
    (hty : x.dataType = tlv.CumulativeOnly) :
    (Logic.processData E L fullName block).logic.updates = L.updates ∧
    (Logic.processData E L fullName block).logic.state = L.state ∧
    ((Logic.processData E L fullName block).thrown = none →
      ∃ d, DiffStateContainer.find (Logic.processData E L fullName block).logic.log R =
          some d ∧
        d.leaves =
          match State.lookup
              { leaves := match DiffStateContainer.find L.log R with
                          | some e => e.leaves
                          | none => [] } x.userPrefix with
          | none =>
            (match DiffStateContainer.find L.log R with
             | some e => e.leaves
             | none => []) ++ [{ sessionName := x.userPrefix, seq := 0 }]
          | some _ =>
            match DiffStateContainer.find L.log R with
            | some e => e.leaves
            | none => []) := by
  rw [Logic.processData_decoded E L fullName block R suffix x hR hS hnew hdec]
  obtain ⟨a1, a2, a3⟩ := Logic.applyDataContent_sentinel E _ _ R x hty
    (Logic.holds_openCommit
      ({ L with syncTimeouts := if R = L.currentRound then 0 else L.syncTimeouts }) R suffix)
  obtain ⟨o1, o2, -⟩ := Logic.openCommit_frame
    ({ L with syncTimeouts := if R = L.currentRound then 0 else L.syncTimeouts }) R suffix
  refine ⟨a1.trans (Logic.updates_of_actions o1), a2.trans o2, fun hok => ?_⟩
  obtain ⟨d, hd1, hd2⟩ := a3 hok
  refine ⟨d, hd1, ?_⟩
  rw [hd2, Logic.update_sentinel]
  have hl := Logic.openCommit_leaves
    ({ L with syncTimeouts := if R = L.currentRound then 0 else L.syncTimeouts }) R suffix
  have hst : (({ L with syncTimeouts := if R = L.currentRound then 0
        else L.syncTimeouts } : Logic).openCommit R suffix).2.value.toState =
      { leaves := match DiffStateContainer.find L.log R with
                  | some e => e.leaves
                  | none => [] } := by
    cases hs : (({ L with syncTimeouts := if R = L.currentRound then 0
        else L.syncTimeouts } : Logic).openCommit R suffix).2.value.toState
    rw [hs] at hl
    exact congrArg State.mk hl
  rw [hst]

/-- An instance of the sentinel: the example node receives the CumulativeOnly payload of the peer
/3/9 for round 5: no callback, and the entry of round 5 holds the sentinel leaf. -/
theorem Logic.processData_cumulativeOnly_witness :
    (Logic.processData exampleEnv exampleNode exampleDataName exampleCumulativeOnly).thrown =
      none ∧
    (Logic.processData exampleEnv exampleNode exampleDataName
      exampleCumulativeOnly).logic.updates = [] ∧
    (Logic.processData exampleEnv exampleNode exampleDataName
      exampleCumulativeOnly).logic.log.map (fun d => (d.round, d.leaves)) =
      [(5, [{ sessionName := [[3], [9]], seq := 0 }])] :=
  ⟨by decide,
   (Logic.processData_cumulativeOnly exampleEnv exampleNode exampleDataName
      exampleCumulativeOnly 5 [0]
      ((DataContent.default 0).wireDecode exampleCumulativeOnly).1
      (by decide) (by decide) (by decide) (Prod.ext rfl (by decide)) (by decide)).1.trans
     (by decide),
   by decide⟩

/-! ## Replies to data interests, and timeouts -/

/-- Divergence for C31.  First run: the example node publishes sequence number 1 (entry
of round 1, now a past round) and then answers a DataInterest for round 1 through
`sendData`; the Data is put, and the exclude filter of the entry of round 1 is still
empty.  Second run: the node stores a cumulative-only emission under round 1 and answers
a DataInterest for round 1 through `sendCumulativeOnly`; the Data is put, and again the
exclude filter of the entry of round 1 is empty. -/
theorem Logic.reply_suffix_not_recorded :
    (Logic.run exampleEnv exampleNode
      [Event.updateSeqNo 1, Event.interest exampleInterestName]).thrown = none ∧
    (Logic.run exampleEnv exampleNode
      [Event.updateSeqNo 1, Event.interest exampleInterestName]).logic.putNames =
      [exampleInterestName] ∧
    (Logic.run exampleEnv exampleNode
      [Event.updateSeqNo 1, Event.interest exampleInterestName]).logic.log.map
      (fun d => (d.round, d.leaves, d.excludeFilter)) =
      [(1, [{ sessionName := [[2], [7]], seq := 1 }], [])] ∧
    (Logic.run exampleEnv exampleNode
      (exampleEmissionRun ++ [Event.interest exampleInterestName])).thrown = none ∧
    (Logic.run exampleEnv exampleNode
      (exampleEmissionRun ++ [Event.interest exampleInterestName])).logic.putNames =
      [exampleInterestName] ∧
    (Logic.run exampleEnv exampleNode
      (exampleEmissionRun ++ [Event.interest exampleInterestName])).logic.log.map
      (fun d => (d.round, d.leaves, d.excludeFilter)) =
      [(1, [{ sessionName := [[2], [7]], seq := 0 }], [])] := by
  refine ⟨by decide, by decide, by decide, by decide, by decide, by decide⟩

/-- Divergence for C33: the example node is at round 1 and hears a SyncInterest for round
2^64 - 1; `processSyncInterest` moves to round (2^64 - 1) + 1, which is 0 in 64 bits. -/
theorem Logic.processSyncInterest_wraps_round :
    exampleNode.currentRound = 1 ∧
    (ndn.nameGetFromEnd exampleMaxSyncName 2).bind ndn.componentToNumber =
      some 18446744073709551615 ∧
    (Logic.step exampleEnv exampleNode (Event.interest exampleMaxSyncName)).thrown = none ∧
    (Logic.step exampleEnv exampleNode
      (Event.interest exampleMaxSyncName)).logic.currentRound = 0 := by
  refine ⟨by decide, by decide, by decide, by decide⟩

/-- Divergence for C38: the example node asks for round 1 and gets, as the data of round
1, a CumulativeOnly payload whose user prefix is its own session name; the entry of round
1 then holds the leaf (own session, 0) and no cumulative info, and the next DataInterest
for round 1 makes `processDataInterest` throw. -/
theorem Logic.processDataInterest_throws :
    ((DataContent.default 0).wireDecode exampleOwnCumulativeOnly).2 = none ∧
    ((DataContent.default 0).wireDecode exampleOwnCumulativeOnly).1.userPrefix =
      exampleNode.sessionName ∧
    (Logic.run exampleEnv exampleNode
      [Event.timer 1, Event.data exampleDataName1 exampleOwnCumulativeOnly true]).thrown =
      none ∧
    (Logic.run exampleEnv exampleNode
      [Event.timer 1, Event.data exampleDataName1 exampleOwnCumulativeOnly true]).logic.log.map
      (fun d => (d.round, d.leaves, d.cumulativeInfo)) =
      [(1, [{ sessionName := [[2], [7]], seq := 0 }], none)] ∧
    (Logic.run exampleEnv exampleNode
      [Event.timer 1, Event.data exampleDataName1 exampleOwnCumulativeOnly true]
      ).logic.currentRound = 2 ∧
    (Logic.run exampleEnv exampleNode
      [Event.timer 1, Event.data exampleDataName1 exampleOwnCumulativeOnly true,
       Event.interest exampleInterestName]).thrown = some Thrown.logicError := by
  refine ⟨by decide, by decide, by decide, rfl, by decide, by decide⟩

/-- Divergence for C36: after the run the example node has stable round 1 and current
round 2, its fifth timeout has scheduled the emission `produceCumulativeOnly(1, D)` with
`D` the digest of `m_state` (which is empty), while the cumulative digest stored in
`m_log[1]` is the digest of the old state, which holds the sentinel leaf (/3/9, 0). -/
theorem Logic.emission_digest_differs :
    (Logic.run exampleEnv exampleNode exampleSentinelRun).thrown = none ∧
    (Logic.run exampleEnv exampleNode exampleSentinelRun).logic.stableRound = 1 ∧
    (Logic.run exampleEnv exampleNode exampleSentinelRun).logic.currentRound = 2 ∧
    (Logic.run exampleEnv exampleNode exampleSentinelRun).logic.emissionCalls =
      [(1, some [])] ∧
    (Logic.run exampleEnv exampleNode exampleSentinelRun).logic.state.leaves = [] ∧
    (Logic.run exampleEnv exampleNode exampleSentinelRun).logic.log.map
      (fun d => (d.round, d.leaves, d.cumulativeDigest)) =
      [(1, [{ sessionName := [[3], [9]], seq := 0 }], some [3, 9, 0])] := by
  refine ⟨by decide, by decide, by decide, by decide, by decide, by decide⟩

/-! ## Timeouts of data interests -/

namespace Logic

/-- What `onDataInterestTimeout` does to the counter and to the scheduler. -/
theorem onDataInterestTimeout_effect (E : Env) (L : Logic) (name : Name) (retries : Nat)
    (R : RoundNo) (hR : roundOfName name = some R) :
    (onDataInterestTimeout E L name retries).thrown = none ∧
    (onDataInterestTimeout E L name retries).logic.numberDataInterestTimeouts =
      (if (L.numberDataInterestTimeouts + 1) % 4294967296 ≥ MAX_DATA_INTEREST_TO_CUMULATIVE_ONLY ∧
          L.stableRound = sub64 L.currentRound 1 then 0
       else (L.numberDataInterestTimeouts + 1) % 4294967296) ∧
    (onDataInterestTimeout E L name retries).logic.emissionCalls =
      L.emissionCalls ++
        (if (L.numberDataInterestTimeouts + 1) % 4294967296 ≥
              MAX_DATA_INTEREST_TO_CUMULATIVE_ONLY ∧
            L.stableRound = sub64 L.currentRound 1 then
          [(L.stableRound, some (L.state.getDigest E.digests))]
         else []) ∧
    (onDataInterestTimeout E L name retries).logic.dataInterestCalls =
      L.dataInterestCalls ++
        (if R < L.currentRound ∧ (DiffStateContainer.find L.log R).isNone ∧
            retries < MAX_DATA_INTEREST_TIMEOUTS then
          [(R, (retries + 1) % 4294967296)]
         else []) := by
  have key : ∀ (L0 : Logic), L0.numberDataInterestTimeouts = L.numberDataInterestTimeouts →
      L0.stableRound = L.stableRound → L0.currentRound = L.currentRound →
      L0.state = L.state → L0.scheduled = L.scheduled → L0.log = L.log →
      ∀ r : Result, r =
        (let L1 := { L0 with numberDataInterestTimeouts :=
                      (L0.numberDataInterestTimeouts + 1) % 4294967296 }
         let L2 : Logic :=
           if L1.numberDataInterestTimeouts ≥ MAX_DATA_INTEREST_TO_CUMULATIVE_ONLY ∧
               L1.stableRound = sub64 L1.currentRound 1 then
             let L3 := { L1 with numberDataInterestTimeouts := 0 }
             let myCumulativeDigest := L3.state.getDigest E.digests
             let s := L3.scheduleEvent Delay.cumulativeOnlyRandom
               (Callback.produceCumulativeOnly L3.stableRound (some myCumulativeDigest))
             let m := mapInsert s.1.cumulativeDigestToEventId myCumulativeDigest s.2
             { s.1 with cumulativeDigestToEventId := m }
           else L1
         if R < L2.currentRound ∧ (DiffStateContainer.find L2.log R).isNone ∧
             retries < MAX_DATA_INTEREST_TIMEOUTS then
           (L2.scheduleEvent (Delay.ms 0)
             (Callback.sendDataInterest R ((retries + 1) % 4294967296))).1.done
         else L2.done) →
      r.thrown = none ∧
      r.logic.numberDataInterestTimeouts =
        (if (L.numberDataInterestTimeouts + 1) % 4294967296 ≥
              MAX_DATA_INTEREST_TO_CUMULATIVE_ONLY ∧
            L.stableRound = sub64 L.currentRound 1 then 0
         else (L.numberDataInterestTimeouts + 1) % 4294967296) ∧
      r.logic.emissionCalls =
        L.emissionCalls ++
          (if (L.numberDataInterestTimeouts + 1) % 4294967296 ≥
                MAX_DATA_INTEREST_TO_CUMULATIVE_ONLY ∧
              L.stableRound = sub64 L.currentRound 1 then
            [(L.stableRound, some (L.state.getDigest E.digests))]
           else []) ∧
      r.logic.dataInterestCalls =
        L.dataInterestCalls ++
          (if R < L.currentRound ∧ (DiffStateContainer.find L.log R).isNone ∧
              retries < MAX_DATA_INTEREST_TIMEOUTS then
            [(R, (retries + 1) % 4294967296)]
           else []) := by
    intro L0 h1 h2 h3 h4 h5 h6 r hr
    subst hr
    dsimp only
    rw [h1, h2, h3, h4]
    unfold emissionCalls dataInterestCalls
    by_cases he : (L.numberDataInterestTimeouts + 1) % 4294967296 ≥
        MAX_DATA_INTEREST_TO_CUMULATIVE_ONLY ∧ L.stableRound = sub64 L.currentRound 1
    · rw [if_pos he, if_pos he, if_pos he]
      dsimp only [scheduleEvent]
      rw [h5, h6]
      by_cases hr : R < L.currentRound ∧ (DiffStateContainer.find L.log R).isNone ∧
          retries < MAX_DATA_INTEREST_TIMEOUTS
      · rw [if_pos hr, if_pos hr]
        simp only [done, List.filterMap_append, List.filterMap_cons, List.filterMap_nil,
          List.append_nil, List.nil_append, List.append_assoc]
        exact ⟨trivial, trivial, trivial, trivial⟩
      · rw [if_neg hr, if_neg hr]
        simp only [done, List.filterMap_append, List.filterMap_cons, List.filterMap_nil,
          List.append_nil, List.nil_append, List.append_assoc]
        exact ⟨trivial, trivial, trivial, trivial⟩
    · rw [if_neg he, if_neg he, if_neg he]
      dsimp only [scheduleEvent]
      rw [h5, h6]
      by_cases hr : R < L.currentRound ∧ (DiffStateContainer.find L.log R).isNone ∧
          retries < MAX_DATA_INTEREST_TIMEOUTS
      · rw [if_pos hr, if_pos hr]
        simp only [done, List.filterMap_append, List.filterMap_cons, List.filterMap_nil,
          List.append_nil, List.nil_append, List.append_assoc]
        exact ⟨trivial, trivial, trivial, trivial⟩
      · rw [if_neg hr, if_neg hr]
        simp only [done, List.append_nil]
        exact ⟨trivial, trivial, trivial, trivial⟩
  by_cases hc : R = L.currentRound
  · refine key ({ L with syncTimeouts :=
        if (if L.syncTimeouts ≥ 0 then L.syncTimeouts + 1 else L.syncTimeouts) > 20 then -1
        else (if L.syncTimeouts ≥ 0 then L.syncTimeouts + 1 else L.syncTimeouts) } : Logic)
      rfl rfl rfl rfl rfl rfl _ ?_
    unfold onDataInterestTimeout
    rw [hR]
    dsimp only
    rw [if_pos hc]
  · refine key L rfl rfl rfl rfl rfl rfl _ ?_
    unfold onDataInterestTimeout
    rw [hR]
    dsimp only
    rw [if_neg hc]

theorem sendDataInterest_past (M : Logic) (R : RoundNo) (k : Nat)
    (hp : M.partitioned = false) (hR : R ≠ M.currentRound) :
    (M.sendDataInterest R k).dataInterestCalls = M.dataInterestCalls ∧
    (M.sendDataInterest R k).actions = M.actions ++
      [Action.expressInterest (M.actions.length + 1)
        (M.syncPrefix ++ [DATA_INTEREST_COMPONENT] ++ [ndn.componentFromNumber R])
        (match DiffStateContainer.find M.log R with
         | some d => d.excludeFilter
         | none => [])
        (InterestKind.data k)] := by
  unfold sendDataInterest
  simp only [hp, Bool.false_eq_true, if_false]
  dsimp only [expressInterest]
  rw [if_neg hR, if_neg hR]
  exact ⟨rfl, rfl⟩

end Logic

/-- C34: on a DataInterest timeout for round `R` with retry count `N` the handler
schedules `sendDataInterest(R, N + 1)` exactly when `R < current_round`, `m_log` has no
entry of `R` and `N < 5`, and schedules no other data interest; so nothing is rescheduled
from count 5 on, every rescheduled count is at most 5, and a rescheduled interest of a
past round, when it is sent, carries its count to its own timeout and schedules nothing
itself: the counts of a chain are 1, 2, .. up to at most 5. -/
theorem Logic.onDataInterestTimeout_retries (E : Env) (L : Logic) (name : Name) (N : Nat)
    (R : RoundNo) (hR : Logic.roundOfName name = some R) :
    (Logic.onDataInterestTimeout E L name N).thrown = none ∧
    ((R < L.currentRound ∧ DiffStateContainer.find L.log R = none ∧ N < 5) →
      (Logic.onDataInterestTimeout E L name N).logic.dataInterestCalls =
        L.dataInterestCalls ++ [(R, N + 1)]) ∧
    (¬ (R < L.currentRound ∧ DiffStateContainer.find L.log R = none ∧ N < 5) →
      (Logic.onDataInterestTimeout E L name N).logic.dataInterestCalls =
        L.dataInterestCalls) ∧
    (5 ≤ N → (Logic.onDataInterestTimeout E L name N).logic.dataInterestCalls =
      L.dataInterestCalls) ∧
    (∀ (M : Logic) (k : Nat), M.partitioned = false → R ≠ M.currentRound →
      (M.sendDataInterest R k).dataInterestCalls = M.dataInterestCalls ∧
      (M.sendDataInterest R k).actions = M.actions ++
        [Action.expressInterest (M.actions.length + 1)
          (M.syncPrefix ++ [Logic.DATA_INTEREST_COMPONENT] ++ [ndn.componentFromNumber R])
          (match DiffStateContainer.find M.log R with
           | some d => d.excludeFilter
           | none => [])
          (InterestKind.data k)]) := by
  obtain ⟨h1, -, -, h4⟩ := Logic.onDataInterestTimeout_effect E L name N R hR
  have hiff : (R < L.currentRound ∧ (DiffStateContainer.find L.log R).isNone = true ∧
      N < Logic.MAX_DATA_INTEREST_TIMEOUTS) ↔
      (R < L.currentRound ∧ DiffStateContainer.find L.log R = none ∧ N < 5) := by
    rw [Option.isNone_iff_eq_none]
    rfl
  refine ⟨h1, fun hc => ?_, fun hc => ?_, fun hN => ?_,
    fun M k hp hne => Logic.sendDataInterest_past M R k hp hne⟩
  · rw [h4, if_pos (hiff.mpr hc)]
    have : (N + 1) % 4294967296 = N + 1 := Nat.mod_eq_of_lt (by have := hc.2.2; omega)
    rw [this]
  · rw [h4, if_neg (fun h => hc (hiff.mp h)), List.append_nil]
  · rw [h4, if_neg (fun h => absurd (hiff.mp h).2.2 (Nat.not_lt.mpr hN)), List.append_nil]

/-- Witness for C34: the example node is at round 20 and has no entry of round 5; the
timeout of the data interest of round 5 with count 2 reschedules it with count 3. -/
theorem Logic.onDataInterestTimeout_retries_witness :
    Logic.roundOfName exampleInterestName5 = some 5 ∧
    (Logic.onDataInterestTimeout exampleEnv exampleAtTwenty exampleInterestName5
      2).logic.dataInterestCalls = exampleAtTwenty.dataInterestCalls ++ [(5, 3)] :=
  ⟨by decide,
   (Logic.onDataInterestTimeout_retries exampleEnv exampleAtTwenty exampleInterestName5 2 5
      (by decide)).2.1 ⟨by decide, rfl, by decide⟩⟩

/-- One call of `onDataInterestTimeout`: the timeout, whatever its round, adds one to the counter
(32-bit); when the counter so reaches at least 5 while `stable_round` is
`current_round - 1` (64-bit), the counter is reset to 0 and one emission
`produceCumulativeOnly(stable_round, digest of m_state)` is scheduled; otherwise no
emission is scheduled and the counter keeps its new value. -/
theorem Logic.onDataInterestTimeout_counter (E : Env) (L : Logic) (name : Name) (N : Nat)
    (R : RoundNo) (hR : Logic.roundOfName name = some R) :
    (((L.numberDataInterestTimeouts + 1) % 4294967296 ≥ 5 ∧
        L.stableRound = sub64 L.currentRound 1) →
      (Logic.onDataInterestTimeout E L name N).logic.numberDataInterestTimeouts = 0 ∧
      (Logic.onDataInterestTimeout E L name N).logic.emissionCalls =
        L.emissionCalls ++ [(L.stableRound, some (L.state.getDigest E.digests))]) ∧
    (¬ ((L.numberDataInterestTimeouts + 1) % 4294967296 ≥ 5 ∧
        L.stableRound = sub64 L.currentRound 1) →
      (Logic.onDataInterestTimeout E L name N).logic.numberDataInterestTimeouts =
        (L.numberDataInterestTimeouts + 1) % 4294967296 ∧
      (Logic.onDataInterestTimeout E L name N).logic.emissionCalls = L.emissionCalls) := by
  obtain ⟨-, h2, h3, -⟩ := Logic.onDataInterestTimeout_effect E L name N R hR
  constructor
  · intro hc
    have hc2 : (L.numberDataInterestTimeouts + 1) % 4294967296 ≥
        Logic.MAX_DATA_INTEREST_TO_CUMULATIVE_ONLY ∧
        L.stableRound = sub64 L.currentRound 1 := hc
    rw [h2, h3, if_pos hc2, if_pos hc2]
    exact ⟨rfl, rfl⟩
  · intro hc
    have hc2 : ¬ ((L.numberDataInterestTimeouts + 1) % 4294967296 ≥
        Logic.MAX_DATA_INTEREST_TO_CUMULATIVE_ONLY ∧
        L.stableRound = sub64 L.currentRound 1) := hc
    rw [h2, h3, if_neg hc2, if_neg hc2, List.append_nil]
    exact ⟨rfl, rfl⟩

/-- An instance of the counter step: a timeout for round 5 at the example node, which is
at round 1. -/
theorem Logic.onDataInterestTimeout_counter_witness :
    Logic.roundOfName exampleInterestName5 = some 5 ∧
    (Logic.onDataInterestTimeout exampleEnv exampleNode exampleInterestName5
      1).logic.numberDataInterestTimeouts = 1 :=
  ⟨by decide,
   ((Logic.onDataInterestTimeout_counter exampleEnv exampleNode exampleInterestName5 1 5
      (by decide)).2 (by decide)).1⟩

/-! ## The reply to a data interest of a past round -/

namespace Logic

theorem getStateFrom_own (d : DiffState) (p : Name) (leaf : Leaf)
    (hl : LeafContainer.find d.leaves p = some leaf) (hseq : leaf.seq ≠ 0) :
    d.getStateFrom p false =
      (some { DiffState.fresh.update p leaf.seq with
                round := d.round, cumulativeDigest := d.cumulativeDigest }, false) := by
  unfold DiffState.getStateFrom
  simp [hl, hseq]

theorem dataOnly_content (p : Name) (leaf : Leaf) (R : RoundNo) (cd : Option Buffer) :
    (DataContent.new p 0 none
      (some { DiffState.fresh.update leaf.sessionName leaf.seq with
                round := R, cumulativeDigest := cd }) 0).wireEncode.2 =
      Block.elems tlv.DataOnly [Block.elems tlv.State [Layout.stateLeaf leaf]] := by
  rw [DataContent.wireEncode_layout]
  have hleaves : (DiffState.fresh.update leaf.sessionName leaf.seq).leaves = [leaf] :=
    DiffState.leaves_fresh_update _ _
  simp [DataContent.kind, DataContent.new, Layout.stateSub, hleaves, LeafContainer.ordered]

theorem sendData_plain (E : Env) (L : Logic) (name : Name) (ds : DiffState)
    (hinfo : ds.cumulativeInfo = none) :
    (sendData E L name { value := ds, inLog := false }).1.thrown = none ∧
    (sendData E L name { value := ds, inLog := false }).1.logic.log = L.log ∧
    (sendData E L name { value := ds, inLog := false }).1.logic.actions =
      L.actions ++ [Action.put name (DataContent.new L.sessionName 0 none (some ds) 0).wireEncode.2]
        ++ (if L.outstandingDataInterestName = name ∧ L.outstandingDataInterestId ≠ 0 then
              [Action.removePendingInterest L.outstandingDataInterestId]
            else []) := by
  unfold sendData
  simp only [hinfo]
  have hwf : (DataContent.new L.sessionName 0 none (some ds) 0).wellFormed = true := by
    simp [DataContent.wellFormed, DataContent.new]
  simp only [hwf, Bool.not_true, Bool.false_eq_true, if_false, sync_eq, done, act]
  unfold removeOutstanding
  by_cases h1 : L.outstandingDataInterestName = name
  · by_cases h2 : L.outstandingDataInterestId = 0
    · simp [h1, h2]
    · simp [h1, h2, act]
  · simp [h1]

end Logic

/-- C40: a DataInterest for a past round `R` whose log entry holds a leaf of the node's
own session with a sequence number other than 0 is answered, without an exception, by
one Data packet under the name of the interest whose content is a DataOnly block with a
State of exactly that leaf and no cumulative info element, whatever cumulative info the
entry holds; the log is left as it was. -/
theorem Logic.processDataInterest_dataOnly (E : Env) (L : Logic) (name : Name) (R : RoundNo)
    (d : DiffState) (leaf : Leaf)
    (hR : Logic.roundOfName name = some R) (hpast : R < L.currentRound)
    (hf : DiffStateContainer.find L.log R = some d)
    (hl : LeafContainer.find d.leaves L.sessionName = some leaf) (hseq : leaf.seq ≠ 0) :
    (Logic.processDataInterest E L name).thrown = none ∧
    (Logic.processDataInterest E L name).logic.actions =
      L.actions ++
        [Action.put name (Block.elems tlv.DataOnly
          [Block.elems tlv.State
            [Layout.stateLeaf { sessionName := L.sessionName, seq := leaf.seq }]])] ++
        (if L.outstandingDataInterestName = name ∧ L.outstandingDataInterestId ≠ 0 then
           [Action.removePendingInterest L.outstandingDataInterestId]
         else []) ∧
    (Logic.processDataInterest E L name).logic.log = L.log := by
  have hname : leaf.sessionName = L.sessionName := LeafContainer.find_some_name hl
  have hn1 : ¬ R ≥ L.currentRound := Nat.not_le.mpr hpast
  have hn2 : ¬ R > L.currentRound := fun h => Nat.lt_asymm hpast h
  obtain ⟨s1, s2, s3⟩ := Logic.sendData_plain E L name
    { DiffState.fresh.update L.sessionName leaf.seq with
        round := d.round, cumulativeDigest := d.cumulativeDigest } rfl
  have hcontent := Logic.dataOnly_content L.sessionName
    { sessionName := L.sessionName, seq := leaf.seq } d.round d.cumulativeDigest
  unfold Logic.processDataInterest
  rw [hR]
  simp only [hn1, hn2, hpast, if_false, if_true, hf,
    Logic.getStateFrom_own d L.sessionName leaf hl hseq]
  rw [← hcontent]
  exact ⟨s1, s3, s2⟩

/-- Witness for C40: the example node has published sequence number 1 in round 1 and is
asked for round 1. -/
theorem Logic.processDataInterest_dataOnly_witness :
    (Logic.processDataInterest exampleEnv
      (Logic.run exampleEnv exampleNode [Event.updateSeqNo 1]).logic
      exampleInterestName).thrown = none ∧
    (Logic.processDataInterest exampleEnv
      (Logic.run exampleEnv exampleNode [Event.updateSeqNo 1]).logic
      exampleInterestName).logic.putNames = [exampleInterestName] :=
  ⟨(Logic.processDataInterest_dataOnly exampleEnv
      (Logic.run exampleEnv exampleNode [Event.updateSeqNo 1]).logic exampleInterestName 1
      ((DiffState.fresh.update [[2], [7]] 1).stamped exampleEnv.digests 1)
      { sessionName := [[2], [7]], seq := 1 }
      (by decide) (by decide) rfl (by decide) (by decide)).1,
   by decide⟩

/-! ## Local production -/

/-- Divergence for C28: the example node stays idle; its data interest of round 1 times
out five times, which schedules a cumulative-only emission for round 0, the stabilisation
timer fires and inserts an empty entry for round 1, and then the emission fires at
current round 1.  The handlers return and the node moves to round 2, but the entry of
round 1 is still the empty one: it holds no sentinel leaf and no cumulative info. -/
theorem Logic.produceCumulativeOnly_loses_commit :
    (Logic.run exampleEnv exampleNode exampleIdleRun).thrown = none ∧
    (Logic.run exampleEnv exampleNode exampleIdleRun.dropLast).logic.currentRound = 1 ∧
    ((Logic.run exampleEnv exampleNode exampleIdleRun.dropLast).logic.pendingEvent 4).map
      ScheduledEvent.callback = some (Callback.produceCumulativeOnly 0 (some [])) ∧
    (Logic.run exampleEnv exampleNode exampleIdleRun).logic.currentRound = 2 ∧
    (Logic.run exampleEnv exampleNode exampleIdleRun).logic.log.map
      (fun d => (d.round, d.leaves, d.cumulativeInfo)) = [(1, [], none)] := by
  refine ⟨by decide, by decide, by decide, by decide, rfl⟩

/-! ## The round markers of stabilisation -/

namespace Logic

theorem Steady.steady_refl (L : Logic) : Steady L L := ⟨rfl, rfl, rfl, rfl⟩

theorem Steady.then_steady {L M N : Logic} (h1 : Steady L M) (h2 : Steady M N) : Steady L N :=
  ⟨h2.1.trans h1.1, h2.2.1.trans h1.2.1, h2.2.2.1.trans h1.2.2.1, h2.2.2.2.trans h1.2.2.2⟩

theorem steady_sync (L : Logic) (c : Commit) : Steady L (L.sync c) := by
  rw [sync_eq]
  exact ⟨rfl, rfl, rfl, rfl⟩

theorem steady_act (L : Logic) (a : Action) : Steady L (L.act a) := ⟨rfl, rfl, rfl, rfl⟩

theorem steady_removeOutstanding (L : Logic) (name : Name) :
    Steady L (L.removeOutstanding name) := by
  unfold removeOutstanding
  repeat' split
  all_goals simp [act, Steady]

theorem steady_moveToNewCurrentRound (L : Logic) (n : RoundNo) :
    Steady L (L.moveToNewCurrentRound n) := by
  rw [moveToNewCurrentRound_eq]
  exact ⟨rfl, rfl, rfl, rfl⟩

theorem steady_put (L : Logic) (c : Commit) (a : Action) (name : Name) :
    Steady L (((L.sync c).act a).removeOutstanding name) :=
  ((steady_sync L c).then_steady (steady_act _ a)).then_steady (steady_removeOutstanding _ name)

theorem steady_sendData (E : Env) (L : Logic) (name : Name) (c : Commit) :
    Steady L (sendData E L name c).1.logic := by
  unfold sendData
  try dsimp only
  repeat' split
  all_goals simp only [throwing, done, Steady.steady_refl]
  all_goals exact steady_put _ _ _ _

theorem steady_sendCumulativeOnly (E : Env) (L : Logic) (name : Name) (R : RoundNo)
    (D : Option Buffer) : Steady L (sendCumulativeOnly E L name R D).logic := by
  obtain ⟨-, -, h3, -, -, h6, h7, h8⟩ := sendCumulativeOnly_frame E L name R D
  exact ⟨h3, h6, h7, h8⟩

theorem steady_sendDataInterest (L : Logic) (R : RoundNo) (n : Nat) :
    Steady L (L.sendDataInterest R n) := by
  unfold sendDataInterest
  try dsimp only
  repeat' split
  all_goals simp [Steady, expressInterest, scheduleEvent, cancelEvent_eq]

theorem steady_sendSyncInterest (L : Logic) (R : RoundNo) :
    Steady L (L.sendSyncInterest R).logic := by
  unfold sendSyncInterest
  try dsimp only
  repeat' split
  all_goals simp [Steady, expressInterest, throwing, done]

theorem steady_sendRecoInterest (L : Logic) (p : Name) : Steady L (L.sendRecoInterest p) := by
  unfold sendRecoInterest
  try dsimp only
  repeat' split
  all_goals simp [Steady, expressInterest]

theorem steady_checkRoundDigests (L : Logic) (R : RoundNo) (D : Buffer) :
    Steady L (L.checkRoundDigests R D).1.logic := by
  unfold checkRoundDigests
  try dsimp only
  repeat' split
  all_goals simp [Steady, throwing, done, scheduleEvent, cancelEvent_eq]

theorem steady_checkRecovery (L : Logic) (p : Name) (R : RoundNo) (D : Option Buffer) :
    Steady L (L.checkRecovery p R D).logic := by
  obtain ⟨-, -, -, -, h5, -, -, h8, h9, h10⟩ := checkRecovery_frame L p R D
  exact ⟨h5, h8, h9, h10⟩

theorem steady_pending (L : Logic) (x : Option Name) :
    Steady L { L with pendingDataInterest := x } := ⟨rfl, rfl, rfl, rfl⟩

theorem steady_processDataInterest (E : Env) (L : Logic) (name : Name) :
    Steady L (processDataInterest E L name).logic := by
  unfold processDataInterest
  cases hr : roundOfName name with
  | none => exact Steady.steady_refl L
  | some roundNo =>
    dsimp only
    have h1 : Steady L (if roundNo ≥ L.currentRound then
        { L with pendingDataInterest := some name } else L) := by
      split
      · exact steady_pending L _
      · exact Steady.steady_refl L
    generalize (if roundNo ≥ L.currentRound then { L with pendingDataInterest := some name }
        else L) = L1 at h1 ⊢
    refine Steady.then_steady h1 ?_
    repeat' split
    all_goals first
      | exact Steady.steady_refl L1
      | exact steady_moveToNewCurrentRound _ _
      | exact steady_sendCumulativeOnly _ _ _ _ _
      | exact steady_sendData _ _ _ _

theorem steady_processSyncInterest (L : Logic) (name : Name) :
    Steady L (L.processSyncInterest name).logic := by
  unfold processSyncInterest
  repeat' split
  all_goals first
    | exact Steady.steady_refl L
    | exact steady_moveToNewCurrentRound _ _
    | exact steady_checkRoundDigests _ _ _

theorem steady_onDataInterestTimeout (E : Env) (L : Logic) (name : Name) (n : Nat) :
    Steady L (onDataInterestTimeout E L name n).logic := by
  unfold onDataInterestTimeout
  try dsimp only
  repeat' split
  all_goals simp [Steady, throwing, done, scheduleEvent]

theorem steady_onRecoInterestTimeout (L : Logic) (name : Name) :
    Steady L (L.onRecoInterestTimeout name) := by
  unfold onRecoInterestTimeout
  try dsimp only
  repeat' split
  all_goals simp [Steady, scheduleEvent]

theorem steady_onRecoInterest (L : Logic) (name : Name) :
    Steady L (L.onRecoInterest name).logic := by
  unfold onRecoInterest processRecoInterest sendRecoData
  try dsimp only
  repeat' split
  all_goals simp [Steady, throwing, done, act]

theorem steady_updateDiffLog (E : Env) (L : Logic) (c : Commit) (R : RoundNo) :
    Steady L (updateDiffLog E L c R).1 := ⟨rfl, rfl, rfl, rfl⟩

theorem steady_answerWithCumulativeOnly (E : Env) (L : Logic) (R : RoundNo)
    (D : Option Buffer) : Steady L (answerWithCumulativeOnly E L R D).logic := by
  unfold answerWithCumulativeOnly
  dsimp only
  repeat' split
  all_goals first
    | exact Steady.steady_refl L
    | exact steady_sendCumulativeOnly _ _ _ _ _

theorem steady_produceCumulativeOnly (E : Env) (L : Logic) (R : RoundNo) (D : Option Buffer) :
    Steady L (produceCumulativeOnly E L R D).logic := by
  unfold produceCumulativeOnly
  dsimp only
  have h1 := steady_answerWithCumulativeOnly E L R D
  split
  · exact h1
  · simp only [done]
    exact h1.then_steady (Steady.then_steady (steady_updateDiffLog E _ _ _)
      (steady_moveToNewCurrentRound _ _))

theorem steady_answerWithData (E : Env) (L : Logic) (c : Commit) :
    Steady L (answerWithData E L c).logic := by
  unfold answerWithData
  dsimp only
  repeat' split
  all_goals first
    | exact Steady.steady_refl L
    | exact steady_sendData _ _ _ _

theorem steady_publish (E : Env) (L2 : Logic) (R : RoundNo) :
    Steady L2 (answerWithData E
      (updateDiffLog E L2 { value := L2.ownCommit, inLog := false } R).1
      (updateDiffLog E L2 { value := L2.ownCommit, inLog := false } R).2).logic :=
  (steady_updateDiffLog E L2 _ R).then_steady (steady_answerWithData E _ _)

theorem steady_advance (A : Logic) :
    Steady A { ((A.scheduleEvent (Delay.ms 0)
        (Callback.sendSyncInterest A.currentRound)).1.moveToNewCurrentRound
        (add64 (A.scheduleEvent (Delay.ms 0)
          (Callback.sendSyncInterest A.currentRound)).1.currentRound 1))
        with syncTimeouts := 0 } := by
  have h1 : Steady A (A.scheduleEvent (Delay.ms 0)
    (Callback.sendSyncInterest A.currentRound)).1 := ⟨rfl, rfl, rfl, rfl⟩
  refine h1.then_steady ?_
  have h2 := steady_moveToNewCurrentRound (A.scheduleEvent (Delay.ms 0)
    (Callback.sendSyncInterest A.currentRound)).1
    (add64 (A.scheduleEvent (Delay.ms 0)
      (Callback.sendSyncInterest A.currentRound)).1.currentRound 1)
  exact ⟨h2.1, h2.2.1, h2.2.2.1, h2.2.2.2⟩

theorem steady_updateSeqNo (E : Env) (L : Logic) (q : SeqNo) :
    Steady L (updateSeqNo E L q).logic := by
  have hk := steady_publish E
    ({ L with seqNo := q, state := (L.state.update L.sessionName q).1 } : Logic) L.currentRound
  have hk3 := hk.then_steady (steady_advance _)
  unfold updateSeqNo
  split
  · exact Steady.steady_refl L
  · dsimp only
    split
    · split
      · exact hk
      · exact hk3
    · exact ⟨rfl, rfl, rfl, rfl⟩

theorem steady_openCommit (L : Logic) (R : RoundNo) (suffix : Component) :
    Steady L (L.openCommit R suffix).1 := by
  unfold openCommit
  exact steady_sync L _

theorem steady_applyReceivedLeaves (R : RoundNo) (ls : List Leaf) (L : Logic) (c : Commit)
    (v : List MissingDataInfo) : Steady L (applyReceivedLeaves R ls L c v).1 := by
  induction ls generalizing L c v with
  | nil => exact Steady.steady_refl L
  | cons leaf rest ih =>
    unfold applyReceivedLeaves
    dsimp only
    split
    · exact Steady.then_steady
        ((show Steady L ({ ({ L with oldState :=
            (L.oldState.update leaf.sessionName leaf.seq).1 } : Logic) with
            state := (L.state.update leaf.sessionName leaf.seq).1 } : Logic) from
          ⟨rfl, rfl, rfl, rfl⟩).then_steady (steady_sync _ _)) (ih _ _ _)
    · exact Steady.then_steady
        ((show Steady L ({ L with
            state := (L.state.update leaf.sessionName leaf.seq).1 } : Logic) from
          ⟨rfl, rfl, rfl, rfl⟩).then_steady (steady_sync _ _)) (ih _ _ _)

theorem steady_finishProcessData (E : Env) (L : Logic) (c : Commit) (R : RoundNo) :
    Steady L (finishProcessData E L c R).logic := by
  obtain ⟨-, -, -, -, h5, -, h7, h8, h9, -⟩ := finishProcessData_frame E L c R
  exact ⟨h5, h7, h8, h9⟩

theorem steady_act_if (L : Logic) (c : Prop) [Decidable c] (a : Action) :
    Steady L (if c then L.act a else L) := by
  split
  · exact ⟨rfl, rfl, rfl, rfl⟩
  · exact Steady.steady_refl L

theorem steady_applyDataContent (E : Env) (L : Logic) (c : Commit) (R : RoundNo)
    (x : DataContent) : Steady L (applyDataContent E L c R x).logic := by
  unfold applyDataContent
  dsimp only
  generalize (if x.dataType = tlv.CumulativeOnly then
        ({ c with value := c.value.update x.userPrefix CUMULATIVE_ONLY_DATA } : Commit)
      else c) = c2
  have hchk : Steady L (if x.dataType = tlv.CumulativeOnly ∨
        x.dataType = tlv.DataAndCumulative then
        (L.sync c2).checkRecovery x.userPrefix x.roundNo x.cumulativeDigest
      else (L.sync c2).done).logic := by
    split
    · exact (steady_sync L c2).then_steady (steady_checkRecovery _ _ _ _)
    · exact steady_sync L c2
  generalize (if x.dataType = tlv.CumulativeOnly ∨ x.dataType = tlv.DataAndCumulative then
        (L.sync c2).checkRecovery x.userPrefix x.roundNo x.cumulativeDigest
      else (L.sync c2).done) = checked at hchk ⊢
  split
  · exact hchk
  · split
    · split
      · exact hchk
      · rename_i reply _
        exact hchk.then_steady (Steady.then_steady
          ((steady_applyReceivedLeaves R _ checked.logic c2 []).then_steady
            (steady_act_if _ _ _)) (steady_finishProcessData E _ _ R))
    · exact hchk.then_steady (steady_finishProcessData E _ _ R)

theorem steady_processData (E : Env) (L : Logic) (fullName : Name) (block : Block) :
    Steady L (processData E L fullName block).logic := by
  unfold processData
  split
  · rename_i roundNo suffix _ _
    dsimp only
    have h0 : Steady L (if roundNo = L.currentRound then { L with syncTimeouts := 0 }
        else L) := by
      split
      · exact ⟨rfl, rfl, rfl, rfl⟩
      · exact Steady.steady_refl L
    generalize (if roundNo = L.currentRound then { L with syncTimeouts := 0 } else L) = L0
      at h0 ⊢
    split
    · exact h0
    · have h1 := h0.then_steady (steady_openCommit L0 roundNo suffix)
      split
      · split
        · exact h1
        · exact h1
      · exact h1.then_steady (steady_applyDataContent E _ _ roundNo _)
  · exact Steady.steady_refl L

theorem steady_onDataAndSyncInterest (E : Env) (L : Logic) (name : Name) :
    Steady L (onDataAndSyncInterest E L name).logic := by
  unfold onDataAndSyncInterest
  repeat' split
  all_goals first
    | exact Steady.steady_refl L
    | exact steady_processDataInterest E L name
    | exact steady_processSyncInterest L name

theorem steady_onData (E : Env) (L : Logic) (fullName : Name) (content : Block) (valid : Bool) :
    Steady L (onData E L fullName content valid).logic := by
  unfold onData
  repeat' split
  all_goals first
    | exact Steady.steady_refl L
    | exact steady_processData E L fullName content

end Logic

/-! ## The order of the round markers in runs without overflow -/

namespace Logic

/-- A run of handlers that ends without an exception ends in a reachable state. -/
theorem reachable_run (E : Env) (evs : List Event) (L : Logic) (h : Reachable E L)
    (hok : (run E L evs).thrown = none) : Reachable E (run E L evs).logic := by
  induction evs generalizing L with
  | nil => exact h
  | cons ev rest ih =>
    unfold run at hok ⊢
    cases hs : (step E L ev).thrown with
    | some t =>
      rw [hs] at hok
      cases hok
    | none =>
      rw [hs] at hok
      simp only [hs]
      exact ih _ (Reachable.step L ev h hs) hok

/-- When `setStableState` throws: exactly when none of its three cases applies. -/
theorem setStableState_thrown (E : Env) (L : Logic) :
    (setStableState E L).thrown = none ↔
      ((L.stableRound = 0 ∧ L.lastRecoveryRound = 0) ∨
        L.stabilizingRound = L.lastRecoveryRound ∨ L.stableRound ≠ 0) := by
  unfold setStableState
  dsimp only
  by_cases h1 : L.stableRound = 0 ∧ L.lastRecoveryRound = 0
  · simp [h1, done]
  · by_cases h2 : L.stabilizingRound = L.lastRecoveryRound
    · simp [h1, h2, done]
    · by_cases h3 : L.stableRound ≠ 0
      · simp only [h1, h2, h3, if_false, if_true, ne_eq, not_false_eq_true, done]
        simp
      · simp only [h1, h2, h3, if_false, throwing]
        simp

/-- The round markers as `setStableState` leaves them when it returns. -/
theorem setStableState_rounds (E : Env) (L : Logic) (hok : (setStableState E L).thrown = none) :
    (setStableState E L).logic.sessionName = L.sessionName ∧
    (setStableState E L).logic.stableRound = L.stabilizingRound ∧
    (setStableState E L).logic.stabilizingRound =
      add64 L.stabilizingRound (sub64 L.currentRound L.stabilizingRound / 2) ∧
    (setStableState E L).logic.currentRound = L.currentRound ∧
    (setStableState E L).logic.lastRecoveryRound = L.lastRecoveryRound := by
  unfold setStableState at hok ⊢
  dsimp only at hok ⊢
  split
  · rename_i hnone
    rw [hnone] at hok
    cases hok
  · exact ⟨rfl, rfl, rfl, rfl, rfl⟩

/-- What `processRecoData` does to the round markers: nothing when the payload is
dropped; else no round is stable, and the stabilising round is the round of recovery. -/
theorem processRecoData_rounds (L : Logic) (fullName : Name) (block : Block) :
    (Steady L (L.processRecoData fullName block).logic ∧
      (L.processRecoData fullName block).logic.currentRound = L.currentRound) ∨
    ((L.processRecoData fullName block).logic.sessionName = L.sessionName ∧
      (L.processRecoData fullName block).logic.stableRound = 0 ∧
      (L.processRecoData fullName block).logic.stabilizingRound =
        (L.processRecoData fullName block).logic.lastRecoveryRound ∧
      ((L.currentRound ≤ (L.processRecoData fullName block).logic.lastRecoveryRound ∧
          (L.processRecoData fullName block).logic.currentRound =
            add64 (L.processRecoData fullName block).logic.lastRecoveryRound 1) ∨
        ((L.processRecoData fullName block).logic.lastRecoveryRound = sub64 L.currentRound 1 ∧
          (L.processRecoData fullName block).logic.currentRound = L.currentRound))) := by
  unfold processRecoData
  dsimp only
  split
  · split
    · exact Or.inl ⟨⟨rfl, rfl, rfl, rfl⟩, rfl⟩
    · exact Or.inl ⟨⟨rfl, rfl, rfl, rfl⟩, rfl⟩
  · split
    · exact Or.inl ⟨⟨rfl, rfl, rfl, rfl⟩, rfl⟩
    · split
      · exact Or.inl ⟨⟨rfl, rfl, rfl, rfl⟩, rfl⟩
      · refine Or.inr ?_
        simp only [act_if, applyRecoveredLeaves_logic, cancelEvent_eq,
          moveToNewCurrentRoundAfterRecovery, backfill_loop]
        split
        · rename_i hge
          exact ⟨rfl, rfl, rfl, Or.inl ⟨hge, rfl⟩⟩
        · exact ⟨rfl, rfl, rfl, Or.inr ⟨rfl, rfl⟩⟩

theorem steady_onRecoData_or (L : Logic) (fullName : Name) (content : Block) (valid : Bool) :
    (Steady L (L.onRecoData fullName content valid).logic ∧
      (L.onRecoData fullName content valid).logic.currentRound = L.currentRound) ∨
    ((L.onRecoData fullName content valid).logic.sessionName = L.sessionName ∧
      (L.onRecoData fullName content valid).logic.stableRound = 0 ∧
      (L.onRecoData fullName content valid).logic.stabilizingRound =
        (L.onRecoData fullName content valid).logic.lastRecoveryRound ∧
      ((L.currentRound ≤ (L.onRecoData fullName content valid).logic.lastRecoveryRound ∧
          (L.onRecoData fullName content valid).logic.currentRound =
            add64 (L.onRecoData fullName content valid).logic.lastRecoveryRound 1) ∨
        ((L.onRecoData fullName content valid).logic.lastRecoveryRound =
            sub64 L.currentRound 1 ∧
          (L.onRecoData fullName content valid).logic.currentRound = L.currentRound))) := by
  unfold onRecoData
  repeat' split
  all_goals first
    | exact Or.inl ⟨Steady.steady_refl L, rfl⟩
    | exact processRecoData_rounds L fullName content

/-- A step that leaves the round markers alone keeps their order, provided the current
round does not go down. -/
theorem RoundsOrdered.of_steady {L M : Logic} (h : RoundsOrdered L) (hs : Steady L M)
    (hn : NoWrap L M) : RoundsOrdered M := by
  obtain ⟨h1, -, h3, h4, h5⟩ := h
  obtain ⟨-, s2, s3, s4⟩ := hs
  obtain ⟨n1, n2, -⟩ := hn
  unfold RoundsOrdered
  rw [s2, s3, s4]
  exact ⟨Nat.le_trans h1 n1, n2, h3, Nat.le_trans h4 n1, h5⟩

theorem midpoint_bounds (t c : Nat) (hc : c < uint64Size) (ht : t ≤ c) :
    add64 t (sub64 c t / 2) = t + (c - t) / 2 ∧ t ≤ t + (c - t) / 2 ∧ t + (c - t) / 2 ≤ c := by
  rw [sub64_eq_sub c t hc ht]
  have h1 : t + (c - t) / 2 ≤ c := by omega
  rw [add64_eq_add _ _ (Nat.lt_of_le_of_lt h1 hc)]
  exact ⟨rfl, Nat.le_add_right _ _, h1⟩

theorem RoundsOrdered.of_setStableState (E : Env) {L : Logic} (h : RoundsOrdered L)
    (hok : (setStableState E L).thrown = none) : RoundsOrdered (setStableState E L).logic := by
  obtain ⟨h1, h2, h3, h4, h5⟩ := h
  obtain ⟨-, s2, s3, s4, s5⟩ := setStableState_rounds E L hok
  obtain ⟨m1, m2, m3⟩ := midpoint_bounds L.stabilizingRound L.currentRound h2 h4
  unfold RoundsOrdered
  rw [s2, s3, s4, s5, m1]
  refine ⟨h1, h2, m2, m3, fun h0 => ?_⟩
  have hs0 : L.stableRound = 0 := Nat.eq_zero_of_le_zero (h0 ▸ h3)
  rcases h5 hs0 with h | h
  · exact Or.inl h
  · exact Or.inl (h ▸ h0)

theorem succ_of_no_wrap (R c : Nat) (hR : R < uint64Size) (hc : 1 ≤ c) (h : c ≤ add64 R 1) :
    R ≤ add64 R 1 := by
  unfold add64 uint64Size at *
  omega

theorem RoundsOrdered.of_recovery {L M : Logic} (h : RoundsOrdered L) (hn : NoWrap L M)
    (h0 : M.stableRound = 0) (hst : M.stabilizingRound = M.lastRecoveryRound)
    (hcase : (L.currentRound ≤ M.lastRecoveryRound ∧
        M.currentRound = add64 M.lastRecoveryRound 1) ∨
      (M.lastRecoveryRound = sub64 L.currentRound 1 ∧ M.currentRound = L.currentRound)) :
    RoundsOrdered M := by
  obtain ⟨h1, h2, -, -, -⟩ := h
  obtain ⟨n1, n2, n3⟩ := hn
  unfold RoundsOrdered
  rw [h0, hst]
  refine ⟨Nat.le_trans h1 n1, n2, Nat.zero_le _, ?_, fun _ => Or.inr rfl⟩
  rcases hcase with ⟨-, hc⟩ | ⟨hl, hc⟩
  · rw [hc]
    exact succ_of_no_wrap _ _ n3 h1 (hc ▸ n1)
  · rw [hl, hc, sub64_eq_sub _ _ h2 h1]
    exact Nat.sub_le _ _

theorem steady_runCallback (E : Env) (L : Logic) (cb : Callback)
    (hcb : cb ≠ Callback.setStableState) : Steady L (runCallback E L cb).logic := by
  cases cb with
  | sendDataInterest roundNo retries => exact steady_sendDataInterest L roundNo retries
  | sendSyncInterest roundNo => exact steady_sendSyncInterest L roundNo
  | setStableState => exact absurd rfl hcb
  | produceCumulativeOnly roundNo cd => exact steady_produceCumulativeOnly E L roundNo cd
  | checkRecovery userPrefix roundNo cd => exact steady_checkRecovery L userPrefix roundNo cd
  | sendRecoInterest userPrefix => exact steady_sendRecoInterest L userPrefix
  | startPartition => exact ⟨rfl, rfl, rfl, rfl⟩
  | stopPartition => exact ⟨rfl, rfl, rfl, rfl⟩

theorem step_timer (E : Env) (L : Logic) (id : Nat) :
    step E L (Event.timer id) =
      match L.pendingEvent id with
      | none => L.done
      | some ev => runCallback E { L with fired := L.fired ++ [id] } ev.callback := rfl

/-- One handler keeps the order of the round markers when no round number overflows. -/
theorem step_rounds (E : Env) (L : Logic) (ev : Event) (h : RoundsOrdered L)
    (hok : (step E L ev).thrown = none) (hn : NoWrap L (step E L ev).logic) :
    RoundsOrdered (step E L ev).logic := by
  cases ev with
  | updateSeqNo seqNo => exact h.of_steady (steady_updateSeqNo E L seqNo) hn
  | interest name => exact h.of_steady (steady_onDataAndSyncInterest E L name) hn
  | recoInterest name => exact h.of_steady (steady_onRecoInterest L name) hn
  | data fullName content valid => exact h.of_steady (steady_onData E L fullName content valid) hn
  | recoData fullName content valid =>
    rcases steady_onRecoData_or L fullName content valid with ⟨hs, -⟩ | ⟨-, h0, hst, hcase⟩
    · exact h.of_steady hs hn
    · exact h.of_recovery hn h0 hst hcase
  | dataInterestTimeout name retries =>
    exact h.of_steady (steady_onDataInterestTimeout E L name retries) hn
  | recoInterestTimeout name => exact h.of_steady (steady_onRecoInterestTimeout L name) hn
  | syncInterestTimeout => exact h
  | timer id =>
    rw [step_timer] at hok hn ⊢
    cases hp : L.pendingEvent id with
    | none => exact h
    | some sev =>
      rw [hp] at hok hn
      dsimp only at hok hn ⊢
      have hf : RoundsOrdered ({ L with fired := L.fired ++ [id] } : Logic) := h
      by_cases hcb : sev.callback = Callback.setStableState
      · rw [hcb] at hok ⊢
        exact hf.of_setStableState E hok
      · exact hf.of_steady (steady_runCallback E _ _ hcb) hn

theorem one_lt_uint64Size : 1 < uint64Size := by decide

/-- In a run without overflow of a round number the round markers are in order. -/
theorem reachable_rounds (E : Env) (L : Logic) (h : ReachableNoWrap E L) : RoundsOrdered L := by
  induction h with
  | init syncPrefix defaultUserPrefix hasValidator timestamp =>
    unfold Logic.new
    dsimp only
    split
    · exact ⟨Nat.le_refl 1, one_lt_uint64Size, Nat.zero_le _, Nat.le_refl 1, fun _ => Or.inl rfl⟩
    · exact ⟨Nat.le_refl 1, one_lt_uint64Size, Nat.zero_le _, Nat.le_refl 1, fun _ => Or.inl rfl⟩
  | step L ev _ hok hn ih => exact step_rounds E L ev ih hok hn

end Logic

/-- C39: in every state that a node reaches without overflow of a round number,
`stable_round <= stabilizing_round <= current_round`; so the unsigned subtraction of
`setStableState` (current round minus the round that has just become stable, the old
stabilising round) does not wrap, and the stabilising round that a call of
`setStableState` leaves is the exact midpoint. -/
theorem Logic.rounds_ordered (E : Env) (L : Logic) (h : Logic.ReachableNoWrap E L) :
    L.stableRound ≤ L.stabilizingRound ∧ L.stabilizingRound ≤ L.currentRound ∧
    sub64 L.currentRound L.stabilizingRound + L.stabilizingRound = L.currentRound ∧
    ((Logic.setStableState E L).thrown = none →
      (Logic.setStableState E L).logic.stableRound = L.stabilizingRound ∧
      (Logic.setStableState E L).logic.stabilizingRound =
        L.stabilizingRound + (L.currentRound - L.stabilizingRound) / 2) := by
  obtain ⟨-, h2, h3, h4, -⟩ := Logic.reachable_rounds E L h
  refine ⟨h3, h4, ?_, fun hok => ?_⟩
  · rw [sub64_eq_sub _ _ h2 h4]
    exact Nat.sub_add_cancel h4
  · obtain ⟨-, s2, s3, -, -⟩ := Logic.setStableState_rounds E L hok
    rw [s2, s3]
    exact ⟨rfl, (Logic.midpoint_bounds _ _ h2 h4).1⟩

/-- Witness for C39: the example node after it has published once (current round 2) and
its stabilisation timer has fired: round 1 is stable and stabilising. -/
theorem Logic.rounds_ordered_witness :
    Logic.ReachableNoWrap exampleEnv
      (Logic.step exampleEnv (Logic.step exampleEnv exampleNode (Event.updateSeqNo 1)).logic
        (Event.timer 2)).logic ∧
    (Logic.step exampleEnv (Logic.step exampleEnv exampleNode (Event.updateSeqNo 1)).logic
        (Event.timer 2)).logic.stableRound = 1 ∧
    (Logic.step exampleEnv (Logic.step exampleEnv exampleNode (Event.updateSeqNo 1)).logic
        (Event.timer 2)).logic.stabilizingRound = 1 ∧
    (Logic.step exampleEnv (Logic.step exampleEnv exampleNode (Event.updateSeqNo 1)).logic
        (Event.timer 2)).logic.currentRound = 2 ∧
    (Logic.step exampleEnv (Logic.step exampleEnv exampleNode (Event.updateSeqNo 1)).logic
        (Event.timer 2)).logic.stabilizingRound ≤
      (Logic.step exampleEnv (Logic.step exampleEnv exampleNode (Event.updateSeqNo 1)).logic
        (Event.timer 2)).logic.currentRound :=
  have hr : Logic.ReachableNoWrap exampleEnv
      (Logic.step exampleEnv (Logic.step exampleEnv exampleNode (Event.updateSeqNo 1)).logic
        (Event.timer 2)).logic :=
    Logic.ReachableNoWrap.step _ (Event.timer 2)
      (Logic.ReachableNoWrap.step exampleNode (Event.updateSeqNo 1)
        (Logic.ReachableNoWrap.init [[1]] [[2]] false 7) (by decide)
        (by unfold Logic.NoWrap; decide))
      (by decide) (by unfold Logic.NoWrap; decide)
  ⟨hr, by decide, by decide, by decide, (Logic.rounds_ordered exampleEnv _ hr).2.1⟩

/-- C32 (counterexample): the handlers take the example node from its initial state to a
state in which `setStableState` throws. A recovery reply that names round 2^64 - 1 wraps
the current round to 0; after a publication and two stabilisations no round is stable
(`stable_round == 0`), the last recovery round is 2^64 - 1 and the stabilising round is 0,
so none of the three cases applies when the stabilisation timer (event 14) fires. -/
theorem Logic.setStableState_throw_reachable :
    Logic.Reachable exampleEnv (Logic.run exampleEnv exampleNode exampleWrapRun).logic ∧
    (Logic.run exampleEnv exampleNode exampleWrapRun).logic.stableRound = 0 ∧
    (Logic.run exampleEnv exampleNode exampleWrapRun).logic.lastRecoveryRound =
      18446744073709551615 ∧
    (Logic.run exampleEnv exampleNode exampleWrapRun).logic.stabilizingRound = 0 ∧
    ((Logic.run exampleEnv exampleNode exampleWrapRun).logic.pendingEvent 14).map
      ScheduledEvent.callback = some Callback.setStableState ∧
    (Logic.step exampleEnv (Logic.run exampleEnv exampleNode exampleWrapRun).logic
      (Event.timer 14)).thrown = some Thrown.logicError :=
  ⟨Logic.reachable_run exampleEnv exampleWrapRun exampleNode
      (Logic.Reachable.init [[1]] [[2]] false 7) (by decide),
   by decide, by decide, by decide, by decide, by decide⟩

/-- C32 (amended): in every state that a node reaches without overflow of a round number,
one of the three cases of `setStableState` applies: `stable_round == 0` and
`last_recovery_round == 0`, or the stabilising round is the last recovery round, or
`stable_round != 0`. So neither a call of `setStableState` nor a stabilisation timer that
fires throws. -/
theorem Logic.setStableState_no_throw (E : Env) (L : Logic) (h : Logic.ReachableNoWrap E L) :
    ((L.stableRound = 0 ∧ L.lastRecoveryRound = 0) ∨
      L.stabilizingRound = L.lastRecoveryRound ∨ L.stableRound ≠ 0) ∧
    (Logic.setStableState E L).thrown = none ∧
    ∀ id ev, L.pendingEvent id = some ev → ev.callback = Callback.setStableState →
      (Logic.step E L (Event.timer id)).thrown = none := by
  obtain ⟨-, -, -, -, h5⟩ := Logic.reachable_rounds E L h
  have hcase : (L.stableRound = 0 ∧ L.lastRecoveryRound = 0) ∨
      L.stabilizingRound = L.lastRecoveryRound ∨ L.stableRound ≠ 0 := by
    by_cases h0 : L.stableRound = 0
    · rcases h5 h0 with hl | hs
      · exact Or.inl ⟨h0, hl⟩
      · exact Or.inr (Or.inl hs)
    · exact Or.inr (Or.inr h0)
  refine ⟨hcase, (Logic.setStableState_thrown E L).mpr hcase, fun id ev hp hcb => ?_⟩
  rw [Logic.step_timer, hp]
  dsimp only
  rw [hcb]
  exact (Logic.setStableState_thrown E _).mpr hcase

/-- Witness for C32 (amended): the example node after it has published once and its
stabilisation timer has fired; the next stabilisation timer is event 7. -/
theorem Logic.setStableState_no_throw_witness :
    Logic.ReachableNoWrap exampleEnv
      (Logic.step exampleEnv (Logic.step exampleEnv exampleNode (Event.updateSeqNo 1)).logic
        (Event.timer 2)).logic ∧
    (Logic.setStableState exampleEnv
      (Logic.step exampleEnv (Logic.step exampleEnv exampleNode (Event.updateSeqNo 1)).logic
        (Event.timer 2)).logic).thrown = none :=
  have hr : Logic.ReachableNoWrap exampleEnv
      (Logic.step exampleEnv (Logic.step exampleEnv exampleNode (Event.updateSeqNo 1)).logic
        (Event.timer 2)).logic :=
    Logic.ReachableNoWrap.step _ (Event.timer 2)
      (Logic.ReachableNoWrap.step exampleNode (Event.updateSeqNo 1)
        (Logic.ReachableNoWrap.init [[1]] [[2]] false 7) (by decide)
        (by unfold Logic.NoWrap; decide))
      (by decide) (by unfold Logic.NoWrap; decide)
  ⟨hr, (Logic.setStableState_no_throw exampleEnv _ hr).2.1⟩

/-! ## Scheduled emissions carry a digest -/

namespace Logic

theorem SchedOk.same_scheduled {L M : Logic} (h : SchedOk L) (he : M.scheduled = L.scheduled) :
    SchedOk M := by
  unfold SchedOk
  rw [he]
  exact h

theorem SchedOk.append {L M : Logic} (h : SchedOk L) (new : List ScheduledEvent)
    (he : M.scheduled = L.scheduled ++ new) (hn : ∀ ev, ev ∈ new → ev.EmitsOk) :
    SchedOk M := by
  unfold SchedOk
  rw [he]
  intro ev hev
  rcases List.mem_append.mp hev with h1 | h1
  · exact h ev h1
  · exact hn ev h1

theorem SchedOk.schedule {L : Logic} (h : SchedOk L) (delay : Delay) (cb : Callback)
    (hcb : ∀ R cd, cb = Callback.produceCumulativeOnly R cd → cd ≠ none) :
    SchedOk (L.scheduleEvent delay cb).1 := by
  refine h.append [{ id := L.scheduled.length + 1, delay := delay, callback := cb }] rfl ?_
  intro ev hev
  rw [List.mem_singleton] at hev
  subst hev
  exact hcb

theorem emitsOk_backfill (n : Nat) (rounds : List RoundNo) :
    ∀ ev, ev ∈ backfillEvents n rounds → ev.EmitsOk := by
  induction rounds generalizing n with
  | nil => intro ev hev; cases hev
  | cons r rest ih =>
    intro ev hev
    unfold backfillEvents at hev
    rcases List.mem_cons.mp hev with h1 | h1
    · subst h1
      intro R cd hcb
      cases hcb
    · exact ih _ ev h1

theorem schedOk_sync {L : Logic} (h : SchedOk L) (c : Commit) : SchedOk (L.sync c) :=
  h.same_scheduled (sync_frame L c).2.2.2.2.2.2.2.2.2.1

theorem schedOk_act {L : Logic} (h : SchedOk L) (a : Action) : SchedOk (L.act a) := h

theorem schedOk_removeOutstanding {L : Logic} (h : SchedOk L) (name : Name) :
    SchedOk (L.removeOutstanding name) := by
  unfold removeOutstanding
  repeat' split
  all_goals exact h

theorem schedOk_moveToNewCurrentRound {L : Logic} (h : SchedOk L) (n : RoundNo) :
    SchedOk (L.moveToNewCurrentRound n) := by
  rw [moveToNewCurrentRound_eq]
  dsimp only
  refine h.append _ (List.append_assoc _ _ _) ?_
  intro ev hev
  rcases List.mem_append.mp hev with h1 | h1
  · split at h1
    · exact emitsOk_backfill _ _ ev h1
    · cases h1
  · rw [List.mem_singleton] at h1
    subst h1
    intro R cd hcb
    cases hcb

theorem schedOk_cancelEvent {L : Logic} (h : SchedOk L) (e : Option Nat) :
    SchedOk (L.cancelEvent e) := by
  rw [cancelEvent_eq]
  exact h

theorem schedOk_sendData {L : Logic} (h : SchedOk L) (E : Env) (name : Name) (c : Commit) :
    SchedOk (sendData E L name c).1.logic := by
  unfold sendData
  dsimp only
  repeat' split
  all_goals first
    | exact h
    | exact schedOk_removeOutstanding (schedOk_act (schedOk_sync h _) _) _

theorem schedOk_sendCumulativeOnly {L : Logic} (h : SchedOk L) (E : Env) (name : Name)
    (R : RoundNo) (D : Option Buffer) : SchedOk (sendCumulativeOnly E L name R D).logic := by
  unfold sendCumulativeOnly
  dsimp only
  repeat' split
  all_goals first
    | exact h
    | (refine schedOk_removeOutstanding ?_ _; exact h)

theorem SchedOk.of_all {L M : Logic} (h : SchedOk L)
    (ha : ∀ ev, ev ∈ M.scheduled → ev ∈ L.scheduled ∨ ev.EmitsOk) : SchedOk M := by
  intro ev hev
  rcases ha ev hev with h1 | h1
  · exact h ev h1
  · exact h1

theorem schedOk_sendDataInterest {L : Logic} (h : SchedOk L) (R : RoundNo) (n : Nat) :
    SchedOk (L.sendDataInterest R n) := by
  refine h.of_all ?_
  unfold sendDataInterest
  dsimp only
  repeat' split
  all_goals simp +contextual [ScheduledEvent.EmitsOk, scheduleEvent, cancelEvent_eq,
    expressInterest, or_imp, forall_and]

theorem schedOk_sendSyncInterest {L : Logic} (h : SchedOk L) (R : RoundNo) :
    SchedOk (L.sendSyncInterest R).logic := by
  unfold sendSyncInterest
  dsimp only
  repeat' split
  all_goals exact h

theorem schedOk_sendRecoInterest {L : Logic} (h : SchedOk L) (p : Name) :
    SchedOk (L.sendRecoInterest p) := by
  unfold sendRecoInterest
  repeat' split
  all_goals exact h

theorem schedOk_checkRoundDigests {L : Logic} (h : SchedOk L) (R : RoundNo) (D : Buffer) :
    SchedOk (L.checkRoundDigests R D).1.logic := by
  refine h.of_all ?_
  unfold checkRoundDigests
  dsimp only
  repeat' split
  all_goals simp +contextual [ScheduledEvent.EmitsOk, scheduleEvent, cancelEvent_eq,
    done, throwing, or_imp, forall_and]

theorem schedOk_checkRecovery {L : Logic} (h : SchedOk L) (p : Name) (R : RoundNo)
    (D : Option Buffer) : SchedOk (L.checkRecovery p R D).logic := by
  refine h.of_all ?_
  unfold checkRecovery
  repeat' split
  all_goals try simp only [scheduleEvent, cancelEvent, done, throwing]
  all_goals repeat' split
  all_goals simp +contextual [ScheduledEvent.EmitsOk, scheduleEvent, cancelEvent, done,
    throwing, or_imp, forall_and]

theorem schedOk_onDataInterestTimeout {L : Logic} (h : SchedOk L) (E : Env) (name : Name)
    (n : Nat) : SchedOk (onDataInterestTimeout E L name n).logic := by
  refine h.of_all ?_
  unfold onDataInterestTimeout
  dsimp only
  repeat' split
  all_goals simp +contextual [ScheduledEvent.EmitsOk, scheduleEvent, done, throwing,
    or_imp, forall_and]

theorem schedOk_onRecoInterestTimeout {L : Logic} (h : SchedOk L) (name : Name) :
    SchedOk (L.onRecoInterestTimeout name) := by
  refine h.of_all ?_
  unfold onRecoInterestTimeout
  dsimp only
  repeat' split
  all_goals simp +contextual [ScheduledEvent.EmitsOk, scheduleEvent, or_imp, forall_and]

theorem schedOk_onRecoInterest {L : Logic} (h : SchedOk L) (name : Name) :
    SchedOk (L.onRecoInterest name).logic := by
  unfold onRecoInterest processRecoInterest sendRecoData
  dsimp only
  repeat' split
  all_goals exact h

theorem schedOk_updateDiffLog {L : Logic} (h : SchedOk L) (E : Env) (c : Commit) (R : RoundNo) :
    SchedOk (updateDiffLog E L c R).1 := h

theorem schedOk_pending {L : Logic} (h : SchedOk L) (x : Option Name) :
    SchedOk { L with pendingDataInterest := x } := h

theorem schedOk_answerWithCumulativeOnly {L : Logic} (h : SchedOk L) (E : Env) (R : RoundNo)
    (D : Option Buffer) : SchedOk (answerWithCumulativeOnly E L R D).logic := by
  unfold answerWithCumulativeOnly
  dsimp only
  repeat' split
  all_goals first
    | exact h
    | exact schedOk_sendCumulativeOnly h _ _ _ _

theorem schedOk_produceCumulativeOnly {L : Logic} (h : SchedOk L) (E : Env) (R : RoundNo)
    (D : Option Buffer) : SchedOk (produceCumulativeOnly E L R D).logic := by
  unfold produceCumulativeOnly
  dsimp only
  have h1 := schedOk_answerWithCumulativeOnly h E R D
  split
  · exact h1
  · simp only [done]
    exact schedOk_moveToNewCurrentRound (schedOk_updateDiffLog h1 E _ _) _

theorem schedOk_answerWithData {L : Logic} (h : SchedOk L) (E : Env) (c : Commit) :
    SchedOk (answerWithData E L c).logic := by
  unfold answerWithData
  dsimp only
  repeat' split
  all_goals first
    | exact h
    | exact schedOk_sendData h _ _ _

theorem schedOk_advance {A : Logic} (h : SchedOk A) :
    SchedOk { ((A.scheduleEvent (Delay.ms 0)
        (Callback.sendSyncInterest A.currentRound)).1.moveToNewCurrentRound
        (add64 (A.scheduleEvent (Delay.ms 0)
          (Callback.sendSyncInterest A.currentRound)).1.currentRound 1))
        with syncTimeouts := 0 } :=
  schedOk_moveToNewCurrentRound
    (h.schedule (Delay.ms 0) (Callback.sendSyncInterest A.currentRound)
      (fun _ _ e => Callback.noConfusion e)) _

theorem schedOk_updateSeqNo {L : Logic} (h : SchedOk L) (E : Env) (q : SeqNo) :
    SchedOk (updateSeqNo E L q).logic := by
  have h2 : SchedOk ({ L with seqNo := q, state := (L.state.update L.sessionName q).1 } : Logic) :=
    h
  have hk := schedOk_answerWithData (schedOk_updateDiffLog h2 E
    { value := ({ L with seqNo := q, state := (L.state.update L.sessionName q).1 } :
        Logic).ownCommit, inLog := false } L.currentRound) E
    (updateDiffLog E ({ L with seqNo := q, state := (L.state.update L.sessionName q).1 } : Logic)
      { value := ({ L with seqNo := q, state := (L.state.update L.sessionName q).1 } :
        Logic).ownCommit, inLog := false } L.currentRound).2
  have hk3 := schedOk_advance hk
  unfold updateSeqNo
  split
  · exact h
  · dsimp only
    split
    · split
      · exact hk
      · exact hk3
    · exact h

theorem schedOk_setStableState {L : Logic} (h : SchedOk L) (E : Env) :
    SchedOk (setStableState E L).logic := by
  refine h.of_all ?_
  unfold setStableState
  dsimp only
  repeat' split
  all_goals simp +contextual [ScheduledEvent.EmitsOk, scheduleEvent, done, throwing,
    calculateStableStateAndCumulativeDigests, or_imp, forall_and]

theorem schedOk_processDataInterest {L : Logic} (h : SchedOk L) (E : Env) (name : Name) :
    SchedOk (processDataInterest E L name).logic := by
  unfold processDataInterest
  cases hr : roundOfName name with
  | none => exact h
  | some roundNo =>
    dsimp only
    have h1 : SchedOk (if roundNo ≥ L.currentRound then
        { L with pendingDataInterest := some name } else L) := by
      split
      · exact h
      · exact h
    generalize (if roundNo ≥ L.currentRound then { L with pendingDataInterest := some name }
        else L) = L1 at h1 ⊢
    repeat' split
    all_goals first
      | exact h1
      | exact schedOk_moveToNewCurrentRound h1 _
      | exact schedOk_sendCumulativeOnly h1 _ _ _ _
      | exact schedOk_sendData h1 _ _ _

theorem schedOk_processSyncInterest {L : Logic} (h : SchedOk L) (name : Name) :
    SchedOk (L.processSyncInterest name).logic := by
  unfold processSyncInterest
  repeat' split
  all_goals first
    | exact h
    | exact schedOk_moveToNewCurrentRound h _
    | exact schedOk_checkRoundDigests h _ _

theorem schedOk_openCommit {L : Logic} (h : SchedOk L) (R : RoundNo) (suffix : Component) :
    SchedOk (L.openCommit R suffix).1 :=
  h.same_scheduled (openCommit_frame L R suffix).2.2.2.2.2.2.2.2.2.1

theorem schedOk_applyReceivedLeaves (R : RoundNo) (ls : List Leaf) (L : Logic) (c : Commit)
    (v : List MissingDataInfo) (h : SchedOk L) : SchedOk (applyReceivedLeaves R ls L c v).1 := by
  induction ls generalizing L c v with
  | nil => exact h
  | cons leaf rest ih =>
    unfold applyReceivedLeaves
    dsimp only
    split
    · exact ih _ _ _ (schedOk_sync (L := ({ ({ L with oldState :=
            (L.oldState.update leaf.sessionName leaf.seq).1 } : Logic) with
            state := (L.state.update leaf.sessionName leaf.seq).1 } : Logic)) h _)
    · exact ih _ _ _ (schedOk_sync (L := ({ L with
            state := (L.state.update leaf.sessionName leaf.seq).1 } : Logic)) h _)

theorem schedOk_finishProcessData {L : Logic} (h : SchedOk L) (E : Env) (c : Commit)
    (R : RoundNo) : SchedOk (finishProcessData E L c R).logic := by
  unfold finishProcessData
  dsimp only
  have h1 : SchedOk (if R = L.currentRound then L.moveToNewCurrentRound (add64 L.currentRound 1)
      else L) := by
    split
    · exact schedOk_moveToNewCurrentRound h _
    · exact h
  generalize (if R = L.currentRound then L.moveToNewCurrentRound (add64 L.currentRound 1)
      else L) = L1 at h1 ⊢
  have h2 := schedOk_updateDiffLog h1 E c R
  generalize updateDiffLog E L1 c R = u at h2 ⊢
  simp only [done]
  refine schedOk_sync ?_ _
  refine schedOk_cancelEvent (SchedOk.schedule ?_ _ _ (fun _ _ e => Callback.noConfusion e)) _
  split
  · exact SchedOk.schedule (schedOk_cancelEvent h2 _) _ _ (fun _ _ e => Callback.noConfusion e)
  · exact h2

theorem schedOk_act_if {L : Logic} (h : SchedOk L) (c : Prop) [Decidable c] (a : Action) :
    SchedOk (if c then L.act a else L) := by
  split
  · exact h
  · exact h

theorem schedOk_applyDataContent {L : Logic} (h : SchedOk L) (E : Env) (c : Commit)
    (R : RoundNo) (x : DataContent) : SchedOk (applyDataContent E L c R x).logic := by
  unfold applyDataContent
  dsimp only
  generalize (if x.dataType = tlv.CumulativeOnly then
        ({ c with value := c.value.update x.userPrefix CUMULATIVE_ONLY_DATA } : Commit)
      else c) = c2
  have hchk : SchedOk (if x.dataType = tlv.CumulativeOnly ∨
        x.dataType = tlv.DataAndCumulative then
        (L.sync c2).checkRecovery x.userPrefix x.roundNo x.cumulativeDigest
      else (L.sync c2).done).logic := by
    split
    · exact schedOk_checkRecovery (schedOk_sync h c2) _ _ _
    · exact schedOk_sync h c2
  generalize (if x.dataType = tlv.CumulativeOnly ∨ x.dataType = tlv.DataAndCumulative then
        (L.sync c2).checkRecovery x.userPrefix x.roundNo x.cumulativeDigest
      else (L.sync c2).done) = checked at hchk ⊢
  split
  · exact hchk
  · split
    · split
      · exact hchk
      · exact schedOk_finishProcessData
          (schedOk_act_if (schedOk_applyReceivedLeaves R _ checked.logic c2 [] hchk) _ _) E _ R
    · exact schedOk_finishProcessData hchk E _ R

theorem schedOk_processData {L : Logic} (h : SchedOk L) (E : Env) (fullName : Name)
    (block : Block) : SchedOk (processData E L fullName block).logic := by
  unfold processData
  split
  · rename_i roundNo suffix _ _
    dsimp only
    have h0 : SchedOk (if roundNo = L.currentRound then { L with syncTimeouts := 0 }
        else L) := by
      split
      · exact h
      · exact h
    generalize (if roundNo = L.currentRound then { L with syncTimeouts := 0 } else L) = L0
      at h0 ⊢
    split
    · exact h0
    · have h1 := schedOk_openCommit h0 roundNo suffix
      split
      · split
        · exact h1
        · exact h1
      · exact schedOk_applyDataContent h1 E _ roundNo _
  · exact h

theorem schedOk_processRecoData {L : Logic} (h : SchedOk L) (fullName : Name) (block : Block) :
    SchedOk (L.processRecoData fullName block).logic := by
  unfold processRecoData
  dsimp only
  split
  · split
    · exact h
    · exact h
  · split
    · exact h
    · split
      · exact h
      · refine h.of_all ?_
        simp only [act_if, applyRecoveredLeaves_logic, cancelEvent_eq,
          moveToNewCurrentRoundAfterRecovery, backfill_loop]
        simp only [scheduleEvent, done]
        intro ev hev
        split at hev
        · simp only [List.mem_append, List.mem_singleton] at hev
          rcases hev with ((h1 | h1) | h1) | h1
          · exact Or.inl h1
          · exact Or.inr (h1 ▸ fun _ _ e => Callback.noConfusion e)
          · exact Or.inr (emitsOk_backfill _ _ ev h1)
          · exact Or.inr (h1 ▸ fun _ _ e => Callback.noConfusion e)
        · simp only [List.mem_append, List.mem_singleton] at hev
          rcases hev with (h1 | h1) | h1
          · exact Or.inl h1
          · exact Or.inr (emitsOk_backfill _ _ ev h1)
          · exact Or.inr (h1 ▸ fun _ _ e => Callback.noConfusion e)

theorem schedOk_runCallback {L : Logic} (h : SchedOk L) (E : Env) (cb : Callback) :
    SchedOk (runCallback E L cb).logic := by
  cases cb with
  | sendDataInterest roundNo retries => exact schedOk_sendDataInterest h roundNo retries
  | sendSyncInterest roundNo => exact schedOk_sendSyncInterest h roundNo
  | setStableState => exact schedOk_setStableState h E
  | produceCumulativeOnly roundNo cd => exact schedOk_produceCumulativeOnly h E roundNo cd
  | checkRecovery userPrefix roundNo cd => exact schedOk_checkRecovery h userPrefix roundNo cd
  | sendRecoInterest userPrefix => exact schedOk_sendRecoInterest h userPrefix
  | startPartition => exact h
  | stopPartition => exact h

theorem schedOk_step {L : Logic} (h : SchedOk L) (E : Env) (ev : Event) :
    SchedOk (step E L ev).logic := by
  cases ev with
  | updateSeqNo seqNo => exact schedOk_updateSeqNo h E seqNo
  | interest name =>
    show SchedOk (onDataAndSyncInterest E L name).logic
    unfold onDataAndSyncInterest
    repeat' split
    all_goals first
      | exact h
      | exact schedOk_processDataInterest h E name
      | exact schedOk_processSyncInterest h name
  | recoInterest name => exact schedOk_onRecoInterest h name
  | data fullName content valid =>
    show SchedOk (onData E L fullName content valid).logic
    unfold onData
    repeat' split
    all_goals first
      | exact h
      | exact schedOk_processData h E fullName content
  | recoData fullName content valid =>
    show SchedOk (L.onRecoData fullName content valid).logic
    unfold onRecoData
    repeat' split
    all_goals first
      | exact h
      | exact schedOk_processRecoData h fullName content
  | dataInterestTimeout name retries => exact schedOk_onDataInterestTimeout h E name retries
  | recoInterestTimeout name => exact schedOk_onRecoInterestTimeout h name
  | syncInterestTimeout => exact h
  | timer id =>
    rw [step_timer]
    cases hp : L.pendingEvent id with
    | none => exact h
    | some sev => exact schedOk_runCallback (L := { L with fired := L.fired ++ [id] }) h E _

end Logic

/-! ## Entries of stable rounds stay, cumulative infos carry a digest -/

namespace DiffStateContainer

theorem Frozen.frozen_refl (s : RoundNo) (log : List DiffState) : Frozen s log log :=
  fun _ _ d h => ⟨d, h, rfl, rfl⟩

theorem Frozen.then_frozen {s : RoundNo} {log1 log2 log3 : List DiffState}
    (h1 : Frozen s log1 log2) (h2 : Frozen s log2 log3) : Frozen s log1 log3 := by
  intro r hr d hd
  obtain ⟨d2, hd2, hl2, hc2⟩ := h1 r hr d hd
  obtain ⟨d3, hd3, hl3, hc3⟩ := h2 r hr d2 hd2
  exact ⟨d3, hd3, hl3.trans hl2, hc3.trans hc2⟩

theorem frozen_replaceAt_above (s : RoundNo) (log : List DiffState) (r : RoundNo)
    (v : DiffState) (hr : s < r) (hv : v.round = r) : Frozen s log (replaceAt log r v) := by
  intro q hq d hd
  refine ⟨d, ?_, rfl, rfl⟩
  rw [find_replaceAt_ne log r q v hv (Nat.ne_of_lt (Nat.lt_of_le_of_lt hq hr))]
  exact hd

theorem frozen_replace_above (s : RoundNo) (log : List DiffState) (v : DiffState)
    (h : s < v.round) : Frozen s log (replace log v) :=
  frozen_replaceAt_above s log v.round v h rfl

theorem frozen_insert (s : RoundNo) (log : List DiffState) (v : DiffState)
    (h : find log v.round = none) : Frozen s log (insert log v) := by
  intro q _ d hd
  refine ⟨d, ?_, rfl, rfl⟩
  rw [find_insert_ne log q v ?_]
  · exact hd
  · intro e
    rw [e, h] at hd
    cases hd

theorem frozen_replace_same (s : RoundNo) (log : List DiffState) (v d : DiffState)
    (hf : find log v.round = some d) (hl : v.leaves = d.leaves)
    (hc : v.cumulativeDigest = d.cumulativeDigest) : Frozen s log (replace log v) := by
  intro q _ e he
  by_cases hqv : q = v.round
  · rw [hqv] at he ⊢
    rw [hf] at he
    cases he
    exact ⟨v, find_replace_same hf rfl, hl, hc⟩
  · refine ⟨e, ?_, rfl, rfl⟩
    rw [find_replace_ne log q v hqv]
    exact he

theorem mem_of_mem_replaceAt {log : List DiffState} {r : RoundNo} {v x : DiffState}
    (h : x ∈ replaceAt log r v) : x ∈ log ∨ x = v := by
  unfold replaceAt at h
  obtain ⟨a, ha, hx⟩ := List.mem_map.mp h
  split at hx
  · exact Or.inr hx.symm
  · exact Or.inl (hx ▸ ha)

theorem mem_of_mem_insert {log : List DiffState} {v x : DiffState}
    (h : x ∈ insert log v) : x ∈ log ∨ x = v := by
  induction log with
  | nil =>
    simp only [insert, List.mem_singleton] at h
    exact Or.inr h
  | cons a rest ih =>
    unfold insert at h
    split at h
    · rcases List.mem_cons.mp h with h1 | h1
      · exact Or.inr h1
      · exact Or.inl h1
    · split at h
      · exact Or.inl h
      · rcases List.mem_cons.mp h with h1 | h1
        · exact Or.inl (h1 ▸ List.mem_cons_self _ _)
        · rcases ih h1 with h2 | h2
          · exact Or.inl (List.mem_cons_of_mem _ h2)
          · exact Or.inr h2

theorem mem_of_find {log : List DiffState} {r : RoundNo} {d : DiffState}
    (h : find log r = some d) : d ∈ log := List.mem_of_find?_eq_some h

end DiffStateContainer

theorem DiffState.InfoOk.of_eq {d v : DiffState} (h : d.InfoOk)
    (he : v.cumulativeInfo = d.cumulativeInfo) : v.InfoOk := by
  intro info hi
  exact h info (he ▸ hi)

theorem DiffState.infoOk_of_none {v : DiffState} (h : v.cumulativeInfo = none) : v.InfoOk := by
  intro info hi
  rw [h] at hi
  cases hi

namespace Logic

theorem Tame.tame_refl {L : Logic} (h : L.InfoOk) : Tame L L :=
  ⟨rfl, DiffStateContainer.Frozen.frozen_refl _ _, h⟩

theorem Tame.then_tame {L M N : Logic} (h1 : Tame L M) (h2 : Tame M N) : Tame L N :=
  ⟨h2.1.trans h1.1, h1.2.1.then_frozen (h1.1 ▸ h2.2.1), h2.2.2⟩

theorem Tame.same_log {L M : Logic} (hI : L.InfoOk) (hs : M.stableRound = L.stableRound)
    (hl : M.log = L.log) : Tame L M := by
  refine ⟨hs, ?_, ?_⟩
  · rw [hl]
    exact DiffStateContainer.Frozen.frozen_refl _ _
  · unfold InfoOk
    rw [hl]
    exact hI

theorem infoOk_replaceAt {log : List DiffState} (h : ∀ d, d ∈ log → d.InfoOk) (r : RoundNo)
    {v : DiffState} (hv : v.InfoOk) :
    ∀ d, d ∈ DiffStateContainer.replaceAt log r v → d.InfoOk := by
  intro d hd
  rcases DiffStateContainer.mem_of_mem_replaceAt hd with h1 | h1
  · exact h d h1
  · exact h1 ▸ hv

theorem infoOk_insert {log : List DiffState} (h : ∀ d, d ∈ log → d.InfoOk)
    {v : DiffState} (hv : v.InfoOk) :
    ∀ d, d ∈ DiffStateContainer.insert log v → d.InfoOk := by
  intro d hd
  rcases DiffStateContainer.mem_of_mem_insert hd with h1 | h1
  · exact h d h1
  · exact h1 ▸ hv

/-- A change through a commit pointer of a round above the stable round. -/
theorem tame_sync_above {L : Logic} (hI : L.InfoOk) (c : Commit) (hi : c.value.InfoOk)
    (hr : c.inLog = true → L.stableRound < c.value.round) : Tame L (L.sync c) := by
  rw [sync_eq]
  cases hin : c.inLog with
  | false => exact Tame.tame_refl hI
  | true =>
    exact ⟨rfl, DiffStateContainer.frozen_replace_above _ _ _ (hr hin),
      infoOk_replaceAt hI _ hi⟩

/-- A change through a commit pointer that leaves leaves and cumulative digest of the
stored entry as they are. -/
theorem tame_sync_same {L : Logic} (hI : L.InfoOk) (c : Commit) (d : DiffState)
    (hi : c.value.InfoOk)
    (hf : c.inLog = true → DiffStateContainer.find L.log c.value.round = some d)
    (hl : c.value.leaves = d.leaves) (hc : c.value.cumulativeDigest = d.cumulativeDigest) :
    Tame L (L.sync c) := by
  rw [sync_eq]
  cases hin : c.inLog with
  | false => exact Tame.tame_refl hI
  | true =>
    exact ⟨rfl, DiffStateContainer.frozen_replace_same _ _ _ d (hf hin) hl hc,
      infoOk_replaceAt hI _ hi⟩

theorem tame_act {L : Logic} (hI : L.InfoOk) (a : Action) : Tame L (L.act a) :=
  Tame.tame_refl hI

theorem tame_removeOutstanding {L : Logic} (hI : L.InfoOk) (name : Name) :
    Tame L (L.removeOutstanding name) :=
  Tame.same_log hI (steady_removeOutstanding L name).2.1 (removeOutstanding_log L name).1

theorem tame_moveToNewCurrentRound {L : Logic} (hI : L.InfoOk) (n : RoundNo) :
    Tame L (L.moveToNewCurrentRound n) :=
  Tame.same_log hI (steady_moveToNewCurrentRound L n).2.1
    (moveToNewCurrentRound_frame L n).2.2.2.1

theorem stamped_infoOk {d : DiffState} (h : d.InfoOk) (H : Digests) (R : RoundNo) :
    (d.stamped H R).InfoOk := h.of_eq rfl

/-- What `updateDiffLog` does for a commit that is not stored: the entries stay, and if
the commit gets stored, it is the entry of the round. -/
theorem tame_updateDiffLog_new {L : Logic} (hI : L.InfoOk) (E : Env) (d : DiffState)
    (hi : d.InfoOk) (R : RoundNo) :
    Tame L (updateDiffLog E L { value := d, inLog := false } R).1 ∧
    (updateDiffLog E L { value := d, inLog := false } R).2.value = d.stamped E.digests R ∧
    ((updateDiffLog E L { value := d, inLog := false } R).2.inLog = true →
      DiffStateContainer.find (updateDiffLog E L { value := d, inLog := false } R).1.log
        (updateDiffLog E L { value := d, inLog := false } R).2.value.round =
        some (updateDiffLog E L { value := d, inLog := false } R).2.value) := by
  cases hf : DiffStateContainer.find L.log R with
  | none =>
    rw [updateDiffLog_inserts E L { value := d, inLog := false } R rfl hf]
    have hf2 : DiffStateContainer.find L.log (d.stamped E.digests R).round = none := hf
    exact ⟨⟨rfl, DiffStateContainer.frozen_insert _ _ _ hf2,
      infoOk_insert hI (stamped_infoOk hi _ _)⟩, rfl,
      fun _ => @DiffStateContainer.find_insert_same L.log (d.stamped E.digests R) hf2⟩
  | some e =>
    rw [updateDiffLog_keeps E L { value := d, inLog := false } R e rfl hf]
    exact ⟨Tame.tame_refl hI, rfl, fun h => Bool.noConfusion h⟩

/-- What `updateDiffLog` does for a commit of a round above the stable round. -/
theorem tame_updateDiffLog_above {L : Logic} (hI : L.InfoOk) (E : Env) (c : Commit)
    (hi : c.value.InfoOk) (R : RoundNo) (hr : c.inLog = true → c.value.round = R)
    (hR : L.stableRound < R) :
    Tame L (updateDiffLog E L c R).1 ∧ (updateDiffLog E L c R).2.value.InfoOk ∧
    (updateDiffLog E L c R).2.value.round = R := by
  refine ⟨?_, ?_, (ordered_updateDiffLog E L c R hr).2⟩
  · cases hin : c.inLog with
    | false =>
      have h := (tame_updateDiffLog_new hI E c.value hi R).1
      have hc : ({ value := c.value, inLog := false } : Commit) = c := by
        cases c
        simp only at hin
        rw [hin]
      rw [hc] at h
      exact h
    | true =>
      unfold updateDiffLog updateDiffLogOn
      dsimp only
      simp only [hin, if_true]
      have hfro : DiffStateContainer.Frozen L.stableRound L.log
          (DiffStateContainer.replaceAt L.log c.value.round
            (({ c.value with round := R } : DiffState).updateRoundDigest E.digests)) :=
        DiffStateContainer.frozen_replaceAt_above _ _ _ _ (by rw [hr hin]; exact hR)
          (hr hin).symm
      have hinf := infoOk_replaceAt hI c.value.round
        (stamped_infoOk hi E.digests R)
      split
      · rename_i hnone
        exact ⟨rfl, hfro.then_frozen (DiffStateContainer.frozen_insert _ _ _ hnone),
          infoOk_insert hinf (stamped_infoOk hi E.digests R)⟩
      · exact ⟨rfl, hfro, hinf⟩
  · rw [updateDiffLog_value]
    exact stamped_infoOk hi _ _

theorem tame_put {L : Logic} (hI : L.InfoOk) (c2 : Commit) (d : DiffState)
    (hi : c2.value.InfoOk)
    (hf : c2.inLog = true → DiffStateContainer.find L.log c2.value.round = some d)
    (hl : c2.value.leaves = d.leaves) (hc : c2.value.cumulativeDigest = d.cumulativeDigest)
    (a : Action) (name : Name) : Tame L (((L.sync c2).act a).removeOutstanding name) := by
  have h1 := tame_sync_same hI c2 d hi hf hl hc
  exact (h1.then_tame (tame_act h1.2.2 a)).then_tame
    (tame_removeOutstanding (L := (L.sync c2).act a) h1.2.2 name)

theorem tame_put_log {L M : Logic} (h : Tame L M) (a : Action) (name : Name) :
    Tame L ((M.act a).removeOutstanding name) :=
  (h.then_tame (tame_act h.2.2 a)).then_tame
    (tame_removeOutstanding (L := M.act a) h.2.2 name)

theorem tame_replace_same {L : Logic} (hI : L.InfoOk) (v d : DiffState)
    (hf : DiffStateContainer.find L.log v.round = some d) (hl : v.leaves = d.leaves)
    (hc : v.cumulativeDigest = d.cumulativeDigest) (hi : v.InfoOk) :
    Tame L { L with log := DiffStateContainer.replace L.log v } :=
  ⟨rfl, DiffStateContainer.frozen_replace_same _ _ _ d hf hl hc, infoOk_replaceAt hI _ hi⟩

theorem tame_sendData {L : Logic} (hI : L.InfoOk) (E : Env) (name : Name) (c : Commit)
    (hi : c.value.InfoOk)
    (hf : c.inLog = true → DiffStateContainer.find L.log c.value.round = some c.value) :
    Tame L (sendData E L name c).1.logic := by
  unfold sendData
  dsimp only
  split
  · exact Tame.tame_refl hI
  · simp only [done]
    refine tame_put hI _ c.value ?_ ?_ ?_ ?_ _ _
    · exact hi.of_eq rfl
    · exact hf
    · rfl
    · rfl

theorem tame_sendCumulativeOnly {L : Logic} (hI : L.InfoOk) (E : Env) (name : Name)
    (R : RoundNo) (D : Option Buffer) : Tame L (sendCumulativeOnly E L name R D).logic := by
  unfold sendCumulativeOnly
  dsimp only
  split
  · exact Tame.tame_refl hI
  · simp only [done]
    split
    · rename_i d hf
      have hround := DiffStateContainer.find_some_round hf
      rw [← hround] at hf
      have h1 := tame_replace_same hI (d.appendExclude (E.implicitDigest name
        (DataContent.new L.sessionName R D none 0).wireEncode.2)) d hf rfl rfl
        ((hI d (DiffStateContainer.mem_of_find hf)).of_eq rfl)
      exact tame_put_log h1 _ _
    · exact tame_put_log (Tame.tame_refl hI) _ _

theorem tame_checkRoundDigests {L : Logic} (hI : L.InfoOk) (R : RoundNo) (D : Buffer) :
    Tame L (L.checkRoundDigests R D).1.logic := by
  unfold checkRoundDigests
  split
  · rename_i d hf
    have hround := DiffStateContainer.find_some_round hf
    rw [← hround] at hf
    split
    · exact Tame.tame_refl hI
    · dsimp only
      split
      · simp only [done, cancelEvent_eq, scheduleEvent]
        exact ⟨rfl, DiffStateContainer.frozen_replace_same _ _ _ d hf rfl rfl,
          infoOk_replaceAt hI _ ((hI d (DiffStateContainer.mem_of_find hf)).of_eq rfl)⟩
      · exact Tame.tame_refl hI
  · exact Tame.tame_refl hI

theorem tame_checkRecovery {L : Logic} (hI : L.InfoOk) (p : Name) (R : RoundNo)
    (D : Option Buffer) : Tame L (L.checkRecovery p R D).logic :=
  Tame.same_log hI (steady_checkRecovery L p R D).2.1 (checkRecovery_frame L p R D).2.2.2.1

theorem tame_pending {L : Logic} (hI : L.InfoOk) (x : Option Name) :
    Tame L { L with pendingDataInterest := x } := Tame.tame_refl hI

theorem tame_answerWithCumulativeOnly {L : Logic} (hI : L.InfoOk) (E : Env) (R : RoundNo)
    (D : Option Buffer) : Tame L (answerWithCumulativeOnly E L R D).logic := by
  unfold answerWithCumulativeOnly
  dsimp only
  repeat' split
  all_goals first
    | exact Tame.tame_refl hI
    | exact tame_sendCumulativeOnly hI _ _ _ _

theorem tame_produceCumulativeOnly {L : Logic} (hI : L.InfoOk) (E : Env) (R : RoundNo)
    (D : Option Buffer) (hD : D ≠ none) : Tame L (produceCumulativeOnly E L R D).logic := by
  unfold produceCumulativeOnly
  dsimp only
  have h1 := tame_answerWithCumulativeOnly hI E R D
  split
  · exact h1
  · simp only [done]
    have hi : ({ (DiffState.fresh.update (answerWithCumulativeOnly E L R D).logic.sessionName
        CUMULATIVE_ONLY_DATA) with cumulativeInfo := some (R, D) } : DiffState).InfoOk := by
      intro info hinfo
      cases hinfo
      exact hD
    have h2 := (tame_updateDiffLog_new h1.2.2 E _ hi
      (answerWithCumulativeOnly E L R D).logic.currentRound).1
    exact h1.then_tame (h2.then_tame (tame_moveToNewCurrentRound h2.2.2 _))

theorem tame_answerWithData {L : Logic} (hI : L.InfoOk) (E : Env) (c : Commit)
    (hi : c.value.InfoOk)
    (hf : c.inLog = true → DiffStateContainer.find L.log c.value.round = some c.value) :
    Tame L (answerWithData E L c).logic := by
  unfold answerWithData
  dsimp only
  repeat' split
  all_goals first
    | exact Tame.tame_refl hI
    | exact tame_sendData hI _ _ _ hi hf

/-- The commit that `updateSeqNo` builds has a cumulative info with a digest, when the
entry of the stable round has its cumulative digest. -/
theorem ownCommit_infoOk {L : Logic} (hS : L.StableOk) : L.ownCommit.InfoOk := by
  unfold ownCommit
  dsimp only
  split
  · rename_i hne
    obtain ⟨d, hd, hcd⟩ := hS hne
    rw [hd]
    intro info hinfo
    cases hinfo
    exact hcd
  · exact DiffState.infoOk_of_none rfl

theorem tame_publish {L2 : Logic} (hI : L2.InfoOk) (hS : L2.StableOk) (E : Env) (R : RoundNo) :
    Tame L2 (answerWithData E
      (updateDiffLog E L2 { value := L2.ownCommit, inLog := false } R).1
      (updateDiffLog E L2 { value := L2.ownCommit, inLog := false } R).2).logic := by
  obtain ⟨h1, h2, h3⟩ := tame_updateDiffLog_new hI E L2.ownCommit (ownCommit_infoOk hS) R
  refine h1.then_tame (tame_answerWithData h1.2.2 E _ ?_ h3)
  rw [h2]
  exact stamped_infoOk (ownCommit_infoOk hS) _ _

theorem tame_advance {A : Logic} (hI : A.InfoOk) :
    Tame A { ((A.scheduleEvent (Delay.ms 0)
        (Callback.sendSyncInterest A.currentRound)).1.moveToNewCurrentRound
        (add64 (A.scheduleEvent (Delay.ms 0)
          (Callback.sendSyncInterest A.currentRound)).1.currentRound 1))
        with syncTimeouts := 0 } := by
  have h2 := tame_moveToNewCurrentRound (L := (A.scheduleEvent (Delay.ms 0)
    (Callback.sendSyncInterest A.currentRound)).1) hI
    (add64 (A.scheduleEvent (Delay.ms 0)
      (Callback.sendSyncInterest A.currentRound)).1.currentRound 1)
  exact ⟨h2.1, h2.2.1, h2.2.2⟩

theorem tame_updateSeqNo {L : Logic} (hI : L.InfoOk) (hS : L.StableOk) (E : Env) (q : SeqNo) :
    Tame L (updateSeqNo E L q).logic := by
  have hk := @tame_publish
    ({ L with seqNo := q, state := (L.state.update L.sessionName q).1 } : Logic)
    hI hS E L.currentRound
  have hk3 := hk.then_tame (tame_advance hk.2.2)
  unfold updateSeqNo
  split
  · exact Tame.tame_refl hI
  · dsimp only
    split
    · split
      · exact hk
      · exact hk3
    · exact Tame.tame_refl hI

end Logic

/-! ## Reception of Data keeps the entries of stable rounds -/

namespace Logic

theorem tame_openCommit {L : Logic} (hI : L.InfoOk) (R : RoundNo) (suffix : Component)
    (hR : L.stableRound < R) :
    Tame L (L.openCommit R suffix).1 ∧ (L.openCommit R suffix).2.value.InfoOk := by
  unfold openCommit
  dsimp only
  cases hf : DiffStateContainer.find L.log R with
  | none =>
    exact ⟨tame_sync_above hI _ (DiffState.infoOk_of_none rfl) (fun h => Bool.noConfusion h),
      DiffState.infoOk_of_none rfl⟩
  | some d =>
    have hround := DiffStateContainer.find_some_round hf
    have hd : d.InfoOk := hI d (DiffStateContainer.mem_of_find hf)
    refine ⟨tame_sync_above hI _ (hd.of_eq rfl) (fun _ => ?_), hd.of_eq rfl⟩
    show L.stableRound < d.round
    rw [hround]
    exact hR

theorem tame_state {L : Logic} (hI : L.InfoOk) (s : State) : Tame L { L with state := s } :=
  Tame.tame_refl hI

theorem tame_oldState {L : Logic} (hI : L.InfoOk) (s : State) :
    Tame L { L with oldState := s } := Tame.tame_refl hI

theorem tame_leaf {L M : Logic} (h : Tame L M) (c1 : Commit) (hi : c1.value.InfoOk) (R : RoundNo)
    (hr : c1.inLog = true → c1.value.round = R) (hR : L.stableRound < R) (s : State) :
    Tame L (({ M with state := s } : Logic).sync c1) := by
  have h2 : Tame L ({ M with state := s } : Logic) := h.then_tame (tame_state h.2.2 s)
  refine h2.then_tame (tame_sync_above h2.2.2 c1 hi (fun hin => ?_))
  rw [hr hin]
  show M.stableRound < R
  rw [h.1]
  exact hR

theorem tame_applyReceivedLeaves (R : RoundNo) (ls : List Leaf) (L : Logic) (c : Commit)
    (v : List MissingDataInfo) (hI : L.InfoOk) (hi : c.value.InfoOk)
    (hr : c.inLog = true → c.value.round = R) (hR : L.stableRound < R) :
    Tame L (applyReceivedLeaves R ls L c v).1 ∧
    (applyReceivedLeaves R ls L c v).2.1.value.InfoOk := by
  induction ls generalizing L c v with
  | nil => exact ⟨Tame.tame_refl hI, hi⟩
  | cons leaf rest ih =>
    unfold applyReceivedLeaves
    dsimp only
    have hi1 : (c.value.update leaf.sessionName leaf.seq).InfoOk := hi.of_eq rfl
    split
    · have h1 := tame_leaf (tame_oldState hI (L.oldState.update leaf.sessionName leaf.seq).1)
        { c with value := c.value.update leaf.sessionName leaf.seq } hi1 R hr hR
        (L.state.update leaf.sessionName leaf.seq).1
      obtain ⟨k1, k2⟩ := ih _ { c with value := c.value.update leaf.sessionName leaf.seq }
        (if ((L.state.update leaf.sessionName leaf.seq).2.1 ||
              (L.state.update leaf.sessionName leaf.seq).2.2.1) = true then
            v ++ [{ session := leaf.sessionName,
                    low := add64 (L.state.update leaf.sessionName leaf.seq).2.2.2 1,
                    high := leaf.seq }]
          else v) h1.2.2 hi1 hr (by rw [h1.1]; exact hR)
      exact ⟨h1.then_tame k1, k2⟩
    · have h1 := tame_leaf (Tame.tame_refl hI)
        { c with value := c.value.update leaf.sessionName leaf.seq } hi1 R hr hR
        (L.state.update leaf.sessionName leaf.seq).1
      obtain ⟨k1, k2⟩ := ih _ { c with value := c.value.update leaf.sessionName leaf.seq }
        (if ((L.state.update leaf.sessionName leaf.seq).2.1 ||
              (L.state.update leaf.sessionName leaf.seq).2.2.1) = true then
            v ++ [{ session := leaf.sessionName,
                    low := add64 (L.state.update leaf.sessionName leaf.seq).2.2.2 1,
                    high := leaf.seq }]
          else v) h1.2.2 hi1 hr (by rw [h1.1]; exact hR)
      exact ⟨h1.then_tame k1, k2⟩

theorem tame_restart {M : Logic} (hI : M.InfoOk) (R : RoundNo) :
    Tame M (if R ≤ M.stabilizingRound then
      { ((M.cancelEvent M.stabilizingCumulativeDigest).scheduleEvent
          DEFAULT_STABILIZE_CUMULATIVE_DIGEST_DELAY Callback.setStableState).1 with
        stabilizingCumulativeDigest := some ((M.cancelEvent
          M.stabilizingCumulativeDigest).scheduleEvent
            DEFAULT_STABILIZE_CUMULATIVE_DIGEST_DELAY Callback.setStableState).2 }
      else M) := by
  split
  · rw [cancelEvent_eq]
    exact Tame.tame_refl hI
  · exact Tame.tame_refl hI

theorem tame_stamp {M : Logic} (hI : M.InfoOk) (delay : Delay) (cb : Callback) (e : Option Nat)
    (c : Commit) (hi : c.value.InfoOk) (hr : M.stableRound < c.value.round) :
    Tame M (((M.scheduleEvent delay cb).1.cancelEvent e).sync c) := by
  have h1 : Tame M ((M.scheduleEvent delay cb).1.cancelEvent e) := by
    rw [cancelEvent_eq]
    exact Tame.tame_refl hI
  refine h1.then_tame (tame_sync_above h1.2.2 c hi (fun _ => ?_))
  rw [h1.1]
  exact hr

theorem tame_finishProcessData {L : Logic} (hI : L.InfoOk) (E : Env) (c : Commit) (R : RoundNo)
    (hi : c.value.InfoOk) (hr : c.inLog = true → c.value.round = R) (hR : L.stableRound < R) :
    Tame L (finishProcessData E L c R).logic := by
  unfold finishProcessData
  dsimp only
  have h1 : Tame L (if R = L.currentRound then L.moveToNewCurrentRound (add64 L.currentRound 1)
      else L) := by
    split
    · exact tame_moveToNewCurrentRound hI _
    · exact Tame.tame_refl hI
  generalize (if R = L.currentRound then L.moveToNewCurrentRound (add64 L.currentRound 1)
      else L) = L1 at h1 ⊢
  obtain ⟨h2, h3, h4⟩ := tame_updateDiffLog_above h1.2.2 E c hi R hr (by rw [h1.1]; exact hR)
  generalize updateDiffLog E L1 c R = u at h2 h3 h4 ⊢
  have h5 := tame_restart h2.2.2 R
  simp only [done]
  refine h1.then_tame (h2.then_tame (h5.then_tame ?_))
  refine tame_stamp h5.2.2 _ _ _ _ (h3.of_eq rfl) ?_
  show _ < u.2.value.round
  rw [h5.1, h2.1, h1.1, h4]
  exact hR

theorem tame_act_if {L : Logic} (hI : L.InfoOk) (c : Prop) [Decidable c] (a : Action) :
    Tame L (if c then L.act a else L) := by
  split
  · exact tame_act hI a
  · exact Tame.tame_refl hI

theorem tame_applyDataContent {L : Logic} (hI : L.InfoOk) (E : Env) (c : Commit) (R : RoundNo)
    (x : DataContent) (hi : c.value.InfoOk) (hr : c.inLog = true → c.value.round = R)
    (hR : L.stableRound < R) : Tame L (applyDataContent E L c R x).logic := by
  unfold applyDataContent
  dsimp only
  have hc2 : (if x.dataType = tlv.CumulativeOnly then
        ({ c with value := c.value.update x.userPrefix CUMULATIVE_ONLY_DATA } : Commit)
      else c).value.InfoOk ∧
      ((if x.dataType = tlv.CumulativeOnly then
        ({ c with value := c.value.update x.userPrefix CUMULATIVE_ONLY_DATA } : Commit)
      else c).inLog = true →
      (if x.dataType = tlv.CumulativeOnly then
        ({ c with value := c.value.update x.userPrefix CUMULATIVE_ONLY_DATA } : Commit)
      else c).value.round = R) := by
    split
    · exact ⟨hi.of_eq rfl, hr⟩
    · exact ⟨hi, hr⟩
  generalize (if x.dataType = tlv.CumulativeOnly then
        ({ c with value := c.value.update x.userPrefix CUMULATIVE_ONLY_DATA } : Commit)
      else c) = c2 at hc2 ⊢
  obtain ⟨hi2, hr2⟩ := hc2
  have hsync : Tame L (L.sync c2) :=
    tame_sync_above hI c2 hi2 (fun hin => by rw [hr2 hin]; exact hR)
  have hchk : Tame L (if x.dataType = tlv.CumulativeOnly ∨
        x.dataType = tlv.DataAndCumulative then
        (L.sync c2).checkRecovery x.userPrefix x.roundNo x.cumulativeDigest
      else (L.sync c2).done).logic := by
    split
    · exact hsync.then_tame (tame_checkRecovery hsync.2.2 _ _ _)
    · exact hsync
  generalize (if x.dataType = tlv.CumulativeOnly ∨ x.dataType = tlv.DataAndCumulative then
        (L.sync c2).checkRecovery x.userPrefix x.roundNo x.cumulativeDigest
      else (L.sync c2).done) = checked at hchk ⊢
  have hRc : checked.logic.stableRound < R := by rw [hchk.1]; exact hR
  split
  · exact hchk
  · split
    · split
      · exact hchk
      · rename_i reply _
        obtain ⟨k1, k2⟩ := tame_applyReceivedLeaves R (LeafContainer.ordered reply.leaves)
          checked.logic c2 [] hchk.2.2 hi2 hr2 hRc
        obtain ⟨q1, q2, q3⟩ := keeps_applyReceivedLeaves R (LeafContainer.ordered reply.leaves)
          checked.logic c2 []
        generalize applyReceivedLeaves R (LeafContainer.ordered reply.leaves)
          checked.logic c2 [] = a at k1 k2 q2 q3 ⊢
        have k3 := k1.then_tame (tame_act_if k1.2.2 (a.2.2 ≠ []) (Action.onUpdate a.2.2))
        refine hchk.then_tame (k3.then_tame (tame_finishProcessData k3.2.2 E _ R k2 ?_ ?_))
        · rw [q2, q3]
          exact hr2
        · rw [k3.1]
          exact hRc
    · exact hchk.then_tame (tame_finishProcessData hchk.2.2 E _ R hi2 hr2 hRc)

theorem tame_processData {L : Logic} (hI : L.InfoOk) (E : Env) (fullName : Name)
    (block : Block) : Tame L (processData E L fullName block).logic := by
  unfold processData
  split
  · rename_i roundNo suffix _ _
    dsimp only
    have h0 : Tame L (if roundNo = L.currentRound then { L with syncTimeouts := 0 }
        else L) := by
      split
      · exact Tame.tame_refl hI
      · exact Tame.tame_refl hI
    generalize (if roundNo = L.currentRound then { L with syncTimeouts := 0 } else L) = L0
      at h0 ⊢
    split
    · exact h0
    · rename_i hgt
      have hR : L0.stableRound < roundNo := Nat.lt_of_not_le hgt
      obtain ⟨h1, h2⟩ := tame_openCommit h0.2.2 roundNo suffix hR
      have h3 := (same_openCommit L0 roundNo suffix).2
      split
      · split
        · exact h0.then_tame h1
        · exact h0.then_tame h1
      · exact h0.then_tame (h1.then_tame
          (tame_applyDataContent h1.2.2 E _ roundNo _ h2 h3 (by rw [h1.1]; exact hR)))
  · exact Tame.tame_refl hI

/-! ## Interests, timeouts and timers keep the entries of stable rounds -/

theorem getStateFrom_infoOk {d ds : DiffState} (hd : d.InfoOk) (p : Name) (b b2 : Bool)
    (h : d.getStateFrom p b = (some ds, b2)) : ds.InfoOk := by
  unfold DiffState.getStateFrom at h
  split at h
  · dsimp only at h
    split at h
    · simp only [Prod.mk.injEq, Option.some.injEq] at h
      rw [← h.1]
      exact hd.of_eq rfl
    · simp only [Prod.mk.injEq, Option.some.injEq] at h
      rw [← h.1]
      exact DiffState.infoOk_of_none rfl
  · simp at h

theorem tame_processDataInterest {L : Logic} (hI : L.InfoOk) (E : Env) (name : Name) :
    Tame L (processDataInterest E L name).logic := by
  unfold processDataInterest
  cases hr : roundOfName name with
  | none => exact Tame.tame_refl hI
  | some roundNo =>
    dsimp only
    have h1 : Tame L (if roundNo ≥ L.currentRound then
        { L with pendingDataInterest := some name } else L) := by
      split
      · exact tame_pending hI _
      · exact Tame.tame_refl hI
    generalize (if roundNo ≥ L.currentRound then { L with pendingDataInterest := some name }
        else L) = L1 at h1 ⊢
    refine h1.then_tame ?_
    split
    · exact tame_moveToNewCurrentRound h1.2.2 _
    · split
      · split
        · rename_i entry hf
          have hentry : entry.InfoOk := h1.2.2 entry (DiffStateContainer.mem_of_find hf)
          split
          · rename_i ds isCumulativeOnly hg
            split
            · split
              · exact tame_sendCumulativeOnly h1.2.2 _ _ _ _
              · exact Tame.tame_refl h1.2.2
            · exact tame_sendData h1.2.2 E name _
                (getStateFrom_infoOk hentry _ _ _ hg) (fun h => Bool.noConfusion h)
          · exact Tame.tame_refl h1.2.2
        · exact Tame.tame_refl h1.2.2
      · exact Tame.tame_refl h1.2.2

theorem tame_processSyncInterest {L : Logic} (hI : L.InfoOk) (name : Name) :
    Tame L (L.processSyncInterest name).logic := by
  unfold processSyncInterest
  repeat' split
  all_goals first
    | exact Tame.tame_refl hI
    | exact tame_moveToNewCurrentRound hI _
    | exact tame_checkRoundDigests hI _ _

theorem log_sendDataInterest (L : Logic) (R : RoundNo) (n : Nat) :
    (L.sendDataInterest R n).log = L.log := by
  unfold sendDataInterest
  dsimp only
  repeat' split
  all_goals simp [expressInterest, scheduleEvent, cancelEvent_eq]

theorem log_sendSyncInterest (L : Logic) (R : RoundNo) :
    (L.sendSyncInterest R).logic.log = L.log := by
  unfold sendSyncInterest
  dsimp only
  repeat' split
  all_goals rfl

theorem log_sendRecoInterest (L : Logic) (p : Name) : (L.sendRecoInterest p).log = L.log := by
  unfold sendRecoInterest
  repeat' split
  all_goals rfl

theorem log_onDataInterestTimeout (E : Env) (L : Logic) (name : Name) (n : Nat) :
    (onDataInterestTimeout E L name n).logic.log = L.log := by
  unfold onDataInterestTimeout
  dsimp only
  repeat' split
  all_goals simp [throwing, done, scheduleEvent]

theorem log_onRecoInterestTimeout (L : Logic) (name : Name) :
    (L.onRecoInterestTimeout name).log = L.log := by
  unfold onRecoInterestTimeout
  dsimp only
  repeat' split
  all_goals simp [scheduleEvent]

theorem log_onRecoInterest (L : Logic) (name : Name) :
    (L.onRecoInterest name).logic.log = L.log := by
  unfold onRecoInterest processRecoInterest sendRecoData
  dsimp only
  repeat' split
  all_goals rfl

theorem log_processRecoData (L : Logic) (fullName : Name) (block : Block) :
    (L.processRecoData fullName block).logic.log = L.log := by
  unfold processRecoData
  dsimp only
  split
  · split
    · rfl
    · rfl
  · split
    · rfl
    · split
      · rfl
      · simp only [act_if, applyRecoveredLeaves_logic, cancelEvent_eq,
          moveToNewCurrentRoundAfterRecovery, backfill_loop]
        split
        · rfl
        · rfl

theorem tame_onDataAndSyncInterest {L : Logic} (hI : L.InfoOk) (E : Env) (name : Name) :
    Tame L (onDataAndSyncInterest E L name).logic := by
  unfold onDataAndSyncInterest
  repeat' split
  all_goals first
    | exact Tame.tame_refl hI
    | exact tame_processDataInterest hI E name
    | exact tame_processSyncInterest hI name

theorem tame_onData {L : Logic} (hI : L.InfoOk) (E : Env) (fullName : Name) (content : Block)
    (valid : Bool) : Tame L (onData E L fullName content valid).logic := by
  unfold onData
  repeat' split
  all_goals first
    | exact Tame.tame_refl hI
    | exact tame_processData hI E fullName content

end Logic

/-! ## Stabilisation and recovery keep what the payloads need -/

namespace Logic

theorem stabilizeEntries_info (H : Digests) (e : RoundNo) (l : List DiffState) (old : State) :
    ∀ d2, d2 ∈ (stabilizeEntries H e l old).1 →
      ∃ d, d ∈ l ∧ d2.cumulativeInfo = d.cumulativeInfo ∧ d2.leaves = d.leaves ∧
        d2.round = d.round := by
  induction l generalizing old with
  | nil =>
    intro d2 h
    cases h
  | cons a rest ih =>
    unfold stabilizeEntries
    split
    · intro d2 hd2
      rcases List.mem_cons.mp hd2 with h1 | h1
      · exact ⟨a, List.mem_cons_self _ _, by rw [h1], by rw [h1], by rw [h1]⟩
      · obtain ⟨d, hd, k⟩ := ih _ d2 h1
        exact ⟨d, List.mem_cons_of_mem _ hd, k⟩
    · intro d2 hd2
      exact ⟨d2, hd2, rfl, rfl, rfl⟩

theorem walkStable_info (H : Digests) (log : List DiffState) (old : State) (i e : RoundNo) :
    ∀ d2, d2 ∈ (walkStable H log old i e).1 →
      ∃ d, d ∈ log ∧ d2.cumulativeInfo = d.cumulativeInfo ∧ d2.leaves = d.leaves ∧
        d2.round = d.round := by
  unfold walkStable
  dsimp only
  split
  · intro d2 hd2
    exact ⟨d2, hd2, rfl, rfl, rfl⟩
  · intro d2 hd2
    rcases List.mem_append.mp hd2 with h1 | h1
    · exact ⟨d2, List.takeWhile_subset _ h1, rfl, rfl, rfl⟩
    · obtain ⟨d, hd, k⟩ := stabilizeEntries_info _ _ _ _ d2 h1
      exact ⟨d, List.dropWhile_subset _ hd, k⟩

theorem calculateOn_infoOk (H : Digests) (log : List DiffState) (old : State) (i t : RoundNo)
    (h : ∀ d, d ∈ log → d.InfoOk) : ∀ d, d ∈ (calculateOn H log old i t).1 → d.InfoOk := by
  have hw : ∀ d, d ∈ (walkStable H log old i t).1 → d.InfoOk := by
    intro d2 hd2
    obtain ⟨d, hd, k, -, -⟩ := walkStable_info H log old i t d2 hd2
    exact (h d hd).of_eq k
  unfold calculateOn
  dsimp only
  split
  · rename_i hf
    rw [updateDiffLogOn_fresh H _ t hf]
    exact infoOk_replaceAt (infoOk_insert hw (DiffState.infoOk_of_none rfl)) _
      (DiffState.infoOk_of_none rfl)
  · rename_i commit hf
    exact infoOk_replaceAt hw _ ((hw commit (DiffStateContainer.mem_of_find hf)).of_eq rfl)

/-- After the stabilisation of round `t` the log has an entry of `t` with a cumulative
digest. -/
theorem calculateOn_end (H : Digests) (log : List DiffState) (old : State) (i t : RoundNo) :
    ∃ d, DiffStateContainer.find (calculateOn H log old i t).1 t = some d ∧
      d.cumulativeDigest ≠ none := by
  unfold calculateOn
  dsimp only
  split
  · rename_i hf
    rw [updateDiffLogOn_fresh H _ t hf]
    have hf2 : DiffStateContainer.find (walkStable H log old i t).1
        (DiffState.fresh.stamped H t).round = none := hf
    exact ⟨_, DiffStateContainer.find_replace_same
      (@DiffStateContainer.find_insert_same _ (DiffState.fresh.stamped H t) hf2) rfl,
      fun h => Option.noConfusion h⟩
  · rename_i commit hf
    have hround : commit.round = t := DiffStateContainer.find_some_round hf
    exact ⟨_, @DiffStateContainer.find_replace_same _ _ commit _ hf hround,
      fun h => Option.noConfusion h⟩

theorem setStableState_cases (E : Env) (L : Logic) :
    (setStableState E L).logic = L ∨
    ∃ init, (setStableState E L).logic.log =
        (calculateOn E.digests L.log L.oldState init L.stabilizingRound).1 ∧
      (setStableState E L).logic.stableRound = L.stabilizingRound ∧
      (setStableState E L).logic.sessionName = L.sessionName := by
  unfold setStableState
  dsimp only
  split
  · exact Or.inl rfl
  · rename_i init _
    exact Or.inr ⟨init, rfl, rfl, rfl⟩

theorem sendable_setStableState {L : Logic} (h : Sendable L) (E : Env) :
    Sendable (setStableState E L).logic := by
  have hsch := schedOk_setStableState h.2.2.2 E
  rcases setStableState_cases E L with h1 | ⟨init, h1, h2, h3⟩
  · rw [h1]
    exact h
  · refine ⟨h3 ▸ h.1, ?_, ?_, hsch⟩
    · unfold InfoOk
      rw [h1]
      exact calculateOn_infoOk _ _ _ _ _ h.2.1
    · intro _
      rw [h1, h2]
      exact calculateOn_end _ _ _ _ _

theorem Sendable.of_tame {L M : Logic} (h : Sendable L) (hs : Steady L M) (ht : Tame L M)
    (hsch : SchedOk M) : Sendable M := by
  refine ⟨hs.1 ▸ h.1, ht.2.2, ?_, hsch⟩
  intro hne
  rw [ht.1] at hne ⊢
  obtain ⟨d, hd, hcd⟩ := h.2.2.1 hne
  obtain ⟨d2, hd2, -, hc2⟩ := ht.2.1 _ (Nat.le_refl _) d hd
  exact ⟨d2, hd2, hc2 ▸ hcd⟩

theorem Sendable.of_log {L M : Logic} (h : Sendable L) (hs : Steady L M) (hl : M.log = L.log)
    (hsch : SchedOk M) : Sendable M :=
  h.of_tame hs (Tame.same_log h.2.1 hs.2.1 hl) hsch

theorem sendable_processRecoData {L : Logic} (h : Sendable L) (fullName : Name)
    (block : Block) : Sendable (L.processRecoData fullName block).logic := by
  have hsch := schedOk_processRecoData h.2.2.2 fullName block
  have hl := log_processRecoData L fullName block
  rcases processRecoData_rounds L fullName block with ⟨hs, -⟩ | ⟨h1, h2, -, -⟩
  · exact h.of_log hs hl hsch
  · refine ⟨h1 ▸ h.1, ?_, fun hne => absurd h2 hne, hsch⟩
    unfold InfoOk
    rw [hl]
    exact h.2.1

theorem mem_of_pendingEvent {L : Logic} {id : Nat} {ev : ScheduledEvent}
    (h : L.pendingEvent id = some ev) : ev ∈ L.scheduled := by
  unfold pendingEvent at h
  split at h
  · cases h
  · exact List.mem_of_find?_eq_some h

theorem sendable_runCallback {L : Logic} (h : Sendable L) (E : Env) (cb : Callback)
    (hcb : ∀ R D, cb = Callback.produceCumulativeOnly R D → D ≠ none) :
    Sendable (runCallback E L cb).logic := by
  have hsch := schedOk_runCallback h.2.2.2 E cb
  cases cb with
  | sendDataInterest roundNo retries =>
    exact h.of_log (steady_sendDataInterest L roundNo retries)
      (log_sendDataInterest L roundNo retries) hsch
  | sendSyncInterest roundNo =>
    exact h.of_log (steady_sendSyncInterest L roundNo) (log_sendSyncInterest L roundNo) hsch
  | setStableState => exact sendable_setStableState h E
  | produceCumulativeOnly roundNo cd =>
    exact h.of_tame (steady_produceCumulativeOnly E L roundNo cd)
      (tame_produceCumulativeOnly h.2.1 E roundNo cd (hcb roundNo cd rfl)) hsch
  | checkRecovery userPrefix roundNo cd =>
    exact h.of_tame (steady_checkRecovery L userPrefix roundNo cd)
      (tame_checkRecovery h.2.1 userPrefix roundNo cd) hsch
  | sendRecoInterest userPrefix =>
    exact h.of_log (steady_sendRecoInterest L userPrefix) (log_sendRecoInterest L userPrefix)
      hsch
  | startPartition => exact h
  | stopPartition => exact h

/-- One handler keeps what the payloads of the node need. -/
theorem step_sendable {L : Logic} (h : Sendable L) (E : Env) (ev : Event) :
    Sendable (step E L ev).logic := by
  have hsch := schedOk_step h.2.2.2 E ev
  cases ev with
  | updateSeqNo seqNo =>
    exact h.of_tame (steady_updateSeqNo E L seqNo) (tame_updateSeqNo h.2.1 h.2.2.1 E seqNo) hsch
  | interest name =>
    exact h.of_tame (steady_onDataAndSyncInterest E L name)
      (tame_onDataAndSyncInterest h.2.1 E name) hsch
  | recoInterest name =>
    exact h.of_log (steady_onRecoInterest L name) (log_onRecoInterest L name) hsch
  | data fullName content valid =>
    exact h.of_tame (steady_onData E L fullName content valid)
      (tame_onData h.2.1 E fullName content valid) hsch
  | recoData fullName content valid =>
    show Sendable (L.onRecoData fullName content valid).logic
    unfold onRecoData
    repeat' split
    all_goals first
      | exact h
      | exact sendable_processRecoData h fullName content
  | dataInterestTimeout name retries =>
    exact h.of_log (steady_onDataInterestTimeout E L name retries)
      (log_onDataInterestTimeout E L name retries) hsch
  | recoInterestTimeout name =>
    exact h.of_log (steady_onRecoInterestTimeout L name) (log_onRecoInterestTimeout L name) hsch
  | syncInterestTimeout => exact h
  | timer id =>
    rw [step_timer]
    cases hp : L.pendingEvent id with
    | none => exact h
    | some sev =>
      have hf : Sendable ({ L with fired := L.fired ++ [id] } : Logic) := h
      exact sendable_runCallback hf E sev.callback
        (fun R D hcb => h.2.2.2 sev (mem_of_pendingEvent hp) R D hcb)

theorem Sendable.of_parts {L : Logic} (h1 : L.sessionName ≠ [])
    (h2 : ∀ d, d ∈ L.log → d.InfoOk)
    (h3 : L.stableRound ≠ 0 →
      ∃ d, DiffStateContainer.find L.log L.stableRound = some d ∧ d.cumulativeDigest ≠ none)
    (h4 : ∀ ev, ev ∈ L.scheduled → ev.EmitsOk) : Sendable L := ⟨h1, h2, h3, h4⟩

theorem emitsOk_other (id : Nat) (delay : Delay) (cb : Callback)
    (h : ∀ R D, cb ≠ Callback.produceCumulativeOnly R D) :
    ({ id := id, delay := delay, callback := cb } : ScheduledEvent).EmitsOk :=
  fun R D e => absurd e (h R D)

theorem sendable_new (syncPrefix defaultUserPrefix : Name) (hasValidator : Bool)
    (timestamp : Nat) : Sendable (Logic.new syncPrefix defaultUserPrefix hasValidator timestamp) := by
  unfold Logic.new
  dsimp only
  split
  · refine Sendable.of_parts (List.append_ne_nil_of_right_ne_nil _ (List.cons_ne_nil _ _))
      (fun d hd => by cases hd) (fun hne => absurd rfl hne) ?_
    intro ev hev
    simp only [scheduleEvent, List.nil_append, List.cons_append, List.mem_cons,
      List.mem_singleton, List.not_mem_nil, or_false] at hev
    rcases hev with h1 | h1 | h1 | h1 <;>
      (subst h1; exact emitsOk_other _ _ _ (fun R D e => Callback.noConfusion e))
  · refine Sendable.of_parts (List.append_ne_nil_of_right_ne_nil _ (List.cons_ne_nil _ _))
      (fun d hd => by cases hd) (fun hne => absurd rfl hne) ?_
    intro ev hev
    simp only [scheduleEvent, List.nil_append, List.cons_append, List.mem_cons,
      List.mem_singleton, List.not_mem_nil, or_false] at hev
    rcases hev with h1 | h1 <;>
      (subst h1; exact emitsOk_other _ _ _ (fun R D e => Callback.noConfusion e))

/-- Every state a node reaches has what its payloads need. -/
theorem reachable_sendable (E : Env) (L : Logic) (h : Reachable E L) : Sendable L := by
  induction h with
  | init syncPrefix defaultUserPrefix hasValidator timestamp =>
    exact sendable_new syncPrefix defaultUserPrefix hasValidator timestamp
  | step L ev _ _ ih => exact step_sendable ih E ev

/-! ## The payloads of the node are well-formed -/

theorem sendData_returns (E : Env) (L : Logic) (name : Name) (c : Commit)
    (hn : L.sessionName ≠ []) (hi : c.value.InfoOk) : (sendData E L name c).1.thrown = none := by
  unfold sendData
  dsimp only
  cases hci : c.value.cumulativeInfo with
  | none => simp [DataContent.wellFormed, DataContent.new, done]
  | some info =>
    have h2 := hi info hci
    cases hcd : info.2 with
    | none => exact absurd hcd h2
    | some D => simp [DataContent.wellFormed, DataContent.new, done, hn, hcd]

theorem sendCumulativeOnly_returns (E : Env) (L : Logic) (name : Name) (R : RoundNo)
    (D : Option Buffer) (hn : L.sessionName ≠ []) (hD : D ≠ none) :
    (sendCumulativeOnly E L name R D).thrown = none := by
  unfold sendCumulativeOnly
  dsimp only
  cases hcd : D with
  | none => exact absurd hcd hD
  | some D2 => simp [DataContent.wellFormed, DataContent.new, done, hn]

theorem answerWithData_no_logicError (E : Env) (L : Logic) (c : Commit)
    (hn : L.sessionName ≠ []) (hi : c.value.InfoOk) :
    (answerWithData E L c).thrown ≠ some Thrown.logicError := by
  unfold answerWithData
  split
  · rename_i name _
    split
    · simp [throwing]
    · dsimp only
      split
      · rw [sendData_returns E L name c hn hi]
        simp [done]
      · simp [done]
  · simp [done]

theorem updateSeqNo_no_logicError (E : Env) (L : Logic) (q : SeqNo) (h : Sendable L) :
    (updateSeqNo E L q).thrown ≠ some Thrown.logicError := by
  have hS : ({ L with seqNo := q, state := (L.state.update L.sessionName q).1 } :
      Logic).StableOk := h.2.2.1
  have hown := ownCommit_infoOk hS
  have hans := answerWithData_no_logicError E
    (updateDiffLog E ({ L with seqNo := q, state := (L.state.update L.sessionName q).1 } : Logic)
      { value := ({ L with seqNo := q, state := (L.state.update L.sessionName q).1 } :
        Logic).ownCommit, inLog := false } L.currentRound).1
    (updateDiffLog E ({ L with seqNo := q, state := (L.state.update L.sessionName q).1 } : Logic)
      { value := ({ L with seqNo := q, state := (L.state.update L.sessionName q).1 } :
        Logic).ownCommit, inLog := false } L.currentRound).2 h.1
    (by rw [updateDiffLog_value]; exact stamped_infoOk hown _ _)
  unfold updateSeqNo
  split
  · simp [done]
  · dsimp only
    split
    · split
      · rename_i t ht
        intro hcontra
        rw [ht] at hans
        rw [ht] at hcontra
        exact hans hcontra
      · simp [done]
    · simp [done]

theorem produceCumulativeOnly_no_logicError (E : Env) (L : Logic) (R : RoundNo)
    (D : Option Buffer) (hn : L.sessionName ≠ []) (hD : D ≠ none) :
    (produceCumulativeOnly E L R D).thrown ≠ some Thrown.logicError := by
  have hans : (answerWithCumulativeOnly E L R D).thrown ≠ some Thrown.logicError := by
    unfold answerWithCumulativeOnly
    split
    · rename_i name _
      split
      · simp [throwing]
      · dsimp only
        split
        · rw [sendCumulativeOnly_returns E L name R D hn hD]
          simp [done]
        · simp [done]
    · simp [done]
  unfold produceCumulativeOnly
  dsimp only
  split
  · rename_i t ht
    intro hcontra
    rw [ht] at hans
    rw [ht] at hcontra
    exact hans hcontra
  · simp [done]

/-- The only logic error of `processDataInterest` in a state with well-formed payloads is
the CumulativeOnly reply whose DiffState has no cumulative info. -/
theorem processDataInterest_logicError (E : Env) (L : Logic) (name : Name) (h : Sendable L)
    (ht : (processDataInterest E L name).thrown = some Thrown.logicError) :
    ∃ r entry ds, roundOfName name = some r ∧
      DiffStateContainer.find L.log r = some entry ∧
      entry.getStateFrom L.sessionName false = (some ds, true) ∧
      ds.cumulativeInfo = none := by
  unfold processDataInterest at ht
  cases hr : roundOfName name with
  | none =>
    rw [hr] at ht
    simp [throwing] at ht
  | some roundNo =>
    rw [hr] at ht
    dsimp only at ht
    have hL1 : ∀ b : Prop, [Decidable b] →
        (if b then ({ L with pendingDataInterest := some name } : Logic) else L).sessionName =
          L.sessionName ∧
        (if b then ({ L with pendingDataInterest := some name } : Logic) else L).log = L.log := by
      intro b _
      split
      · exact ⟨rfl, rfl⟩
      · exact ⟨rfl, rfl⟩
    obtain ⟨hs1, hl1⟩ := hL1 (roundNo ≥ L.currentRound)
    generalize (if roundNo ≥ L.currentRound then { L with pendingDataInterest := some name }
        else L) = L1 at ht hs1 hl1
    split at ht
    · simp [done] at ht
    · split at ht
      · split at ht
        · rename_i entry hf
          have hentry : entry.InfoOk := by
            rw [hl1] at hf
            exact h.2.1 entry (DiffStateContainer.mem_of_find hf)
          split at ht
          · rename_i ds isCumulativeOnly hg
            split at ht
            · rename_i hco
              split at ht
              · rename_i info hinfo
                have hds := getStateFrom_infoOk hentry _ _ _ hg
                rw [sendCumulativeOnly_returns E L1 name info.1 info.2 (hs1 ▸ h.1)
                  (hds info hinfo)] at ht
                cases ht
              · rename_i hnone
                rw [hl1] at hf
                rw [hs1] at hg
                rw [hco] at hg
                exact ⟨roundNo, entry, ds, rfl, hf, hg, hnone⟩
            · rw [sendData_returns E L1 name _ (hs1 ▸ h.1)
                (getStateFrom_infoOk hentry _ _ _ hg)] at ht
              cases ht
          · simp [done] at ht
        · simp [done] at ht
      · simp [done] at ht

end Logic

/-- C37: in every state that a node reaches, building an outgoing DataContent never hits
the ill-formed branch. The session name is not empty; every log entry, and the commit
that `updateSeqNo` builds, has a cumulative info that is absent or has a digest; every
scheduled CumulativeOnly emission carries a digest. So `sendData` returns normally for
every such DiffState and `sendCumulativeOnly` for every present digest, and at the call
sites: `updateSeqNo` raises no logic error, a CumulativeOnly emission fired by its timer
raises none, and the only logic error of `processDataInterest` is the one it throws itself
for a CumulativeOnly reply without cumulative info, not the ill-formed payload. -/
theorem Logic.payloads_wellFormed (E : Env) (L : Logic) (h : Logic.Reachable E L) :
    L.sessionName ≠ [] ∧ (∀ d, d ∈ L.log → d.InfoOk) ∧ L.ownCommit.InfoOk ∧
    (∀ ev, ev ∈ L.scheduled → ev.EmitsOk) ∧
    (∀ name c, c.value.InfoOk → (Logic.sendData E L name c).1.thrown = none) ∧
    (∀ name R D, D ≠ none →
      (DataContent.new L.sessionName R D none 0).wellFormed = true ∧
      (Logic.sendCumulativeOnly E L name R D).thrown = none) ∧
    (∀ q, (Logic.updateSeqNo E L q).thrown ≠ some Thrown.logicError) ∧
    (∀ name, (Logic.processDataInterest E L name).thrown = some Thrown.logicError →
      ∃ r entry ds, Logic.roundOfName name = some r ∧
        DiffStateContainer.find L.log r = some entry ∧
        entry.getStateFrom L.sessionName false = (some ds, true) ∧
        ds.cumulativeInfo = none) ∧
    (∀ id ev R D, L.pendingEvent id = some ev →
      ev.callback = Callback.produceCumulativeOnly R D →
      D ≠ none ∧ (Logic.step E L (Event.timer id)).thrown ≠ some Thrown.logicError) := by
  have hs := Logic.reachable_sendable E L h
  refine ⟨hs.1, hs.2.1, Logic.ownCommit_infoOk hs.2.2.1, hs.2.2.2,
    fun name c hc => Logic.sendData_returns E L name c hs.1 hc, ?_,
    fun q => Logic.updateSeqNo_no_logicError E L q hs,
    fun name ht => Logic.processDataInterest_logicError E L name hs ht, ?_⟩
  · intro name R D hD
    refine ⟨?_, Logic.sendCumulativeOnly_returns E L name R D hs.1 hD⟩
    cases hcd : D with
    | none => exact absurd hcd hD
    | some D2 => simp [DataContent.wellFormed, DataContent.new, hs.1]
  · intro id ev R D hp hcb
    have hD : D ≠ none := hs.2.2.2 ev (Logic.mem_of_pendingEvent hp) R D hcb
    refine ⟨hD, ?_⟩
    rw [Logic.step_timer, hp]
    dsimp only
    rw [hcb]
    exact Logic.produceCumulativeOnly_no_logicError E _ R D hs.1 hD

/-- Witness for C37: the example node after it has published once and stabilised round 1;
the commit of its next publication carries the cumulative digest of round 1. -/
theorem Logic.payloads_wellFormed_witness :
    Logic.Reachable exampleEnv
      (Logic.run exampleEnv exampleNode [Event.updateSeqNo 1, Event.timer 2]).logic ∧
    (Logic.run exampleEnv exampleNode
      [Event.updateSeqNo 1, Event.timer 2]).logic.ownCommit.cumulativeInfo =
      some (1, some [2, 7, 1]) ∧
    (Logic.updateSeqNo exampleEnv
      (Logic.run exampleEnv exampleNode [Event.updateSeqNo 1, Event.timer 2]).logic 2).thrown ≠
      some Thrown.logicError :=
  have hr : Logic.Reachable exampleEnv
      (Logic.run exampleEnv exampleNode [Event.updateSeqNo 1, Event.timer 2]).logic :=
    Logic.reachable_run exampleEnv [Event.updateSeqNo 1, Event.timer 2] exampleNode
      (Logic.Reachable.init [[1]] [[2]] false 7) (by decide)
  ⟨hr, by decide, (Logic.payloads_wellFormed exampleEnv _ hr).2.2.2.2.2.2.1 2⟩

/-! ## Rounds up to the stable round get no new entry -/

namespace DiffStateContainer

theorem NoNew.noNew_refl (s : RoundNo) (log : List DiffState) : NoNew s log log :=
  fun _ _ h => h

end DiffStateContainer

namespace Logic

end Logic

/-! ## The cumulative chain of a log -/

theorem State.eq_of_leaves {a b : State} (h : a.leaves = b.leaves) : a = b := by
  cases a
  cases b
  simp_all

theorem diffAt_some {log : List DiffState} {q : RoundNo} {d : DiffState}
    (h : DiffStateContainer.find log q = some d) : diffAt log q = d.getState := by
  unfold diffAt
  rw [h]

theorem diffAt_none {log : List DiffState} {q : RoundNo}
    (h : DiffStateContainer.find log q = none) : diffAt log q = State.empty := by
  unfold diffAt
  rw [h]

theorem DiffState.getState_of_leaves {d v : DiffState} (h : v.leaves = d.leaves) :
    v.getState = d.getState := by
  unfold DiffState.getState
  rw [State.eq_of_leaves h]

theorem chain_succ (log : List DiffState) (r : Nat) :
    cumulativeChain log (r + 1) = (cumulativeChain log r).merge (diffAt log (r + 1)) := rfl

theorem chain_congr {log log2 : List DiffState} (r : Nat)
    (h : ∀ q, 1 ≤ q → q ≤ r → diffAt log2 q = diffAt log q) :
    cumulativeChain log2 r = cumulativeChain log r := by
  induction r with
  | zero => rfl
  | succ r ih =>
    rw [chain_succ, chain_succ, ih (fun q h1 h2 => h q h1 (Nat.le_succ_of_le h2)),
      h (r + 1) (Nat.le_add_left 1 r) (Nat.le_refl _)]

namespace Logic

end Logic

/-! ## The handlers keep the cumulative chain -/

namespace Logic

theorem diffAt_of_frozen {s : RoundNo} {log log2 : List DiffState}
    (hf : DiffStateContainer.Frozen s log log2) (hn : DiffStateContainer.NoNew s log log2)
    (q : RoundNo) (hq : q ≤ s) : diffAt log2 q = diffAt log q := by
  cases h : DiffStateContainer.find log q with
  | none => rw [diffAt_none h, diffAt_none (hn q hq h)]
  | some d =>
    obtain ⟨d2, h2, hl, _⟩ := hf q hq d h
    rw [diffAt_some h, diffAt_some h2]
    exact DiffState.getState_of_leaves hl

theorem Chained.of_calm {H : Digests} {L M : Logic} (hC : Chained H L) (hcalm : Calm L M)
    (hfro : DiffStateContainer.Frozen L.stableRound L.log M.log) : Chained H M := by
  obtain ⟨hs, ho, hn⟩ := hcalm
  have hch : ∀ r, r ≤ L.stableRound → cumulativeChain M.log r = cumulativeChain L.log r :=
    fun r hr => chain_congr r
      (fun q _ hq => diffAt_of_frozen hfro hn q (Nat.le_trans hq hr))
  refine ⟨?_, ?_⟩
  · rw [ho, hs, hch _ (Nat.le_refl _)]
    exact hC.1
  · intro r d h1 hr hfd
    rw [hs] at hr
    rw [hch r hr]
    cases h : DiffStateContainer.find L.log r with
    | none =>
      rw [hn r hr h] at hfd
      cases hfd
    | some d0 =>
      obtain ⟨d2, h2, _, hc⟩ := hfro r hr d0 h
      rw [hfd] at h2
      cases h2
      rw [hc]
      exact hC.2 r d0 h1 hr h

theorem Chained.of_same_log {H : Digests} {L M : Logic} (hC : Chained H L)
    (hs : M.stableRound = L.stableRound) (ho : M.oldState = L.oldState)
    (hl : M.log = L.log) : Chained H M := by
  refine hC.of_calm ⟨hs, ho, ?_⟩ ?_
  · rw [hl]
    exact DiffStateContainer.NoNew.noNew_refl _ _
  · rw [hl]
    exact DiffStateContainer.Frozen.frozen_refl _ _

end Logic

/-! ## The entries of the log carry the round digest of their leaves -/

namespace DiffStateContainer

end DiffStateContainer

namespace Logic

end Logic

/-! ## Nodes with the same round digests have the same cumulative digests -/

/-- Divergence for C17: the example node expresses its DataInterest of round 1 and
receives, as Data of round 1 (above its stable round 0), a payload of type CumulativeOnly
that has no CumulativeInfo.  `DataContent::wireDecode` accepts it and leaves the
cumulative digest null.  `processData` adds the sentinel to the commit and calls
`checkRecovery`, which dereferences the null digest: the handler does not return,
`updateDiffLog` is not reached, and the log has no entry of round 1, so no sentinel is
stored.  The same happens with Data of round 5 at the node as constructed. -/
theorem Logic.processData_bare_cumulativeOnly :
    (Logic.run exampleEnv exampleNode [Event.timer 1]).thrown = none ∧
    (Logic.run exampleEnv exampleNode [Event.timer 1]).logic.expressedDataInterests =
      [(3, exampleInterestName)] ∧
    (Logic.run exampleEnv exampleNode [Event.timer 1]).logic.stableRound < 1 ∧
    (ndn.nameGetFromEnd (exampleDataNameOf 1) 2).bind ndn.componentToNumber = some 1 ∧
    ((DataContent.default 0).wireDecode exampleBareCumulativeOnly).2 = none ∧
    ((DataContent.default 0).wireDecode exampleBareCumulativeOnly).1.dataType =
      tlv.CumulativeOnly ∧
    ((DataContent.default 0).wireDecode exampleBareCumulativeOnly).1.cumulativeDigest =
      none ∧
    (Logic.run exampleEnv exampleNode
      [Event.timer 1, Event.data (exampleDataNameOf 1) exampleBareCumulativeOnly true]).thrown =
      some Thrown.undefinedBehaviour ∧
    (Logic.run exampleEnv exampleNode
      [Event.timer 1, Event.data (exampleDataNameOf 1) exampleBareCumulativeOnly true]
      ).logic.log.map DiffState.round = [] ∧
    exampleNode.stableRound < 5 ∧
    (ndn.nameGetFromEnd exampleDataName 2).bind ndn.componentToNumber = some 5 ∧
    (Logic.processData exampleEnv exampleNode exampleDataName
      exampleBareCumulativeOnly).thrown = some Thrown.undefinedBehaviour ∧
    (Logic.processData exampleEnv exampleNode exampleDataName
      exampleBareCumulativeOnly).logic.log.map DiffState.round = [] := by
  refine ⟨by decide, by decide, by decide, by decide, by decide, by decide, by decide, ?_⟩
  exact ⟨by decide, by decide, by decide, by decide, by decide, by decide⟩

/-- Divergence for C21: after the run the emission of the digest [2, 7, 1] has fired and
no emission is scheduled, but the registry still maps the digest to the fired event.  The
node never recovered, round 2 is stable and its stored cumulative digest is [2, 7, 2], no
recovery is desired, and the DataInterest of round 5 is on the face.  A CumulativeOnly of
the peer /6/1 names round 2 with the digest [2, 7, 1]: none of the three conditions that
rule a recovery out holds (the digests of round 2 differ), yet `checkRecovery` finds the
digest in the registry, erases the entry and returns: /6 is not inserted into the pending
recovery prefixes and nothing is scheduled.  The same happens when the payload arrives as
Data of round 5: no RecoInterest to /6 is scheduled. -/
theorem Logic.checkRecovery_stale_registry :
    (Logic.run exampleEnv exampleNode (exampleStaleRun.take 13)).thrown = none ∧
    (9, [[1], Logic.DATA_INTEREST_COMPONENT, [3]]) ∈
      (Logic.run exampleEnv exampleNode (exampleStaleRun.take 13)).logic.expressedDataInterests ∧
    (Logic.run exampleEnv exampleNode (exampleStaleRun.take 13)).logic.stableRound = 2 ∧
    (Logic.run exampleEnv exampleNode (exampleStaleRun.take 14)).logic.pendingEmissions =
      [(1, some [2, 7, 1])] ∧
    (Logic.run exampleEnv exampleNode exampleStaleRun).thrown = none ∧
    (Logic.run exampleEnv exampleNode exampleStaleRun).logic.emissionCalls =
      [(1, some [2, 7, 1])] ∧
    (Logic.run exampleEnv exampleNode exampleStaleRun).logic.pendingEmissions = [] ∧
    (Logic.run exampleEnv exampleNode exampleStaleRun).logic.cumulativeDigestToEventId =
      [([2, 7, 1], 15)] ∧
    15 ∈ (Logic.run exampleEnv exampleNode exampleStaleRun).logic.fired ∧
    (Logic.run exampleEnv exampleNode exampleStaleRun).logic.lastRecoveryRound = 0 ∧
    (Logic.run exampleEnv exampleNode exampleStaleRun).logic.stableRound = 2 ∧
    (Logic.run exampleEnv exampleNode exampleStaleRun).logic.recoveryDesired = false ∧
    (DiffStateContainer.find
      (Logic.run exampleEnv exampleNode exampleStaleRun).logic.log 2).map
        DiffState.cumulativeDigest = some (some [2, 7, 2]) ∧
    (Logic.run exampleEnv exampleNode exampleStaleRun).logic.pendingRecoveryPrefixes =
      [[[3]]] ∧
    (14, exampleInterestName5) ∈
      (Logic.run exampleEnv exampleNode exampleStaleRun).logic.expressedDataInterests ∧
    ((Logic.run exampleEnv exampleNode exampleStaleRun).logic.checkRecovery
      [[6], [1]] 2 (some [2, 7, 1])).thrown = none ∧
    ((Logic.run exampleEnv exampleNode exampleStaleRun).logic.checkRecovery
      [[6], [1]] 2 (some [2, 7, 1])).logic.pendingRecoveryPrefixes = [[[3]]] ∧
    ((Logic.run exampleEnv exampleNode exampleStaleRun).logic.checkRecovery
      [[6], [1]] 2 (some [2, 7, 1])).logic.scheduled =
      (Logic.run exampleEnv exampleNode exampleStaleRun).logic.scheduled ∧
    ((Logic.run exampleEnv exampleNode exampleStaleRun).logic.checkRecovery
      [[6], [1]] 2 (some [2, 7, 1])).logic.cumulativeDigestToEventId = [] ∧
    ((DataContent.default 0).wireDecode exampleLateCumulativeOnly).2 = none ∧
    (Logic.run exampleEnv exampleNode
      (exampleStaleRun ++
        [Event.data (exampleDataNameOf 5) exampleLateCumulativeOnly true])).thrown = none ∧
    (Logic.run exampleEnv exampleNode
      (exampleStaleRun ++
        [Event.data (exampleDataNameOf 5) exampleLateCumulativeOnly true])
      ).logic.pendingRecoveryPrefixes = [[[3]]] ∧
    (Delay.ms 0, Callback.sendRecoInterest [[6]]) ∉
      (Logic.run exampleEnv exampleNode
        (exampleStaleRun ++
          [Event.data (exampleDataNameOf 5) exampleLateCumulativeOnly true])
        ).logic.scheduledCalls := by
  refine ⟨by decide, by decide, by decide, by decide, by decide, by decide, ?_⟩
  refine ⟨by decide, by decide, by decide, by decide, by decide, by decide, ?_⟩
  refine ⟨by decide, by decide, by decide, by decide, by decide, by decide, ?_⟩
  exact ⟨by decide, by decide, by decide, by decide⟩

/-- Divergence for C35: in the run the example node expresses its DataInterest of round 1
and moves to round 2 by publishing, which resets the counter of timeouts and expresses
the DataInterest of round 1 once more and the DataInterest of round 2.  The first
DataInterest of round 1, still on the face, then times out: the counter goes from 0 to 1
although the round of the interest is not the current round.  In the whole run two
DataInterests of round 1 and four of the current round 2 time out.  At the third timeout
of the current round the counter is 5, at the fourth a CumulativeOnly emission is
scheduled and the counter reset, one current-round timeout early. -/
theorem Logic.past_round_timeout_counts :
    (Logic.run exampleEnv exampleNode (exampleMixedTimeoutRun.take 5)).thrown = none ∧
    (Logic.run exampleEnv exampleNode
      (exampleMixedTimeoutRun.take 5)).logic.expressedDataInterests =
      [(3, exampleInterestName), (5, exampleInterestName), (6, exampleInterestName2)] ∧
    Logic.roundOfName exampleInterestName = some 1 ∧
    Logic.roundOfName exampleInterestName2 = some 2 ∧
    (Logic.run exampleEnv exampleNode (exampleMixedTimeoutRun.take 5)).logic.currentRound =
      2 ∧
    (Logic.run exampleEnv exampleNode
      (exampleMixedTimeoutRun.take 5)).logic.numberDataInterestTimeouts = 0 ∧
    (Logic.run exampleEnv exampleNode
      (exampleMixedTimeoutRun.take 6)).logic.numberDataInterestTimeouts = 1 ∧
    (Logic.run exampleEnv exampleNode (exampleMixedTimeoutRun.take 6)).logic.currentRound =
      2 ∧
    exampleMixedTimeoutRun.filterMap Event.timedOutName =
      [exampleInterestName, exampleInterestName, exampleInterestName2, exampleInterestName2,
       exampleInterestName2, exampleInterestName2] ∧
    (Logic.run exampleEnv exampleNode
      (exampleMixedTimeoutRun.take 13)).logic.numberDataInterestTimeouts = 5 ∧
    (Logic.run exampleEnv exampleNode (exampleMixedTimeoutRun.take 15)).logic.emissionCalls =
      [] ∧
    (Logic.run exampleEnv exampleNode (exampleMixedTimeoutRun.take 15)).logic.stableRound =
      1 ∧
    (Logic.run exampleEnv exampleNode exampleMixedTimeoutRun).thrown = none ∧
    (Logic.run exampleEnv exampleNode exampleMixedTimeoutRun).logic.currentRound = 2 ∧
    (Logic.run exampleEnv exampleNode exampleMixedTimeoutRun).logic.stableRound = 1 ∧
    (Logic.run exampleEnv exampleNode exampleMixedTimeoutRun).logic.emissionCalls =
      [(1, some [2, 7, 1])] ∧
    (Logic.run exampleEnv exampleNode
      exampleMixedTimeoutRun).logic.numberDataInterestTimeouts = 0 := by
  refine ⟨by decide, by decide, by decide, by decide, by decide, by decide, ?_⟩
  refine ⟨by decide, by decide, by decide, by decide, by decide, by decide, ?_⟩
  exact ⟨by decide, by decide, by decide, by decide, by decide⟩

end chronosync
